import Mathlib

/-! Replit-AI scripting core: lexer, single-pass compiler, bytecode VM.

A shallow embedding of `src/include/replit_core.hpp`, `src/src/lexer.cpp`,
`src/src/parser.cpp`, `src/src/vm.cpp` and `src/src/replit_engine.cpp`.

Conventions of the embedding.

* A C++ member function that mutates its object becomes a function from the
  object's state to its new state.
* A read of a `std::vector` at an index outside it, and a `static_cast<int>` of a
  `double` outside the range of `int`, are undefined behaviour in C++; the
  embedding stops there with `Fault.undefined`.
* An exception that nothing in the repository catches stops the embedding with
  `Fault.uncaught`.
* Loops and recursion that the source does not bound take a fuel argument and
  stop with `Fault.out_of_fuel` when it is used up.
* `std::cout` and `std::cerr` are the fields `cout` and `cerr` / `diagnostics`.
-/

namespace Replit

/-! ## Outcomes -/

/-- Ways in which an embedded computation can fail to produce a value. -/
inductive Fault where
  | undefined (what : String)
  | uncaught (what : String)
  | out_of_fuel
  deriving DecidableEq, Repr

deriving instance DecidableEq for Except

/-! ## Tokens (`replit_core.hpp`) -/

/-- The enumeration `TokenType`.  `PRINT` and `NIL` are used by `lexer.cpp` and
`parser.cpp` but are absent from the enumeration in the header; they are added here
at the end so that the two files have the names they refer to. -/
inductive TokenType where
  | NUMBER | STRING | IDENTIFIER | CHAR
  | CLASS | STRUCT | ENUM | INTERFACE | NAMESPACE | IMPORT | EXPORT
  | CONST | VAR | LET | FN | LAMBDA | ASYNC | AWAIT
  | IF | ELSE | ELIF | SWITCH | CASE | DEFAULT
  | WHILE | FOR | FOREACH | LOOP | BREAK | CONTINUE
  | RETURN | YIELD | THROW | TRY | CATCH | FINALLY
  | TRUE | FALSE | NULL_TOK | UNDEFINED
  | INT | FLOAT | DOUBLE | BOOL | STRING_TYPE | CHAR_TYPE
  | ARRAY | MAP | SET | LIST | TUPLE | VECTOR
  | PUBLIC | PRIVATE | PROTECTED | STATIC | FINAL | ABSTRACT
  | PLUS | MINUS | MULTIPLY | DIVIDE | MODULO | POWER
  | ASSIGN | PLUS_ASSIGN | MINUS_ASSIGN | MULT_ASSIGN | DIV_ASSIGN
  | EQUAL | NOT_EQUAL | LESS | GREATER | LESS_EQUAL | GREATER_EQUAL
  | AND | OR | NOT | XOR | BIT_AND | BIT_OR | BIT_XOR | BIT_NOT
  | LEFT_SHIFT | RIGHT_SHIFT | INCREMENT | DECREMENT
  | LPAREN | RPAREN | LBRACE | RBRACE | LBRACKET | RBRACKET
  | SEMICOLON | COMMA | DOT | ARROW | DOUBLE_COLON | QUESTION
  | WINDOW | CANVAS | SPRITE | TEXTURE | SHADER | MESH
  | RENDER | DRAW | FILL | STROKE | COLOR | RGB | RGBA
  | INPUT | MOUSE | KEYBOARD | GAMEPAD | TOUCH
  | COLLISION | PHYSICS | TRANSFORM | VECTOR2 | VECTOR3
  | ANIMATION | TWEEN | TIMER | SOUND | MUSIC
  | FILE | DIRECTORY | NETWORK | HTTP | TCP | UDP
  | THREAD | MUTEX | SEMAPHORE | ATOMIC
  | NEWLINE | EOF_TOKEN | ERROR
  | PRINT | NIL
  deriving DecidableEq, Repr

/-- The struct `Token`. -/
structure Token where
  type : TokenType
  lexeme : String
  line : Int
  column : Int
  deriving DecidableEq, Repr

/-! ## Lexer (`lexer.cpp`) -/

/-- The private state of `class Lexer`.  The source text is the list of its `char`s. -/
structure Lexer where
  source : List Char
  start : Nat := 0
  current : Nat := 0
  line : Int := 1
  column : Int := 1
  deriving DecidableEq, Repr

namespace Lexer

/-- `Lexer::Lexer(const std::string&)`. -/
def new (source : List Char) : Lexer := { source := source }

/-- `Lexer::is_at_end`. -/
def is_at_end (lx : Lexer) : Bool := decide (lx.current ≥ lx.source.length)

/-- `Lexer::advance`: the character read and the new state. -/
def advance (lx : Lexer) : Char × Lexer :=
  if lx.is_at_end then ('\x00', lx)
  else
    let c := lx.source.getD lx.current '\x00'
    let lx := { lx with current := lx.current + 1 }
    if c = '\n' then (c, { lx with line := lx.line + 1, column := 1 })
    else (c, { lx with column := lx.column + 1 })

/-- `Lexer::peek`. -/
def peek (lx : Lexer) : Char :=
  if lx.is_at_end then '\x00' else lx.source.getD lx.current '\x00'

/-- `Lexer::peek_next`. -/
def peek_next (lx : Lexer) : Char :=
  if lx.current + 1 ≥ lx.source.length then '\x00' else lx.source.getD (lx.current + 1) '\x00'

/-- `Lexer::match`. -/
def «match» (lx : Lexer) (expected : Char) : Bool × Lexer :=
  if lx.is_at_end || lx.source.getD lx.current '\x00' != expected then (false, lx)
  else (true, { lx with current := lx.current + 1, column := lx.column + 1 })

/-- `source.substr(start, current - start)`. -/
def text (lx : Lexer) : String :=
  String.mk ((lx.source.drop lx.start).take (lx.current - lx.start))

/-- `Lexer::make_token`. -/
def make_token (lx : Lexer) (type : TokenType) : Token :=
  { type := type, lexeme := lx.text, line := lx.line,
    column := lx.column - ((lx.current : Int) - (lx.start : Int)) }

/-- `Lexer::error_token`. -/
def error_token (lx : Lexer) (message : String) : Token :=
  { type := TokenType.ERROR, lexeme := message, line := lx.line, column := lx.column }

/-- The loop `while (peek() != '\n' && !is_at_end()) advance();` of `skip_whitespace`.
Every turn consumes one character, so `source.length - current` turns are enough: when
the fuel is used up the lexer is at the end and the loop has ended. -/
def skip_comment : Nat → Lexer → Lexer
  | 0, lx => lx
  | n + 1, lx =>
    if lx.peek != '\n' && !lx.is_at_end then skip_comment n lx.advance.2 else lx

/-- The loop of `Lexer::skip_whitespace`, with as many turns as characters remain. -/
def skip_whitespace_loop : Nat → Lexer → Lexer
  | 0, lx => lx
  | n + 1, lx =>
    if !lx.is_at_end then
      let c := lx.peek
      if c = ' ' || c = '\r' || c = '\t' then
        skip_whitespace_loop n lx.advance.2
      else if c = '/' && lx.peek_next = '/' then
        skip_whitespace_loop n (skip_comment (lx.source.length - lx.current) lx)
      else lx
    else lx

/-- `Lexer::skip_whitespace`. -/
def skip_whitespace (lx : Lexer) : Lexer :=
  skip_whitespace_loop (lx.source.length - lx.current) lx

/-- The loop of `Lexer::string_token`. -/
def string_loop : Nat → Lexer → Lexer
  | 0, lx => lx
  | n + 1, lx =>
    if lx.peek != '"' && !lx.is_at_end then
      let lx1 := if lx.peek = '\n' then { lx with line := lx.line + 1 } else lx
      string_loop n lx1.advance.2
    else lx

/-- `Lexer::string_token`. -/
def string_token (lx : Lexer) : Token × Lexer :=
  let lx := string_loop (lx.source.length - lx.current) lx
  if lx.is_at_end then (lx.error_token "Unterminated string", lx)
  else
    let lx := lx.advance.2
    (lx.make_token TokenType.STRING, lx)

/-- The loop `while (std::isdigit(peek())) advance();`. -/
def digits_loop : Nat → Lexer → Lexer
  | 0, lx => lx
  | n + 1, lx => if lx.peek.isDigit then digits_loop n lx.advance.2 else lx

/-- `Lexer::number_token`. -/
def number_token (lx : Lexer) : Token × Lexer :=
  let lx := digits_loop (lx.source.length - lx.current) lx
  let lx :=
    if lx.peek = '.' && lx.peek_next.isDigit then
      let lx := lx.advance.2
      digits_loop (lx.source.length - lx.current) lx
    else lx
  (lx.make_token TokenType.NUMBER, lx)

/-- `Lexer::identifier_type`. -/
def identifier_type (lx : Lexer) : TokenType :=
  let text := lx.text
  if text = "let" then TokenType.LET
  else if text = "fn" then TokenType.FN
  else if text = "if" then TokenType.IF
  else if text = "else" then TokenType.ELSE
  else if text = "while" then TokenType.WHILE
  else if text = "for" then TokenType.FOR
  else if text = "return" then TokenType.RETURN
  else if text = "print" then TokenType.PRINT
  else if text = "true" then TokenType.TRUE
  else if text = "false" then TokenType.FALSE
  else if text = "nil" then TokenType.NIL
  else if text = "and" then TokenType.AND
  else if text = "or" then TokenType.OR
  else TokenType.IDENTIFIER

/-- The loop of `Lexer::identifier_token`. -/
def identifier_loop : Nat → Lexer → Lexer
  | 0, lx => lx
  | n + 1, lx =>
    if lx.peek.isAlphanum || lx.peek = '_' then identifier_loop n lx.advance.2 else lx

/-- `Lexer::identifier_token`. -/
def identifier_token (lx : Lexer) : Token × Lexer :=
  let lx := identifier_loop (lx.source.length - lx.current) lx
  (lx.make_token lx.identifier_type, lx)

/-- `Lexer::scan_token`. -/
def scan_token (lx : Lexer) : Token × Lexer :=
  let lx := lx.skip_whitespace
  let lx := { lx with start := lx.current }
  if lx.is_at_end then (lx.make_token TokenType.EOF_TOKEN, lx)
  else
    let (c, lx) := lx.advance
    if c.isAlpha || c = '_' then lx.identifier_token
    else if c.isDigit then lx.number_token
    else if c = '(' then (lx.make_token TokenType.LPAREN, lx)
    else if c = ')' then (lx.make_token TokenType.RPAREN, lx)
    else if c = '{' then (lx.make_token TokenType.LBRACE, lx)
    else if c = '}' then (lx.make_token TokenType.RBRACE, lx)
    else if c = ';' then (lx.make_token TokenType.SEMICOLON, lx)
    else if c = ',' then (lx.make_token TokenType.COMMA, lx)
    else if c = '+' then (lx.make_token TokenType.PLUS, lx)
    else if c = '-' then (lx.make_token TokenType.MINUS, lx)
    else if c = '*' then (lx.make_token TokenType.MULTIPLY, lx)
    else if c = '/' then (lx.make_token TokenType.DIVIDE, lx)
    else if c = '%' then (lx.make_token TokenType.MODULO, lx)
    else if c = '!' then
      let (m, lx) := lx.match '='
      (lx.make_token (if m then TokenType.NOT_EQUAL else TokenType.NOT), lx)
    else if c = '=' then
      let (m, lx) := lx.match '='
      (lx.make_token (if m then TokenType.EQUAL else TokenType.ASSIGN), lx)
    else if c = '<' then
      let (m, lx) := lx.match '='
      (lx.make_token (if m then TokenType.LESS_EQUAL else TokenType.LESS), lx)
    else if c = '>' then
      let (m, lx) := lx.match '='
      (lx.make_token (if m then TokenType.GREATER_EQUAL else TokenType.GREATER), lx)
    else if c = '"' then lx.string_token
    else if c = '\n' then (lx.make_token TokenType.NEWLINE, lx)
    else (lx.error_token "Unexpected character", lx)

end Lexer

/-- The tokenising loop of `VM::interpret`: scan until the EOF token has been pushed.
Every token before EOF consumes a character, so `source.length - current + 1` turns
are enough. -/
def tokenize_loop : Nat → Lexer → List Token
  | 0, _ => []
  | n + 1, lx =>
    let (token, lx) := lx.scan_token
    if token.type = TokenType.EOF_TOKEN then [token] else token :: tokenize_loop n lx

/-- The token vector `VM::interpret` builds for a source text. -/
def tokenize (source : String) : List Token :=
  tokenize_loop (source.data.length + 1) (Lexer.new source.data)

/-! ## The host's `double`

IEEE 754 binary64 with round-to-nearest-even, the arithmetic the source gets from the
host for `double`.  A finite value is `(-1)^neg * m * 2^e` in the encoding's canonical
form: `m < 2^53`, `-1074 ≤ e ≤ 971`, and `2^52 ≤ m` unless `e = -1074`. -/

inductive Double where
  | finite (neg : Bool) (m : Nat) (e : Int)
  | inf (neg : Bool)
  | nan
  deriving DecidableEq, Repr

namespace Double

/-- Number of binary digits of `n`, by halving at most `fuel` times. -/
def bitlen_aux : Nat → Nat → Nat
  | 0, _ => 0
  | fuel + 1, n => if n = 0 then 0 else bitlen_aux fuel (n / 2) + 1

/-- Number of binary digits of `n` (`0` for `0`). -/
def bitlen (n : Nat) : Nat := bitlen_aux n n

/-- Signed zero. -/
def zero (neg : Bool) : Double := finite neg 0 (-1074)

/-- The double nearest to `(-1)^neg * n * 2^e`, ties to even; overflow gives infinity. -/
def round (neg : Bool) (n : Nat) (e : Int) : Double :=
  if n = 0 then zero neg
  else
    let top : Int := e + (bitlen n : Int) - 1
    let u : Int := max (top - 52) (-1074)
    if u ≤ e then
      if top > 1023 then inf neg else finite neg (n * 2 ^ (e - u).toNat) u
    else
      let sh := (u - e).toNat
      let q := n / 2 ^ sh
      let r := n % 2 ^ sh
      let half := 2 ^ (sh - 1)
      let q := if r > half ∨ (r = half ∧ q % 2 = 1) then q + 1 else q
      let u := if q = 2 ^ 53 then u + 1 else u
      let q := if q = 2 ^ 53 then 2 ^ 52 else q
      if u > 971 then inf neg else finite neg q u

/-- Conversion of an `int` to `double` (exact). -/
def of_int (i : Int) : Double := round (decide (i < 0)) i.natAbs 0

/-- The integer `(-1)^neg * m`. -/
def signed (neg : Bool) (m : Nat) : Int := if neg then -(m : Int) else (m : Int)

/-- Unary minus. -/
def neg : Double → Double
  | finite s m e => finite (!s) m e
  | inf s => inf (!s)
  | nan => nan

/-- The operator `+` on `double`. -/
def add : Double → Double → Double
  | nan, _ => nan
  | _, nan => nan
  | inf s, inf t => if s = t then inf s else nan
  | inf s, finite _ _ _ => inf s
  | finite _ _ _, inf t => inf t
  | finite s m e, finite t k f =>
    let g := min e f
    let sum : Int := signed s m * 2 ^ (e - g).toNat + signed t k * 2 ^ (f - g).toNat
    if sum = 0 then zero (s && t) else round (decide (sum < 0)) sum.natAbs g

/-- The operator `-` on `double`. -/
def sub (a b : Double) : Double := add a (neg b)

/-- The operator `*` on `double`. -/
def mul : Double → Double → Double
  | nan, _ => nan
  | _, nan => nan
  | inf s, inf t => inf (xor s t)
  | inf s, finite t k _ => if k = 0 then nan else inf (xor s t)
  | finite s m _, inf t => if m = 0 then nan else inf (xor s t)
  | finite s m e, finite t k f => round (xor s t) (m * k) (e + f)

/-- The operator `/` on `double`; division by zero follows IEEE 754.  The quotient is
taken with 110 extra bits and a sticky bit for the remainder before rounding. -/
def div : Double → Double → Double
  | nan, _ => nan
  | _, nan => nan
  | inf _, inf _ => nan
  | inf s, finite t _ _ => inf (xor s t)
  | finite s _ _, inf t => zero (xor s t)
  | finite s m e, finite t k f =>
    if k = 0 then (if m = 0 then nan else inf (xor s t))
    else
      let q := m * 2 ^ 110 / k
      let r := m * 2 ^ 110 % k
      round (xor s t) (2 * q + (if r = 0 then 0 else 1)) (e - f - 111)

/-- The operator `<` on `double`. -/
def lt : Double → Double → Bool
  | nan, _ => false
  | _, nan => false
  | inf s, inf t => s && !t
  | inf s, finite _ _ _ => s
  | finite _ _ _, inf t => !t
  | finite s m e, finite t k f =>
    let g := min e f
    decide (signed s m * 2 ^ (e - g).toNat < signed t k * 2 ^ (f - g).toNat)

/-- The operator `>` on `double`. -/
def gt (a b : Double) : Bool := lt b a

/-- The operator `==` on `double`. -/
def eq : Double → Double → Bool
  | nan, _ => false
  | _, nan => false
  | inf s, inf t => s == t
  | inf _, finite _ _ _ => false
  | finite _ _ _, inf _ => false
  | finite s m e, finite t k f =>
    let g := min e f
    decide (signed s m * 2 ^ (e - g).toNat = signed t k * 2 ^ (f - g).toNat)

/-- `static_cast<int>(double)`: truncation toward zero; undefined when the truncated
value is not an `int`. -/
def to_int : Double → Except Fault Int
  | finite s m e =>
    let mag := if 0 ≤ e then m * 2 ^ e.toNat else m / 2 ^ (-e).toNat
    let i := signed s mag
    if -2147483648 ≤ i ∧ i ≤ 2147483647 then Except.ok i
    else Except.error (Fault.undefined "static_cast<int> of a double outside the range of int")
  | _ => Except.error (Fault.undefined "static_cast<int> of a double outside the range of int")

/-- Nearest integer to `n / d`, ties to even (`d > 0`). -/
def round_div (n d : Nat) : Nat :=
  let q := n / d
  let r := n % d
  if 2 * r > d ∨ (2 * r = d ∧ q % 2 = 1) then q + 1 else q

/-- Nearest integer to `m * 2^e * 10^p`, ties to even. -/
def scaled (m : Nat) (e p : Int) : Nat :=
  let num := m * (if 0 ≤ e then 2 ^ e.toNat else 1) * (if 0 ≤ p then 10 ^ p.toNat else 1)
  let den := (if 0 ≤ e then 1 else 2 ^ (-e).toNat) * (if 0 ≤ p then 1 else 10 ^ (-p).toNat)
  round_div num den

/-- Decimal digits of `n`, padded with zeros on the left to width `w`. -/
def pad_left (w : Nat) (n : Nat) : List Char :=
  List.replicate (w - (Nat.repr n).length) '0' ++ (Nat.repr n).data

/-- The text `std::to_string(double)` produces: `printf` format `%f`. -/
def to_string : Double → String
  | nan => "nan"
  | inf s => (if s then "-" else "") ++ "inf"
  | finite s m e =>
    let i := scaled m e 6
    (if s then "-" else "") ++ Nat.repr (i / 10 ^ 6) ++ "." ++ String.mk (pad_left 6 (i % 10 ^ 6))

/-- Least `j ≥ start` with `num * 10^j ≥ den`, searching at most `fuel` values. -/
def first_scale : Nat → Nat → Nat → Nat → Nat
  | 0, _, _, j => j
  | fuel + 1, num, den, j => if num * 10 ^ j ≥ den then j else first_scale fuel num den (j + 1)

/-- The decimal exponent `x` of a positive `m * 2^e`: `10^x ≤ m * 2^e < 10^(x+1)`. -/
def dec_exp (m : Nat) (e : Int) : Int :=
  let num := if 0 ≤ e then m * 2 ^ e.toNat else m
  let den := if 0 ≤ e then 1 else 2 ^ (-e).toNat
  if num ≥ den then ((Nat.repr (num / den)).length : Int) - 1
  else -((first_scale (Nat.repr den).length num den 1 : Nat) : Int)

/-- Remove trailing `'0'` characters. -/
def strip_zeros (ds : List Char) : List Char :=
  (ds.reverse.dropWhile (fun c => c = '0')).reverse

/-- The text `std::ostream::operator<<(double)` writes with the stream's defaults:
`printf` format `%g` with precision 6. -/
def ostream : Double → String
  | nan => "nan"
  | inf s => (if s then "-" else "") ++ "inf"
  | finite s m e =>
    let sign := if s then "-" else ""
    if m = 0 then sign ++ "0"
    else
      let x0 := dec_exp m e
      let d0 := scaled m e (5 - x0)
      let d := if d0 ≥ 10 ^ 6 then d0 / 10 else d0
      let x := if d0 ≥ 10 ^ 6 then x0 + 1 else x0
      let ds := (Nat.repr d).data
      if x < -4 ∨ x ≥ 6 then
        let frac := strip_zeros (ds.drop 1)
        sign ++ String.mk (ds.take 1) ++ (if frac = [] then "" else "." ++ String.mk frac)
          ++ "e" ++ (if x < 0 then "-" else "+") ++ String.mk (pad_left 2 x.natAbs)
      else if 0 ≤ x then
        let frac := strip_zeros (ds.drop (x.toNat + 1))
        sign ++ String.mk (ds.take (x.toNat + 1))
          ++ (if frac = [] then "" else "." ++ String.mk frac)
      else
        sign ++ "0." ++ String.mk (strip_zeros (List.replicate ((-x).toNat - 1) '0' ++ ds))

/-- Value of a run of decimal digits read after the value `acc`. -/
def digits_value (acc : Nat) : List Char → Nat
  | [] => acc
  | c :: cs => digits_value (acc * 10 + (c.toNat - '0'.toNat)) cs

/-- The double nearest to `n * 10^p`. -/
def of_decimal (n : Nat) (p : Int) : Double :=
  if 0 ≤ p then round false (n * 10 ^ p.toNat) 0
  else
    let k := (-p).toNat
    let q := n * 2 ^ (4 * k + 60) / 10 ^ k
    let r := n * 2 ^ (4 * k + 60) % 10 ^ k
    round false (2 * q + (if r = 0 then 0 else 1)) (-((4 * k + 60 : Nat) : Int) - 1)

/-- `std::stod` on a decimal numeral: optional white space, optional sign, digits with
an optional point, optional exponent; the longest such prefix is converted.  It throws
`std::invalid_argument` when the prefix has no digit and `std::out_of_range` when the
value is too large for a `double` or is not zero and below the normal range.
Hexadecimal numerals and the words `inf` and `nan`, which no NUMBER token of the lexer
contains, are not treated here. -/
def stod (s : String) : Except Fault Double :=
  let cs := s.data.dropWhile (fun c => c = ' ' || c = '\t' || c = '\n' || c = '\r'
    || c = '\x0b' || c = '\x0c')
  let negative := cs.head? = some '-'
  let cs := if cs.head? = some '-' || cs.head? = some '+' then cs.drop 1 else cs
  let ip := cs.takeWhile Char.isDigit
  let cs := cs.dropWhile Char.isDigit
  let fp := if cs.head? = some '.' then (cs.drop 1).takeWhile Char.isDigit else []
  let cs := if cs.head? = some '.' then (cs.drop 1).dropWhile Char.isDigit else cs
  if ip = [] ∧ fp = [] then Except.error (Fault.uncaught "std::invalid_argument: stod")
  else
    let has_exp := (cs.head? = some 'e' || cs.head? = some 'E') &&
      (match cs.drop 1 with
       | c :: d :: _ => c.isDigit || ((c = '+' || c = '-') && d.isDigit)
       | [c] => c.isDigit
       | [] => false)
    let es := cs.drop 1
    let exp_neg := es.head? = some '-'
    let es := if es.head? = some '-' || es.head? = some '+' then es.drop 1 else es
    let x : Int := if has_exp then
        (if exp_neg then -((digits_value 0 (es.takeWhile Char.isDigit) : Nat) : Int)
         else ((digits_value 0 (es.takeWhile Char.isDigit) : Nat) : Int))
      else 0
    let n := digits_value 0 (ip ++ fp)
    match of_decimal n (x - (fp.length : Int)) with
    | finite _ m e =>
      if n ≠ 0 ∧ m < 2 ^ 52 then Except.error (Fault.uncaught "std::out_of_range: stod")
      else Except.ok (finite negative m e)
    | _ => Except.error (Fault.uncaught "std::out_of_range: stod")

end Double

end Replit


namespace Replit

/-! ## Values, opcodes and chunks (`replit_core.hpp`, `parser.cpp`) -/

/-- The variant `Value`.  The compiler and the VM construct only the alternatives
`double`, `std::string`, `bool` and `std::nullptr_t`; `other index` stands for a value
holding one of the remaining alternatives, which the code never inspects beyond its
index. -/
inductive Value where
  | number (d : Double)
  | string (s : String)
  | boolean (b : Bool)
  | nil
  | other (index : Nat)
  deriving DecidableEq, Repr

namespace Value

/-- `std::variant::index` for the declaration order of `Value`. -/
def index : Value → Nat
  | number _ => 0
  | string _ => 3
  | boolean _ => 5
  | nil => 6
  | other i => i

/-- `std::holds_alternative<double>`. -/
def is_number : Value → Bool
  | number _ => true
  | _ => false

/-- `std::holds_alternative<std::string>`. -/
def is_string : Value → Bool
  | string _ => true
  | _ => false

end Value

/-- The enumeration `OpCode`. -/
inductive OpCode where
  | OP_CONSTANT | OP_ADD | OP_SUBTRACT | OP_MULTIPLY | OP_DIVIDE
  | OP_NEGATE | OP_NOT | OP_EQUAL | OP_GREATER | OP_LESS
  | OP_PRINT | OP_POP | OP_DEFINE_GLOBAL | OP_GET_GLOBAL
  | OP_SET_GLOBAL | OP_JUMP_IF_FALSE | OP_JUMP | OP_LOOP
  | OP_CALL | OP_RETURN | OP_HALT
  deriving DecidableEq, Repr

/-- `static_cast<uint8_t>(OpCode)`. -/
def OpCode.byte : OpCode → Nat
  | OP_CONSTANT => 0 | OP_ADD => 1 | OP_SUBTRACT => 2 | OP_MULTIPLY => 3 | OP_DIVIDE => 4
  | OP_NEGATE => 5 | OP_NOT => 6 | OP_EQUAL => 7 | OP_GREATER => 8 | OP_LESS => 9
  | OP_PRINT => 10 | OP_POP => 11 | OP_DEFINE_GLOBAL => 12 | OP_GET_GLOBAL => 13
  | OP_SET_GLOBAL => 14 | OP_JUMP_IF_FALSE => 15 | OP_JUMP => 16 | OP_LOOP => 17
  | OP_CALL => 18 | OP_RETURN => 19 | OP_HALT => 20

/-- `static_cast<OpCode>(byte)` for a byte that names an enumerator. -/
def OpCode.of_byte (byte : Nat) : Option OpCode :=
  [OP_CONSTANT, OP_ADD, OP_SUBTRACT, OP_MULTIPLY, OP_DIVIDE, OP_NEGATE, OP_NOT, OP_EQUAL,
   OP_GREATER, OP_LESS, OP_PRINT, OP_POP, OP_DEFINE_GLOBAL, OP_GET_GLOBAL, OP_SET_GLOBAL,
   OP_JUMP_IF_FALSE, OP_JUMP, OP_LOOP, OP_CALL, OP_RETURN, OP_HALT].get? byte

/-- The class `Chunk`: three vectors, each a list with the vector's back at its end. -/
structure Chunk where
  code : List Nat := []
  lines : List Int := []
  constants : List Value := []
  deriving DecidableEq, Repr

namespace Chunk

/-- `Chunk::write`. -/
def write (c : Chunk) (byte : Nat) (line : Int) : Chunk :=
  { c with code := c.code ++ [byte], lines := c.lines ++ [line] }

/-- `Chunk::add_constant`: the index returned and the new chunk. -/
def add_constant (c : Chunk) (value : Value) : Int × Chunk :=
  let c := { c with constants := c.constants ++ [value] }
  ((c.constants.length : Int) - 1, c)

end Chunk

/-! ## Parser (`parser.cpp`) -/

/-- The private state of `class Parser`, with the chunk `compiling_chunk` points to and
the lines written to `std::cerr`. -/
structure Parser where
  tokens : List Token
  current : Nat := 0
  compiling_chunk : Chunk := {}
  had_error : Bool := false
  panic_mode : Bool := false
  diagnostics : List String := []
  deriving DecidableEq, Repr

namespace Parser

/-- `Parser::previous`: `tokens[current - 1]`; with `current = 0` the index wraps
around and lies outside the vector. -/
def previous (p : Parser) : Except Fault Token :=
  if p.current = 0 then Except.error (Fault.undefined "tokens[current - 1] outside the vector")
  else match p.tokens.get? (p.current - 1) with
    | some t => Except.ok t
    | none => Except.error (Fault.undefined "tokens[current - 1] outside the vector")

/-- `Parser::peek`: `tokens[current]`. -/
def peek (p : Parser) : Except Fault Token :=
  match p.tokens.get? p.current with
  | some t => Except.ok t
  | none => Except.error (Fault.undefined "tokens[current] outside the vector")

/-- `Parser::check`. -/
def check (p : Parser) (type : TokenType) : Except Fault Bool := do
  let t ← p.peek
  pure (decide (t.type = type))

/-- `Parser::advance`.  `tokens.size() - 1` is unsigned: for an empty vector it is
`2^64 - 1`. -/
def advance (p : Parser) : Except Fault (Token × Parser) := do
  let last := if p.tokens.length = 0 then 2 ^ 64 - 1 else p.tokens.length - 1
  let p := if p.current < last then { p with current := p.current + 1 } else p
  let t ← p.previous
  pure (t, p)

/-- `Parser::match`. -/
def «match» (p : Parser) (type : TokenType) : Except Fault (Bool × Parser) := do
  if !(← p.check type) then pure (false, p)
  else
    let (_, p) ← p.advance
    pure (true, p)

/-- `Parser::error_at`. -/
def error_at (p : Parser) (token : Token) (message : String) : Parser :=
  if p.panic_mode then p
  else
    let place :=
      if token.type = TokenType.EOF_TOKEN then " at end"
      else if token.type = TokenType.ERROR then ""
      else " at \x27" ++ token.lexeme ++ "\x27"
    { p with
      panic_mode := true
      diagnostics := p.diagnostics ++
        ["[line " ++ toString token.line ++ "] Error" ++ place ++ ": " ++ message]
      had_error := true }

/-- `Parser::error`. -/
def error (p : Parser) (message : String) : Except Fault Parser := do
  let t ← p.previous
  pure (p.error_at t message)

/-- `Parser::consume`. -/
def consume (p : Parser) (type : TokenType) (message : String) : Except Fault Parser := do
  let t ← p.peek
  if t.type = type then
    let (_, p) ← p.advance
    pure p
  else
    let t ← p.peek
    pure (p.error_at t message)

/-- `Parser::synchronize`, the loop after `panic_mode = false`. -/
def synchronize_loop : Nat → Parser → Except Fault Parser
  | 0, _ => Except.error Fault.out_of_fuel
  | n + 1, p => do
    let t ← p.peek
    if t.type ≠ TokenType.EOF_TOKEN then
      let prev ← p.previous
      if prev.type = TokenType.SEMICOLON then pure p
      else
        let t ← p.peek
        if t.type = TokenType.FN ∨ t.type = TokenType.LET ∨ t.type = TokenType.FOR
            ∨ t.type = TokenType.IF ∨ t.type = TokenType.WHILE ∨ t.type = TokenType.PRINT
            ∨ t.type = TokenType.RETURN then pure p
        else
          let (_, p) ← p.advance
          synchronize_loop n p
    else pure p

/-- `Parser::synchronize`. -/
def synchronize (fuel : Nat) (p : Parser) : Except Fault Parser :=
  synchronize_loop fuel { p with panic_mode := false }

/-- `Parser::emit_byte`. -/
def emit_byte (p : Parser) (byte : Nat) : Except Fault Parser := do
  let t ← p.previous
  pure { p with compiling_chunk := p.compiling_chunk.write byte t.line }

/-- `Parser::emit_bytes`. -/
def emit_bytes (p : Parser) (byte1 byte2 : Nat) : Except Fault Parser := do
  let p ← p.emit_byte byte1
  p.emit_byte byte2

/-- `Parser::emit_return`. -/
def emit_return (p : Parser) : Except Fault Parser :=
  p.emit_byte OpCode.OP_RETURN.byte

/-- `Parser::make_constant`: the byte returned and the new state. -/
def make_constant (p : Parser) (value : Value) : Except Fault (Nat × Parser) := do
  let (constant, chunk) := p.compiling_chunk.add_constant value
  let p := { p with compiling_chunk := chunk }
  if constant > 255 then
    let p ← p.error "Too many constants in one chunk"
    pure (0, p)
  else pure (constant.toNat, p)

/-- `Parser::emit_constant`; the argument `make_constant(value)` is evaluated before
the body of `emit_bytes`. -/
def emit_constant (p : Parser) (value : Value) : Except Fault Parser := do
  let (byte, p) ← p.make_constant value
  p.emit_bytes OpCode.OP_CONSTANT.byte byte

/-- `value.substr(1, value.length() - 2)` of `Parser::primary`: it throws
`std::out_of_range` on the empty string, and for a one-character string the unsigned
count wraps around. -/
def strip_quotes (lexeme : String) : Except Fault String :=
  if lexeme.length < 1 then Except.error (Fault.uncaught "std::out_of_range: basic_string::substr")
  else
    let count := if 2 ≤ lexeme.length then lexeme.length - 2 else lexeme.length + 2 ^ 64 - 2
    Except.ok (String.mk ((lexeme.data.drop 1).take count))

/-- The first of two `match` calls joined by `||`: the second is evaluated only when
the first fails. -/
def match_or (p : Parser) (first : TokenType) (rest : Parser → Except Fault (Bool × Parser)) :
    Except Fault (Bool × Parser) := do
  let (m, p) ← p.match first
  if m then pure (true, p) else rest p

mutual

/-- `Parser::primary`. -/
def primary : Nat → Parser → Except Fault Parser
  | 0, _ => Except.error Fault.out_of_fuel
  | n + 1, p => do
    let (m, p) ← p.match TokenType.TRUE
    if m then p.emit_constant (Value.boolean true)
    else
    let (m, p) ← p.match TokenType.FALSE
    if m then p.emit_constant (Value.boolean false)
    else
    let (m, p) ← p.match TokenType.NIL
    if m then p.emit_constant Value.nil
    else
    let (m, p) ← p.match TokenType.NUMBER
    if m then
      let t ← p.previous
      let value ← Double.stod t.lexeme
      p.emit_constant (Value.number value)
    else
    let (m, p) ← p.match TokenType.STRING
    if m then
      let t ← p.previous
      let value ← strip_quotes t.lexeme
      p.emit_constant (Value.string value)
    else
    let (m, p) ← p.match TokenType.LPAREN
    if m then
      let p ← expression n p
      p.consume TokenType.RPAREN "Expected \x27)\x27 after expression"
    else p.error "Expected expression"

/-- `Parser::unary`. -/
def unary : Nat → Parser → Except Fault Parser
  | 0, _ => Except.error Fault.out_of_fuel
  | n + 1, p => do
    let (m, p) ← p.match_or TokenType.NOT (fun p => p.match TokenType.MINUS)
    if m then
      let operator_type := (← p.previous).type
      let p ← unary n p
      if operator_type = TokenType.MINUS then p.emit_byte OpCode.OP_NEGATE.byte
      else if operator_type = TokenType.NOT then p.emit_byte OpCode.OP_NOT.byte
      else pure p
    else primary n p

/-- The `while` loop of `Parser::factor`. -/
def factor_loop : Nat → Parser → Except Fault Parser
  | 0, _ => Except.error Fault.out_of_fuel
  | n + 1, p => do
    let (m, p) ← p.match_or TokenType.MULTIPLY (fun p =>
      p.match_or TokenType.DIVIDE (fun p => p.match TokenType.MODULO))
    if m then
      let operator_type := (← p.previous).type
      let p ← unary n p
      let p ←
        if operator_type = TokenType.MULTIPLY then p.emit_byte OpCode.OP_MULTIPLY.byte
        else if operator_type = TokenType.DIVIDE then p.emit_byte OpCode.OP_DIVIDE.byte
        else pure p
      factor_loop n p
    else pure p

/-- `Parser::factor`. -/
def factor : Nat → Parser → Except Fault Parser
  | 0, _ => Except.error Fault.out_of_fuel
  | n + 1, p => do
    let p ← unary n p
    factor_loop n p

/-- The `while` loop of `Parser::term`. -/
def term_loop : Nat → Parser → Except Fault Parser
  | 0, _ => Except.error Fault.out_of_fuel
  | n + 1, p => do
    let (m, p) ← p.match_or TokenType.PLUS (fun p => p.match TokenType.MINUS)
    if m then
      let operator_type := (← p.previous).type
      let p ← factor n p
      let p ←
        if operator_type = TokenType.PLUS then p.emit_byte OpCode.OP_ADD.byte
        else if operator_type = TokenType.MINUS then p.emit_byte OpCode.OP_SUBTRACT.byte
        else pure p
      term_loop n p
    else pure p

/-- `Parser::term`. -/
def term : Nat → Parser → Except Fault Parser
  | 0, _ => Except.error Fault.out_of_fuel
  | n + 1, p => do
    let p ← factor n p
    term_loop n p

/-- The `while` loop of `Parser::comparison`. -/
def comparison_loop : Nat → Parser → Except Fault Parser
  | 0, _ => Except.error Fault.out_of_fuel
  | n + 1, p => do
    let (m, p) ← p.match_or TokenType.GREATER (fun p =>
      p.match_or TokenType.GREATER_EQUAL (fun p =>
        p.match_or TokenType.LESS (fun p => p.match TokenType.LESS_EQUAL)))
    if m then
      let operator_type := (← p.previous).type
      let p ← term n p
      let p ←
        if operator_type = TokenType.GREATER then p.emit_byte OpCode.OP_GREATER.byte
        else if operator_type = TokenType.GREATER_EQUAL then
          p.emit_bytes OpCode.OP_LESS.byte OpCode.OP_NOT.byte
        else if operator_type = TokenType.LESS then p.emit_byte OpCode.OP_LESS.byte
        else if operator_type = TokenType.LESS_EQUAL then
          p.emit_bytes OpCode.OP_GREATER.byte OpCode.OP_NOT.byte
        else pure p
      comparison_loop n p
    else pure p

/-- `Parser::comparison`. -/
def comparison : Nat → Parser → Except Fault Parser
  | 0, _ => Except.error Fault.out_of_fuel
  | n + 1, p => do
    let p ← term n p
    comparison_loop n p

/-- The `while` loop of `Parser::equality`. -/
def equality_loop : Nat → Parser → Except Fault Parser
  | 0, _ => Except.error Fault.out_of_fuel
  | n + 1, p => do
    let (m, p) ← p.match_or TokenType.NOT_EQUAL (fun p => p.match TokenType.EQUAL)
    if m then
      let operator_type := (← p.previous).type
      let p ← comparison n p
      let p ←
        if operator_type = TokenType.NOT_EQUAL then
          p.emit_bytes OpCode.OP_EQUAL.byte OpCode.OP_NOT.byte
        else if operator_type = TokenType.EQUAL then p.emit_byte OpCode.OP_EQUAL.byte
        else pure p
      equality_loop n p
    else pure p

/-- `Parser::equality`. -/
def equality : Nat → Parser → Except Fault Parser
  | 0, _ => Except.error Fault.out_of_fuel
  | n + 1, p => do
    let p ← comparison n p
    equality_loop n p

/-- `Parser::and_expression`. -/
def and_expression : Nat → Parser → Except Fault Parser
  | 0, _ => Except.error Fault.out_of_fuel
  | n + 1, p => equality n p

/-- `Parser::or_expression`. -/
def or_expression : Nat → Parser → Except Fault Parser
  | 0, _ => Except.error Fault.out_of_fuel
  | n + 1, p => and_expression n p

/-- `Parser::expression`. -/
def expression : Nat → Parser → Except Fault Parser
  | 0, _ => Except.error Fault.out_of_fuel
  | n + 1, p => or_expression n p

end

/-- `Parser::expression_statement`. -/
def expression_statement (fuel : Nat) (p : Parser) : Except Fault Parser := do
  let p ← expression fuel p
  let p ← p.consume TokenType.SEMICOLON "Expected \x27;\x27 after expression"
  p.emit_byte OpCode.OP_POP.byte

/-- `Parser::print_statement`. -/
def print_statement (fuel : Nat) (p : Parser) : Except Fault Parser := do
  let p ← expression fuel p
  let p ← p.consume TokenType.SEMICOLON "Expected \x27;\x27 after value"
  p.emit_byte OpCode.OP_PRINT.byte

/-- `Parser::statement`. -/
def statement (fuel : Nat) (p : Parser) : Except Fault Parser := do
  let (m, p) ← p.match TokenType.PRINT
  if m then print_statement fuel p else expression_statement fuel p

/-- `Parser::var_declaration`: an empty body. -/
def var_declaration (p : Parser) : Parser := p

/-- `Parser::declaration`. -/
def declaration (fuel : Nat) (p : Parser) : Except Fault Parser := do
  let (m, p) ← p.match TokenType.LET
  let p ← if m then pure (var_declaration p) else statement fuel p
  if p.panic_mode then synchronize fuel p else pure p

/-- The `while` loop of `Parser::compile`. -/
def compile_loop : Nat → Parser → Except Fault Parser
  | 0, _ => Except.error Fault.out_of_fuel
  | n + 1, p => do
    if !(← p.check TokenType.EOF_TOKEN) then
      let (m, p) ← p.match TokenType.NEWLINE
      if m then compile_loop n p
      else
        let p ← declaration n p
        compile_loop n p
    else pure p

/-- `Parser::compile`: the value returned and the parser afterwards, whose
`compiling_chunk` is the caller's chunk after the call. -/
def compile (fuel : Nat) (tokens : List Token) (chunk : Chunk) : Except Fault (Bool × Parser) := do
  let p : Parser := { tokens := tokens, compiling_chunk := chunk, current := 0,
                      had_error := false, panic_mode := false }
  let p ← compile_loop fuel p
  let p ← p.emit_return
  pure (!p.had_error, p)

end Parser

end Replit

namespace Replit

/-! ## Virtual machine (`vm.cpp`) -/

/-- `VM::InterpretResult`. -/
inductive InterpretResult where
  | OK | COMPILE_ERROR | RUNTIME_ERROR
  deriving DecidableEq, Repr

/-- The state of `class VM` together with the two output streams.  `chunk` is the chunk
`chunk` points to, `ip` the offset of `ip` from `chunk->code.data()`, and the head of
`stack` is the back of the vector `stack`.  The map `globals` is never read or written
by the code and is left out. -/
structure VM where
  chunk : Chunk := {}
  ip : Nat := 0
  stack : List Value := []
  cout : String := ""
  cerr : List String := []
  deriving DecidableEq, Repr

/-- What one turn of the dispatch loop of `VM::run` ends in: the next turn, a `return`
statement, or an exception on its way to the `catch` clause of `run`. -/
inductive Step where
  | next (vm : VM)
  | ret (result : InterpretResult) (vm : VM)
  | throw (what : String) (vm : VM)
  deriving DecidableEq, Repr

/-- The text of `std::bad_variant_access::what()` (the wording of libstdc++). -/
def bad_variant_access : String := "std::get: wrong index for variant"

/-- `print_value`: the text written to `std::cout`. -/
def print_value (value : Value) : Except Fault String :=
  match value with
  | Value.number num => do
    let i ← num.to_int
    if Double.eq num (Double.of_int i) then pure (toString i) else pure num.ostream
  | Value.string s => pure s
  | Value.boolean b => pure (if b then "true" else "false")
  | Value.nil => pure "nil"
  | Value.other _ => pure ""

namespace VM

/-- `VM::VM()`. -/
def new : VM := {}

/-- `VM::reset_stack`. -/
def reset_stack (vm : VM) : VM := { vm with stack := [] }

/-- `VM::push`. -/
def push (vm : VM) (value : Value) : VM := { vm with stack := value :: vm.stack }

/-- `VM::is_falsey`. -/
def is_falsey (value : Value) : Bool :=
  match value with
  | Value.nil => true
  | Value.boolean b => !b
  | _ => false

/-- `VM::values_equal`. -/
def values_equal (a b : Value) : Bool :=
  if a.index ≠ b.index then false
  else match a, b with
    | Value.number x, Value.number y => Double.eq x y
    | Value.string x, Value.string y => decide (x = y)
    | Value.boolean x, Value.boolean y => decide (x = y)
    | Value.nil, _ => true
    | _, _ => false

/-- `VM::runtime_error`. -/
def runtime_error (vm : VM) (message : String) : VM :=
  let where_ := if vm.ip = 0 then none else vm.chunk.lines.get? (vm.ip - 1)
  let report := match where_ with
    | some line => ["Runtime error: " ++ message, "[line " ++ toString line ++ "] in script"]
    | none => ["Runtime error: " ++ message]
  reset_stack { vm with cerr := vm.cerr ++ report }

/-- The macro `BINARY_OP` of `VM::run`, with `op` computing `value_type(a op b)`. -/
def binary_op (vm : VM) (op : Double → Double → Value) : Step :=
  match vm.stack with
  | [] => Step.throw "Stack peek out of bounds" vm
  | [Value.number _] => Step.throw "Stack peek out of bounds" vm
  | Value.number b :: Value.number a :: rest => Step.next { vm with stack := op a b :: rest }
  | _ => Step.ret InterpretResult.RUNTIME_ERROR (vm.runtime_error "Operands must be numbers")

/-- The operand conversion of `OP_ADD`:
`holds_alternative<std::string>(v) ? get<std::string>(v) : to_string(get<double>(v))`. -/
def add_operand (v : Value) : Option String :=
  match v with
  | Value.string s => some s
  | Value.number d => some d.to_string
  | _ => none

/-- The case `OP_ADD` of `VM::run`. -/
def op_add (vm : VM) : Step :=
  match vm.stack with
  | [] => Step.throw "Stack peek out of bounds" vm
  | [b] =>
    if b.is_string then Step.throw "Stack peek out of bounds" { vm with stack := [] }
    else Step.throw "Stack peek out of bounds" vm
  | b :: a :: rest =>
    if b.is_string || a.is_string then
      match add_operand b with
      | none => Step.throw bad_variant_access { vm with stack := a :: rest }
      | some sb =>
        match add_operand a with
        | none => Step.throw bad_variant_access { vm with stack := rest }
        | some sa => Step.next { vm with stack := Value.string (sa ++ sb) :: rest }
    else binary_op vm (fun a b => Value.number (Double.add a b))

/-- The body of `case OpCode::OP_CONSTANT`: `READ_CONSTANT()` and `push`. -/
def op_constant (vm : VM) : Except Fault Step :=
  match vm.chunk.code.get? vm.ip with
  | none => Except.error (Fault.undefined "read of code past its end")
  | some operand =>
    match vm.chunk.constants.get? operand with
    | none => Except.error (Fault.undefined "constants[operand] outside the vector")
    | some constant => Except.ok (Step.next ({ vm with ip := vm.ip + 1 }.push constant))

/-- The `switch` of `VM::run` on the opcode the fetched byte stands for; `none` is a
byte that names no enumerator.  `vm` is the state after `READ_BYTE()`. -/
def execute (vm : VM) : Option OpCode → Except Fault Step
  | some OpCode.OP_CONSTANT => op_constant vm
  | some OpCode.OP_ADD => Except.ok (op_add vm)
  | some OpCode.OP_SUBTRACT =>
    Except.ok (binary_op vm (fun a b => Value.number (Double.sub a b)))
  | some OpCode.OP_MULTIPLY =>
    Except.ok (binary_op vm (fun a b => Value.number (Double.mul a b)))
  | some OpCode.OP_DIVIDE =>
    Except.ok (binary_op vm (fun a b => Value.number (Double.div a b)))
  | some OpCode.OP_NEGATE =>
    match vm.stack with
    | [] => Except.ok (Step.throw "Stack peek out of bounds" vm)
    | Value.number a :: rest =>
      Except.ok (Step.next { vm with stack := Value.number (Double.neg a) :: rest })
    | _ => Except.ok (Step.ret InterpretResult.RUNTIME_ERROR
             (vm.runtime_error "Operand must be a number"))
  | some OpCode.OP_NOT =>
    match vm.stack with
    | [] => Except.ok (Step.throw "Stack underflow" vm)
    | a :: rest => Except.ok (Step.next { vm with stack := Value.boolean (is_falsey a) :: rest })
  | some OpCode.OP_EQUAL =>
    match vm.stack with
    | [] => Except.ok (Step.throw "Stack underflow" vm)
    | [_] => Except.ok (Step.throw "Stack underflow" { vm with stack := [] })
    | b :: a :: rest =>
      Except.ok (Step.next { vm with stack := Value.boolean (values_equal a b) :: rest })
  | some OpCode.OP_GREATER =>
    Except.ok (binary_op vm (fun a b => Value.boolean (Double.gt a b)))
  | some OpCode.OP_LESS =>
    Except.ok (binary_op vm (fun a b => Value.boolean (Double.lt a b)))
  | some OpCode.OP_PRINT =>
    match vm.stack with
    | [] => Except.ok (Step.throw "Stack underflow" vm)
    | a :: rest =>
      match print_value a with
      | Except.error f => Except.error f
      | Except.ok text =>
        Except.ok (Step.next { vm with stack := rest, cout := vm.cout ++ text ++ "\n" })
  | some OpCode.OP_POP =>
    match vm.stack with
    | [] => Except.ok (Step.throw "Stack underflow" vm)
    | _ :: rest => Except.ok (Step.next { vm with stack := rest })
  | some OpCode.OP_RETURN => Except.ok (Step.ret InterpretResult.OK vm)
  | _ => Except.ok (Step.ret InterpretResult.RUNTIME_ERROR (vm.runtime_error "Unknown opcode"))

/-- One turn of the dispatch loop of `VM::run`: `READ_BYTE()`, then the `switch`. -/
def step (vm : VM) : Except Fault Step :=
  match vm.chunk.code.get? vm.ip with
  | none => Except.error (Fault.undefined "read of code past its end")
  | some instruction => execute { vm with ip := vm.ip + 1 } (OpCode.of_byte instruction)

/-- `VM::run`: the dispatch loop inside `try`, and the `catch` clause. -/
def run : Nat → VM → Except Fault (InterpretResult × VM)
  | 0, _ => Except.error Fault.out_of_fuel
  | n + 1, vm =>
    match step vm with
    | Except.error f => Except.error f
    | Except.ok (Step.next vm) => run n vm
    | Except.ok (Step.ret result vm) => Except.ok (result, vm)
    | Except.ok (Step.throw what vm) =>
      Except.ok (InterpretResult.RUNTIME_ERROR, vm.runtime_error what)

/-- The state in which `VM::interpret` calls `run` after a successful compile: the
chunk and the instruction pointer are rebound, the diagnostics of the compiler are on
`std::cerr`, and everything else is as the caller left it. -/
def bind_chunk (vm : VM) (parser : Parser) : VM :=
  { vm with chunk := parser.compiling_chunk, ip := 0, cerr := vm.cerr ++ parser.diagnostics }

/-- `VM::interpret`. -/
def interpret (fuel : Nat) (vm : VM) (source : String) : Except Fault (InterpretResult × VM) :=
  let tokens := tokenize source
  match Parser.compile fuel tokens {} with
  | Except.error f => Except.error f
  | Except.ok (false, parser) =>
    Except.ok (InterpretResult.COMPILE_ERROR, { vm with cerr := vm.cerr ++ parser.diagnostics })
  | Except.ok (true, parser) => run fuel (vm.bind_chunk parser)

end VM

/-! ## Engine (`replit_engine.cpp`) -/

/-- The class `ReplitEngine`. -/
structure ReplitEngine where
  vm : VM := {}
  deriving DecidableEq, Repr

/-- `ReplitEngine::run_code`: `std::cout` is redirected to a fresh buffer for the
duration of the `interpret` call and restored afterwards. -/
def ReplitEngine.run_code (fuel : Nat) (engine : ReplitEngine) (code : String) :
    Except Fault (String × ReplitEngine) :=
  match VM.interpret fuel { engine.vm with cout := "" } code with
  | Except.error f => Except.error f
  | Except.ok (result, vm) =>
    let engine : ReplitEngine := { vm := { vm with cout := engine.vm.cout } }
    if result = InterpretResult.COMPILE_ERROR then Except.ok ("Compile error occurred", engine)
    else if result = InterpretResult.RUNTIME_ERROR then Except.ok ("Runtime error occurred", engine)
    else Except.ok (vm.cout, engine)

end Replit

/-! ## Predicates and auxiliary definitions of the proofs

What the theorems below are stated with: the Hoare-style postcondition on outcomes, the
invariants of the parser, the static stack depth of a chunk, the shape of the source text
`print a OP b;` and the specification's reading of its output, the syntax trees of
well-formed programs with their translation, the relations between lexer states, and the
decoder of code vectors with the invariants of the emitted code. -/

namespace Replit

/-- `Post x Q`: whenever the computation `x` produces a value, the value satisfies `Q`. -/
def Post {α : Type} (x : Except Fault α) (Q : α → Prop) : Prop :=
  ∀ a, x = Except.ok a → Q a

namespace Parser

/-- A property of the parser state that each state-changing primitive preserves. -/
structure Stable (I : Parser → Prop) : Prop where
  advance : ∀ p t q, p.advance = Except.ok (t, q) → I p → I q
  emit_byte : ∀ p b q, p.emit_byte b = Except.ok q → I p → I q
  make_constant : ∀ p v b q, p.make_constant v = Except.ok (b, q) → I p → I q
  error_at : ∀ p t m, I p → I (p.error_at t m)
  clear_panic : ∀ p, I p → I { p with panic_mode := false }

/-- What it means for one of the recursive parsing functions to preserve `I`. -/
def Keeps (I : Parser → Prop) (f : Parser → Except Fault Parser) : Prop :=
  ∀ p, I p → Post (f p) I

/-- The compiler has set `had_error` exactly when it has written a diagnostic. -/
def ErrorsReported (p : Parser) : Prop := p.had_error = true ↔ p.diagnostics ≠ []

end Parser

/-- The value `a OP b` of the specification for the five instructions that take two
numbers: a number for `-`, `*`, `/` and a boolean for `>`, `<`. -/
def spec_binary (op : OpCode) (a b : Double) : Value :=
  match op with
  | OpCode.OP_SUBTRACT => Value.number (Double.sub a b)
  | OpCode.OP_MULTIPLY => Value.number (Double.mul a b)
  | OpCode.OP_DIVIDE => Value.number (Double.div a b)
  | OpCode.OP_GREATER => Value.boolean (Double.gt a b)
  | OpCode.OP_LESS => Value.boolean (Double.lt a b)
  | _ => Value.nil

/-- `Le x y`: the computation `x` ran out of fuel, or `y` has the outcome of `x`. -/
def Le {α : Type} (x y : Except Fault α) : Prop :=
  x = Except.error Fault.out_of_fuel ∨ y = x

namespace Parser

/-- One more unit of fuel does not change what a parsing function computes. -/
def Mono (f : Nat → Parser → Except Fault Parser) (n : Nat) : Prop :=
  ∀ p, Le (f n p) (f (n + 1) p)

/-- Token types at which neither a declaration nor an expression nor the rest of an
expression statement can begin or go on. -/
def Unparsable (t : TokenType) : Prop :=
  t ∉ [TokenType.LET, TokenType.PRINT, TokenType.NEWLINE, TokenType.EOF_TOKEN,
       TokenType.SEMICOLON, TokenType.TRUE, TokenType.FALSE, TokenType.NIL, TokenType.NUMBER,
       TokenType.STRING, TokenType.LPAREN, TokenType.NOT, TokenType.MINUS,
       TokenType.MULTIPLY, TokenType.DIVIDE, TokenType.MODULO, TokenType.PLUS,
       TokenType.GREATER, TokenType.GREATER_EQUAL, TokenType.LESS, TokenType.LESS_EQUAL,
       TokenType.NOT_EQUAL, TokenType.EQUAL]

/-- A parser state from which `declaration` returns without having consumed a token:
outside panic mode, at a token no statement can start with, and either just after a
`;` or at a keyword at which `synchronize` stops. -/
def Stuck (p : Parser) : Prop :=
  p.panic_mode = false ∧ ∃ t prev, p.peek = Except.ok t ∧ p.previous = Except.ok prev ∧
    Unparsable t.type ∧
    (prev.type = TokenType.SEMICOLON ∨ t.type = TokenType.FN ∨ t.type = TokenType.FOR
      ∨ t.type = TokenType.IF ∨ t.type = TokenType.WHILE ∨ t.type = TokenType.RETURN)

end Parser

/-- What the instruction `op` does to an operand stack of depth `d`, counted from the
stack the code was started on: whether an operand byte follows, and the new depth.
`none` when the instruction would need more values than the code itself has pushed, or
when it is one the compiler never emits inside a statement. -/
def instr_depth (d : Nat) : Option OpCode → Option (Bool × Nat)
  | some OpCode.OP_CONSTANT => some (true, d + 1)
  | some OpCode.OP_ADD => if 2 ≤ d then some (false, d - 1) else none
  | some OpCode.OP_SUBTRACT => if 2 ≤ d then some (false, d - 1) else none
  | some OpCode.OP_MULTIPLY => if 2 ≤ d then some (false, d - 1) else none
  | some OpCode.OP_DIVIDE => if 2 ≤ d then some (false, d - 1) else none
  | some OpCode.OP_EQUAL => if 2 ≤ d then some (false, d - 1) else none
  | some OpCode.OP_GREATER => if 2 ≤ d then some (false, d - 1) else none
  | some OpCode.OP_LESS => if 2 ≤ d then some (false, d - 1) else none
  | some OpCode.OP_NEGATE => if 1 ≤ d then some (false, d) else none
  | some OpCode.OP_NOT => if 1 ≤ d then some (false, d) else none
  | some OpCode.OP_PRINT => if 1 ≤ d then some (false, d - 1) else none
  | some OpCode.OP_POP => if 1 ≤ d then some (false, d - 1) else none
  | _ => none

/-- One byte of straight-line code: an operand byte is skipped, an opcode byte acts as
`instr_depth` says.  The state is (an operand byte is due, depth). -/
def byte_depth (st : Bool × Nat) (b : Nat) : Option (Bool × Nat) :=
  if st.1 then some (false, st.2) else instr_depth st.2 (OpCode.of_byte b)

/-- The state after the straight-line code `code`, byte by byte. -/
def depth_scan (st : Bool × Nat) : List Nat → Option (Bool × Nat)
  | [] => some st
  | b :: rest =>
    match byte_depth st b with
    | none => none
    | some st2 => depth_scan st2 rest

/-- Two outcomes of `run` agree: the same fault, or the same status with the same text
added to `std::cout` and the same lines added to `std::cerr`. -/
def SameRun (cout cout2 : String) (cerr cerr2 : List String)
    (x y : Except Fault (InterpretResult × VM)) : Prop :=
  match x, y with
  | Except.error f, Except.error g => f = g
  | Except.ok (r, v), Except.ok (r2, v2) =>
    r = r2 ∧ (∃ out, v.cout = cout ++ out ∧ v2.cout = cout2 ++ out) ∧
    (∃ errs, v.cerr = cerr ++ errs ∧ v2.cerr = cerr2 ++ errs)
  | _, _ => False

namespace Parser

/-- In panic mode an error has been recorded. -/
def PanicRecorded (p : Parser) : Prop := p.panic_mode = true → p.had_error = true

/-- The code emitted so far is complete straight-line code that takes an empty stack to
depth `d` without ever needing more than it has pushed. -/
def Depth (p : Parser) (d : Nat) : Prop :=
  depth_scan (false, 0) p.compiling_chunk.code = some (false, d)

/-- `Grows need gain p q`: the state `q` reached from `p` keeps `PanicRecorded`, and if no
error is recorded in `q` then none was in `p` and the code added since `p` takes every
depth `d ≥ need` to a depth of at least `d + gain`. -/
def Grows (need gain : Nat) (p q : Parser) : Prop :=
  PanicRecorded q ∧
  (q.had_error = false → p.had_error = false ∧
    ∀ d, need ≤ d → Depth p d → ∃ d2, d + gain ≤ d2 ∧ Depth q d2)

/-- A parsing function that keeps `PanicRecorded` and whose code grows the stack as
`Grows need gain` says. -/
def GrowsFn (need gain : Nat) (f : Parser → Except Fault Parser) : Prop :=
  ∀ p, PanicRecorded p → Post (f p) (Grows need gain p)

end Parser

namespace Lexer

/-- The part of the source that has not been consumed yet. -/
def unread (lx : Lexer) : List Char := lx.source.drop lx.current

/-- The state after consuming `n` characters none of which is a newline. -/
def moved (lx : Lexer) (n : Nat) : Lexer :=
  { lx with current := lx.current + n, column := lx.column + n }

/-- A loop of the form `while (P(peek())) advance();`. -/
def scan_while (P : Char → Bool) : Nat → Lexer → Lexer
  | 0, lx => lx
  | n + 1, lx => if P lx.peek then scan_while P n lx.advance.2 else lx

/-- Characters at which `skip_whitespace` stops at once. -/
def Solid (c next : Char) : Prop :=
  c ≠ ' ' ∧ c ≠ '\r' ∧ c ≠ '\t' ∧ ¬(c = '/' ∧ next = '/')

/-- The state in which `scan_token` starts a token: `start = current`. -/
def begin (lx : Lexer) : Lexer := { lx with start := lx.current }

end Lexer

/-- A numeric literal of the language: a non-empty run of digits, optionally followed by
a point and another non-empty run of digits. -/
def NumberLiteral (a : List Char) : Prop :=
  ∃ ip fp, ip ≠ [] ∧ (∀ c ∈ ip, c.isDigit = true) ∧ (∀ c ∈ fp, c.isDigit = true) ∧
    (a = ip ∨ (fp ≠ [] ∧ a = ip ++ '.' :: fp))

namespace Parser

/-- An error-free parser state: the tokens, the cursor and the chunk. -/
def clean (tokens : List Token) (current : Nat) (chunk : Chunk) : Parser :=
  { tokens := tokens, current := current, compiling_chunk := chunk }

end Parser

/-- The four operator characters for which the compiler emits an instruction, with the
token type of each. -/
def ArithmeticSign (op : Char) (type : TokenType) : Prop :=
  (op = '+' ∧ type = TokenType.PLUS) ∨ (op = '-' ∧ type = TokenType.MINUS)
    ∨ (op = '*' ∧ type = TokenType.MULTIPLY) ∨ (op = '/' ∧ type = TokenType.DIVIDE)

/-- The source text `print a OP b;`, with `s1` and `s2` the spacing around the operator. -/
def print_binary_source (a s1 : List Char) (op : Char) (s2 b : List Char) : String :=
  String.mk ("print ".data ++ (a ++ (s1 ++ op :: (s2 ++ (b ++ [';'])))))

/-! ## The specification's reading of the output of `print a OP b;` -/

/-- The remainder the specification's operator `%` stands for on `double`: `fmod`,
which is exact. -/
def Double.fmod : Double → Double → Double
  | Double.finite sx mx ex, Double.finite _ my ey =>
    if my = 0 then Double.nan
    else
      let e := min ex ey
      Double.round sx ((mx * 2 ^ (ex - e).toNat) % (my * 2 ^ (ey - e).toNat)) e
  | Double.finite sx mx ex, Double.inf _ => Double.finite sx mx ex
  | _, _ => Double.nan

/-- The value the specification calls `a OP b`. -/
def spec_arith (op : Char) (x y : Double) : Double :=
  if op = '+' then x.add y
  else if op = '-' then x.sub y
  else if op = '*' then x.mul y
  else if op = '/' then x.div y
  else x.fmod y

/-- A decimal numeral `[-]digits[.digits]`, read as its sign, its digits without the
point, and the number of digits after the point. -/
def decimal_numeral (s : List Char) : Option (Bool × Nat × Nat) :=
  let negative := decide (s.head? = some '-')
  let cs := if negative then s.drop 1 else s
  let ip := cs.takeWhile Char.isDigit
  if ip = [] then none
  else
    match cs.dropWhile Char.isDigit with
    | [] => some (negative, Double.digits_value 0 ip, 0)
    | '.' :: fp =>
      if fp ≠ [] ∧ fp.all Char.isDigit then
        some (negative, Double.digits_value 0 (ip ++ fp), fp.length)
      else none
    | _ => none

/-- Whether the double is exactly the number `(-1)^negative * n / 10^k`. -/
def Double.is_decimal (d : Double) (negative : Bool) (n k : Nat) : Bool :=
  match d with
  | Double.finite s m e =>
    (if m = 0 then decide (n = 0) else decide (s = negative)) &&
      (if 0 ≤ e then decide (m * 2 ^ e.toNat * 10 ^ k = n)
       else decide (m * 10 ^ k = n * 2 ^ (-e).toNat))
  | _ => false

/-- The output the specification promises for the value `d`: a decimal numeral whose
value is exactly `d`, followed by a line break. -/
def exact_rendering (out : String) (d : Double) : Bool :=
  match out.data.reverse with
  | '\n' :: body =>
    match decimal_numeral body.reverse with
    | some (negative, n, k) => d.is_decimal negative n k
    | none => false
  | _ => false

/-- The specification's account of `run_code("print a OP b;")` for the literals `a`, `b`:
the output is the exact rendering of `a OP b`. -/
def spec_print_binary (a : String) (op : Char) (b : String) (out : String) : Bool :=
  match Double.stod a, Double.stod b with
  | Except.ok x, Except.ok y => exact_rendering out (spec_arith op x y)
  | _, _ => false

/-- How many values an instruction takes off the stack. -/
def OpCode.operands : OpCode → Nat
  | OpCode.OP_POP => 1
  | OpCode.OP_PRINT => 1
  | OpCode.OP_NOT => 1
  | OpCode.OP_NEGATE => 1
  | OpCode.OP_EQUAL => 2
  | OpCode.OP_ADD => 2
  | OpCode.OP_SUBTRACT => 2
  | OpCode.OP_MULTIPLY => 2
  | OpCode.OP_DIVIDE => 2
  | OpCode.OP_GREATER => 2
  | OpCode.OP_LESS => 2
  | _ => 0

/-! ## Syntax trees: the specification's well-formed programs -/

/-- The precedence level at which the expression grammar takes a token type as a binary
operator: 1 equality, 2 comparison, 3 term, 4 factor; 0 for every other token type. -/
def TokenType.level : TokenType → Nat
  | TokenType.NOT_EQUAL => 1
  | TokenType.EQUAL => 1
  | TokenType.GREATER => 2
  | TokenType.GREATER_EQUAL => 2
  | TokenType.LESS => 2
  | TokenType.LESS_EQUAL => 2
  | TokenType.PLUS => 3
  | TokenType.MINUS => 3
  | TokenType.MULTIPLY => 4
  | TokenType.DIVIDE => 4
  | TokenType.MODULO => 4
  | _ => 0

/-- The token `t` is a literal with the value `v`: `true`, `false`, `nil`, a numeral that
`stod` converts to `v`, or a string literal whose text between the quotes is `v`. -/
def Literal (t : Token) (v : Value) : Prop :=
  (t.type = TokenType.TRUE ∧ v = Value.boolean true)
  ∨ (t.type = TokenType.FALSE ∧ v = Value.boolean false)
  ∨ (t.type = TokenType.NIL ∧ v = Value.nil)
  ∨ (t.type = TokenType.NUMBER ∧ ∃ x, Double.stod t.lexeme = Except.ok x ∧ v = Value.number x)
  ∨ (t.type = TokenType.STRING ∧
      ∃ s, t.lexeme = String.mk ('"' :: (s ++ ['"'])) ∧ v = Value.string (String.mk s))

/-- The syntax tree of an expression.  Every node keeps the tokens it is written with; a
literal keeps its value as well. -/
inductive Expr where
  | literal (t : Token) (v : Value)
  | group (l : Token) (e : Expr) (r : Token)
  | unary (op : Token) (e : Expr)
  | binary (a : Expr) (op : Token) (b : Expr)

/-- The opcode of a unary operator. -/
def unary_code (type : TokenType) : List Nat :=
  if type = TokenType.MINUS then [OpCode.OP_NEGATE.byte]
  else if type = TokenType.NOT then [OpCode.OP_NOT.byte]
  else []

/-- The opcodes of a binary operator.  `!=`, `>=` and `<=` have no opcode of their own:
each is the opcode of the complementary operator followed by NOT. -/
def binary_code (type : TokenType) : List Nat :=
  if type = TokenType.NOT_EQUAL then [OpCode.OP_EQUAL.byte, OpCode.OP_NOT.byte]
  else if type = TokenType.EQUAL then [OpCode.OP_EQUAL.byte]
  else if type = TokenType.GREATER then [OpCode.OP_GREATER.byte]
  else if type = TokenType.GREATER_EQUAL then [OpCode.OP_LESS.byte, OpCode.OP_NOT.byte]
  else if type = TokenType.LESS then [OpCode.OP_LESS.byte]
  else if type = TokenType.LESS_EQUAL then [OpCode.OP_GREATER.byte, OpCode.OP_NOT.byte]
  else if type = TokenType.PLUS then [OpCode.OP_ADD.byte]
  else if type = TokenType.MINUS then [OpCode.OP_SUBTRACT.byte]
  else if type = TokenType.MULTIPLY then [OpCode.OP_MULTIPLY.byte]
  else if type = TokenType.DIVIDE then [OpCode.OP_DIVIDE.byte]
  else []

namespace Expr

/-- The precedence level of the top node: that of the operator for a binary node, 5 for
a unary node, 6 for a literal and a parenthesised expression. -/
def level : Expr → Nat
  | literal _ _ => 6
  | group _ _ _ => 6
  | unary _ _ => 5
  | binary _ op _ => op.type.level

/-- The tokens of the expression, in source order. -/
def tokens : Expr → List Token
  | literal t _ => [t]
  | group l e r => l :: (e.tokens ++ [r])
  | unary op e => op :: e.tokens
  | binary a op b => a.tokens ++ op :: b.tokens

/-- The values of the literals of the expression, in source order. -/
def literals : Expr → List Value
  | literal _ v => [v]
  | group _ e _ => e.literals
  | unary _ e => e.literals
  | binary a _ b => a.literals ++ b.literals

/-- The tree is the one the grammar assigns to its tokens: binary operators are the ten
of the levels 1 to 4 other than `%`, the left operand of a binary node is of the
operator's level or higher (left associativity), the right operand of a higher level,
the operand of a unary operator is unary or primary, parentheses enclose any expression,
and every literal token is a literal with the value the node records. -/
def Shaped : Expr → Prop
  | literal t v => Literal t v
  | group l e r => l.type = TokenType.LPAREN ∧ r.type = TokenType.RPAREN ∧ e.Shaped
  | unary op e => (op.type = TokenType.NOT ∨ op.type = TokenType.MINUS) ∧ e.Shaped ∧ 5 ≤ e.level
  | binary a op b =>
    1 ≤ op.type.level ∧ op.type ≠ TokenType.MODULO ∧ a.Shaped ∧ b.Shaped ∧
      op.type.level ≤ a.level ∧ op.type.level < b.level

/-- The post-order translation of the tree when `n` values are in the pool already: the
code of the operands from left to right, then the opcodes of the operator; a literal is
CONSTANT with the index its value gets in the pool. -/
def code (n : Nat) : Expr → List Nat
  | literal _ _ => [OpCode.OP_CONSTANT.byte, n]
  | group _ e _ => e.code n
  | unary op e => e.code n ++ unary_code op.type
  | binary a op b => a.code n ++ b.code (n + a.literals.length) ++ binary_code op.type

end Expr

/-- A statement: `expr ;` or `print expr ;`. -/
inductive Statement where
  | expression (e : Expr) (semi : Token)
  | print (kw : Token) (e : Expr) (semi : Token)

namespace Statement

/-- The tokens of the statement, in source order. -/
def tokens : Statement → List Token
  | expression e semi => e.tokens ++ [semi]
  | print kw e semi => kw :: (e.tokens ++ [semi])

/-- The values of the literals of the statement, in source order. -/
def literals : Statement → List Value
  | expression e _ => e.literals
  | print _ e _ => e.literals

/-- The statement is written with the tokens the grammar asks for. -/
def Shaped : Statement → Prop
  | expression e semi => e.Shaped ∧ semi.type = TokenType.SEMICOLON
  | print kw e semi => kw.type = TokenType.PRINT ∧ e.Shaped ∧ semi.type = TokenType.SEMICOLON

/-- The translation of the statement: the code of the expression, then POP or PRINT. -/
def code (n : Nat) : Statement → List Nat
  | expression e _ => e.code n ++ [OpCode.OP_POP.byte]
  | print _ e _ => e.code n ++ [OpCode.OP_PRINT.byte]

end Statement

/-- The tokens of a sequence of statements. -/
def program_tokens : List Statement → List Token
  | [] => []
  | s :: rest => s.tokens ++ program_tokens rest

/-- The values of the literals of a sequence of statements, in source order. -/
def program_literals : List Statement → List Value
  | [] => []
  | s :: rest => s.literals ++ program_literals rest

/-- The translation of a sequence of statements when `n` values are in the pool. -/
def program_code (n : Nat) : List Statement → List Nat
  | [] => []
  | s :: rest => s.code n ++ program_code (n + s.literals.length) rest

namespace Parser

/-- The tokens from the cursor on are `ts`. -/
def At (p : Parser) (ts : List Token) : Prop := p.tokens.drop p.current = ts

/-- The state with the cursor moved over one token. -/
def next (p : Parser) : Parser := { p with current := p.current + 1 }

/-- With enough fuel the parsing function `f` takes the state `p` to the state `q`. -/
def Runs (f : Nat → Parser → Except Fault Parser) (p q : Parser) : Prop :=
  ∃ n, ∀ m, n ≤ m → f m p = Except.ok q

/-- The parsing function of a precedence level. -/
def level_fn (k : Nat) : Nat → Parser → Except Fault Parser :=
  match k with
  | 1 => equality
  | 2 => comparison
  | 3 => term
  | 4 => factor
  | 5 => unary
  | _ => primary

/-- The loop of a binary precedence level. -/
def loop_fn (k : Nat) : Nat → Parser → Except Fault Parser :=
  match k with
  | 1 => equality_loop
  | 2 => comparison_loop
  | 3 => term_loop
  | _ => factor_loop

/-- `emit_byte` for each byte of a list in turn. -/
def emit_all : List Nat → Parser → Except Fault Parser
  | [], p => Except.ok p
  | b :: bs, p => p.emit_byte b >>= emit_all bs

/-- The loops of the levels `j`, `j - 1`, down to `k`, one after the other, take `q` to
`r`. -/
def Chain : Nat → Nat → Parser → Parser → Prop
  | 0, _, q, r => q = r
  | j + 1, k, q, r => if j + 1 < k then q = r else ∃ q2, Runs (loop_fn (j + 1)) q q2 ∧ Chain j k q2 r

/-- The line `error_at` writes for `token` and `message`. -/
def error_line (token : Token) (message : String) : String :=
  "[line " ++ toString token.line ++ "] Error" ++
    (if token.type = TokenType.EOF_TOKEN then " at end"
     else if token.type = TokenType.ERROR then ""
     else " at \x27" ++ token.lexeme ++ "\x27") ++ ": " ++ message

/-- The constant-limit error has been recorded and reported. -/
def Reported (p : Parser) : Prop :=
  p.had_error = true ∧ ∃ t : Token, error_line t "Too many constants in one chunk" ∈ p.diagnostics

/-- A pool of more than 256 values, and panic mode, only come with the constant-limit
error reported. -/
def Accounted (p : Parser) : Prop :=
  (256 < p.compiling_chunk.constants.length → Reported p) ∧ (p.panic_mode = true → Reported p)

/-- What a piece of a well-formed program does to the parser state: the cursor moves over
its `len` tokens, its literals `vals` are appended to the pool, and, if the pool holds at
most 256 values afterwards, `code` is appended to the code and nothing else changes. -/
def Delta (p q : Parser) (len : Nat) (vals : List Value) (code : List Nat) : Prop :=
  q.tokens = p.tokens ∧ q.current = p.current + len ∧
  q.compiling_chunk.constants = p.compiling_chunk.constants ++ vals ∧
  (p.compiling_chunk.constants.length + vals.length ≤ 256 →
    q.compiling_chunk.code = p.compiling_chunk.code ++ code ∧ q.had_error = p.had_error ∧
    q.panic_mode = p.panic_mode ∧ q.diagnostics = p.diagnostics) ∧
  (Accounted p → Accounted q)

end Parser

/-! ## Programs used as instances -/

/-- The trees of `print 1 + 2 * 3; !(true == "a");`, written with the tokens the lexer
gives for that text. -/
def sample_program : List Statement :=
  [Statement.print ⟨TokenType.PRINT, "print", 1, 1⟩
    (Expr.binary
      (Expr.literal ⟨TokenType.NUMBER, "1", 1, 7⟩ (Value.number (Double.of_int 1)))
      ⟨TokenType.PLUS, "+", 1, 9⟩
      (Expr.binary
        (Expr.literal ⟨TokenType.NUMBER, "2", 1, 11⟩ (Value.number (Double.of_int 2)))
        ⟨TokenType.MULTIPLY, "*", 1, 13⟩
        (Expr.literal ⟨TokenType.NUMBER, "3", 1, 15⟩ (Value.number (Double.of_int 3)))))
    ⟨TokenType.SEMICOLON, ";", 1, 16⟩,
   Statement.expression
    (Expr.unary ⟨TokenType.NOT, "!", 1, 18⟩
      (Expr.group ⟨TokenType.LPAREN, "(", 1, 19⟩
        (Expr.binary
          (Expr.literal ⟨TokenType.TRUE, "true", 1, 20⟩ (Value.boolean true))
          ⟨TokenType.EQUAL, "==", 1, 25⟩
          (Expr.literal ⟨TokenType.STRING, "\"a\"", 1, 28⟩ (Value.string "a")))
        ⟨TokenType.RPAREN, ")", 1, 31⟩))
    ⟨TokenType.SEMICOLON, ";", 1, 32⟩]

/-- The EOF token after `sample_program`. -/
def sample_eof : Token := ⟨TokenType.EOF_TOKEN, "", 1, 33⟩

/-- The trees of the text `0;` written `n` times, with the tokens the lexer gives. -/
def long_program (n : Nat) : List Statement :=
  (List.range n).map (fun (i : Nat) =>
    Statement.expression
      (Expr.literal ⟨TokenType.NUMBER, "0", 1, 2 * (i : Int) + 1⟩ (Value.number (Double.of_int 0)))
      ⟨TokenType.SEMICOLON, ";", 1, 2 * (i : Int) + 2⟩)

/-- The EOF token after `long_program n`. -/
def long_eof (n : Nat) : Token := ⟨TokenType.EOF_TOKEN, "", 1, 2 * (n : Int) + 1⟩

namespace Lexer

/-- The state `lx2` differs from `lx` in the cursor, which is `n` characters further, and
in nothing else but the line and column counters. -/
def Ahead (lx lx2 : Lexer) (n : Nat) : Prop :=
  lx2.source = lx.source ∧ lx2.start = lx.start ∧ lx2.current = lx.current + n

/-- The state `b` is the state `a` with the cursor moved forward, not past the end of
the source. -/
def Fwd (a b : Lexer) : Prop :=
  b.source = a.source ∧ a.current ≤ b.current ∧
    (b.current ≤ a.source.length ∨ b.current = a.current)

/-- A character that starts no token and is not a blank. -/
def Unrecognised (c : Char) : Prop :=
  c.isAlpha = false ∧ c ≠ '_' ∧ c.isDigit = false ∧
    c ∉ ['(', ')', '{', '}', ';', ',', '+', '-', '*', '/', '%', '!', '=', '<', '>', '"',
      '\n', ' ', '\r', '\t']

end Lexer

/-- The numeral `a` is the longest prefix of `src` that is a numeric literal. -/
def LongestNumeral (a src : List Char) : Prop :=
  NumberLiteral a ∧ a <+: src ∧ ∀ b, NumberLiteral b → b <+: src → b.length ≤ a.length

/-- The state of a reader that decodes a byte sequence from its first byte: the
instructions read so far, each an opcode byte with its operand if it has one, and whether
the operand of a CONSTANT instruction is due. -/
structure Decoder where
  instructions : List (Nat × Option Nat) := []
  pending : Bool := false
  deriving DecidableEq, Repr

/-- Reading one byte: the operand of the CONSTANT instruction read just before, or the
opcode of the next instruction.  CONSTANT is the only instruction with an operand. -/
def Decoder.read (d : Decoder) (byte : Nat) : Decoder :=
  if d.pending then
    Decoder.mk (d.instructions ++ [(OpCode.OP_CONSTANT.byte, some byte)]) false
  else if byte = OpCode.OP_CONSTANT.byte then Decoder.mk d.instructions true
  else Decoder.mk (d.instructions ++ [(byte, none)]) false

/-- Decoding a code vector from its first byte. -/
def decode (code : List Nat) : Decoder := code.foldl Decoder.read {}

namespace Parser

/-- The opcodes the compiler writes with `emit_byte` outside `emit_constant`. -/
def plain_ops : List OpCode :=
  [OpCode.OP_ADD, OpCode.OP_SUBTRACT, OpCode.OP_MULTIPLY, OpCode.OP_DIVIDE, OpCode.OP_NEGATE,
   OpCode.OP_NOT, OpCode.OP_EQUAL, OpCode.OP_GREATER, OpCode.OP_LESS, OpCode.OP_PRINT,
   OpCode.OP_POP, OpCode.OP_RETURN]

/-- A property of the parser state that is preserved by the steps the compiler is made
of: moving over a token, writing one of the opcodes of `plain_ops`, writing a CONSTANT
instruction, and reporting an error. -/
structure Emitting (I : Parser → Prop) : Prop where
  advance : ∀ p t q, p.advance = Except.ok (t, q) → I p → I q
  emit_op : ∀ p op q, op ∈ plain_ops → p.emit_byte (OpCode.byte op) = Except.ok q → I p → I q
  emit_constant : ∀ p v q, p.emit_constant v = Except.ok q → I p → I q
  error_at : ∀ p t m, I p → I (p.error_at t m)

end Parser

/-- The code of a chunk as the compiler writes it: one line per byte, no operand
outstanding, every instruction either one of the plain opcodes or a CONSTANT whose
operand is an index into the pool. -/
def Chunk.Coded (c : Chunk) : Prop :=
  c.lines.length = c.code.length ∧ (decode c.code).pending = false ∧
  ∀ i ∈ (decode c.code).instructions,
    (∃ op ∈ Parser.plain_ops, i = (OpCode.byte op, none)) ∨
    (∃ o, i = (OpCode.OP_CONSTANT.byte, some o) ∧ o < c.constants.length)

namespace Parser

/-- What one call of `declaration` may have done to the diagnostics when it has reached
the state `q`: nothing, with panic mode as at the start, or one line added and panic
mode switched on. -/
def Trail (diagnostics : List String) (panic : Bool) (q : Parser) : Prop :=
  (q.diagnostics = diagnostics ∧ q.panic_mode = panic) ∨
  (panic = false ∧ q.panic_mode = true ∧ ∃ line, q.diagnostics = diagnostics ++ [line])

/-- The read `previous()` makes when no token has been consumed. -/
def before_first : Fault := Fault.undefined "tokens[current - 1] outside the vector"

end Parser

namespace VM

/-- The messages of the runtime errors that come from the type of an operand. -/
def type_errors : List String :=
  ["Operands must be numbers", "Operand must be a number", bad_variant_access]

/-- The fault of `print_value` on a number that `int` cannot hold. -/
def print_fault : Fault :=
  Fault.undefined "static_cast<int> of a double outside the range of int"

/-- What a turn of the dispatch loop on an instruction other than CONSTANT and RETURN
ends in, when the stack holds the operands: the next turn with the stack at depth `d`, a
runtime error for the type of an operand, or the fault of `print_value`. -/
def Stepped (vm : VM) (d : Nat) : Except Fault Step → Prop
  | Except.ok (Step.next v) =>
    v.chunk = vm.chunk ∧ v.ip = vm.ip ∧ v.cerr = vm.cerr ∧ v.stack.length = d
  | Except.ok (Step.ret r v) =>
    r = InterpretResult.RUNTIME_ERROR ∧
      ∃ (m : String) (v1 : VM), m ∈ type_errors ∧ v1.cerr = vm.cerr ∧ v = v1.runtime_error m
  | Except.ok (Step.throw m v1) => m ∈ type_errors ∧ v1.cerr = vm.cerr
  | Except.error f => f = print_fault

/-- How a run of straight-line code ends: `OK` at the instruction pointer `ip` with the
stack at depth `d` and nothing written to the error stream, `RUNTIME_ERROR` with the
message of a type error written to it, or the fault of `print_value`. -/
def Settled (cerr : List String) (ip d : Nat) : Except Fault (InterpretResult × VM) → Prop
  | Except.ok (InterpretResult.OK, v) => v.ip = ip ∧ v.stack.length = d ∧ v.cerr = cerr
  | Except.ok (InterpretResult.RUNTIME_ERROR, v) =>
    ∃ m tail, m ∈ type_errors ∧ v.cerr = cerr ++ ("Runtime error: " ++ m) :: tail
  | Except.ok (InterpretResult.COMPILE_ERROR, _) => False
  | Except.error f => f = print_fault

end VM

end Replit


namespace Replit

/-! ## Reasoning about outcomes -/

@[simp] theorem bind_ok {α β : Type} (a : α) (f : α → Except Fault β) :
    (Except.ok a >>= f) = f a := rfl

@[simp] theorem bind_error {α β : Type} (e : Fault) (f : α → Except Fault β) :
    ((Except.error e : Except Fault α) >>= f) = Except.error e := rfl

@[simp] theorem pure_eq_ok {α : Type} (a : α) : (pure a : Except Fault α) = Except.ok a := rfl

theorem Post.ok {α : Type} {Q : α → Prop} {a : α} (h : Q a) : Post (Except.ok a) Q := by
  intro b hb
  cases hb
  exact h

theorem Post.pure {α : Type} {Q : α → Prop} {a : α} (h : Q a) :
    Post (pure a : Except Fault α) Q := Post.ok h

theorem Post.error {α : Type} {Q : α → Prop} {e : Fault} :
    Post (Except.error e : Except Fault α) Q := by
  intro b hb
  cases hb

theorem Post.bind {α β : Type} {R : α → Prop} {Q : β → Prop} {x : Except Fault α}
    {f : α → Except Fault β} (hx : Post x R) (hf : ∀ a, R a → Post (f a) Q) :
    Post (x >>= f) Q := by
  intro b hb
  cases x with
  | error e => cases hb
  | ok a => exact hf a (hx a rfl) b hb

theorem Post.mono {α : Type} {R Q : α → Prop} {x : Except Fault α}
    (hx : Post x R) (h : ∀ a, R a → Q a) : Post x Q :=
  fun a ha => h a (hx a ha)

theorem bind_eq_ok {α β : Type} {x : Except Fault α} {f : α → Except Fault β} {b : β}
    (h : (x >>= f) = Except.ok b) : ∃ a, x = Except.ok a ∧ f a = Except.ok b := by
  cases x with
  | error e => cases h
  | ok a => exact ⟨a, rfl, h⟩

theorem Post.true {α : Type} (x : Except Fault α) : Post x (fun _ => True) :=
  fun _ _ => trivial

namespace Parser

section
variable {I : Parser → Prop} (hI : Stable I)
include hI

theorem Stable.post_match (p : Parser) (type : TokenType) (hp : I p) :
    Post (p.match type) (fun r => I r.2) := by
  unfold Parser.match
  refine Post.bind (Post.true _) ?_
  intro c _
  split
  · exact Post.pure hp
  · refine Post.bind (R := fun r => I r.2) ?_ ?_
    · intro r hr
      exact hI.advance p r.1 r.2 hr hp
    · intro r hr
      exact Post.pure hr

theorem Stable.post_match_or (p : Parser) (type : TokenType)
    (rest : Parser → Except Fault (Bool × Parser))
    (hrest : ∀ q, I q → Post (rest q) (fun r => I r.2)) (hp : I p) :
    Post (p.match_or type rest) (fun r => I r.2) := by
  unfold match_or
  refine Post.bind (hI.post_match p type hp) ?_
  rintro ⟨m, q⟩ hr
  dsimp only
  split
  · exact Post.pure hr
  · exact hrest _ hr

theorem Stable.post_error (p : Parser) (m : String) (hp : I p) : Post (p.error m) I := by
  unfold Parser.error
  refine Post.bind (Post.true _) ?_
  intro t _
  exact Post.pure (hI.error_at p t m hp)

theorem Stable.post_consume (p : Parser) (type : TokenType) (m : String) (hp : I p) :
    Post (p.consume type m) I := by
  unfold consume
  refine Post.bind (Post.true _) ?_
  intro t _
  split
  · refine Post.bind (R := fun r => I r.2) ?_ ?_
    · intro r hr
      exact hI.advance p r.1 r.2 hr hp
    · intro r hr
      exact Post.pure hr
  · refine Post.bind (Post.true _) ?_
    intro t _
    exact Post.pure (hI.error_at p t m hp)

theorem Stable.post_emit_byte (p : Parser) (b : Nat) (hp : I p) : Post (p.emit_byte b) I :=
  fun q hq => hI.emit_byte p b q hq hp

theorem Stable.post_emit_bytes (p : Parser) (b c : Nat) (hp : I p) :
    Post (p.emit_bytes b c) I := by
  unfold emit_bytes
  exact Post.bind (hI.post_emit_byte p b hp) (fun q hq => hI.post_emit_byte q c hq)

theorem Stable.post_emit_constant (p : Parser) (v : Value) (hp : I p) :
    Post (p.emit_constant v) I := by
  unfold emit_constant
  refine Post.bind (R := fun r => I r.2) ?_ ?_
  · intro r hr
    exact hI.make_constant p v r.1 r.2 hr hp
  · intro r hr
    exact hI.post_emit_bytes _ _ _ hr

omit hI in
theorem keeps_error (e : Fault) : Keeps I (fun _ => Except.error e) :=
  fun _ _ => Post.error

theorem Stable.keeps_all : ∀ n,
    Keeps I (primary n) ∧ Keeps I (unary n) ∧ Keeps I (factor_loop n) ∧ Keeps I (factor n)
    ∧ Keeps I (term_loop n) ∧ Keeps I (term n) ∧ Keeps I (comparison_loop n)
    ∧ Keeps I (comparison n) ∧ Keeps I (equality_loop n) ∧ Keeps I (equality n)
    ∧ Keeps I (and_expression n) ∧ Keeps I (or_expression n) ∧ Keeps I (expression n) := by
  intro n
  induction n with
  | zero =>
    refine ⟨?_, ?_, ?_, ?_, ?_, ?_, ?_, ?_, ?_, ?_, ?_, ?_, ?_⟩ <;>
      (intro p _; first
        | rw [primary] | rw [unary] | rw [factor_loop] | rw [factor] | rw [term_loop]
        | rw [term] | rw [comparison_loop] | rw [comparison] | rw [equality_loop]
        | rw [equality] | rw [and_expression] | rw [or_expression] | rw [expression]) <;>
      exact Post.error
  | succ n ih =>
    obtain ⟨hprimary, hunary, hfactor_loop, hfactor, hterm_loop, hterm, hcomparison_loop,
      hcomparison, hequality_loop, hequality, hand, hor, hexpression⟩ := ih
    refine ⟨?_, ?_, ?_, ?_, ?_, ?_, ?_, ?_, ?_, ?_, ?_, ?_, ?_⟩
    · -- primary
      intro p hp
      rw [primary]
      refine Post.bind (hI.post_match p _ hp) ?_
      rintro ⟨m, p⟩ hp
      dsimp only
      split
      · exact hI.post_emit_constant _ _ hp
      refine Post.bind (hI.post_match p _ hp) ?_
      rintro ⟨m, p⟩ hp
      dsimp only
      split
      · exact hI.post_emit_constant _ _ hp
      refine Post.bind (hI.post_match p _ hp) ?_
      rintro ⟨m, p⟩ hp
      dsimp only
      split
      · exact hI.post_emit_constant _ _ hp
      refine Post.bind (hI.post_match p _ hp) ?_
      rintro ⟨m, p⟩ hp
      dsimp only
      split
      · refine Post.bind (Post.true _) ?_
        intro t _
        refine Post.bind (Post.true _) ?_
        intro v _
        exact hI.post_emit_constant _ _ hp
      refine Post.bind (hI.post_match p _ hp) ?_
      rintro ⟨m, p⟩ hp
      dsimp only
      split
      · refine Post.bind (Post.true _) ?_
        intro t _
        refine Post.bind (Post.true _) ?_
        intro v _
        exact hI.post_emit_constant _ _ hp
      refine Post.bind (hI.post_match p _ hp) ?_
      rintro ⟨m, p⟩ hp
      dsimp only
      split
      · refine Post.bind (hexpression p hp) ?_
        intro q hq
        exact hI.post_consume _ _ _ hq
      · exact hI.post_error _ _ hp
    · -- unary
      intro p hp
      rw [unary]
      refine Post.bind (hI.post_match_or p _ _ (fun q hq => hI.post_match q _ hq) hp) ?_
      rintro ⟨m, p⟩ hp
      dsimp only
      split
      · refine Post.bind (Post.true _) ?_
        intro t _
        refine Post.bind (hunary p hp) ?_
        intro q hq
        split
        · exact hI.post_emit_byte _ _ hq
        · split
          · exact hI.post_emit_byte _ _ hq
          · exact Post.pure hq
      · exact hprimary p hp
    · -- factor_loop
      intro p hp
      rw [factor_loop]
      refine Post.bind (hI.post_match_or p _ _ (fun q hq => hI.post_match_or q _ _ (fun q hq => hI.post_match q _ hq) hq) hp) ?_
      rintro ⟨m, p⟩ hp
      dsimp only
      split
      · refine Post.bind (Post.true _) ?_
        intro t _
        refine Post.bind (hunary p hp) ?_
        intro q hq
        split_ifs
        all_goals first
          | exact Post.bind (hI.post_emit_byte _ _ hq) (fun q2 hq2 => hfactor_loop q2 hq2)
          | exact Post.bind (hI.post_emit_bytes _ _ _ hq) (fun q2 hq2 => hfactor_loop q2 hq2)
          | exact Post.bind (Post.pure hq) (fun q2 hq2 => hfactor_loop q2 hq2)
      · exact Post.pure hp
    · -- factor
      intro p hp
      rw [factor]
      exact Post.bind (hunary p hp) (fun q hq => hfactor_loop q hq)
    · -- term_loop
      intro p hp
      rw [term_loop]
      refine Post.bind (hI.post_match_or p _ _ (fun q hq => hI.post_match q _ hq) hp) ?_
      rintro ⟨m, p⟩ hp
      dsimp only
      split
      · refine Post.bind (Post.true _) ?_
        intro t _
        refine Post.bind (hfactor p hp) ?_
        intro q hq
        split_ifs
        all_goals first
          | exact Post.bind (hI.post_emit_byte _ _ hq) (fun q2 hq2 => hterm_loop q2 hq2)
          | exact Post.bind (hI.post_emit_bytes _ _ _ hq) (fun q2 hq2 => hterm_loop q2 hq2)
          | exact Post.bind (Post.pure hq) (fun q2 hq2 => hterm_loop q2 hq2)
      · exact Post.pure hp
    · -- term
      intro p hp
      rw [term]
      exact Post.bind (hfactor p hp) (fun q hq => hterm_loop q hq)
    · -- comparison_loop
      intro p hp
      rw [comparison_loop]
      refine Post.bind (hI.post_match_or p _ _ (fun q hq => hI.post_match_or q _ _ (fun q hq => hI.post_match_or q _ _ (fun q hq => hI.post_match q _ hq) hq) hq) hp) ?_
      rintro ⟨m, p⟩ hp
      dsimp only
      split
      · refine Post.bind (Post.true _) ?_
        intro t _
        refine Post.bind (hterm p hp) ?_
        intro q hq
        split_ifs
        all_goals first
          | exact Post.bind (hI.post_emit_byte _ _ hq) (fun q2 hq2 => hcomparison_loop q2 hq2)
          | exact Post.bind (hI.post_emit_bytes _ _ _ hq) (fun q2 hq2 => hcomparison_loop q2 hq2)
          | exact Post.bind (Post.pure hq) (fun q2 hq2 => hcomparison_loop q2 hq2)
      · exact Post.pure hp
    · -- comparison
      intro p hp
      rw [comparison]
      exact Post.bind (hterm p hp) (fun q hq => hcomparison_loop q hq)
    · -- equality_loop
      intro p hp
      rw [equality_loop]
      refine Post.bind (hI.post_match_or p _ _ (fun q hq => hI.post_match q _ hq) hp) ?_
      rintro ⟨m, p⟩ hp
      dsimp only
      split
      · refine Post.bind (Post.true _) ?_
        intro t _
        refine Post.bind (hcomparison p hp) ?_
        intro q hq
        split_ifs
        all_goals first
          | exact Post.bind (hI.post_emit_byte _ _ hq) (fun q2 hq2 => hequality_loop q2 hq2)
          | exact Post.bind (hI.post_emit_bytes _ _ _ hq) (fun q2 hq2 => hequality_loop q2 hq2)
          | exact Post.bind (Post.pure hq) (fun q2 hq2 => hequality_loop q2 hq2)
      · exact Post.pure hp
    · -- equality
      intro p hp
      rw [equality]
      exact Post.bind (hcomparison p hp) (fun q hq => hequality_loop q hq)
    · -- and_expression
      intro p hp
      rw [and_expression]
      exact hequality p hp
    · -- or_expression
      intro p hp
      rw [or_expression]
      exact hand p hp
    · -- expression
      intro p hp
      rw [expression]
      exact hor p hp

theorem Stable.keeps_expression (n : Nat) : Keeps I (expression n) :=
  (hI.keeps_all n).2.2.2.2.2.2.2.2.2.2.2.2

theorem Stable.post_expression_statement (n : Nat) (p : Parser) (hp : I p) :
    Post (expression_statement n p) I := by
  unfold expression_statement
  refine Post.bind (hI.keeps_expression n p hp) ?_
  intro q hq
  refine Post.bind (hI.post_consume _ _ _ hq) ?_
  intro q2 hq2
  exact hI.post_emit_byte _ _ hq2

theorem Stable.post_print_statement (n : Nat) (p : Parser) (hp : I p) :
    Post (print_statement n p) I := by
  unfold print_statement
  refine Post.bind (hI.keeps_expression n p hp) ?_
  intro q hq
  refine Post.bind (hI.post_consume _ _ _ hq) ?_
  intro q2 hq2
  exact hI.post_emit_byte _ _ hq2

theorem Stable.post_statement (n : Nat) (p : Parser) (hp : I p) :
    Post (statement n p) I := by
  unfold statement
  refine Post.bind (hI.post_match p _ hp) ?_
  rintro ⟨m, q⟩ hq
  dsimp only
  split
  · exact hI.post_print_statement n q hq
  · exact hI.post_expression_statement n q hq

theorem Stable.post_synchronize_loop (n : Nat) : ∀ p, I p → Post (synchronize_loop n p) I := by
  induction n with
  | zero =>
    intro p _
    rw [synchronize_loop]
    exact Post.error
  | succ n ih =>
    intro p hp
    rw [synchronize_loop]
    refine Post.bind (Post.true _) ?_
    intro t _
    split
    · refine Post.bind (Post.true _) ?_
      intro prev _
      split
      · exact Post.pure hp
      · refine Post.bind (Post.true _) ?_
        intro t2 _
        split
        · exact Post.pure hp
        · refine Post.bind (R := fun r => I r.2) ?_ ?_
          · intro r hr
            exact hI.advance p r.1 r.2 hr hp
          · rintro ⟨t3, q⟩ hq
            exact ih q hq
    · exact Post.pure hp

theorem Stable.post_synchronize (n : Nat) (p : Parser) (hp : I p) :
    Post (synchronize n p) I :=
  hI.post_synchronize_loop n _ (hI.clear_panic p hp)

theorem Stable.post_declaration (n : Nat) (p : Parser) (hp : I p) :
    Post (declaration n p) I := by
  unfold declaration
  refine Post.bind (hI.post_match p _ hp) ?_
  rintro ⟨m, q⟩ hq
  dsimp only
  have hrest : ∀ q2, I q2 →
      Post (if q2.panic_mode = true then synchronize n q2 else Except.ok q2) I := by
    intro q2 hq2
    split
    · exact hI.post_synchronize n q2 hq2
    · exact Post.ok hq2
  split
  · exact Post.bind (Post.pure hq) hrest
  · exact Post.bind (hI.post_statement n q hq) hrest

theorem Stable.post_compile_loop (n : Nat) : ∀ p, I p → Post (compile_loop n p) I := by
  induction n with
  | zero =>
    intro p _
    rw [compile_loop]
    exact Post.error
  | succ n ih =>
    intro p hp
    rw [compile_loop]
    refine Post.bind (Post.true _) ?_
    intro c _
    split
    · refine Post.bind (hI.post_match p _ hp) ?_
      rintro ⟨m, q⟩ hq
      dsimp only
      split
      · exact ih q hq
      · exact Post.bind (hI.post_declaration n q hq) (fun q2 hq2 => ih q2 hq2)
    · exact Post.pure hp

theorem Stable.post_compile (n : Nat) (tokens : List Token) (chunk : Chunk)
    (h0 : I { tokens := tokens, compiling_chunk := chunk }) :
    Post (compile n tokens chunk) (fun r => I r.2 ∧ r.1 = !r.2.had_error) := by
  unfold compile
  refine Post.bind (hI.post_compile_loop n _ h0) ?_
  intro q hq
  refine Post.bind (hI.post_emit_byte _ _ hq) ?_
  intro q2 hq2
  exact Post.pure ⟨hq2, rfl⟩

end

/-! ### What the primitives leave unchanged -/

theorem advance_eq {p q : Parser} {t : Token} (h : p.advance = Except.ok (t, q)) :
    q = p ∨ q = { p with current := p.current + 1 } := by
  unfold advance at h
  obtain ⟨t2, _, h2⟩ := bind_eq_ok h
  cases h2
  split_ifs
  all_goals first
    | exact Or.inl rfl
    | exact Or.inr rfl

theorem emit_byte_eq {p q : Parser} {b : Nat} (h : p.emit_byte b = Except.ok q) :
    ∃ l, q = { p with compiling_chunk := p.compiling_chunk.write b l } := by
  unfold emit_byte at h
  obtain ⟨t, _, h2⟩ := bind_eq_ok h
  cases h2
  exact ⟨t.line, rfl⟩

theorem make_constant_eq {p q : Parser} {v : Value} {b : Nat}
    (h : p.make_constant v = Except.ok (b, q)) :
    q = { p with compiling_chunk := (p.compiling_chunk.add_constant v).2 } ∨
    ∃ t, q = Parser.error_at { p with compiling_chunk := (p.compiling_chunk.add_constant v).2 }
      t "Too many constants in one chunk" := by
  unfold make_constant at h
  dsimp only at h
  split at h
  · obtain ⟨q2, h1, h2⟩ := bind_eq_ok h
    unfold Parser.error at h1
    obtain ⟨t, _, h3⟩ := bind_eq_ok h1
    cases h2
    cases h3
    exact Or.inr ⟨t, rfl⟩
  · cases h
    exact Or.inl rfl

theorem errorsReported_error_at (p : Parser) (t : Token) (m : String)
    (hp : ErrorsReported p) : ErrorsReported (p.error_at t m) := by
  unfold error_at
  split
  · exact hp
  · simp [ErrorsReported]

theorem stable_errorsReported : Stable ErrorsReported where
  advance := by
    intro p t q h hp
    rcases advance_eq h with rfl | rfl <;> exact hp
  emit_byte := by
    intro p b q h hp
    obtain ⟨l, rfl⟩ := emit_byte_eq h
    exact hp
  make_constant := by
    intro p v b q h hp
    rcases make_constant_eq h with rfl | ⟨t, rfl⟩
    · exact hp
    · exact errorsReported_error_at _ _ _ hp
  error_at := errorsReported_error_at
  clear_panic := fun _ hp => hp

theorem compile_code_last (n : Nat) (tokens : List Token) (chunk : Chunk) :
    Post (compile n tokens chunk)
      (fun r => r.2.compiling_chunk.code.getLast? = some OpCode.OP_RETURN.byte) := by
  unfold compile
  refine Post.bind (Post.true _) ?_
  intro q _
  refine Post.bind (R := fun q2 => q2.compiling_chunk.code.getLast? = some OpCode.OP_RETURN.byte)
    ?_ ?_
  · intro q2 hq2
    obtain ⟨l, rfl⟩ := emit_byte_eq hq2
    simp [Chunk.write, emit_return]
  · intro q2 hq2
    exact Post.pure hq2

end Parser

/-- C3.  Whenever `compile` returns, on any token sequence (with or without a final EOF,
with or without syntax errors), the last byte of the chunk's code is `OP_RETURN`, and
the value returned is `false` exactly when at least one diagnostic was reported. -/
theorem compile_ends_with_return_and_reports (fuel : Nat) (tokens : List Token)
    (result : Bool) (p : Parser)
    (h : Parser.compile fuel tokens {} = Except.ok (result, p)) :
    p.compiling_chunk.code.getLast? = some OpCode.OP_RETURN.byte ∧
    (result = false ↔ p.diagnostics ≠ []) := by
  refine ⟨Parser.compile_code_last fuel tokens {} _ h, ?_⟩
  have h2 := Parser.stable_errorsReported.post_compile fuel tokens {} (by simp [Parser.ErrorsReported]) _ h
  obtain ⟨hinv, hres⟩ := h2
  dsimp only at hinv hres
  unfold Parser.ErrorsReported at hinv
  rw [hres, ← hinv]
  cases p.had_error <;> simp

set_option maxRecDepth 100000 in
theorem compile_ends_with_return_and_reports_witness :
    Parser.compile 20 (tokenize "1 )") {} = Except.ok (false,
      { tokens := tokenize "1 )", current := 2,
        compiling_chunk := { code := [0, 0, 11, 19], lines := [1, 1, 1, 1],
                             constants := [Value.number (Double.of_int 1)] },
        had_error := true, panic_mode := false,
        diagnostics := ["[line 1] Error at \x27)\x27: Expected \x27;\x27 after expression"] }) ∧
    ([0, 0, 11, 19].getLast? = some OpCode.OP_RETURN.byte ∧
     (false = false ↔
       ["[line 1] Error at \x27)\x27: Expected \x27;\x27 after expression"] ≠ [])) :=
  ⟨by decide, compile_ends_with_return_and_reports 20 (tokenize "1 )") false
      { tokens := tokenize "1 )", current := 2,
        compiling_chunk := { code := [0, 0, 11, 19], lines := [1, 1, 1, 1],
                             constants := [Value.number (Double.of_int 1)] },
        had_error := true, panic_mode := false,
        diagnostics := ["[line 1] Error at \x27)\x27: Expected \x27;\x27 after expression"] }
      (by decide)⟩

end Replit

namespace Replit

namespace VM

/-! ### The dispatch loop -/

theorem runtime_error_stack (vm : VM) (m : String) : (vm.runtime_error m).stack = [] := rfl

theorem runtime_error_cout (vm : VM) (m : String) : (vm.runtime_error m).cout = vm.cout := rfl

theorem binary_op_ret {vm vm2 : VM} {op : Double → Double → Value} {r : InterpretResult}
    (h : binary_op vm op = Step.ret r vm2) :
    r = InterpretResult.RUNTIME_ERROR ∧ vm2 = vm.runtime_error "Operands must be numbers" := by
  unfold binary_op at h
  split at h
  all_goals first
    | (cases h; done)
    | (cases h; exact ⟨rfl, rfl⟩)

theorem op_add_ret {vm vm2 : VM} {r : InterpretResult} (h : op_add vm = Step.ret r vm2) :
    r = InterpretResult.RUNTIME_ERROR ∧ vm2 = vm.runtime_error "Operands must be numbers" := by
  unfold op_add at h
  split at h
  · cases h
  · split at h <;> cases h
  · split at h
    · split at h
      · cases h
      · split at h <;> cases h
    · exact binary_op_ret h

theorem op_constant_ret {vm vm2 : VM} {r : InterpretResult}
    (h : op_constant vm = Except.ok (Step.ret r vm2)) : False := by
  unfold op_constant at h
  split at h
  · cases h
  · split at h <;> cases h

/-- Every `return` of a turn of the loop other than the one of `OP_RETURN` comes right
after a call of `runtime_error`. -/
theorem execute_ret {vm vm2 : VM} {op : Option OpCode} {r : InterpretResult}
    (h : execute vm op = Except.ok (Step.ret r vm2)) :
    (r = InterpretResult.OK ∧ vm2 = vm) ∨
    (r = InterpretResult.RUNTIME_ERROR ∧ ∃ m, vm2 = runtime_error vm m) := by
  unfold execute at h
  split at h
  · exact (op_constant_ret h).elim
  · simp only [Except.ok.injEq] at h
    exact Or.inr ⟨(op_add_ret h).1, _, (op_add_ret h).2⟩
  · simp only [Except.ok.injEq] at h
    exact Or.inr ⟨(binary_op_ret h).1, _, (binary_op_ret h).2⟩
  · simp only [Except.ok.injEq] at h
    exact Or.inr ⟨(binary_op_ret h).1, _, (binary_op_ret h).2⟩
  · simp only [Except.ok.injEq] at h
    exact Or.inr ⟨(binary_op_ret h).1, _, (binary_op_ret h).2⟩
  · split at h
    · cases h
    · cases h
    · cases h
      exact Or.inr ⟨rfl, _, rfl⟩
  · split at h <;> cases h
  · split at h <;> cases h
  · simp only [Except.ok.injEq] at h
    exact Or.inr ⟨(binary_op_ret h).1, _, (binary_op_ret h).2⟩
  · simp only [Except.ok.injEq] at h
    exact Or.inr ⟨(binary_op_ret h).1, _, (binary_op_ret h).2⟩
  · split at h
    · cases h
    · split at h <;> cases h
  · split at h <;> cases h
  · cases h
    exact Or.inl ⟨rfl, rfl⟩
  · cases h
    exact Or.inr ⟨rfl, _, rfl⟩

theorem step_ret {vm vm2 : VM} {r : InterpretResult}
    (h : step vm = Except.ok (Step.ret r vm2)) :
    (r = InterpretResult.OK ∧ vm2.stack = vm.stack) ∨
    (r = InterpretResult.RUNTIME_ERROR ∧ ∃ vm1 m, vm2 = runtime_error vm1 m) := by
  unfold step at h
  split at h
  · cases h
  · rcases execute_ret h with ⟨hr, rfl⟩ | ⟨hr, m, rfl⟩
    · exact Or.inl ⟨hr, rfl⟩
    · exact Or.inr ⟨hr, _, m, rfl⟩

end VM

namespace VM

theorem run_error_stack (fuel : Nat) : ∀ (vm vm2 : VM),
    run fuel vm = Except.ok (InterpretResult.RUNTIME_ERROR, vm2) → vm2.stack = [] := by
  induction fuel with
  | zero =>
    intro vm vm2 h
    rw [run] at h
    cases h
  | succ n ih =>
    intro vm vm2 h
    rw [run] at h
    split at h
    · cases h
    · exact ih _ _ h
    · next r vm1 hstep =>
      cases h
      rcases step_ret hstep with ⟨hr, _⟩ | ⟨_, vm0, m, rfl⟩
      · cases hr
      · rfl
    · cases h
      rfl

end VM

/-- C9.  For every chunk, every instruction pointer and every starting stack (they are
all part of `vm`): whenever `run` returns `RUNTIME_ERROR`, whether for a type error, a
stack underflow, an unknown opcode or any other caught exception, the operand stack is
empty on return. -/
theorem run_runtime_error_leaves_stack_empty (fuel : Nat) (vm vm2 : VM)
    (h : VM.run fuel vm = Except.ok (InterpretResult.RUNTIME_ERROR, vm2)) :
    vm2.stack = [] :=
  VM.run_error_stack fuel vm vm2 h

end Replit

namespace Replit

theorem OpCode.of_byte_byte (op : OpCode) : OpCode.of_byte op.byte = some op := by
  cases op <;> rfl

namespace VM

theorem runtime_error_cerr (vm : VM) (m : String) :
    ∃ tail, (vm.runtime_error m).cerr = vm.cerr ++ ("Runtime error: " ++ m) :: tail := by
  unfold runtime_error
  dsimp only
  split
  · exact ⟨_, rfl⟩
  · exact ⟨_, rfl⟩

theorem binary_op_numbers (vm : VM) (op : Double → Double → Value) (x y : Double)
    (rest : List Value) (h : vm.stack = Value.number y :: Value.number x :: rest) :
    binary_op vm op = Step.next { vm with stack := op x y :: rest } := by
  unfold binary_op
  rw [h]

theorem binary_op_not_numbers (vm : VM) (op : Double → Double → Value) (a b : Value)
    (rest : List Value) (h : vm.stack = b :: a :: rest)
    (hab : a.is_number = false ∨ b.is_number = false) :
    binary_op vm op =
      Step.ret InterpretResult.RUNTIME_ERROR (vm.runtime_error "Operands must be numbers") := by
  unfold binary_op
  rw [h]
  cases a <;> cases b <;> simp [Value.is_number] at hab ⊢

theorem step_binary (vm : VM) (op : OpCode)
    (hop : op = OpCode.OP_SUBTRACT ∨ op = OpCode.OP_MULTIPLY ∨ op = OpCode.OP_DIVIDE
      ∨ op = OpCode.OP_GREATER ∨ op = OpCode.OP_LESS)
    (hfetch : vm.chunk.code.get? vm.ip = some op.byte) :
    step vm = Except.ok (binary_op { vm with ip := vm.ip + 1 } (spec_binary op)) := by
  unfold step
  rw [hfetch]
  dsimp only
  rw [OpCode.of_byte_byte]
  rcases hop with rfl | rfl | rfl | rfl | rfl <;> rfl

end VM

/-- C10.  SUBTRACT, MULTIPLY, DIVIDE, GREATER and LESS, fetched with `b` on top of the
stack and `a` beneath it: if both are numbers, the turn of the loop replaces the two by the
single value `a OP b` and goes on with the next instruction; if either is not a number,
`run` returns `RUNTIME_ERROR`, the line `Runtime error: Operands must be numbers` is
written to the error stream, nothing is printed and no result is pushed (the stack is
empty). -/
theorem binary_numeric_instruction (fuel : Nat) (vm : VM) (op : OpCode) (a b : Value)
    (rest : List Value)
    (hop : op = OpCode.OP_SUBTRACT ∨ op = OpCode.OP_MULTIPLY ∨ op = OpCode.OP_DIVIDE
      ∨ op = OpCode.OP_GREATER ∨ op = OpCode.OP_LESS)
    (hfetch : vm.chunk.code.get? vm.ip = some op.byte)
    (hstack : vm.stack = b :: a :: rest) :
    (∀ x y, a = Value.number x → b = Value.number y →
      VM.step vm = Except.ok (Step.next
        { vm with ip := vm.ip + 1, stack := spec_binary op x y :: rest })) ∧
    ((a.is_number = false ∨ b.is_number = false) →
      ∃ vm2 tail, VM.run (fuel + 1) vm = Except.ok (InterpretResult.RUNTIME_ERROR, vm2) ∧
        vm2.cerr = vm.cerr ++ "Runtime error: Operands must be numbers" :: tail ∧
        vm2.cout = vm.cout ∧ vm2.stack = []) := by
  constructor
  · intro x y ha hb
    subst ha hb
    rw [VM.step_binary vm op hop hfetch]
    rw [VM.binary_op_numbers { vm with ip := vm.ip + 1 } _ x y rest hstack]
  · intro hab
    obtain ⟨tail, htail⟩ :=
      VM.runtime_error_cerr { vm with ip := vm.ip + 1 } "Operands must be numbers"
    refine ⟨VM.runtime_error { vm with ip := vm.ip + 1 } "Operands must be numbers", tail,
      ?_, htail, rfl, rfl⟩
    rw [VM.run, VM.step_binary vm op hop hfetch]
    rw [VM.binary_op_not_numbers { vm with ip := vm.ip + 1 } _ a b rest hstack hab]

set_option maxRecDepth 100000 in
theorem binary_numeric_instruction_witness :
    (∀ x y, Value.number (Double.of_int 7) = Value.number x → Value.string "a" = Value.number y →
      VM.step { chunk := { code := [2, 19], lines := [1, 1] },
                stack := [Value.string "a", Value.number (Double.of_int 7), Value.nil] }
        = Except.ok (Step.next
          { chunk := { code := [2, 19], lines := [1, 1] }, ip := 0 + 1,
            stack := spec_binary OpCode.OP_SUBTRACT x y :: [Value.nil] })) ∧
    ((Value.is_number (Value.number (Double.of_int 7)) = false
        ∨ Value.is_number (Value.string "a") = false) →
      ∃ vm2 tail,
        VM.run (0 + 1)
            { chunk := { code := [2, 19], lines := [1, 1] },
              stack := [Value.string "a", Value.number (Double.of_int 7), Value.nil] }
          = Except.ok (InterpretResult.RUNTIME_ERROR, vm2) ∧
        vm2.cerr = [] ++ "Runtime error: Operands must be numbers" :: tail ∧
        vm2.cout = "" ∧ vm2.stack = []) :=
  binary_numeric_instruction 0
    { chunk := { code := [2, 19], lines := [1, 1] },
      stack := [Value.string "a", Value.number (Double.of_int 7), Value.nil] }
    OpCode.OP_SUBTRACT (Value.number (Double.of_int 7)) (Value.string "a") [Value.nil]
    (Or.inl rfl) (by decide) rfl

set_option maxRecDepth 100000 in
theorem run_runtime_error_leaves_stack_empty_witness :
    VM.run 5 { chunk := { code := [0, 0, 0, 1, 2, 19], lines := [1, 1, 1, 1, 1, 1],
                          constants := [Value.number (Double.of_int 1), Value.string "a"] },
               stack := [Value.nil] }
      = Except.ok (InterpretResult.RUNTIME_ERROR,
          { chunk := { code := [0, 0, 0, 1, 2, 19], lines := [1, 1, 1, 1, 1, 1],
                       constants := [Value.number (Double.of_int 1), Value.string "a"] },
            ip := 5, stack := [],
            cerr := ["Runtime error: Operands must be numbers", "[line 1] in script"] }) ∧
    ([] : List Value) = [] :=
  ⟨by decide, run_runtime_error_leaves_stack_empty 5
    { chunk := { code := [0, 0, 0, 1, 2, 19], lines := [1, 1, 1, 1, 1, 1],
                 constants := [Value.number (Double.of_int 1), Value.string "a"] },
      stack := [Value.nil] }
    { chunk := { code := [0, 0, 0, 1, 2, 19], lines := [1, 1, 1, 1, 1, 1],
                 constants := [Value.number (Double.of_int 1), Value.string "a"] },
      ip := 5, stack := [],
      cerr := ["Runtime error: Operands must be numbers", "[line 1] in script"] }
    (by decide)⟩

end Replit

namespace Replit

/-! ### Fuel only decides whether a computation is cut short -/

theorem Le.same {α : Type} (x : Except Fault α) : Le x x := Or.inr rfl

theorem Le.of_fuel {α : Type} (y : Except Fault α) : Le (Except.error Fault.out_of_fuel) y :=
  Or.inl rfl

theorem Le.bind_both {α β : Type} {x y : Except Fault α} {f g : α → Except Fault β}
    (hx : Le x y) (hf : ∀ a, Le (f a) (g a)) : Le (x >>= f) (y >>= g) := by
  rcases hx with rfl | rfl
  · exact Or.inl rfl
  · cases y with
    | error e => exact Or.inr rfl
    | ok a => exact hf a

theorem Le.bind_right {α β : Type} (x : Except Fault α) {f g : α → Except Fault β}
    (hf : ∀ a, Le (f a) (g a)) : Le (x >>= f) (x >>= g) :=
  Le.bind_both (Le.same x) hf

theorem Le.chain {α : Type} {x y z : Except Fault α} (h1 : Le x y) (h2 : Le y z) : Le x z := by
  rcases h1 with rfl | rfl
  · exact Or.inl rfl
  · exact h2

/-- With a result in hand, more fuel gives the same result. -/
theorem Le.ok_of_ok {α : Type} {x y : Except Fault α} {a : α} (h : Le x y) (hx : x = Except.ok a) :
    y = Except.ok a := by
  rcases h with rfl | rfl
  · cases hx
  · exact hx

namespace Parser

theorem mono_all : ∀ n,
    Mono primary n ∧ Mono unary n ∧ Mono factor_loop n ∧ Mono factor n
    ∧ Mono term_loop n ∧ Mono term n ∧ Mono comparison_loop n
    ∧ Mono comparison n ∧ Mono equality_loop n ∧ Mono equality n
    ∧ Mono and_expression n ∧ Mono or_expression n ∧ Mono expression n := by
  intro n
  induction n with
  | zero =>
    refine ⟨?_, ?_, ?_, ?_, ?_, ?_, ?_, ?_, ?_, ?_, ?_, ?_, ?_⟩ <;>
      (intro p; first
        | rw [primary] | rw [unary] | rw [factor_loop] | rw [factor] | rw [term_loop]
        | rw [term] | rw [comparison_loop] | rw [comparison] | rw [equality_loop]
        | rw [equality] | rw [and_expression] | rw [or_expression] | rw [expression]) <;>
      exact Le.of_fuel _
  | succ n ih =>
    obtain ⟨hprimary, hunary, hfactor_loop, hfactor, hterm_loop, hterm, hcomparison_loop,
      hcomparison, hequality_loop, hequality, hand, hor, hexpression⟩ := ih
    refine ⟨?_, ?_, ?_, ?_, ?_, ?_, ?_, ?_, ?_, ?_, ?_, ?_, ?_⟩
    · -- primary
      intro p
      rw [primary, primary]
      refine Le.bind_right _ ?_
      rintro ⟨m, p⟩
      cases m
      swap
      · exact Le.same _
      refine Le.bind_right _ ?_
      rintro ⟨m, p⟩
      cases m
      swap
      · exact Le.same _
      refine Le.bind_right _ ?_
      rintro ⟨m, p⟩
      cases m
      swap
      · exact Le.same _
      refine Le.bind_right _ ?_
      rintro ⟨m, p⟩
      cases m
      swap
      · exact Le.same _
      refine Le.bind_right _ ?_
      rintro ⟨m, p⟩
      cases m
      swap
      · exact Le.same _
      refine Le.bind_right _ ?_
      rintro ⟨m, p⟩
      cases m
      · exact Le.same _
      · exact Le.bind_both (hexpression p) (fun q => Le.same _)
    · -- unary
      intro p
      rw [unary, unary]
      refine Le.bind_right _ ?_
      rintro ⟨m, p⟩
      cases m
      · exact hprimary p
      · refine Le.bind_right _ ?_
        intro t
        exact Le.bind_both (hunary p) (fun q => Le.same _)
    · -- factor_loop
      intro p
      rw [factor_loop, factor_loop]
      refine Le.bind_right _ ?_
      rintro ⟨m, p⟩
      cases m
      · exact Le.same _
      · refine Le.bind_right _ ?_
        intro t
        refine Le.bind_both (hunary p) ?_
        intro q
        dsimp only
        split_ifs
        all_goals exact Le.bind_right _ (fun q2 => hfactor_loop q2)
    · -- factor
      intro p
      rw [factor, factor]
      exact Le.bind_both (hunary p) (fun q => hfactor_loop q)
    · -- term_loop
      intro p
      rw [term_loop, term_loop]
      refine Le.bind_right _ ?_
      rintro ⟨m, p⟩
      cases m
      · exact Le.same _
      · refine Le.bind_right _ ?_
        intro t
        refine Le.bind_both (hfactor p) ?_
        intro q
        dsimp only
        split_ifs
        all_goals exact Le.bind_right _ (fun q2 => hterm_loop q2)
    · -- term
      intro p
      rw [term, term]
      exact Le.bind_both (hfactor p) (fun q => hterm_loop q)
    · -- comparison_loop
      intro p
      rw [comparison_loop, comparison_loop]
      refine Le.bind_right _ ?_
      rintro ⟨m, p⟩
      cases m
      · exact Le.same _
      · refine Le.bind_right _ ?_
        intro t
        refine Le.bind_both (hterm p) ?_
        intro q
        dsimp only
        split_ifs
        all_goals exact Le.bind_right _ (fun q2 => hcomparison_loop q2)
    · -- comparison
      intro p
      rw [comparison, comparison]
      exact Le.bind_both (hterm p) (fun q => hcomparison_loop q)
    · -- equality_loop
      intro p
      rw [equality_loop, equality_loop]
      refine Le.bind_right _ ?_
      rintro ⟨m, p⟩
      cases m
      · exact Le.same _
      · refine Le.bind_right _ ?_
        intro t
        refine Le.bind_both (hcomparison p) ?_
        intro q
        dsimp only
        split_ifs
        all_goals exact Le.bind_right _ (fun q2 => hequality_loop q2)
    · -- equality
      intro p
      rw [equality, equality]
      exact Le.bind_both (hcomparison p) (fun q => hequality_loop q)
    · -- and_expression
      intro p
      rw [and_expression, and_expression]
      exact hequality p
    · -- or_expression
      intro p
      rw [or_expression, or_expression]
      exact hand p
    · -- expression
      intro p
      rw [expression, expression]
      exact hor p

theorem mono_expression (n : Nat) (p : Parser) : Le (expression n p) (expression (n + 1) p) :=
  (mono_all n).2.2.2.2.2.2.2.2.2.2.2.2 p

theorem mono_synchronize_loop (n : Nat) :
    ∀ p, Le (synchronize_loop n p) (synchronize_loop (n + 1) p) := by
  induction n with
  | zero =>
    intro p
    rw [synchronize_loop]
    exact Le.of_fuel _
  | succ n ih =>
    intro p
    rw [synchronize_loop, synchronize_loop]
    refine Le.bind_right _ ?_
    intro t
    split_ifs
    · refine Le.bind_right _ ?_
      intro prev
      split_ifs
      · exact Le.same _
      · refine Le.bind_right _ ?_
        intro t2
        split_ifs
        · exact Le.same _
        · refine Le.bind_right _ ?_
          rintro ⟨t3, q⟩
          exact ih q
    · exact Le.same _

theorem mono_statement (n : Nat) (p : Parser) : Le (statement n p) (statement (n + 1) p) := by
  unfold statement
  refine Le.bind_right _ ?_
  rintro ⟨m, q⟩
  cases m
  · exact Le.bind_both (mono_expression n q) (fun q2 => Le.same _)
  · exact Le.bind_both (mono_expression n q) (fun q2 => Le.same _)

theorem mono_declaration (n : Nat) (p : Parser) :
    Le (declaration n p) (declaration (n + 1) p) := by
  unfold declaration
  refine Le.bind_right _ ?_
  rintro ⟨m, q⟩
  have hrest : ∀ q2 : Parser,
      Le (if q2.panic_mode = true then synchronize n q2 else Except.ok q2)
        (if q2.panic_mode = true then synchronize (n + 1) q2 else Except.ok q2) := by
    intro q2
    split_ifs
    · exact mono_synchronize_loop n _
    · exact Le.same _
  cases m
  · exact Le.bind_both (mono_statement n q) hrest
  · exact Le.bind_right _ hrest

theorem mono_compile_loop (n : Nat) : ∀ p, Le (compile_loop n p) (compile_loop (n + 1) p) := by
  induction n with
  | zero =>
    intro p
    rw [compile_loop]
    exact Le.of_fuel _
  | succ n ih =>
    intro p
    rw [compile_loop, compile_loop]
    refine Le.bind_right _ ?_
    intro c
    cases c
    · refine Le.bind_right _ ?_
      rintro ⟨m, q⟩
      cases m
      · exact Le.bind_both (mono_declaration n q) (fun q2 => ih q2)
      · exact ih q
    · exact Le.same _

theorem mono_compile (n : Nat) (tokens : List Token) (chunk : Chunk) :
    Le (compile n tokens chunk) (compile (n + 1) tokens chunk) := by
  unfold compile
  exact Le.bind_both (mono_compile_loop n _) (fun q => Le.same _)

/-- A result of `compile` is the result for every larger amount of fuel. -/
theorem compile_fuel {n : Nat} {tokens : List Token} {chunk : Chunk} {r : Bool × Parser}
    (h : compile n tokens chunk = Except.ok r) (m : Nat) :
    compile (n + m) tokens chunk = Except.ok r := by
  induction m with
  | zero => exact h
  | succ m ih => exact (mono_compile (n + m) tokens chunk).ok_of_ok ih

end Parser

end Replit

namespace Replit

namespace Parser

/-! ### A declaration that consumes nothing -/

theorem le_of_le {f : Nat → Parser → Except Fault Parser}
    (hf : ∀ n p, Le (f n p) (f (n + 1) p)) {n m : Nat} (h : n ≤ m) (p : Parser) :
    Le (f n p) (f m p) := by
  induction h with
  | refl => exact Le.same _
  | step _ ih => exact ih.chain (hf _ p)

/-- If some amount of fuel gives a result, every amount gives that result or runs out. -/
theorem any_fuel {f : Nat → Parser → Except Fault Parser}
    (hf : ∀ n p, Le (f n p) (f (n + 1) p)) {m : Nat} {p q : Parser}
    (h : f m p = Except.ok q) (n : Nat) :
    f n p = Except.error Fault.out_of_fuel ∨ f n p = Except.ok q := by
  rcases Nat.le_total n m with hle | hle
  · rcases le_of_le hf hle p with h1 | h1
    · exact Or.inl h1
    · exact Or.inr (h1 ▸ h)
  · exact Or.inr ((le_of_le hf hle p).ok_of_ok h)

theorem match_ne {p : Parser} {t : Token} (hpeek : p.peek = Except.ok t) {type : TokenType}
    (h : t.type ≠ type) : p.match type = Except.ok (false, p) := by
  unfold Parser.match check
  rw [hpeek]
  simp [h]

theorem peek_error_at (p : Parser) (t : Token) (m : String) : (p.error_at t m).peek = p.peek := by
  unfold error_at
  split <;> rfl

theorem previous_error_at (p : Parser) (t : Token) (m : String) :
    (p.error_at t m).previous = p.previous := by
  unfold error_at
  split <;> rfl

theorem error_at_panic (p : Parser) (t : Token) (m : String) :
    (p.error_at t m).panic_mode = true := by
  unfold error_at
  split
  · assumption
  · rfl

theorem error_at_of_panic {p : Parser} (h : p.panic_mode = true) (t : Token) (m : String) :
    p.error_at t m = p := by
  unfold error_at
  rw [if_pos h]

section
variable {p : Parser} {t prev : Token}
  (hpeek : p.peek = Except.ok t) (hprev : p.previous = Except.ok prev)
  (hun : Unparsable t.type)
include hpeek hun

theorem primary_unparsable (hprev : p.previous = Except.ok prev) (k : Nat) :
    primary (k + 1) p = Except.ok (p.error_at prev "Expected expression") := by
  simp only [Unparsable, List.mem_cons, List.mem_singleton, not_or, List.not_mem_nil,
    not_false_eq_true, and_true] at hun
  rw [primary]
  simp [match_ne hpeek hun.2.2.2.2.2.1, match_ne hpeek hun.2.2.2.2.2.2.1,
    match_ne hpeek hun.2.2.2.2.2.2.2.1, match_ne hpeek hun.2.2.2.2.2.2.2.2.1,
    match_ne hpeek hun.2.2.2.2.2.2.2.2.2.1, match_ne hpeek hun.2.2.2.2.2.2.2.2.2.2.1,
    Parser.error, hprev]

theorem unary_unparsable (hprev : p.previous = Except.ok prev) (k : Nat) :
    unary (k + 2) p = Except.ok (p.error_at prev "Expected expression") := by
  have h1 := primary_unparsable hpeek hun hprev k
  simp only [Unparsable, List.mem_cons, List.mem_singleton, not_or, List.not_mem_nil,
    not_false_eq_true, and_true] at hun
  rw [unary]
  simp [match_or, match_ne hpeek hun.2.2.2.2.2.2.2.2.2.2.2.1,
    match_ne hpeek hun.2.2.2.2.2.2.2.2.2.2.2.2.1, h1]

theorem loops_unparsable (k : Nat) :
    factor_loop (k + 1) p = Except.ok p ∧ term_loop (k + 1) p = Except.ok p ∧
    comparison_loop (k + 1) p = Except.ok p ∧ equality_loop (k + 1) p = Except.ok p := by
  simp only [Unparsable, List.mem_cons, List.mem_singleton, not_or, List.not_mem_nil,
    not_false_eq_true, and_true] at hun
  obtain ⟨_, _, _, _, _, _, _, _, _, _, _, _, hMINUS, hMULTIPLY, hDIVIDE, hMODULO, hPLUS,
    hGREATER, hGREATER_EQUAL, hLESS, hLESS_EQUAL, hNOT_EQUAL, hEQUAL⟩ := hun
  refine ⟨?_, ?_, ?_, ?_⟩
  · rw [factor_loop]
    simp [match_or, match_ne hpeek hMULTIPLY, match_ne hpeek hDIVIDE,
      match_ne hpeek hMODULO]
  · rw [term_loop]
    simp [match_or, match_ne hpeek hPLUS, match_ne hpeek hMINUS]
  · rw [comparison_loop]
    simp [match_or, match_ne hpeek hGREATER, match_ne hpeek hGREATER_EQUAL,
      match_ne hpeek hLESS, match_ne hpeek hLESS_EQUAL]
  · rw [equality_loop]
    simp [match_or, match_ne hpeek hNOT_EQUAL, match_ne hpeek hEQUAL]

theorem expression_unparsable (hprev : p.previous = Except.ok prev) (k : Nat) :
    expression (k + 9) p = Except.ok (p.error_at prev "Expected expression") := by
  have hq : (p.error_at prev "Expected expression").peek = Except.ok t := by
    rw [peek_error_at]; exact hpeek
  have hu := unary_unparsable hpeek hun hprev
  have hl := loops_unparsable hq hun
  rw [expression, or_expression, and_expression, equality, comparison, term, factor]
  simp [hu, (hl _).1, (hl _).2.1, (hl _).2.2.1, (hl _).2.2.2]

end

theorem declaration_stuck {p : Parser} (hs : Stuck p) :
    ∃ q, declaration 9 p = Except.ok q ∧ Stuck q := by
  obtain ⟨hpanic, t, prev, hpeek, hprev, hun, hsync⟩ := hs
  have hexpr := expression_unparsable hpeek hun hprev 0
  have hun2 := hun
  simp only [Unparsable, List.mem_cons, List.mem_singleton, not_or, List.not_mem_nil,
    not_false_eq_true, and_true] at hun2
  obtain ⟨hLET, hPRINT, _, hEOF, hSEMI, _⟩ := hun2
  have hqpeek : (p.error_at prev "Expected expression").peek = Except.ok t := by
    rw [peek_error_at]; exact hpeek
  have hqprev : (p.error_at prev "Expected expression").previous = Except.ok prev := by
    rw [previous_error_at]; exact hprev
  have hqpanic := error_at_panic p prev "Expected expression"
  generalize p.error_at prev "Expected expression" = q at hexpr hqpeek hqprev hqpanic
  obtain ⟨qtokens, qcurrent, qchunk, qhad, qpanic, qdiag⟩ := q
  dsimp only at hqpanic
  subst hqpanic
  refine ⟨{ tokens := qtokens, current := qcurrent,
            compiling_chunk := qchunk.write OpCode.OP_POP.byte prev.line,
            had_error := qhad, panic_mode := false, diagnostics := qdiag },
    ?_, rfl, t, prev, hqpeek, hqprev, hun, hsync⟩
  have hstmt : expression_statement 9 p = Except.ok
      { tokens := qtokens, current := qcurrent,
        compiling_chunk := qchunk.write OpCode.OP_POP.byte prev.line,
        had_error := qhad, panic_mode := true, diagnostics := qdiag } := by
    unfold expression_statement
    simp [hexpr, consume, hqpeek, hSEMI, error_at, emit_byte, hqprev]
  have hsyn : synchronize 9
      { tokens := qtokens, current := qcurrent,
        compiling_chunk := qchunk.write OpCode.OP_POP.byte prev.line,
        had_error := qhad, panic_mode := true, diagnostics := qdiag } =
      Except.ok
        { tokens := qtokens, current := qcurrent,
          compiling_chunk := qchunk.write OpCode.OP_POP.byte prev.line,
          had_error := qhad, panic_mode := false, diagnostics := qdiag } := by
    unfold synchronize
    rw [synchronize_loop]
    have h1 : Parser.peek
        { tokens := qtokens, current := qcurrent,
          compiling_chunk := qchunk.write OpCode.OP_POP.byte prev.line,
          had_error := qhad, panic_mode := false, diagnostics := qdiag } = Except.ok t := hqpeek
    have h2 : Parser.previous
        { tokens := qtokens, current := qcurrent,
          compiling_chunk := qchunk.write OpCode.OP_POP.byte prev.line,
          had_error := qhad, panic_mode := false, diagnostics := qdiag } = Except.ok prev := hqprev
    simp only [h1, h2, bind_ok, hEOF, ne_eq, not_false_eq_true, if_true]
    rcases hsync with h | h | h | h | h | h <;> simp [h]
  unfold declaration statement
  simp [match_ne hpeek hLET, match_ne hpeek hPRINT, hstmt, hsyn, var_declaration]

/-- From a stuck state the loop of `compile` never ends: whatever the fuel, it is used
up. -/
theorem compile_loop_stuck (n : Nat) : ∀ p, Stuck p →
    compile_loop n p = Except.error Fault.out_of_fuel := by
  induction n with
  | zero =>
    intro p _
    rw [compile_loop]
  | succ n ih =>
    intro p hs
    obtain ⟨q, hq, hqs⟩ := declaration_stuck hs
    obtain ⟨_, t, prev, hpeek, _, hun, _⟩ := hs
    simp only [Unparsable, List.mem_cons, List.mem_singleton, not_or, List.not_mem_nil,
      not_false_eq_true, and_true] at hun
    obtain ⟨_, _, hNEWLINE, hEOF, _⟩ := hun
    rw [compile_loop]
    simp only [check, hpeek, bind_ok, pure_eq_ok, hEOF, decide_False, Bool.not_false, if_true,
      match_ne hpeek hNEWLINE]
    rcases any_fuel mono_declaration hq n with h | h
    · simp [h]
    · simp [h, ih q hqs]

end Parser

end Replit

namespace Replit

/-- C2 (the code at a failing input).  On the token sequence of the source `1 fn`, which
ends in EOF, `compile` does not terminate: it uses up every amount of fuel.  After the
error at `fn` the parser leaves panic mode at `fn` itself, the next declaration reports
an error there without consuming it, and so on for ever. -/
theorem compile_diverges_at_statement_keyword (fuel : Nat) :
    tokenize "1 fn" =
      [{ type := TokenType.NUMBER, lexeme := "1", line := 1, column := 1 },
       { type := TokenType.FN, lexeme := "fn", line := 1, column := 3 },
       { type := TokenType.EOF_TOKEN, lexeme := "", line := 1, column := 5 }] ∧
    Parser.compile fuel (tokenize "1 fn") {} = Except.error Fault.out_of_fuel := by
  refine ⟨by decide, ?_⟩
  suffices hloop : Parser.compile_loop fuel { tokens := tokenize "1 fn" } =
      Except.error Fault.out_of_fuel by
    unfold Parser.compile
    dsimp only
    rw [hloop]
    rfl
  cases fuel with
  | zero => rw [Parser.compile_loop]
  | succ n =>
    have hcheck : Parser.check { tokens := tokenize "1 fn", compiling_chunk := {} }
        TokenType.EOF_TOKEN = Except.ok false := by decide
    have hmatch : Parser.match { tokens := tokenize "1 fn", compiling_chunk := {} }
        TokenType.NEWLINE = Except.ok (false, { tokens := tokenize "1 fn" }) := by decide
    have hdecl : Parser.declaration 12 { tokens := tokenize "1 fn" } = Except.ok
        { tokens := tokenize "1 fn", current := 1,
          compiling_chunk := { code := [0, 0, 11], lines := [1, 1, 1],
                               constants := [Value.number (Double.of_int 1)] },
          had_error := true, panic_mode := false,
          diagnostics := ["[line 1] Error at \x27fn\x27: Expected \x27;\x27 after expression"] } := by
      decide!
    have hstuck : Parser.Stuck
        { tokens := tokenize "1 fn", current := 1,
          compiling_chunk := { code := [0, 0, 11], lines := [1, 1, 1],
                               constants := [Value.number (Double.of_int 1)] },
          had_error := true, panic_mode := false,
          diagnostics := ["[line 1] Error at \x27fn\x27: Expected \x27;\x27 after expression"] } :=
      ⟨rfl, { type := TokenType.FN, lexeme := "fn", line := 1, column := 3 },
        { type := TokenType.NUMBER, lexeme := "1", line := 1, column := 1 },
        by decide, by decide, by unfold Parser.Unparsable; decide, Or.inr (Or.inl rfl)⟩
    rw [Parser.compile_loop]
    simp only [hcheck, hmatch, bind_ok, Bool.not_false, if_true]
    rcases Parser.any_fuel Parser.mono_declaration hdecl n with h | h
    · simp [h]
    · simp [h, Parser.compile_loop_stuck n _ hstuck]

/-- C1 (the code at a failing input).  The source `print 1; ) print 2;` has a stray `)`
followed by a valid statement.  `interpret` never returns on it, so it does not yield
`COMPILE_ERROR` and `print 2;` is never compiled: after `print 1;` the parser reports
the error at `)`, `synchronize` returns at once because the previous token is `;`, and
the next declaration starts at the same `)`. -/
theorem interpret_diverges_at_stray_paren (fuel : Nat) (vm : VM) :
    VM.interpret fuel vm "print 1; ) print 2;" = Except.error Fault.out_of_fuel := by
  have hcompile : Parser.compile fuel (tokenize "print 1; ) print 2;") {} =
      Except.error Fault.out_of_fuel := by
    suffices hloop : Parser.compile_loop fuel { tokens := tokenize "print 1; ) print 2;" } =
        Except.error Fault.out_of_fuel by
      unfold Parser.compile
      dsimp only
      rw [hloop]
      rfl
    cases fuel with
    | zero => rw [Parser.compile_loop]
    | succ n =>
      have hcheck : Parser.check { tokens := tokenize "print 1; ) print 2;", compiling_chunk := {} }
          TokenType.EOF_TOKEN = Except.ok false := by decide
      have hmatch : Parser.match { tokens := tokenize "print 1; ) print 2;", compiling_chunk := {} }
          TokenType.NEWLINE = Except.ok (false, { tokens := tokenize "print 1; ) print 2;" }) := by
        decide!
      have hdecl : Parser.declaration 12 { tokens := tokenize "print 1; ) print 2;" } = Except.ok
          { tokens := tokenize "print 1; ) print 2;", current := 3,
            compiling_chunk := { code := [0, 0, 10], lines := [1, 1, 1],
                                 constants := [Value.number (Double.of_int 1)] } } := by
        decide!
      have hstuck : Parser.Stuck
          { tokens := tokenize "print 1; ) print 2;", current := 3,
            compiling_chunk := { code := [0, 0, 10], lines := [1, 1, 1],
                                 constants := [Value.number (Double.of_int 1)] } } :=
        ⟨rfl, { type := TokenType.RPAREN, lexeme := ")", line := 1, column := 10 },
          { type := TokenType.SEMICOLON, lexeme := ";", line := 1, column := 8 },
          by decide, by decide, by unfold Parser.Unparsable; decide, Or.inl rfl⟩
      rw [Parser.compile_loop]
      simp only [hcheck, hmatch, bind_ok, Bool.not_false, if_true]
      rcases Parser.any_fuel Parser.mono_declaration hdecl n with h | h
      · simp [h]
      · simp [h, Parser.compile_loop_stuck n _ hstuck]
  unfold VM.interpret
  simp only [hcompile]

/-- C4 (the code at a failing input).  The source `1 "abc` contains an unterminated
string literal.  `interpret` returns `COMPILE_ERROR` without running anything, but the
only diagnostic is the parser's `Expected ';' after expression`; the text
`Unterminated string`, which the lexer puts into the ERROR token, is never written. -/
theorem unterminated_string_text_not_reported (k : Nat) (vm : VM) :
    (tokenize "1 \"abc").map (fun t => (t.type, t.lexeme)) =
      [(TokenType.NUMBER, "1"), (TokenType.ERROR, "Unterminated string"),
       (TokenType.EOF_TOKEN, "")] ∧
    VM.interpret (20 + k) vm "1 \"abc" = Except.ok (InterpretResult.COMPILE_ERROR,
      { vm with cerr := vm.cerr ++ ["[line 1] Error: Expected \x27;\x27 after expression"] }) := by
  refine ⟨by decide, ?_⟩
  have hcompile : Parser.compile 20 (tokenize "1 \"abc") {} = Except.ok (false,
      { tokens := tokenize "1 \"abc", current := 2,
        compiling_chunk := { code := [0, 0, 11, 19], lines := [1, 1, 1, 1],
                             constants := [Value.number (Double.of_int 1)] },
        had_error := true, panic_mode := false,
        diagnostics := ["[line 1] Error: Expected \x27;\x27 after expression"] }) := by
    decide!
  unfold VM.interpret
  simp only [Parser.compile_fuel hcompile k]

/-- C6 (the code at a failing input).  `print "a"+1;` prints `a1.000000`, not `a1`: ADD
turns the number into text with `std::to_string`, which always writes six decimals,
whereas PRINT writes the integral number 1 as `1`; symmetrically `print 1+"a";` prints
`1.000000a`. -/
theorem add_stringifies_with_six_decimals :
    ReplitEngine.run_code 20 {} "print \"a\"+1;" =
      Except.ok ("a1.000000\n",
        { vm := { chunk := { code := [0, 0, 0, 1, 1, 10, 19], lines := [1, 1, 1, 1, 1, 1, 1],
                             constants := [Value.string "a", Value.number (Double.of_int 1)] },
                  ip := 7 } }) ∧
    ReplitEngine.run_code 20 {} "print 1+\"a\";" =
      Except.ok ("1.000000a\n",
        { vm := { chunk := { code := [0, 0, 0, 1, 1, 10, 19], lines := [1, 1, 1, 1, 1, 1, 1],
                             constants := [Value.number (Double.of_int 1), Value.string "a"] },
                  ip := 7 } }) ∧
    ReplitEngine.run_code 20 {} "print 1;" =
      Except.ok ("1\n",
        { vm := { chunk := { code := [0, 0, 10, 19], lines := [1, 1, 1, 1],
                             constants := [Value.number (Double.of_int 1)] },
                  ip := 4 } }) := by
  decide!

end Replit

namespace Replit

/-- C8 (the claim fails).  After `interpret("1 % 2;")` on a new VM has returned `OK`, the
call `interpret("print 3;")` reaches execution and dispatches its first instruction
(`ip = 0`) with the value 1 still on the operand stack. -/
theorem first_dispatch_on_leftover_stack :
    ∃ vm1 p, VM.interpret 20 VM.new "1 % 2;" = Except.ok (InterpretResult.OK, vm1) ∧
      Parser.compile 20 (tokenize "print 3;") {} = Except.ok (true, p) ∧
      VM.interpret 20 vm1 "print 3;" = VM.run 20 (vm1.bind_chunk p) ∧
      (vm1.bind_chunk p).ip = 0 ∧
      (vm1.bind_chunk p).stack = [Value.number (Double.of_int 1)] :=
  ⟨{ chunk := { code := [0, 0, 0, 1, 11, 19], lines := [1, 1, 1, 1, 1, 1],
                constants := [Value.number (Double.of_int 1), Value.number (Double.of_int 2)] },
     ip := 6, stack := [Value.number (Double.of_int 1)] },
   { tokens := tokenize "print 3;", current := 3,
     compiling_chunk := { code := [0, 0, 10, 19], lines := [1, 1, 1, 1],
                          constants := [Value.number (Double.of_int 3)] } },
   by decide!, by decide!, by decide!, rfl, rfl⟩

/-- C8 (amended).  `interpret` does not reset the operand stack.  In every call that
reaches execution (the compile succeeded) it runs the new chunk from its first byte on
the stack exactly as the caller left it; that stack is empty on a new VM, and it is empty
after every call that returned `RUNTIME_ERROR`. -/
theorem interpret_runs_on_inherited_stack (fuel : Nat) (vm : VM) (source : String)
    (p : Parser) (h : Parser.compile fuel (tokenize source) {} = Except.ok (true, p)) :
    VM.interpret fuel vm source = VM.run fuel (vm.bind_chunk p) ∧
    (vm.bind_chunk p).chunk = p.compiling_chunk ∧ (vm.bind_chunk p).ip = 0 ∧
    (vm.bind_chunk p).stack = vm.stack ∧
    VM.new.stack = [] ∧
    (∀ vm2, VM.interpret fuel vm source = Except.ok (InterpretResult.RUNTIME_ERROR, vm2) →
      vm2.stack = []) := by
  have hrun : VM.interpret fuel vm source = VM.run fuel (vm.bind_chunk p) := by
    unfold VM.interpret
    simp only [h]
  refine ⟨hrun, rfl, rfl, rfl, rfl, ?_⟩
  intro vm2 h2
  rw [hrun] at h2
  exact VM.run_error_stack fuel _ _ h2

theorem interpret_runs_on_inherited_stack_witness :
    Parser.compile 20 (tokenize "print 1 - nil;") {} = Except.ok (true,
      { tokens := tokenize "print 1 - nil;", current := 5,
        compiling_chunk := { code := [0, 0, 0, 1, 2, 10, 19], lines := [1, 1, 1, 1, 1, 1, 1],
                             constants := [Value.number (Double.of_int 1), Value.nil] } }) ∧
    (VM.interpret 20 { stack := [Value.boolean true] } "print 1 - nil;" =
      VM.run 20
        { chunk := { code := [0, 0, 0, 1, 2, 10, 19], lines := [1, 1, 1, 1, 1, 1, 1],
                     constants := [Value.number (Double.of_int 1), Value.nil] },
          ip := 0, stack := [Value.boolean true], cerr := [] ++ [] } ∧
     ({ code := [0, 0, 0, 1, 2, 10, 19], lines := [1, 1, 1, 1, 1, 1, 1],
        constants := [Value.number (Double.of_int 1), Value.nil] } : Chunk) =
       { code := [0, 0, 0, 1, 2, 10, 19], lines := [1, 1, 1, 1, 1, 1, 1],
         constants := [Value.number (Double.of_int 1), Value.nil] } ∧
     (0 : Nat) = 0 ∧ [Value.boolean true] = [Value.boolean true] ∧ VM.new.stack = [] ∧
     (∀ vm2, VM.interpret 20 { stack := [Value.boolean true] } "print 1 - nil;" =
        Except.ok (InterpretResult.RUNTIME_ERROR, vm2) → vm2.stack = [])) :=
  ⟨by decide!, interpret_runs_on_inherited_stack 20 { stack := [Value.boolean true] }
    "print 1 - nil;"
    { tokens := tokenize "print 1 - nil;", current := 5,
      compiling_chunk := { code := [0, 0, 0, 1, 2, 10, 19], lines := [1, 1, 1, 1, 1, 1, 1],
                           constants := [Value.number (Double.of_int 1), Value.nil] } }
    (by decide!)⟩

end Replit

namespace Replit

/-! ### Straight-line code that stays above the stack it was started on -/

theorem SameRun.printed {cout cout2 : String} {cerr cerr2 : List String} {text : String}
    {x y : Except Fault (InterpretResult × VM)}
    (h : SameRun (cout ++ text) (cout2 ++ text) cerr cerr2 x y) :
    SameRun cout cout2 cerr cerr2 x y := by
  unfold SameRun at h ⊢
  split at h
  · exact h
  · obtain ⟨hr, ⟨out, h1, h2⟩, herr⟩ := h
    exact ⟨hr, ⟨text ++ out, by rw [h1, String.append_assoc], by rw [h2, String.append_assoc]⟩, herr⟩
  · exact h

theorem sameRun_runtime_error (c : Chunk) (ip : Nat) (s s2 : List Value) (cout cout2 : String)
    (cerr cerr2 : List String) (m : String) :
    SameRun cout cout2 cerr cerr2
      (Except.ok (InterpretResult.RUNTIME_ERROR,
        VM.runtime_error { chunk := c, ip := ip, stack := s, cout := cout, cerr := cerr } m))
      (Except.ok (InterpretResult.RUNTIME_ERROR,
        VM.runtime_error { chunk := c, ip := ip, stack := s2, cout := cout2, cerr := cerr2 } m)) := by
  unfold SameRun VM.runtime_error VM.reset_stack
  exact ⟨rfl, ⟨"", by simp, by simp⟩, ⟨_, rfl, rfl⟩⟩

theorem drop_eq_cons {α : Type} {l : List α} {n : Nat} {b : α} {rest : List α}
    (h : l.drop n = b :: rest) : l.get? n = some b ∧ l.drop (n + 1) = rest := by
  induction l generalizing n with
  | nil => simp at h
  | cons a l ih =>
    cases n with
    | zero =>
      simp only [List.drop_zero, List.cons.injEq] at h
      obtain ⟨rfl, rfl⟩ := h
      simp
    | succ n =>
      simp only [List.drop_succ_cons] at h
      simpa using ih h

namespace VM

/-- Straight-line code whose depth stays above the starting stack runs the same way on
every starting stack: the values below its own are never looked at. -/
theorem run_same (c : Chunk) (base base2 : List Value) (cerr cerr2 : List String)
    (fuel : Nat) : ∀ (ip : Nat) (body tail : List Nat) (top : List Value) (d : Nat)
      (cout cout2 : String),
    c.code.drop ip = body ++ OpCode.OP_RETURN.byte :: tail →
    depth_scan (false, top.length) body = some (false, d) →
    SameRun cout cout2 cerr cerr2
      (run fuel { chunk := c, ip := ip, stack := top ++ base, cout := cout, cerr := cerr })
      (run fuel { chunk := c, ip := ip, stack := top ++ base2, cout := cout2, cerr := cerr2 }) := by
  induction fuel with
  | zero =>
    intro ip body tail top d cout cout2 _ _
    rw [run, run]
    exact rfl
  | succ n ih =>
    intro ip body tail top d cout cout2 hcode hd
    rw [run, run]
    cases body with
    | nil =>
      obtain ⟨hget, _⟩ := drop_eq_cons hcode
      have hop : OpCode.of_byte OpCode.OP_RETURN.byte = some OpCode.OP_RETURN := rfl
      simp only [step, hget, hop, execute]
      exact ⟨rfl, ⟨"", by simp, by simp⟩, ⟨[], by simp, by simp⟩⟩
    | cons b body =>
      obtain ⟨hget, hrest⟩ := drop_eq_cons hcode
      simp only [step, hget]
      rw [depth_scan] at hd
      simp only [byte_depth, Bool.false_eq_true, if_false] at hd
      cases hop : OpCode.of_byte b with
      | none => simp [hop, instr_depth] at hd
      | some op =>
        cases op
        · -- OP_CONSTANT
          simp only [hop, instr_depth] at hd
          simp only [execute, op_constant]
          obtain _ | ⟨k, body⟩ := body
          · simp [depth_scan] at hd
          · rw [depth_scan] at hd
            simp only [byte_depth, if_true] at hd
            obtain ⟨hget2, hrest2⟩ := drop_eq_cons hrest
            simp only [hget2]
            cases hk : c.constants.get? k with
            | none => exact rfl
            | some x => exact ih (ip + 1 + 1) body tail (x :: top) d cout cout2 hrest2 hd
        · -- OP_ADD
          simp only [hop, instr_depth] at hd
          have h2 : 2 ≤ top.length := by
            by_contra hlt
            simp [hlt] at hd
          simp only [h2, if_true] at hd
          obtain _ | ⟨t1, _ | ⟨t2, top⟩⟩ := top
          · simp at h2
          · simp at h2
          simp only [execute, op_add, List.cons_append]
          cases t1 <;> cases t2 <;>
            simp only [Value.is_string, Bool.or_self, Bool.or_false, Bool.or_true,
              Bool.false_eq_true, if_false, if_true, add_operand, binary_op] <;>
            first
              | exact ih (ip + 1) body tail (_ :: top) d cout cout2 hrest hd
              | exact sameRun_runtime_error c (ip + 1) _ _ cout cout2 cerr cerr2 _
        · -- OP_SUBTRACT
          simp only [hop, instr_depth] at hd
          have h2 : 2 ≤ top.length := by
            by_contra hlt
            simp [hlt] at hd
          simp only [h2, if_true] at hd
          obtain _ | ⟨t1, _ | ⟨t2, top⟩⟩ := top
          · simp at h2
          · simp at h2
          simp only [execute, binary_op, List.cons_append]
          cases t1 <;> cases t2 <;>
            first
              | exact ih (ip + 1) body tail (_ :: top) d cout cout2 hrest hd
              | exact sameRun_runtime_error c (ip + 1) _ _ cout cout2 cerr cerr2 _
        · -- OP_MULTIPLY
          simp only [hop, instr_depth] at hd
          have h2 : 2 ≤ top.length := by
            by_contra hlt
            simp [hlt] at hd
          simp only [h2, if_true] at hd
          obtain _ | ⟨t1, _ | ⟨t2, top⟩⟩ := top
          · simp at h2
          · simp at h2
          simp only [execute, binary_op, List.cons_append]
          cases t1 <;> cases t2 <;>
            first
              | exact ih (ip + 1) body tail (_ :: top) d cout cout2 hrest hd
              | exact sameRun_runtime_error c (ip + 1) _ _ cout cout2 cerr cerr2 _
        · -- OP_DIVIDE
          simp only [hop, instr_depth] at hd
          have h2 : 2 ≤ top.length := by
            by_contra hlt
            simp [hlt] at hd
          simp only [h2, if_true] at hd
          obtain _ | ⟨t1, _ | ⟨t2, top⟩⟩ := top
          · simp at h2
          · simp at h2
          simp only [execute, binary_op, List.cons_append]
          cases t1 <;> cases t2 <;>
            first
              | exact ih (ip + 1) body tail (_ :: top) d cout cout2 hrest hd
              | exact sameRun_runtime_error c (ip + 1) _ _ cout cout2 cerr cerr2 _
        · -- OP_NEGATE
          simp only [hop, instr_depth] at hd
          have h1 : 1 ≤ top.length := by
            by_contra hlt
            simp [hlt] at hd
          simp only [h1, if_true] at hd
          obtain _ | ⟨t1, top⟩ := top
          · simp at h1
          simp only [execute, List.cons_append]
          cases t1 <;>
            first
              | exact ih (ip + 1) body tail (_ :: top) d cout cout2 hrest hd
              | exact sameRun_runtime_error c (ip + 1) _ _ cout cout2 cerr cerr2 _
        · -- OP_NOT
          simp only [hop, instr_depth] at hd
          have h1 : 1 ≤ top.length := by
            by_contra hlt
            simp [hlt] at hd
          simp only [h1, if_true] at hd
          obtain _ | ⟨t1, top⟩ := top
          · simp at h1
          simp only [execute, List.cons_append]
          exact ih (ip + 1) body tail (_ :: top) d cout cout2 hrest hd
        · -- OP_EQUAL
          simp only [hop, instr_depth] at hd
          have h2 : 2 ≤ top.length := by
            by_contra hlt
            simp [hlt] at hd
          simp only [h2, if_true] at hd
          obtain _ | ⟨t1, _ | ⟨t2, top⟩⟩ := top
          · simp at h2
          · simp at h2
          simp only [execute, List.cons_append]
          exact ih (ip + 1) body tail (_ :: top) d cout cout2 hrest hd
        · -- OP_GREATER
          simp only [hop, instr_depth] at hd
          have h2 : 2 ≤ top.length := by
            by_contra hlt
            simp [hlt] at hd
          simp only [h2, if_true] at hd
          obtain _ | ⟨t1, _ | ⟨t2, top⟩⟩ := top
          · simp at h2
          · simp at h2
          simp only [execute, binary_op, List.cons_append]
          cases t1 <;> cases t2 <;>
            first
              | exact ih (ip + 1) body tail (_ :: top) d cout cout2 hrest hd
              | exact sameRun_runtime_error c (ip + 1) _ _ cout cout2 cerr cerr2 _
        · -- OP_LESS
          simp only [hop, instr_depth] at hd
          have h2 : 2 ≤ top.length := by
            by_contra hlt
            simp [hlt] at hd
          simp only [h2, if_true] at hd
          obtain _ | ⟨t1, _ | ⟨t2, top⟩⟩ := top
          · simp at h2
          · simp at h2
          simp only [execute, binary_op, List.cons_append]
          cases t1 <;> cases t2 <;>
            first
              | exact ih (ip + 1) body tail (_ :: top) d cout cout2 hrest hd
              | exact sameRun_runtime_error c (ip + 1) _ _ cout cout2 cerr cerr2 _
        · -- OP_PRINT
          simp only [hop, instr_depth] at hd
          have h1 : 1 ≤ top.length := by
            by_contra hlt
            simp [hlt] at hd
          simp only [h1, if_true] at hd
          obtain _ | ⟨t1, top⟩ := top
          · simp at h1
          simp only [execute, List.cons_append]
          cases hp : print_value t1 with
          | error f => exact rfl
          | ok text =>
            simp only [List.length_cons, Nat.add_sub_cancel] at hd
            exact SameRun.printed (SameRun.printed
              (ih (ip + 1) body tail top d _ _ hrest hd))
        · -- OP_POP
          simp only [hop, instr_depth] at hd
          have h1 : 1 ≤ top.length := by
            by_contra hlt
            simp [hlt] at hd
          simp only [h1, if_true] at hd
          obtain _ | ⟨t1, top⟩ := top
          · simp at h1
          simp only [execute, List.cons_append]
          simp only [List.length_cons, Nat.add_sub_cancel] at hd
          exact ih (ip + 1) body tail top d cout cout2 hrest hd
        all_goals simp [hop, instr_depth] at hd

end VM

end Replit

namespace Replit

theorem depth_scan_append (st : Bool × Nat) (c1 c2 : List Nat) :
    depth_scan st (c1 ++ c2) = (depth_scan st c1).bind (fun st2 => depth_scan st2 c2) := by
  induction c1 generalizing st with
  | nil => rfl
  | cons b c1 ih =>
    simp only [List.cons_append, depth_scan]
    cases byte_depth st b with
    | none => rfl
    | some st2 => exact ih st2

namespace Parser

/-! ### The code of an error-free compile stays above the starting stack -/

theorem Grows.start {p : Parser} (hK : PanicRecorded p) : Grows 0 0 p p :=
  ⟨hK, fun _ => ⟨by assumption, fun d _ hd => ⟨d, Nat.le_refl _, hd⟩⟩⟩

theorem Grows.comp {n1 g1 n2 g2 n g : Nat} {p q r : Parser}
    (h1 : Grows n1 g1 p q) (h2 : Grows n2 g2 q r)
    (hn1 : n1 ≤ n) (hn2 : n2 ≤ n + g1) (hg : g ≤ g1 + g2) : Grows n g p r := by
  refine ⟨h2.1, fun hr => ?_⟩
  obtain ⟨hq, hqd⟩ := h2.2 hr
  obtain ⟨hp, hpd⟩ := h1.2 hq
  refine ⟨hp, fun d hd hD => ?_⟩
  obtain ⟨d2, hd2, hD2⟩ := hpd d (by omega) hD
  obtain ⟨d3, hd3, hD3⟩ := hqd d2 (by omega) hD2
  exact ⟨d3, by omega, hD3⟩

theorem Grows.weaken {n1 g1 n g : Nat} {p q : Parser} (h : Grows n1 g1 p q)
    (hn : n1 ≤ n) (hg : g ≤ g1) : Grows n g p q := by
  refine ⟨h.1, fun hq => ?_⟩
  obtain ⟨hp, hpd⟩ := h.2 hq
  refine ⟨hp, fun d hd hD => ?_⟩
  obtain ⟨d2, hd2, hD2⟩ := hpd d (by omega) hD
  exact ⟨d2, by omega, hD2⟩

/-- A state with an error recorded is related to every earlier state. -/
theorem Grows.of_error {n g : Nat} {p q : Parser} (hK : PanicRecorded q)
    (he : q.had_error = true) : Grows n g p q :=
  ⟨hK, fun h => by rw [he] at h; cases h⟩

theorem panicRecorded_error_at (p : Parser) (t : Token) (m : String)
    (hK : PanicRecorded p) : PanicRecorded (p.error_at t m) := by
  unfold error_at
  split
  · exact hK
  · exact fun _ => rfl

theorem grows_error_at {n g : Nat} (p : Parser) (t : Token) (m : String)
    (hK : PanicRecorded p) : Grows n g p (p.error_at t m) := by
  unfold error_at
  split
  · next hpanic => exact Grows.of_error hK (hK hpanic)
  · exact Grows.of_error (fun _ => rfl) rfl

theorem grows_advance {p q : Parser} {t : Token} (h : p.advance = Except.ok (t, q))
    (hK : PanicRecorded p) : Grows 0 0 p q := by
  rcases advance_eq h with rfl | rfl
  · exact Grows.start hK
  · exact ⟨hK, fun hq => ⟨hq, fun d _ hd => ⟨d, Nat.le_refl _, hd⟩⟩⟩

theorem grows_match (p : Parser) (type : TokenType) (hK : PanicRecorded p) :
    Post (p.match type) (fun r => Grows 0 0 p r.2) := by
  unfold Parser.match
  refine Post.bind (Post.true _) ?_
  intro c _
  split
  · exact Post.pure (Grows.start hK)
  · refine Post.bind (R := fun r => Grows 0 0 p r.2) ?_ ?_
    · intro r hr
      exact grows_advance hr hK
    · intro r hr
      exact Post.pure hr

theorem grows_match_or (p : Parser) (type : TokenType)
    (rest : Parser → Except Fault (Bool × Parser))
    (hrest : ∀ q, PanicRecorded q → Post (rest q) (fun r => Grows 0 0 q r.2))
    (hK : PanicRecorded p) :
    Post (p.match_or type rest) (fun r => Grows 0 0 p r.2) := by
  unfold match_or
  refine Post.bind (grows_match p type hK) ?_
  rintro ⟨m, q⟩ hq
  dsimp only at hq ⊢
  split
  · exact Post.pure hq
  · exact Post.mono (hrest q hq.1)
      (fun r hr => hq.comp hr (Nat.le_refl _) (Nat.le_refl _) (Nat.le_refl _))

theorem grows_error (n g : Nat) (p : Parser) (m : String) (hK : PanicRecorded p) :
    Post (p.error m) (Grows n g p) := by
  unfold Parser.error
  refine Post.bind (Post.true _) ?_
  intro t _
  exact Post.pure (grows_error_at p t m hK)

theorem grows_consume (p : Parser) (type : TokenType) (m : String) (hK : PanicRecorded p) :
    Post (p.consume type m) (Grows 0 0 p) := by
  unfold consume
  refine Post.bind (Post.true _) ?_
  intro t _
  split
  · refine Post.bind (R := fun r => Grows 0 0 p r.2) ?_ ?_
    · intro r hr
      exact grows_advance hr hK
    · intro r hr
      exact Post.pure hr
  · refine Post.bind (Post.true _) ?_
    intro t _
    exact Post.pure (grows_error_at p t m hK)

/-- Appending the byte `b`, which at every depth `d ≥ lo` is an instruction that leaves
depth `d - k`. -/
theorem grows_emit_byte (n g : Nat) (p q : Parser) (b lo k : Nat)
    (hb : ∀ d, lo ≤ d → byte_depth (false, d) b = some (false, d - k))
    (hpq : Grows n g p q) (hlo : lo ≤ n + g) (hk : k ≤ g) :
    Post (q.emit_byte b) (Grows n (g - k) p) := by
  intro r hr
  obtain ⟨l, rfl⟩ := emit_byte_eq hr
  refine ⟨hpq.1, fun he => ?_⟩
  obtain ⟨hp, hpd⟩ := hpq.2 he
  refine ⟨hp, fun d hd hD => ?_⟩
  obtain ⟨d2, hd2, hD2⟩ := hpd d hd hD
  refine ⟨d2 - k, by omega, ?_⟩
  unfold Depth at hD2 ⊢
  simp only [Chunk.write, depth_scan_append, hD2, Option.bind, depth_scan, hb d2 (by omega)]

theorem byte_depth_binary (b : Nat)
    (hb : b = OpCode.OP_ADD.byte ∨ b = OpCode.OP_SUBTRACT.byte ∨ b = OpCode.OP_MULTIPLY.byte
      ∨ b = OpCode.OP_DIVIDE.byte ∨ b = OpCode.OP_EQUAL.byte ∨ b = OpCode.OP_GREATER.byte
      ∨ b = OpCode.OP_LESS.byte) :
    ∀ d, 2 ≤ d → byte_depth (false, d) b = some (false, d - 1) := by
  intro d hd
  rcases hb with rfl | rfl | rfl | rfl | rfl | rfl | rfl <;>
    simp [byte_depth, OpCode.of_byte_byte, instr_depth, hd]

theorem byte_depth_unary (b : Nat)
    (hb : b = OpCode.OP_NEGATE.byte ∨ b = OpCode.OP_NOT.byte) :
    ∀ d, 1 ≤ d → byte_depth (false, d) b = some (false, d - 0) := by
  intro d hd
  rcases hb with rfl | rfl <;>
    simp [byte_depth, OpCode.of_byte_byte, instr_depth, hd]

theorem byte_depth_pop (b : Nat)
    (hb : b = OpCode.OP_PRINT.byte ∨ b = OpCode.OP_POP.byte) :
    ∀ d, 1 ≤ d → byte_depth (false, d) b = some (false, d - 1) := by
  intro d hd
  rcases hb with rfl | rfl <;>
    simp [byte_depth, OpCode.of_byte_byte, instr_depth, hd]

/-- A binary opcode followed by `OP_NOT`, as emitted for `!=`, `<=` and `>=`. -/
theorem grows_emit_bytes_not {n g : Nat} (p q : Parser) (b : Nat)
    (hb : b = OpCode.OP_ADD.byte ∨ b = OpCode.OP_SUBTRACT.byte ∨ b = OpCode.OP_MULTIPLY.byte
      ∨ b = OpCode.OP_DIVIDE.byte ∨ b = OpCode.OP_EQUAL.byte ∨ b = OpCode.OP_GREATER.byte
      ∨ b = OpCode.OP_LESS.byte)
    (hpq : Grows n g p q) (hlo : 2 ≤ n + g) (hk : 1 ≤ g) :
    Post (q.emit_bytes b OpCode.OP_NOT.byte) (Grows n (g - 1) p) := by
  unfold emit_bytes
  refine Post.bind (grows_emit_byte n g p q b 2 1 (byte_depth_binary b hb) hpq hlo hk) ?_
  intro r hr
  exact grows_emit_byte n (g - 1) p r OpCode.OP_NOT.byte 1 0
    (byte_depth_unary _ (Or.inr rfl)) hr (by omega) (Nat.zero_le _)

theorem grows_emit_constant (p : Parser) (v : Value) (hK : PanicRecorded p) :
    Post (p.emit_constant v) (Grows 0 1 p) := by
  unfold emit_constant
  refine Post.bind (R := fun r => Grows 0 0 p r.2) ?_ ?_
  · intro r hr
    rcases make_constant_eq hr with h | ⟨t, h⟩
    · rw [h]
      exact ⟨hK, fun he => ⟨he, fun d _ hd => ⟨d, Nat.le_refl _, hd⟩⟩⟩
    · rw [h]
      exact grows_error_at _ t _ hK
  · rintro ⟨b, q⟩ hq
    dsimp only at hq ⊢
    unfold emit_bytes
    intro r hr
    obtain ⟨q2, hq2, hr2⟩ := bind_eq_ok hr
    obtain ⟨l, rfl⟩ := emit_byte_eq hq2
    obtain ⟨l2, rfl⟩ := emit_byte_eq hr2
    refine ⟨hq.1, fun he => ?_⟩
    obtain ⟨hp, hpd⟩ := hq.2 he
    refine ⟨hp, fun d hd hD => ?_⟩
    obtain ⟨d2, hd2, hD2⟩ := hpd d hd hD
    refine ⟨d2 + 1, by omega, ?_⟩
    unfold Depth at hD2 ⊢
    simp only [Chunk.write, depth_scan_append, hD2, Option.bind, depth_scan, byte_depth,
      OpCode.of_byte_byte, instr_depth, Bool.false_eq_true, if_false, if_true]

theorem grows_all : ∀ n,
    GrowsFn 0 1 (primary n) ∧ GrowsFn 0 1 (unary n) ∧ GrowsFn 1 0 (factor_loop n)
    ∧ GrowsFn 0 1 (factor n) ∧ GrowsFn 1 0 (term_loop n) ∧ GrowsFn 0 1 (term n)
    ∧ GrowsFn 1 0 (comparison_loop n) ∧ GrowsFn 0 1 (comparison n)
    ∧ GrowsFn 1 0 (equality_loop n) ∧ GrowsFn 0 1 (equality n)
    ∧ GrowsFn 0 1 (and_expression n) ∧ GrowsFn 0 1 (or_expression n)
    ∧ GrowsFn 0 1 (expression n) := by
  intro n
  induction n with
  | zero =>
    refine ⟨?_, ?_, ?_, ?_, ?_, ?_, ?_, ?_, ?_, ?_, ?_, ?_, ?_⟩ <;>
      (intro p _; first
        | rw [primary] | rw [unary] | rw [factor_loop] | rw [factor] | rw [term_loop]
        | rw [term] | rw [comparison_loop] | rw [comparison] | rw [equality_loop]
        | rw [equality] | rw [and_expression] | rw [or_expression] | rw [expression]) <;>
      exact Post.error
  | succ n ih =>
    obtain ⟨hprimary, hunary, hfactor_loop, hfactor, hterm_loop, hterm, hcomparison_loop,
      hcomparison, hequality_loop, hequality, hand, hor, hexpression⟩ := ih
    refine ⟨?_, ?_, ?_, ?_, ?_, ?_, ?_, ?_, ?_, ?_, ?_, ?_, ?_⟩
    · -- primary
      intro p hK
      rw [primary]
      refine Post.bind (grows_match p _ hK) ?_
      rintro ⟨m, q⟩ hq
      dsimp only at hq ⊢
      split
      ·exact Post.mono (grows_emit_constant q _ hq.1)
          (fun r hr => hq.comp hr (by omega) (by omega) (by omega))
      refine Post.bind (grows_match q _ hq.1) ?_
      rintro ⟨m, q2⟩ hq2
      dsimp only at hq2 ⊢
      replace hq := hq.comp hq2 (Nat.le_refl _) (Nat.le_refl _) (Nat.le_refl _)
      clear hq2
      revert hq
      generalize q2 = q
      intro hq
      split
      ·exact Post.mono (grows_emit_constant q _ hq.1)
          (fun r hr => hq.comp hr (by omega) (by omega) (by omega))
      refine Post.bind (grows_match q _ hq.1) ?_
      rintro ⟨m, q2⟩ hq2
      dsimp only at hq2 ⊢
      replace hq := hq.comp hq2 (Nat.le_refl _) (Nat.le_refl _) (Nat.le_refl _)
      clear hq2
      revert hq
      generalize q2 = q
      intro hq
      split
      ·exact Post.mono (grows_emit_constant q _ hq.1)
          (fun r hr => hq.comp hr (by omega) (by omega) (by omega))
      refine Post.bind (grows_match q _ hq.1) ?_
      rintro ⟨m, q2⟩ hq2
      dsimp only at hq2 ⊢
      replace hq := hq.comp hq2 (Nat.le_refl _) (Nat.le_refl _) (Nat.le_refl _)
      clear hq2
      revert hq
      generalize q2 = q
      intro hq
      split
      · refine Post.bind (Post.true _) ?_
        intro t _
        refine Post.bind (Post.true _) ?_
        intro v _
        exact Post.mono (grows_emit_constant q _ hq.1)
          (fun r hr => hq.comp hr (by omega) (by omega) (by omega))
      refine Post.bind (grows_match q _ hq.1) ?_
      rintro ⟨m, q2⟩ hq2
      dsimp only at hq2 ⊢
      replace hq := hq.comp hq2 (Nat.le_refl _) (Nat.le_refl _) (Nat.le_refl _)
      clear hq2
      revert hq
      generalize q2 = q
      intro hq
      split
      · refine Post.bind (Post.true _) ?_
        intro t _
        refine Post.bind (Post.true _) ?_
        intro v _
        exact Post.mono (grows_emit_constant q _ hq.1)
          (fun r hr => hq.comp hr (by omega) (by omega) (by omega))
      refine Post.bind (grows_match q _ hq.1) ?_
      rintro ⟨m, q2⟩ hq2
      dsimp only at hq2 ⊢
      replace hq := hq.comp hq2 (Nat.le_refl _) (Nat.le_refl _) (Nat.le_refl _)
      clear hq2
      revert hq
      generalize q2 = q
      intro hq
      split
      · refine Post.bind (hexpression q hq.1) ?_
        intro q2 hq2
        have h2 : Grows 0 1 p q2 := hq.comp hq2 (by omega) (by omega) (by omega)
        exact Post.mono (grows_consume q2 _ _ hq2.1)
          (fun r hr => h2.comp hr (by omega) (by omega) (by omega))
      · exact Post.mono (grows_error 0 1 q _ hq.1)
          (fun r hr => hq.comp hr (by omega) (by omega) (by omega))
    · -- unary
      intro p hK
      rw [unary]
      refine Post.bind (grows_match_or p _ _ (fun q hq => grows_match q _ hq) hK) ?_
      rintro ⟨m, q⟩ hq
      dsimp only at hq ⊢
      split
      · refine Post.bind (Post.true _) ?_
        intro t _
        refine Post.bind (hunary q hq.1) ?_
        intro q2 hq2
        have h := hq.comp hq2 (Nat.le_refl 0) (Nat.zero_le _) (Nat.le_refl 1)
        split_ifs
        · exact grows_emit_byte 0 1 p q2 _ 1 0 (byte_depth_unary _ (Or.inl rfl)) h
            (by omega) (by omega)
        · exact grows_emit_byte 0 1 p q2 _ 1 0 (byte_depth_unary _ (Or.inr rfl)) h
            (by omega) (by omega)
        · exact Post.pure h
      · exact Post.mono (hprimary q hq.1)
          (fun r hr => hq.comp hr (by omega) (by omega) (by omega))
    · -- factor_loop
      intro p hK
      rw [factor_loop]
      refine Post.bind (grows_match_or p _ _ (fun q hq => grows_match_or q _ _ (fun q hq => grows_match q _ hq) hq) hK) ?_
      rintro ⟨m, q⟩ hq
      dsimp only at hq ⊢
      split
      · refine Post.bind (Post.true _) ?_
        intro t _
        refine Post.bind (hunary q hq.1) ?_
        intro q2 hq2
        have h : Grows 1 1 p q2 := hq.comp hq2 (by omega) (by omega) (by omega)
        split_ifs
        · refine Post.bind (grows_emit_byte 1 1 p q2 _ 2 1
            (byte_depth_binary _ (by simp [OpCode.byte])) h (by omega) (by omega)) ?_
          intro q3 hq3
          exact Post.mono (hfactor_loop q3 hq3.1)
            (fun r hr => hq3.comp hr (by omega) (by omega) (by omega))
        · refine Post.bind (grows_emit_byte 1 1 p q2 _ 2 1
            (byte_depth_binary _ (by simp [OpCode.byte])) h (by omega) (by omega)) ?_
          intro q3 hq3
          exact Post.mono (hfactor_loop q3 hq3.1)
            (fun r hr => hq3.comp hr (by omega) (by omega) (by omega))
        · refine Post.bind (Post.pure h) ?_
          intro q3 hq3
          exact Post.mono (hfactor_loop q3 hq3.1)
            (fun r hr => hq3.comp hr (by omega) (by omega) (by omega))
      · exact Post.pure (hq.weaken (by omega) (by omega))
    · -- factor
      intro p hK
      rw [factor]
      refine Post.bind (hunary p hK) ?_
      intro q hq
      exact Post.mono (hfactor_loop q hq.1)
        (fun r hr => hq.comp hr (by omega) (by omega) (by omega))
    · -- term_loop
      intro p hK
      rw [term_loop]
      refine Post.bind (grows_match_or p _ _ (fun q hq => grows_match q _ hq) hK) ?_
      rintro ⟨m, q⟩ hq
      dsimp only at hq ⊢
      split
      · refine Post.bind (Post.true _) ?_
        intro t _
        refine Post.bind (hfactor q hq.1) ?_
        intro q2 hq2
        have h : Grows 1 1 p q2 := hq.comp hq2 (by omega) (by omega) (by omega)
        split_ifs
        · refine Post.bind (grows_emit_byte 1 1 p q2 _ 2 1
            (byte_depth_binary _ (by simp [OpCode.byte])) h (by omega) (by omega)) ?_
          intro q3 hq3
          exact Post.mono (hterm_loop q3 hq3.1)
            (fun r hr => hq3.comp hr (by omega) (by omega) (by omega))
        · refine Post.bind (grows_emit_byte 1 1 p q2 _ 2 1
            (byte_depth_binary _ (by simp [OpCode.byte])) h (by omega) (by omega)) ?_
          intro q3 hq3
          exact Post.mono (hterm_loop q3 hq3.1)
            (fun r hr => hq3.comp hr (by omega) (by omega) (by omega))
        · refine Post.bind (Post.pure h) ?_
          intro q3 hq3
          exact Post.mono (hterm_loop q3 hq3.1)
            (fun r hr => hq3.comp hr (by omega) (by omega) (by omega))
      · exact Post.pure (hq.weaken (by omega) (by omega))
    · -- term
      intro p hK
      rw [term]
      refine Post.bind (hfactor p hK) ?_
      intro q hq
      exact Post.mono (hterm_loop q hq.1)
        (fun r hr => hq.comp hr (by omega) (by omega) (by omega))
    · -- comparison_loop
      intro p hK
      rw [comparison_loop]
      refine Post.bind (grows_match_or p _ _ (fun q hq => grows_match_or q _ _ (fun q hq => grows_match_or q _ _ (fun q hq => grows_match q _ hq) hq) hq) hK) ?_
      rintro ⟨m, q⟩ hq
      dsimp only at hq ⊢
      split
      · refine Post.bind (Post.true _) ?_
        intro t _
        refine Post.bind (hterm q hq.1) ?_
        intro q2 hq2
        have h : Grows 1 1 p q2 := hq.comp hq2 (by omega) (by omega) (by omega)
        split_ifs
        · refine Post.bind (grows_emit_byte 1 1 p q2 _ 2 1
            (byte_depth_binary _ (by simp [OpCode.byte])) h (by omega) (by omega)) ?_
          intro q3 hq3
          exact Post.mono (hcomparison_loop q3 hq3.1)
            (fun r hr => hq3.comp hr (by omega) (by omega) (by omega))
        · refine Post.bind (grows_emit_bytes_not p q2 _
            (by simp [OpCode.byte]) h (by omega) (by omega)) ?_
          intro q3 hq3
          exact Post.mono (hcomparison_loop q3 hq3.1)
            (fun r hr => hq3.comp hr (by omega) (by omega) (by omega))
        · refine Post.bind (grows_emit_byte 1 1 p q2 _ 2 1
            (byte_depth_binary _ (by simp [OpCode.byte])) h (by omega) (by omega)) ?_
          intro q3 hq3
          exact Post.mono (hcomparison_loop q3 hq3.1)
            (fun r hr => hq3.comp hr (by omega) (by omega) (by omega))
        · refine Post.bind (grows_emit_bytes_not p q2 _
            (by simp [OpCode.byte]) h (by omega) (by omega)) ?_
          intro q3 hq3
          exact Post.mono (hcomparison_loop q3 hq3.1)
            (fun r hr => hq3.comp hr (by omega) (by omega) (by omega))
        · refine Post.bind (Post.pure h) ?_
          intro q3 hq3
          exact Post.mono (hcomparison_loop q3 hq3.1)
            (fun r hr => hq3.comp hr (by omega) (by omega) (by omega))
      · exact Post.pure (hq.weaken (by omega) (by omega))
    · -- comparison
      intro p hK
      rw [comparison]
      refine Post.bind (hterm p hK) ?_
      intro q hq
      exact Post.mono (hcomparison_loop q hq.1)
        (fun r hr => hq.comp hr (by omega) (by omega) (by omega))
    · -- equality_loop
      intro p hK
      rw [equality_loop]
      refine Post.bind (grows_match_or p _ _ (fun q hq => grows_match q _ hq) hK) ?_
      rintro ⟨m, q⟩ hq
      dsimp only at hq ⊢
      split
      · refine Post.bind (Post.true _) ?_
        intro t _
        refine Post.bind (hcomparison q hq.1) ?_
        intro q2 hq2
        have h : Grows 1 1 p q2 := hq.comp hq2 (by omega) (by omega) (by omega)
        split_ifs
        · refine Post.bind (grows_emit_bytes_not p q2 _
            (by simp [OpCode.byte]) h (by omega) (by omega)) ?_
          intro q3 hq3
          exact Post.mono (hequality_loop q3 hq3.1)
            (fun r hr => hq3.comp hr (by omega) (by omega) (by omega))
        · refine Post.bind (grows_emit_byte 1 1 p q2 _ 2 1
            (byte_depth_binary _ (by simp [OpCode.byte])) h (by omega) (by omega)) ?_
          intro q3 hq3
          exact Post.mono (hequality_loop q3 hq3.1)
            (fun r hr => hq3.comp hr (by omega) (by omega) (by omega))
        · refine Post.bind (Post.pure h) ?_
          intro q3 hq3
          exact Post.mono (hequality_loop q3 hq3.1)
            (fun r hr => hq3.comp hr (by omega) (by omega) (by omega))
      · exact Post.pure (hq.weaken (by omega) (by omega))
    · -- equality
      intro p hK
      rw [equality]
      refine Post.bind (hcomparison p hK) ?_
      intro q hq
      exact Post.mono (hequality_loop q hq.1)
        (fun r hr => hq.comp hr (by omega) (by omega) (by omega))
    · -- and_expression
      intro p hK
      rw [and_expression]
      exact hequality p hK
    · -- or_expression
      intro p hK
      rw [or_expression]
      exact hand p hK
    · -- expression
      intro p hK
      rw [expression]
      exact hor p hK

theorem grows_expression (n : Nat) : GrowsFn 0 1 (expression n) :=
  (grows_all n).2.2.2.2.2.2.2.2.2.2.2.2

/-- Once an error is recorded it stays recorded. -/
theorem stable_had_error : Stable (fun p => p.had_error = true) where
  advance := by
    intro p t q h hp
    rcases advance_eq h with rfl | rfl <;> exact hp
  emit_byte := by
    intro p b q h hp
    obtain ⟨l, rfl⟩ := emit_byte_eq h
    exact hp
  make_constant := by
    intro p v b q h hp
    rcases make_constant_eq h with rfl | ⟨t, rfl⟩
    · exact hp
    · unfold error_at
      split
      · exact hp
      · rfl
  error_at := by
    intro p t m hp
    unfold error_at
    split
    · exact hp
    · rfl
  clear_panic := fun _ hp => hp

theorem stable_panicRecorded : Stable PanicRecorded where
  advance := by
    intro p t q h hp
    rcases advance_eq h with rfl | rfl <;> exact hp
  emit_byte := by
    intro p b q h hp
    obtain ⟨l, rfl⟩ := emit_byte_eq h
    exact hp
  make_constant := by
    intro p v b q h hp
    rcases make_constant_eq h with rfl | ⟨t, rfl⟩
    · exact hp
    · exact panicRecorded_error_at _ t _ hp
  error_at := panicRecorded_error_at
  clear_panic := fun _ _ h => by cases h

theorem grows_statement_tail (n : Nat) (byte : Nat) (m : String)
    (hb : byte = OpCode.OP_PRINT.byte ∨ byte = OpCode.OP_POP.byte) (p : Parser)
    (hK : PanicRecorded p) :
    Post (do
      let p ← expression n p
      let p ← p.consume TokenType.SEMICOLON m
      p.emit_byte byte) (Grows 0 0 p) := by
  refine Post.bind (grows_expression n p hK) ?_
  intro q hq
  refine Post.bind (grows_consume q _ _ hq.1) ?_
  intro q2 hq2
  have h : Grows 0 1 p q2 := hq.comp hq2 (by omega) (by omega) (by omega)
  exact grows_emit_byte 0 1 p q2 byte 1 1 (byte_depth_pop byte hb) h (by omega) (by omega)

theorem grows_statement (n : Nat) (p : Parser) (hK : PanicRecorded p) :
    Post (statement n p) (Grows 0 0 p) := by
  unfold statement
  refine Post.bind (grows_match p _ hK) ?_
  rintro ⟨m, q⟩ hq
  dsimp only at hq ⊢
  split
  · exact Post.mono (grows_statement_tail n _ _ (Or.inl rfl) q hq.1)
      (fun r hr => hq.comp hr (by omega) (by omega) (by omega))
  · exact Post.mono (grows_statement_tail n _ _ (Or.inr rfl) q hq.1)
      (fun r hr => hq.comp hr (by omega) (by omega) (by omega))

theorem grows_declaration (n : Nat) (p : Parser) (hK : PanicRecorded p) :
    Post (declaration n p) (Grows 0 0 p) := by
  unfold declaration
  refine Post.bind (grows_match p _ hK) ?_
  rintro ⟨m, q⟩ hq
  dsimp only at hq ⊢
  have hrest : ∀ q2, Grows 0 0 p q2 →
      Post (if q2.panic_mode = true then synchronize n q2 else Except.ok q2) (Grows 0 0 p) := by
    intro q2 hq2
    split
    · next hpanic =>
      intro r hr
      exact Grows.of_error (stable_panicRecorded.post_synchronize n q2 hq2.1 r hr)
        (stable_had_error.post_synchronize n q2 (hq2.1 hpanic) r hr)
    · exact Post.ok hq2
  split
  · exact Post.bind (Post.pure hq) hrest
  · exact Post.bind (Post.mono (grows_statement n q hq.1)
      (fun r hr => hq.comp hr (Nat.le_refl _) (Nat.le_refl _) (Nat.le_refl _))) hrest

theorem grows_compile_loop (n : Nat) :
    ∀ p, PanicRecorded p → Post (compile_loop n p) (Grows 0 0 p) := by
  induction n with
  | zero =>
    intro p _
    rw [compile_loop]
    exact Post.error
  | succ n ih =>
    intro p hK
    rw [compile_loop]
    refine Post.bind (Post.true _) ?_
    intro c _
    split
    · refine Post.bind (grows_match p _ hK) ?_
      rintro ⟨m, q⟩ hq
      dsimp only at hq ⊢
      split
      · exact Post.mono (ih q hq.1)
          (fun r hr => hq.comp hr (Nat.le_refl _) (Nat.le_refl _) (Nat.le_refl _))
      · refine Post.bind (grows_declaration n q hq.1) ?_
        intro q2 hq2
        exact Post.mono (ih q2 hq2.1)
          (fun r hr => (hq.comp hq2 (Nat.le_refl _) (Nat.le_refl _) (Nat.le_refl _)).comp hr
            (Nat.le_refl _) (Nat.le_refl _) (Nat.le_refl _))
    · exact Post.pure (Grows.start hK)

/-- The code of a successful compile into an empty chunk is straight-line code that
never needs more values than it has pushed, followed by the final `OP_RETURN`. -/
theorem compile_depth {fuel : Nat} {tokens : List Token} {p : Parser}
    (h : compile fuel tokens {} = Except.ok (true, p)) :
    ∃ body d, p.compiling_chunk.code = body ++ [OpCode.OP_RETURN.byte] ∧
      depth_scan (false, 0) body = some (false, d) ∧ p.diagnostics = [] := by
  unfold compile at h
  obtain ⟨q, hq, h2⟩ := bind_eq_ok h
  obtain ⟨q2, hq2, h3⟩ := bind_eq_ok h2
  have hg := grows_compile_loop fuel _ (by intro hp; cases hp) q hq
  have herr := stable_errorsReported.post_compile_loop fuel _
    (by simp [ErrorsReported]) q hq
  obtain ⟨l, rfl⟩ := emit_byte_eq hq2
  simp only [pure_eq_ok, Except.ok.injEq, Prod.mk.injEq, Bool.not_eq_true'] at h3
  obtain ⟨hfalse, rfl⟩ := h3
  obtain ⟨_, hd⟩ := hg.2 hfalse
  obtain ⟨d, _, hD⟩ := hd 0 (Nat.le_refl _) rfl
  refine ⟨q.compiling_chunk.code, d, rfl, hD, ?_⟩
  unfold ErrorsReported at herr
  by_contra hne
  have := herr.2 hne
  rw [hfalse] at this
  cases this

end Parser

end Replit

namespace Replit

/-- C7.  For every source that compiles successfully and every VM state `vm` (reachable
through earlier calls or not): if `interpret` returns on `vm`, a second `interpret` of
the same source on the VM the first call left returns too, with the same status, the same
text written to the output stream and the same lines written to the error stream.  What
earlier calls left on the operand stack has no influence. -/
theorem interpret_twice_same (fuel : Nat) (vm vm1 : VM) (source : String)
    (r : InterpretResult)
    (h1 : VM.interpret fuel vm source = Except.ok (r, vm1))
    (hr : r ≠ InterpretResult.COMPILE_ERROR) :
    ∃ vm2 out errs, VM.interpret fuel vm1 source = Except.ok (r, vm2) ∧
      vm1.cout = vm.cout ++ out ∧ vm2.cout = vm1.cout ++ out ∧
      vm1.cerr = vm.cerr ++ errs ∧ vm2.cerr = vm1.cerr ++ errs := by
  unfold VM.interpret at h1 ⊢
  dsimp only at h1 ⊢
  cases hc : Parser.compile fuel (tokenize source) {} with
  | error f =>
    rw [hc] at h1
    cases h1
  | ok res =>
    obtain ⟨ok, p⟩ := res
    rw [hc] at h1
    cases ok with
    | false =>
      simp only [Except.ok.injEq, Prod.mk.injEq] at h1
      exact absurd h1.1.symm hr
    | true =>
      simp only [hc] at h1 ⊢
      obtain ⟨body, d, hcode, hd, hdiag⟩ := Parser.compile_depth hc
      have hsame := VM.run_same p.compiling_chunk vm.stack vm1.stack
        (vm.cerr ++ p.diagnostics) (vm1.cerr ++ p.diagnostics) fuel 0 body [] [] d
        vm.cout vm1.cout (by simpa using hcode) hd
      unfold VM.bind_chunk at h1 ⊢
      simp only [List.nil_append] at hsame
      rw [h1] at hsame
      cases h2 : VM.run fuel
          { chunk := p.compiling_chunk, ip := 0, stack := vm1.stack, cout := vm1.cout,
            cerr := vm1.cerr ++ p.diagnostics } with
      | error f =>
        rw [h2] at hsame
        exact hsame.elim
      | ok res2 =>
        obtain ⟨r2, v2⟩ := res2
        rw [h2] at hsame
        obtain ⟨hrr, ⟨out, ho1, ho2⟩, ⟨errs, he1, he2⟩⟩ := hsame
        subst hrr
        rw [hdiag, List.append_nil] at he1 he2
        exact ⟨v2, out, errs, rfl, ho1, ho2, he1, he2⟩

theorem interpret_twice_same_witness :
    VM.interpret 30 VM.new "print 1 + 2; 3 % 4;" = Except.ok (InterpretResult.OK,
      { chunk := { code := [0, 0, 0, 1, 1, 10, 0, 2, 0, 3, 11, 19],
                   lines := [1, 1, 1, 1, 1, 1, 1, 1, 1, 1, 1, 1],
                   constants := [Value.number (Double.of_int 1), Value.number (Double.of_int 2),
                                 Value.number (Double.of_int 3), Value.number (Double.of_int 4)] },
        ip := 12, stack := [Value.number (Double.of_int 3)], cout := "3\n" }) ∧
    ∃ vm2 out errs,
      VM.interpret 30
          { chunk := { code := [0, 0, 0, 1, 1, 10, 0, 2, 0, 3, 11, 19],
                       lines := [1, 1, 1, 1, 1, 1, 1, 1, 1, 1, 1, 1],
                       constants := [Value.number (Double.of_int 1),
                                     Value.number (Double.of_int 2),
                                     Value.number (Double.of_int 3),
                                     Value.number (Double.of_int 4)] },
            ip := 12, stack := [Value.number (Double.of_int 3)], cout := "3\n" }
          "print 1 + 2; 3 % 4;" = Except.ok (InterpretResult.OK, vm2) ∧
      "3\n" = VM.new.cout ++ out ∧ vm2.cout = "3\n" ++ out ∧
      ([] : List String) = VM.new.cerr ++ errs ∧ vm2.cerr = [] ++ errs :=
  ⟨by decide!, interpret_twice_same 30 VM.new
      { chunk := { code := [0, 0, 0, 1, 1, 10, 0, 2, 0, 3, 11, 19],
                   lines := [1, 1, 1, 1, 1, 1, 1, 1, 1, 1, 1, 1],
                   constants := [Value.number (Double.of_int 1), Value.number (Double.of_int 2),
                                 Value.number (Double.of_int 3), Value.number (Double.of_int 4)] },
        ip := 12, stack := [Value.number (Double.of_int 3)], cout := "3\n" }
      "print 1 + 2; 3 % 4;" InterpretResult.OK (by decide!) (by decide)⟩

end Replit

namespace Replit

namespace Lexer

/-! ### Scanning: the lexer in terms of the unread part of the source -/

theorem moved_zero (lx : Lexer) : lx.moved 0 = lx := by
  simp [moved]

theorem moved_moved (lx : Lexer) (n m : Nat) : (lx.moved n).moved m = lx.moved (n + m) := by
  simp [moved, Nat.add_assoc, Int.add_assoc]

theorem unread_moved {lx : Lexer} {cs rest : List Char} (h : lx.unread = cs ++ rest) :
    (lx.moved cs.length).unread = rest := by
  unfold unread moved at *
  dsimp only
  rw [← List.drop_drop, h, List.drop_left]

theorem at_end_of_nil {lx : Lexer} (h : lx.unread = []) : lx.is_at_end = true := by
  unfold unread at h
  unfold is_at_end
  simpa using List.drop_eq_nil_iff.mp h

theorem not_at_end_of_cons {lx : Lexer} {c : Char} {r : List Char} (h : lx.unread = c :: r) :
    lx.is_at_end = false := by
  unfold unread at h
  unfold is_at_end
  have hlt : lx.current < lx.source.length := by
    by_contra hge
    rw [List.drop_eq_nil_iff.mpr (Nat.le_of_not_lt hge)] at h
    cases h
  simpa using hlt

theorem getD_of_cons {lx : Lexer} {c : Char} {r : List Char} (h : lx.unread = c :: r) :
    lx.source.getD lx.current '\x00' = c := by
  have := (drop_eq_cons h).1
  simp only [List.get?_eq_getElem?] at this
  simp [List.getD_eq_getElem?_getD, this]

theorem peek_of_cons {lx : Lexer} {c : Char} {r : List Char} (h : lx.unread = c :: r) :
    lx.peek = c := by
  unfold peek
  rw [not_at_end_of_cons h, getD_of_cons h]
  rfl

theorem peek_of_nil {lx : Lexer} (h : lx.unread = []) : lx.peek = '\x00' := by
  unfold peek
  rw [at_end_of_nil h]
  rfl

theorem peek_next_of_cons {lx : Lexer} {c : Char} {r : List Char} (h : lx.unread = c :: r) :
    lx.peek_next = r.headD '\x00' := by
  have hr : lx.source.drop (lx.current + 1) = r := (drop_eq_cons h).2
  unfold peek_next
  cases r with
  | nil =>
    have : lx.source.length ≤ lx.current + 1 := List.drop_eq_nil_iff.mp hr
    simp [this]
  | cons d r =>
    have hlt : lx.current + 1 < lx.source.length := by
      by_contra hge
      rw [List.drop_eq_nil_iff.mpr (Nat.le_of_not_lt hge)] at hr
      cases hr
    have := (drop_eq_cons hr).1
    simp only [List.get?_eq_getElem?] at this
    simp [Nat.not_le.mpr hlt, List.getD_eq_getElem?_getD, this]

theorem advance_of_cons {lx : Lexer} {c : Char} {r : List Char} (h : lx.unread = c :: r)
    (hc : c ≠ '\n') : lx.advance = (c, lx.moved 1) := by
  unfold advance
  rw [not_at_end_of_cons h, getD_of_cons h]
  simp [hc, moved]

theorem unread_length_le (lx : Lexer) : lx.unread.length ≤ lx.source.length - lx.current := by
  simp [unread]

theorem digits_loop_eq (n : Nat) : ∀ lx, digits_loop n lx = scan_while Char.isDigit n lx := by
  induction n with
  | zero => intro lx; rfl
  | succ n ih =>
    intro lx
    rw [digits_loop, scan_while, ih]

theorem identifier_loop_eq (n : Nat) : ∀ lx,
    identifier_loop n lx = scan_while (fun c => c.isAlphanum || decide (c = '_')) n lx := by
  induction n with
  | zero => intro lx; rfl
  | succ n ih =>
    intro lx
    rw [identifier_loop, scan_while, ih]

/-- The loop consumes exactly the longest run of characters that satisfy `P`. -/
theorem scan_while_run (P : Char → Bool) (hn : P '\n' = false) :
    ∀ (cs : List Char) (n : Nat) (lx : Lexer) (rest : List Char),
    lx.unread = cs ++ rest → (∀ c ∈ cs, P c = true) → P (rest.headD '\x00') = false →
    cs.length ≤ n → scan_while P n lx = lx.moved cs.length := by
  intro cs
  induction cs with
  | nil =>
    intro n lx rest h _ hrest _
    rw [List.length_nil, moved_zero]
    cases n with
    | zero => rfl
    | succ n =>
      rw [scan_while]
      have hpeek : lx.peek = rest.headD '\x00' := by
        cases rest with
        | nil => exact peek_of_nil h
        | cons c r => exact peek_of_cons h
      rw [hpeek, hrest]
      rfl
  | cons c cs ih =>
    intro n lx rest h hall hrest hlen
    cases n with
    | zero => simp at hlen
    | succ n =>
      have hc : P c = true := hall c (List.mem_cons_self _ _)
      have hcn : c ≠ '\n' := by
        intro heq
        rw [heq, hn] at hc
        cases hc
      have h1 : lx.unread = [c] ++ (cs ++ rest) := h
      rw [scan_while, peek_of_cons h, hc, if_pos rfl, advance_of_cons h hcn]
      dsimp only
      rw [ih n (lx.moved 1) rest (unread_moved h1)
        (fun d hd => hall d (List.mem_cons_of_mem _ hd)) hrest (by simpa using hlen)]
      rw [moved_moved, List.length_cons, Nat.add_comm]

theorem text_moved {lx : Lexer} {tok post : List Char} (hs : lx.start = lx.current)
    (h : lx.unread = tok ++ post) : (lx.moved tok.length).text = String.mk tok := by
  unfold unread at h
  unfold text moved
  dsimp only
  rw [hs, h, Nat.add_sub_cancel_left, List.take_left]

theorem source_length_sub {lx : Lexer} : lx.source.length - lx.current = lx.unread.length := by
  simp [unread]

theorem skip_whitespace_solid {lx : Lexer} {c : Char} {r : List Char}
    (h : lx.unread = c :: r) (hc : Solid c (r.headD '\x00')) : lx.skip_whitespace = lx := by
  unfold skip_whitespace
  rw [source_length_sub, h, List.length_cons, skip_whitespace_loop]
  obtain ⟨h1, h2, h3, h4⟩ := hc
  rw [← peek_next_of_cons h] at h4
  simp [not_at_end_of_cons h, peek_of_cons h, h1, h2, h3]
  intro hslash hn
  exact (h4 ⟨hslash, hn⟩).elim

theorem skip_whitespace_nil {lx : Lexer} (h : lx.unread = []) : lx.skip_whitespace = lx := by
  unfold skip_whitespace
  rw [source_length_sub, h, List.length_nil, skip_whitespace_loop]

theorem skip_whitespace_space {lx : Lexer} {c : Char} {r : List Char}
    (h : lx.unread = ' ' :: c :: r) (hc : Solid c (r.headD '\x00')) :
    lx.skip_whitespace = lx.moved 1 := by
  have h1 : lx.unread = [' '] ++ (c :: r) := h
  have h2 : (lx.moved 1).unread = c :: r := unread_moved h1
  have hskip := skip_whitespace_solid h2 hc
  unfold skip_whitespace at hskip ⊢
  rw [source_length_sub, h2, List.length_cons] at hskip
  rw [source_length_sub, h, List.length_cons, List.length_cons, skip_whitespace_loop]
  simp only [not_at_end_of_cons h, peek_of_cons h, Bool.not_false, if_true,
    advance_of_cons h (by decide), decide_True, Bool.true_or]
  rw [skip_whitespace_loop] at hskip ⊢
  exact hskip

theorem digit_not_alpha {c : Char} (h : c.isDigit = true) :
    c.isAlpha = false ∧ c ≠ '_' ∧ c ≠ '\n' ∧ c ≠ '.' := by
  refine ⟨?_, ?_, ?_, ?_⟩
  · simp only [Char.isDigit, Bool.and_eq_true, decide_eq_true_eq] at h
    simp only [Char.isAlpha, Char.isUpper, Char.isLower, Bool.or_eq_false_iff,
      Bool.and_eq_false_imp, decide_eq_true_eq, decide_eq_false_iff_not]
    obtain ⟨h1, h2⟩ := h
    have h2n : c.val.toNat ≤ 57 := h2
    have h1n : 48 ≤ c.val.toNat := h1
    constructor
    · intro h3
      have : 65 ≤ c.val.toNat := h3
      omega
    · intro h3
      have : 97 ≤ c.val.toNat := h3
      omega
  · rintro rfl
    revert h
    decide
  · rintro rfl
    revert h
    decide
  · rintro rfl
    revert h
    decide

theorem unread_begin (lx : Lexer) : lx.begin.unread = lx.unread := rfl

theorem digits_loop_run {lx : Lexer} {ds rest : List Char} (h : lx.unread = ds ++ rest)
    (hds : ∀ c ∈ ds, c.isDigit = true) (hrest : (rest.headD '\x00').isDigit = false) :
    digits_loop (lx.source.length - lx.current) lx = lx.moved ds.length := by
  rw [digits_loop_eq]
  refine scan_while_run Char.isDigit (by decide) ds _ lx rest h hds hrest ?_
  rw [source_length_sub, h]
  simp

end Lexer

namespace Lexer

theorem number_token_int {lx : Lexer} {ds post : List Char} (h : lx.unread = ds ++ post)
    (hds : ∀ c ∈ ds, c.isDigit = true) (hpost : (post.headD '\x00').isDigit = false)
    (hdot : post.headD '\x00' ≠ '.') :
    lx.number_token = ((lx.moved ds.length).make_token TokenType.NUMBER, lx.moved ds.length) := by
  unfold number_token
  rw [digits_loop_run h hds hpost]
  have hun : (lx.moved ds.length).unread = post := unread_moved h
  have hpeek : (lx.moved ds.length).peek = post.headD '\x00' := by
    cases post with
    | nil => exact peek_of_nil hun
    | cons c r => exact peek_of_cons hun
  have hcond : (decide ((lx.moved ds.length).peek = '.') &&
      (lx.moved ds.length).peek_next.isDigit) = false := by
    rw [hpeek, decide_eq_false hdot, Bool.false_and]
  simp only [hcond, Bool.false_eq_true, if_false]

theorem number_token_frac {lx : Lexer} {ds fp post : List Char}
    (h : lx.unread = ds ++ '.' :: (fp ++ post))
    (hds : ∀ c ∈ ds, c.isDigit = true) (hfp : ∀ c ∈ fp, c.isDigit = true) (hne : fp ≠ [])
    (hpost : (post.headD '\x00').isDigit = false) :
    lx.number_token =
      ((lx.moved (ds.length + 1 + fp.length)).make_token TokenType.NUMBER,
       lx.moved (ds.length + 1 + fp.length)) := by
  unfold number_token
  have hdotd : (('.' :: (fp ++ post)).headD '\x00').isDigit = false := by
    show ('.' : Char).isDigit = false
    decide
  rw [digits_loop_run h hds hdotd]
  have hun : (lx.moved ds.length).unread = '.' :: (fp ++ post) := unread_moved h
  obtain ⟨f, fs, rfl⟩ := List.exists_cons_of_ne_nil hne
  have hf : f.isDigit = true := hfp f (List.mem_cons_self _ _)
  have hnext : (lx.moved ds.length).peek_next = f := by
    rw [peek_next_of_cons hun]
    rfl
  have hun1 : (lx.moved ds.length).unread = ['.'] ++ (f :: fs ++ post) := hun
  have hun2 : ((lx.moved ds.length).moved 1).unread = (f :: fs) ++ post := unread_moved hun1
  simp only [peek_of_cons hun, hnext, hf, decide_True, Bool.and_self, if_true,
    advance_of_cons hun (by decide)]
  rw [digits_loop_run hun2 hfp hpost, moved_moved, moved_moved, Nat.add_assoc]

theorem not_digit_nul : ('\x00' : Char).isDigit = false := by decide

/-- `scan_token` on a numeric literal that is followed by something that is neither a
digit nor a point: one NUMBER token whose lexeme is the literal. -/
theorem scan_token_number {lx lx1 : Lexer} {a post : List Char}
    (hskip : lx.skip_whitespace = lx1) (h : lx1.unread = a ++ post) (ha : NumberLiteral a)
    (hpost : (post.headD '\x00').isDigit = false) (hdot : post.headD '\x00' ≠ '.') :
    lx.scan_token =
      ((lx1.begin.moved a.length).make_token TokenType.NUMBER, lx1.begin.moved a.length) ∧
    ((lx1.begin.moved a.length).make_token TokenType.NUMBER).lexeme = String.mk a := by
  refine ⟨?_, text_moved rfl h⟩
  obtain ⟨ip, fp, hip, hipd, hfpd, hshape⟩ := ha
  obtain ⟨d, ds, rfl⟩ := List.exists_cons_of_ne_nil hip
  have hd : d.isDigit = true := hipd d (List.mem_cons_self _ _)
  have hdsd : ∀ c ∈ ds, c.isDigit = true := fun c hc => hipd c (List.mem_cons_of_mem _ hc)
  obtain ⟨hd1, hd2, hd3, _⟩ := digit_not_alpha hd
  unfold scan_token
  rw [hskip]
  rcases hshape with rfl | ⟨hfp, rfl⟩
  · have hb : lx1.begin.unread = d :: (ds ++ post) := h
    have hb1 : lx1.begin.unread = [d] ++ (ds ++ post) := h
    have hm : (lx1.begin.moved 1).unread = ds ++ post := unread_moved hb1
    have hbb : ({ lx1 with start := lx1.current } : Lexer) = lx1.begin := rfl
    simp only [hbb, not_at_end_of_cons hb, advance_of_cons hb hd3, hd1, hd2, hd,
      Bool.false_eq_true, if_false, decide_False, Bool.or_self, if_true,
      number_token_int hm hdsd hpost hdot, moved_moved]
    simp [Nat.add_comm]
  · have hb : lx1.begin.unread = d :: (ds ++ '.' :: (fp ++ post)) := by
      rw [unread_begin, h]
      simp
    have hb1 : lx1.begin.unread = [d] ++ (ds ++ '.' :: (fp ++ post)) := hb
    have hm : (lx1.begin.moved 1).unread = ds ++ '.' :: (fp ++ post) := unread_moved hb1
    have hbb : ({ lx1 with start := lx1.current } : Lexer) = lx1.begin := rfl
    simp only [hbb, not_at_end_of_cons hb, advance_of_cons hb hd3, hd1, hd2, hd,
      Bool.false_eq_true, if_false, decide_False, Bool.or_self, if_true,
      number_token_frac hm hdsd hfpd hfp hpost, moved_moved]
    simp [Nat.add_comm, Nat.add_left_comm, Nat.add_assoc]

theorem identifier_loop_run {lx : Lexer} {cs rest : List Char} (h : lx.unread = cs ++ rest)
    (hcs : ∀ c ∈ cs, (c.isAlphanum || decide (c = '_')) = true)
    (hrest : ((rest.headD '\x00').isAlphanum || decide (rest.headD '\x00' = '_')) = false) :
    identifier_loop (lx.source.length - lx.current) lx = lx.moved cs.length := by
  rw [identifier_loop_eq]
  refine scan_while_run _ (by decide) cs _ lx rest h hcs hrest ?_
  rw [source_length_sub, h]
  simp

/-- `scan_token` on the word `print` followed by something that cannot continue an
identifier: the PRINT token. -/
theorem scan_token_print {lx lx1 : Lexer} {post : List Char}
    (hskip : lx.skip_whitespace = lx1) (h : lx1.unread = "print".data ++ post)
    (hpost : ((post.headD '\x00').isAlphanum || decide (post.headD '\x00' = '_')) = false) :
    lx.scan_token = ((lx1.begin.moved 5).make_token TokenType.PRINT, lx1.begin.moved 5) := by
  have hb : lx1.begin.unread = 'p' :: ("rint".data ++ post) := h
  have hb1 : lx1.begin.unread = ['p'] ++ ("rint".data ++ post) := h
  have hm : (lx1.begin.moved 1).unread = "rint".data ++ post := unread_moved hb1
  have htext : (lx1.begin.moved 5).text = "print" := @text_moved _ "print".data _ rfl h
  have hbb : ({ lx1 with start := lx1.current } : Lexer) = lx1.begin := rfl
  unfold scan_token
  rw [hskip]
  simp only [hbb, not_at_end_of_cons hb, advance_of_cons hb (by decide), Bool.false_eq_true,
    if_false]
  have halpha : ('p'.isAlpha || decide ('p' = '_')) = true := by decide
  simp only [halpha, if_true]
  unfold identifier_token
  rw [identifier_loop_run hm (by decide) hpost, moved_moved]
  have h5 : 1 + "rint".data.length = 5 := rfl
  rw [h5]
  have htype : (lx1.begin.moved 5).identifier_type = TokenType.PRINT := by
    unfold identifier_type
    rw [htext]
    decide
  dsimp only
  rw [htype]

/-- `scan_token` on one of the characters `+ - * / ;` (a `/` not followed by another
`/`): the one-character token. -/
theorem scan_token_char {lx lx1 : Lexer} {c : Char} {post : List Char} (type : TokenType)
    (hskip : lx.skip_whitespace = lx1) (h : lx1.unread = c :: post)
    (hc : (c = '+' ∧ type = TokenType.PLUS) ∨ (c = '-' ∧ type = TokenType.MINUS)
      ∨ (c = '*' ∧ type = TokenType.MULTIPLY) ∨ (c = '/' ∧ type = TokenType.DIVIDE)
      ∨ (c = ';' ∧ type = TokenType.SEMICOLON)) :
    lx.scan_token = ((lx1.begin.moved 1).make_token type, lx1.begin.moved 1) := by
  have hb : lx1.begin.unread = c :: post := h
  have hbb : ({ lx1 with start := lx1.current } : Lexer) = lx1.begin := rfl
  unfold scan_token
  rw [hskip]
  rcases hc with ⟨rfl, rfl⟩ | ⟨rfl, rfl⟩ | ⟨rfl, rfl⟩ | ⟨rfl, rfl⟩ | ⟨rfl, rfl⟩ <;>
    simp only [hbb, not_at_end_of_cons hb, advance_of_cons hb (by decide), Bool.false_eq_true,
      if_false] <;>
    rfl

/-- `scan_token` at the end of the source: the EOF token. -/
theorem scan_token_eof {lx : Lexer} (h : lx.unread = []) :
    lx.scan_token = (lx.begin.make_token TokenType.EOF_TOKEN, lx.begin) := by
  have hb : lx.begin.unread = [] := h
  have hbb : ({ lx with start := lx.current } : Lexer) = lx.begin := rfl
  unfold scan_token
  rw [skip_whitespace_nil h]
  simp only [hbb, at_end_of_nil hb, if_true]

end Lexer

end Replit

namespace Replit

namespace Parser

set_option maxHeartbeats 4000000 in
/-- The chunk `compile` builds for the statement `print a + b;` or `print a - b;`. -/
theorem compile_print_term (toks : List Token) (t1 t2 t3 t4 t5 t6 : Token) (x y : Double) (opc : Nat)
    (htoks : toks = [t1, t2, t3, t4, t5, t6])
    (h1 : t1.type = TokenType.PRINT) (h2 : t2.type = TokenType.NUMBER)
    (hop : (t3.type = TokenType.PLUS ∧ opc = OpCode.OP_ADD.byte)
      ∨ (t3.type = TokenType.MINUS ∧ opc = OpCode.OP_SUBTRACT.byte))
    (h4 : t4.type = TokenType.NUMBER) (h5 : t5.type = TokenType.SEMICOLON)
    (h6 : t6.type = TokenType.EOF_TOKEN)
    (hx : Double.stod t2.lexeme = Except.ok x) (hy : Double.stod t4.lexeme = Except.ok y) :
    compile 20 toks {} = Except.ok (true, clean toks 5
      (Chunk.mk [0, 0, 0, 1, opc, 10, 19]
        [t2.line, t2.line, t4.line, t4.line, t4.line, t5.line, t5.line]
        [Value.number x, Value.number y])) := by
  have g0 : toks[0]? = some t1 := by rw [htoks]; rfl
  have g1 : toks[1]? = some t2 := by rw [htoks]; rfl
  have g2 : toks[2]? = some t3 := by rw [htoks]; rfl
  have g3 : toks[3]? = some t4 := by rw [htoks]; rfl
  have g4 : toks[4]? = some t5 := by rw [htoks]; rfl
  have g5 : toks[5]? = some t6 := by rw [htoks]; rfl
  have e0 : ∀ h : 0 < toks.length, toks[0] = t1 := by subst htoks; intro _; rfl
  have e1 : ∀ h : 1 < toks.length, toks[1] = t2 := by subst htoks; intro _; rfl
  have e2 : ∀ h : 2 < toks.length, toks[2] = t3 := by subst htoks; intro _; rfl
  have e3 : ∀ h : 3 < toks.length, toks[3] = t4 := by subst htoks; intro _; rfl
  have e4 : ∀ h : 4 < toks.length, toks[4] = t5 := by subst htoks; intro _; rfl
  have e5 : ∀ h : 5 < toks.length, toks[5] = t6 := by subst htoks; intro _; rfl
  have hlen : toks.length = 6 := by rw [htoks]; rfl
  have hne : toks ≠ [] := by rw [htoks]; simp
  clear htoks
  rcases hop with ⟨h3, hopc⟩ | ⟨h3, hopc⟩
  all_goals
    have hp11 : primary 11 (clean toks 1
          (Chunk.mk [] [] [])) =
        Except.ok (clean toks 2
          (Chunk.mk [0, 0] [t2.line, t2.line] [Value.number x])) := by
      rw [primary]
      simp [Parser.match, match_or, check, peek, advance, previous, consume, emit_constant, make_constant,
        emit_bytes, emit_byte, emit_return, Chunk.add_constant, Chunk.write, OpCode.byte, clean,
        var_declaration, error_at, g0, g1, g2, g3, g4, g5, e0, e1, e2, e3, e4, e5, hlen, h1, h2, h3, h4, h5,
        h6, hopc, hx, hy, hne]
    simp only [clean, hopc, OpCode.byte] at hp11
    have hu12 : unary 12 (clean toks 1
          (Chunk.mk [] [] [])) =
        Except.ok (clean toks 2
          (Chunk.mk [0, 0] [t2.line, t2.line] [Value.number x])) := by
      rw [unary]
      simp [Parser.match, match_or, check, peek, advance, previous, consume, emit_constant, make_constant,
        emit_bytes, emit_byte, emit_return, Chunk.add_constant, Chunk.write, OpCode.byte, clean,
        var_declaration, error_at, g0, g1, g2, g3, g4, g5, e0, e1, e2, e3, e4, e5, hlen, h1, h2, h3, h4, h5,
        h6, hopc, hx, hy, hne, hp11]
    simp only [clean, hopc, OpCode.byte] at hu12
    have hfl12 : factor_loop 12 (clean toks 2
          (Chunk.mk [0, 0] [t2.line, t2.line] [Value.number x])) =
        Except.ok (clean toks 2
          (Chunk.mk [0, 0] [t2.line, t2.line] [Value.number x])) := by
      rw [factor_loop]
      simp [Parser.match, match_or, check, peek, advance, previous, consume, emit_constant, make_constant,
        emit_bytes, emit_byte, emit_return, Chunk.add_constant, Chunk.write, OpCode.byte, clean,
        var_declaration, error_at, g0, g1, g2, g3, g4, g5, e0, e1, e2, e3, e4, e5, hlen, h1, h2, h3, h4, h5,
        h6, hopc, hx, hy, hne]
    simp only [clean, hopc, OpCode.byte] at hfl12
    have hf13 : factor 13 (clean toks 1
          (Chunk.mk [] [] [])) =
        Except.ok (clean toks 2
          (Chunk.mk [0, 0] [t2.line, t2.line] [Value.number x])) := by
      rw [factor]
      simp [Parser.match, match_or, check, peek, advance, previous, consume, emit_constant, make_constant,
        emit_bytes, emit_byte, emit_return, Chunk.add_constant, Chunk.write, OpCode.byte, clean,
        var_declaration, error_at, g0, g1, g2, g3, g4, g5, e0, e1, e2, e3, e4, e5, hlen, h1, h2, h3, h4, h5,
        h6, hopc, hx, hy, hne, hu12, hfl12]
    simp only [clean, hopc, OpCode.byte] at hf13
    have hp10 : primary 10 (clean toks 3
          (Chunk.mk [0, 0] [t2.line, t2.line] [Value.number x])) =
        Except.ok (clean toks 4
          (Chunk.mk [0, 0, 0, 1] [t2.line, t2.line, t4.line, t4.line]
            [Value.number x, Value.number y])) := by
      rw [primary]
      simp [Parser.match, match_or, check, peek, advance, previous, consume, emit_constant, make_constant,
        emit_bytes, emit_byte, emit_return, Chunk.add_constant, Chunk.write, OpCode.byte, clean,
        var_declaration, error_at, g0, g1, g2, g3, g4, g5, e0, e1, e2, e3, e4, e5, hlen, h1, h2, h3, h4, h5,
        h6, hopc, hx, hy, hne]
    simp only [clean, hopc, OpCode.byte] at hp10
    have hu11 : unary 11 (clean toks 3
          (Chunk.mk [0, 0] [t2.line, t2.line] [Value.number x])) =
        Except.ok (clean toks 4
          (Chunk.mk [0, 0, 0, 1] [t2.line, t2.line, t4.line, t4.line]
            [Value.number x, Value.number y])) := by
      rw [unary]
      simp [Parser.match, match_or, check, peek, advance, previous, consume, emit_constant, make_constant,
        emit_bytes, emit_byte, emit_return, Chunk.add_constant, Chunk.write, OpCode.byte, clean,
        var_declaration, error_at, g0, g1, g2, g3, g4, g5, e0, e1, e2, e3, e4, e5, hlen, h1, h2, h3, h4, h5,
        h6, hopc, hx, hy, hne, hp10]
    simp only [clean, hopc, OpCode.byte] at hu11
    have hfl11 : factor_loop 11 (clean toks 4
          (Chunk.mk [0, 0, 0, 1] [t2.line, t2.line, t4.line, t4.line]
            [Value.number x, Value.number y])) =
        Except.ok (clean toks 4
          (Chunk.mk [0, 0, 0, 1] [t2.line, t2.line, t4.line, t4.line]
            [Value.number x, Value.number y])) := by
      rw [factor_loop]
      simp [Parser.match, match_or, check, peek, advance, previous, consume, emit_constant, make_constant,
        emit_bytes, emit_byte, emit_return, Chunk.add_constant, Chunk.write, OpCode.byte, clean,
        var_declaration, error_at, g0, g1, g2, g3, g4, g5, e0, e1, e2, e3, e4, e5, hlen, h1, h2, h3, h4, h5,
        h6, hopc, hx, hy, hne]
    simp only [clean, hopc, OpCode.byte] at hfl11
    have hf12 : factor 12 (clean toks 3
          (Chunk.mk [0, 0] [t2.line, t2.line] [Value.number x])) =
        Except.ok (clean toks 4
          (Chunk.mk [0, 0, 0, 1] [t2.line, t2.line, t4.line, t4.line]
            [Value.number x, Value.number y])) := by
      rw [factor]
      simp [Parser.match, match_or, check, peek, advance, previous, consume, emit_constant, make_constant,
        emit_bytes, emit_byte, emit_return, Chunk.add_constant, Chunk.write, OpCode.byte, clean,
        var_declaration, error_at, g0, g1, g2, g3, g4, g5, e0, e1, e2, e3, e4, e5, hlen, h1, h2, h3, h4, h5,
        h6, hopc, hx, hy, hne, hu11, hfl11]
    simp only [clean, hopc, OpCode.byte] at hf12
    have htl12 : term_loop 12 (clean toks 4
          (Chunk.mk [0, 0, 0, 1, opc] [t2.line, t2.line, t4.line, t4.line, t4.line]
            [Value.number x, Value.number y])) =
        Except.ok (clean toks 4
          (Chunk.mk [0, 0, 0, 1, opc] [t2.line, t2.line, t4.line, t4.line, t4.line]
            [Value.number x, Value.number y])) := by
      rw [term_loop]
      simp [Parser.match, match_or, check, peek, advance, previous, consume, emit_constant, make_constant,
        emit_bytes, emit_byte, emit_return, Chunk.add_constant, Chunk.write, OpCode.byte, clean,
        var_declaration, error_at, g0, g1, g2, g3, g4, g5, e0, e1, e2, e3, e4, e5, hlen, h1, h2, h3, h4, h5,
        h6, hopc, hx, hy, hne]
    simp only [clean, hopc, OpCode.byte] at htl12
    have htl13 : term_loop 13 (clean toks 2
          (Chunk.mk [0, 0] [t2.line, t2.line] [Value.number x])) =
        Except.ok (clean toks 4
          (Chunk.mk [0, 0, 0, 1, opc] [t2.line, t2.line, t4.line, t4.line, t4.line]
            [Value.number x, Value.number y])) := by
      rw [term_loop]
      simp [Parser.match, match_or, check, peek, advance, previous, consume, emit_constant, make_constant,
        emit_bytes, emit_byte, emit_return, Chunk.add_constant, Chunk.write, OpCode.byte, clean,
        var_declaration, error_at, g0, g1, g2, g3, g4, g5, e0, e1, e2, e3, e4, e5, hlen, h1, h2, h3, h4, h5,
        h6, hopc, hx, hy, hne, hf12, htl12]
    simp only [clean, hopc, OpCode.byte] at htl13
    have ht14 : term 14 (clean toks 1
          (Chunk.mk [] [] [])) =
        Except.ok (clean toks 4
          (Chunk.mk [0, 0, 0, 1, opc] [t2.line, t2.line, t4.line, t4.line, t4.line]
            [Value.number x, Value.number y])) := by
      rw [term]
      simp [Parser.match, match_or, check, peek, advance, previous, consume, emit_constant, make_constant,
        emit_bytes, emit_byte, emit_return, Chunk.add_constant, Chunk.write, OpCode.byte, clean,
        var_declaration, error_at, g0, g1, g2, g3, g4, g5, e0, e1, e2, e3, e4, e5, hlen, h1, h2, h3, h4, h5,
        h6, hopc, hx, hy, hne, hf13, htl13]
    simp only [clean, hopc, OpCode.byte] at ht14
    have hcl14 : comparison_loop 14 (clean toks 4
          (Chunk.mk [0, 0, 0, 1, opc] [t2.line, t2.line, t4.line, t4.line, t4.line]
            [Value.number x, Value.number y])) =
        Except.ok (clean toks 4
          (Chunk.mk [0, 0, 0, 1, opc] [t2.line, t2.line, t4.line, t4.line, t4.line]
            [Value.number x, Value.number y])) := by
      rw [comparison_loop]
      simp [Parser.match, match_or, check, peek, advance, previous, consume, emit_constant, make_constant,
        emit_bytes, emit_byte, emit_return, Chunk.add_constant, Chunk.write, OpCode.byte, clean,
        var_declaration, error_at, g0, g1, g2, g3, g4, g5, e0, e1, e2, e3, e4, e5, hlen, h1, h2, h3, h4, h5,
        h6, hopc, hx, hy, hne]
    simp only [clean, hopc, OpCode.byte] at hcl14
    have hc15 : comparison 15 (clean toks 1
          (Chunk.mk [] [] [])) =
        Except.ok (clean toks 4
          (Chunk.mk [0, 0, 0, 1, opc] [t2.line, t2.line, t4.line, t4.line, t4.line]
            [Value.number x, Value.number y])) := by
      rw [comparison]
      simp [Parser.match, match_or, check, peek, advance, previous, consume, emit_constant, make_constant,
        emit_bytes, emit_byte, emit_return, Chunk.add_constant, Chunk.write, OpCode.byte, clean,
        var_declaration, error_at, g0, g1, g2, g3, g4, g5, e0, e1, e2, e3, e4, e5, hlen, h1, h2, h3, h4, h5,
        h6, hopc, hx, hy, hne, ht14, hcl14]
    simp only [clean, hopc, OpCode.byte] at hc15
    have hel15 : equality_loop 15 (clean toks 4
          (Chunk.mk [0, 0, 0, 1, opc] [t2.line, t2.line, t4.line, t4.line, t4.line]
            [Value.number x, Value.number y])) =
        Except.ok (clean toks 4
          (Chunk.mk [0, 0, 0, 1, opc] [t2.line, t2.line, t4.line, t4.line, t4.line]
            [Value.number x, Value.number y])) := by
      rw [equality_loop]
      simp [Parser.match, match_or, check, peek, advance, previous, consume, emit_constant, make_constant,
        emit_bytes, emit_byte, emit_return, Chunk.add_constant, Chunk.write, OpCode.byte, clean,
        var_declaration, error_at, g0, g1, g2, g3, g4, g5, e0, e1, e2, e3, e4, e5, hlen, h1, h2, h3, h4, h5,
        h6, hopc, hx, hy, hne]
    simp only [clean, hopc, OpCode.byte] at hel15
    have he16 : equality 16 (clean toks 1
          (Chunk.mk [] [] [])) =
        Except.ok (clean toks 4
          (Chunk.mk [0, 0, 0, 1, opc] [t2.line, t2.line, t4.line, t4.line, t4.line]
            [Value.number x, Value.number y])) := by
      rw [equality]
      simp [Parser.match, match_or, check, peek, advance, previous, consume, emit_constant, make_constant,
        emit_bytes, emit_byte, emit_return, Chunk.add_constant, Chunk.write, OpCode.byte, clean,
        var_declaration, error_at, g0, g1, g2, g3, g4, g5, e0, e1, e2, e3, e4, e5, hlen, h1, h2, h3, h4, h5,
        h6, hopc, hx, hy, hne, hc15, hel15]
    simp only [clean, hopc, OpCode.byte] at he16
    have hx19 : expression 19 (clean toks 1
          (Chunk.mk [] [] [])) =
        Except.ok (clean toks 4
          (Chunk.mk [0, 0, 0, 1, opc] [t2.line, t2.line, t4.line, t4.line, t4.line]
            [Value.number x, Value.number y])) := by
      simp [Parser.match, match_or, check, peek, advance, previous, consume, emit_constant, make_constant,
        emit_bytes, emit_byte, emit_return, Chunk.add_constant, Chunk.write, OpCode.byte, clean,
        var_declaration, error_at, g0, g1, g2, g3, g4, g5, e0, e1, e2, e3, e4, e5, hlen, h1, h2, h3, h4, h5,
        h6, hopc, hx, hy, hne, expression, or_expression, and_expression, he16]
    simp only [clean, hopc, OpCode.byte] at hx19
    have hps : print_statement 19 (clean toks 1
          (Chunk.mk [] [] [])) =
        Except.ok (clean toks 5
          (Chunk.mk [0, 0, 0, 1, opc, 10]
            [t2.line, t2.line, t4.line, t4.line, t4.line, t5.line]
            [Value.number x, Value.number y])) := by
      simp [Parser.match, match_or, check, peek, advance, previous, consume, emit_constant, make_constant,
        emit_bytes, emit_byte, emit_return, Chunk.add_constant, Chunk.write, OpCode.byte, clean,
        var_declaration, error_at, g0, g1, g2, g3, g4, g5, e0, e1, e2, e3, e4, e5, hlen, h1, h2, h3, h4, h5,
        h6, hopc, hx, hy, hne, print_statement, hx19]
    simp only [clean, hopc, OpCode.byte] at hps
    have hd : declaration 19 (clean toks 0
          (Chunk.mk [] [] [])) =
        Except.ok (clean toks 5
          (Chunk.mk [0, 0, 0, 1, opc, 10]
            [t2.line, t2.line, t4.line, t4.line, t4.line, t5.line]
            [Value.number x, Value.number y])) := by
      simp [Parser.match, match_or, check, peek, advance, previous, consume, emit_constant, make_constant,
        emit_bytes, emit_byte, emit_return, Chunk.add_constant, Chunk.write, OpCode.byte, clean,
        var_declaration, error_at, g0, g1, g2, g3, g4, g5, e0, e1, e2, e3, e4, e5, hlen, h1, h2, h3, h4, h5,
        h6, hopc, hx, hy, hne, declaration, statement, hps]
    simp only [clean, hopc, OpCode.byte] at hd
    have hl19 : compile_loop 19 (clean toks 5
          (Chunk.mk [0, 0, 0, 1, opc, 10]
            [t2.line, t2.line, t4.line, t4.line, t4.line, t5.line]
            [Value.number x, Value.number y])) =
        Except.ok (clean toks 5
          (Chunk.mk [0, 0, 0, 1, opc, 10]
            [t2.line, t2.line, t4.line, t4.line, t4.line, t5.line]
            [Value.number x, Value.number y])) := by
      rw [compile_loop]
      simp [Parser.match, match_or, check, peek, advance, previous, consume, emit_constant, make_constant,
        emit_bytes, emit_byte, emit_return, Chunk.add_constant, Chunk.write, OpCode.byte, clean,
        var_declaration, error_at, g0, g1, g2, g3, g4, g5, e0, e1, e2, e3, e4, e5, hlen, h1, h2, h3, h4, h5,
        h6, hopc, hx, hy, hne]
    simp only [clean, hopc, OpCode.byte] at hl19
    have hl20 : compile_loop 20 (clean toks 0
          (Chunk.mk [] [] [])) =
        Except.ok (clean toks 5
          (Chunk.mk [0, 0, 0, 1, opc, 10]
            [t2.line, t2.line, t4.line, t4.line, t4.line, t5.line]
            [Value.number x, Value.number y])) := by
      rw [compile_loop]
      simp [Parser.match, match_or, check, peek, advance, previous, consume, emit_constant, make_constant,
        emit_bytes, emit_byte, emit_return, Chunk.add_constant, Chunk.write, OpCode.byte, clean,
        var_declaration, error_at, g0, g1, g2, g3, g4, g5, e0, e1, e2, e3, e4, e5, hlen, h1, h2, h3, h4, h5,
        h6, hopc, hx, hy, hne, hd, hl19]
    simp only [clean, hopc, OpCode.byte] at hl20
    unfold compile
    simp only [hl20, bind_ok]
    simp [Parser.match, match_or, check, peek, advance, previous, consume, emit_constant, make_constant,
        emit_bytes, emit_byte, emit_return, Chunk.add_constant, Chunk.write, OpCode.byte, clean,
        var_declaration, error_at, g0, g1, g2, g3, g4, g5, e0, e1, e2, e3, e4, e5, hlen, h1, h2, h3, h4, h5,
        h6, hopc, hx, hy, hne]

set_option maxHeartbeats 4000000 in
/-- The chunk `compile` builds for the statement `print a * b;` or `print a / b;`. -/
theorem compile_print_factor (toks : List Token) (t1 t2 t3 t4 t5 t6 : Token) (x y : Double) (opc : Nat)
    (htoks : toks = [t1, t2, t3, t4, t5, t6])
    (h1 : t1.type = TokenType.PRINT) (h2 : t2.type = TokenType.NUMBER)
    (hop : (t3.type = TokenType.MULTIPLY ∧ opc = OpCode.OP_MULTIPLY.byte)
      ∨ (t3.type = TokenType.DIVIDE ∧ opc = OpCode.OP_DIVIDE.byte))
    (h4 : t4.type = TokenType.NUMBER) (h5 : t5.type = TokenType.SEMICOLON)
    (h6 : t6.type = TokenType.EOF_TOKEN)
    (hx : Double.stod t2.lexeme = Except.ok x) (hy : Double.stod t4.lexeme = Except.ok y) :
    compile 20 toks {} = Except.ok (true, clean toks 5
      (Chunk.mk [0, 0, 0, 1, opc, 10, 19]
        [t2.line, t2.line, t4.line, t4.line, t4.line, t5.line, t5.line]
        [Value.number x, Value.number y])) := by
  have g0 : toks[0]? = some t1 := by rw [htoks]; rfl
  have g1 : toks[1]? = some t2 := by rw [htoks]; rfl
  have g2 : toks[2]? = some t3 := by rw [htoks]; rfl
  have g3 : toks[3]? = some t4 := by rw [htoks]; rfl
  have g4 : toks[4]? = some t5 := by rw [htoks]; rfl
  have g5 : toks[5]? = some t6 := by rw [htoks]; rfl
  have e0 : ∀ h : 0 < toks.length, toks[0] = t1 := by subst htoks; intro _; rfl
  have e1 : ∀ h : 1 < toks.length, toks[1] = t2 := by subst htoks; intro _; rfl
  have e2 : ∀ h : 2 < toks.length, toks[2] = t3 := by subst htoks; intro _; rfl
  have e3 : ∀ h : 3 < toks.length, toks[3] = t4 := by subst htoks; intro _; rfl
  have e4 : ∀ h : 4 < toks.length, toks[4] = t5 := by subst htoks; intro _; rfl
  have e5 : ∀ h : 5 < toks.length, toks[5] = t6 := by subst htoks; intro _; rfl
  have hlen : toks.length = 6 := by rw [htoks]; rfl
  have hne : toks ≠ [] := by rw [htoks]; simp
  clear htoks
  rcases hop with ⟨h3, hopc⟩ | ⟨h3, hopc⟩
  all_goals
    have hp11 : primary 11 (clean toks 1
          (Chunk.mk [] [] [])) =
        Except.ok (clean toks 2
          (Chunk.mk [0, 0] [t2.line, t2.line] [Value.number x])) := by
      rw [primary]
      simp [Parser.match, match_or, check, peek, advance, previous, consume, emit_constant, make_constant,
        emit_bytes, emit_byte, emit_return, Chunk.add_constant, Chunk.write, OpCode.byte, clean,
        var_declaration, error_at, g0, g1, g2, g3, g4, g5, e0, e1, e2, e3, e4, e5, hlen, h1, h2, h3, h4, h5,
        h6, hopc, hx, hy, hne]
    simp only [clean, hopc, OpCode.byte] at hp11
    have hu12 : unary 12 (clean toks 1
          (Chunk.mk [] [] [])) =
        Except.ok (clean toks 2
          (Chunk.mk [0, 0] [t2.line, t2.line] [Value.number x])) := by
      rw [unary]
      simp [Parser.match, match_or, check, peek, advance, previous, consume, emit_constant, make_constant,
        emit_bytes, emit_byte, emit_return, Chunk.add_constant, Chunk.write, OpCode.byte, clean,
        var_declaration, error_at, g0, g1, g2, g3, g4, g5, e0, e1, e2, e3, e4, e5, hlen, h1, h2, h3, h4, h5,
        h6, hopc, hx, hy, hne, hp11]
    simp only [clean, hopc, OpCode.byte] at hu12
    have hp10 : primary 10 (clean toks 3
          (Chunk.mk [0, 0] [t2.line, t2.line] [Value.number x])) =
        Except.ok (clean toks 4
          (Chunk.mk [0, 0, 0, 1] [t2.line, t2.line, t4.line, t4.line]
            [Value.number x, Value.number y])) := by
      rw [primary]
      simp [Parser.match, match_or, check, peek, advance, previous, consume, emit_constant, make_constant,
        emit_bytes, emit_byte, emit_return, Chunk.add_constant, Chunk.write, OpCode.byte, clean,
        var_declaration, error_at, g0, g1, g2, g3, g4, g5, e0, e1, e2, e3, e4, e5, hlen, h1, h2, h3, h4, h5,
        h6, hopc, hx, hy, hne]
    simp only [clean, hopc, OpCode.byte] at hp10
    have hu11 : unary 11 (clean toks 3
          (Chunk.mk [0, 0] [t2.line, t2.line] [Value.number x])) =
        Except.ok (clean toks 4
          (Chunk.mk [0, 0, 0, 1] [t2.line, t2.line, t4.line, t4.line]
            [Value.number x, Value.number y])) := by
      rw [unary]
      simp [Parser.match, match_or, check, peek, advance, previous, consume, emit_constant, make_constant,
        emit_bytes, emit_byte, emit_return, Chunk.add_constant, Chunk.write, OpCode.byte, clean,
        var_declaration, error_at, g0, g1, g2, g3, g4, g5, e0, e1, e2, e3, e4, e5, hlen, h1, h2, h3, h4, h5,
        h6, hopc, hx, hy, hne, hp10]
    simp only [clean, hopc, OpCode.byte] at hu11
    have hfl11 : factor_loop 11 (clean toks 4
          (Chunk.mk [0, 0, 0, 1, opc] [t2.line, t2.line, t4.line, t4.line, t4.line]
            [Value.number x, Value.number y])) =
        Except.ok (clean toks 4
          (Chunk.mk [0, 0, 0, 1, opc] [t2.line, t2.line, t4.line, t4.line, t4.line]
            [Value.number x, Value.number y])) := by
      rw [factor_loop]
      simp [Parser.match, match_or, check, peek, advance, previous, consume, emit_constant, make_constant,
        emit_bytes, emit_byte, emit_return, Chunk.add_constant, Chunk.write, OpCode.byte, clean,
        var_declaration, error_at, g0, g1, g2, g3, g4, g5, e0, e1, e2, e3, e4, e5, hlen, h1, h2, h3, h4, h5,
        h6, hopc, hx, hy, hne]
    simp only [clean, hopc, OpCode.byte] at hfl11
    have hfl12 : factor_loop 12 (clean toks 2
          (Chunk.mk [0, 0] [t2.line, t2.line] [Value.number x])) =
        Except.ok (clean toks 4
          (Chunk.mk [0, 0, 0, 1, opc] [t2.line, t2.line, t4.line, t4.line, t4.line]
            [Value.number x, Value.number y])) := by
      rw [factor_loop]
      simp [Parser.match, match_or, check, peek, advance, previous, consume, emit_constant, make_constant,
        emit_bytes, emit_byte, emit_return, Chunk.add_constant, Chunk.write, OpCode.byte, clean,
        var_declaration, error_at, g0, g1, g2, g3, g4, g5, e0, e1, e2, e3, e4, e5, hlen, h1, h2, h3, h4, h5,
        h6, hopc, hx, hy, hne, hu11, hfl11]
    simp only [clean, hopc, OpCode.byte] at hfl12
    have hf13 : factor 13 (clean toks 1
          (Chunk.mk [] [] [])) =
        Except.ok (clean toks 4
          (Chunk.mk [0, 0, 0, 1, opc] [t2.line, t2.line, t4.line, t4.line, t4.line]
            [Value.number x, Value.number y])) := by
      rw [factor]
      simp [Parser.match, match_or, check, peek, advance, previous, consume, emit_constant, make_constant,
        emit_bytes, emit_byte, emit_return, Chunk.add_constant, Chunk.write, OpCode.byte, clean,
        var_declaration, error_at, g0, g1, g2, g3, g4, g5, e0, e1, e2, e3, e4, e5, hlen, h1, h2, h3, h4, h5,
        h6, hopc, hx, hy, hne, hu12, hfl12]
    simp only [clean, hopc, OpCode.byte] at hf13
    have htl13 : term_loop 13 (clean toks 4
          (Chunk.mk [0, 0, 0, 1, opc] [t2.line, t2.line, t4.line, t4.line, t4.line]
            [Value.number x, Value.number y])) =
        Except.ok (clean toks 4
          (Chunk.mk [0, 0, 0, 1, opc] [t2.line, t2.line, t4.line, t4.line, t4.line]
            [Value.number x, Value.number y])) := by
      rw [term_loop]
      simp [Parser.match, match_or, check, peek, advance, previous, consume, emit_constant, make_constant,
        emit_bytes, emit_byte, emit_return, Chunk.add_constant, Chunk.write, OpCode.byte, clean,
        var_declaration, error_at, g0, g1, g2, g3, g4, g5, e0, e1, e2, e3, e4, e5, hlen, h1, h2, h3, h4, h5,
        h6, hopc, hx, hy, hne]
    simp only [clean, hopc, OpCode.byte] at htl13
    have ht14 : term 14 (clean toks 1
          (Chunk.mk [] [] [])) =
        Except.ok (clean toks 4
          (Chunk.mk [0, 0, 0, 1, opc] [t2.line, t2.line, t4.line, t4.line, t4.line]
            [Value.number x, Value.number y])) := by
      rw [term]
      simp [Parser.match, match_or, check, peek, advance, previous, consume, emit_constant, make_constant,
        emit_bytes, emit_byte, emit_return, Chunk.add_constant, Chunk.write, OpCode.byte, clean,
        var_declaration, error_at, g0, g1, g2, g3, g4, g5, e0, e1, e2, e3, e4, e5, hlen, h1, h2, h3, h4, h5,
        h6, hopc, hx, hy, hne, hf13, htl13]
    simp only [clean, hopc, OpCode.byte] at ht14
    have hcl14 : comparison_loop 14 (clean toks 4
          (Chunk.mk [0, 0, 0, 1, opc] [t2.line, t2.line, t4.line, t4.line, t4.line]
            [Value.number x, Value.number y])) =
        Except.ok (clean toks 4
          (Chunk.mk [0, 0, 0, 1, opc] [t2.line, t2.line, t4.line, t4.line, t4.line]
            [Value.number x, Value.number y])) := by
      rw [comparison_loop]
      simp [Parser.match, match_or, check, peek, advance, previous, consume, emit_constant, make_constant,
        emit_bytes, emit_byte, emit_return, Chunk.add_constant, Chunk.write, OpCode.byte, clean,
        var_declaration, error_at, g0, g1, g2, g3, g4, g5, e0, e1, e2, e3, e4, e5, hlen, h1, h2, h3, h4, h5,
        h6, hopc, hx, hy, hne]
    simp only [clean, hopc, OpCode.byte] at hcl14
    have hc15 : comparison 15 (clean toks 1
          (Chunk.mk [] [] [])) =
        Except.ok (clean toks 4
          (Chunk.mk [0, 0, 0, 1, opc] [t2.line, t2.line, t4.line, t4.line, t4.line]
            [Value.number x, Value.number y])) := by
      rw [comparison]
      simp [Parser.match, match_or, check, peek, advance, previous, consume, emit_constant, make_constant,
        emit_bytes, emit_byte, emit_return, Chunk.add_constant, Chunk.write, OpCode.byte, clean,
        var_declaration, error_at, g0, g1, g2, g3, g4, g5, e0, e1, e2, e3, e4, e5, hlen, h1, h2, h3, h4, h5,
        h6, hopc, hx, hy, hne, ht14, hcl14]
    simp only [clean, hopc, OpCode.byte] at hc15
    have hel15 : equality_loop 15 (clean toks 4
          (Chunk.mk [0, 0, 0, 1, opc] [t2.line, t2.line, t4.line, t4.line, t4.line]
            [Value.number x, Value.number y])) =
        Except.ok (clean toks 4
          (Chunk.mk [0, 0, 0, 1, opc] [t2.line, t2.line, t4.line, t4.line, t4.line]
            [Value.number x, Value.number y])) := by
      rw [equality_loop]
      simp [Parser.match, match_or, check, peek, advance, previous, consume, emit_constant, make_constant,
        emit_bytes, emit_byte, emit_return, Chunk.add_constant, Chunk.write, OpCode.byte, clean,
        var_declaration, error_at, g0, g1, g2, g3, g4, g5, e0, e1, e2, e3, e4, e5, hlen, h1, h2, h3, h4, h5,
        h6, hopc, hx, hy, hne]
    simp only [clean, hopc, OpCode.byte] at hel15
    have he16 : equality 16 (clean toks 1
          (Chunk.mk [] [] [])) =
        Except.ok (clean toks 4
          (Chunk.mk [0, 0, 0, 1, opc] [t2.line, t2.line, t4.line, t4.line, t4.line]
            [Value.number x, Value.number y])) := by
      rw [equality]
      simp [Parser.match, match_or, check, peek, advance, previous, consume, emit_constant, make_constant,
        emit_bytes, emit_byte, emit_return, Chunk.add_constant, Chunk.write, OpCode.byte, clean,
        var_declaration, error_at, g0, g1, g2, g3, g4, g5, e0, e1, e2, e3, e4, e5, hlen, h1, h2, h3, h4, h5,
        h6, hopc, hx, hy, hne, hc15, hel15]
    simp only [clean, hopc, OpCode.byte] at he16
    have hx19 : expression 19 (clean toks 1
          (Chunk.mk [] [] [])) =
        Except.ok (clean toks 4
          (Chunk.mk [0, 0, 0, 1, opc] [t2.line, t2.line, t4.line, t4.line, t4.line]
            [Value.number x, Value.number y])) := by
      simp [Parser.match, match_or, check, peek, advance, previous, consume, emit_constant, make_constant,
        emit_bytes, emit_byte, emit_return, Chunk.add_constant, Chunk.write, OpCode.byte, clean,
        var_declaration, error_at, g0, g1, g2, g3, g4, g5, e0, e1, e2, e3, e4, e5, hlen, h1, h2, h3, h4, h5,
        h6, hopc, hx, hy, hne, expression, or_expression, and_expression, he16]
    simp only [clean, hopc, OpCode.byte] at hx19
    have hps : print_statement 19 (clean toks 1
          (Chunk.mk [] [] [])) =
        Except.ok (clean toks 5
          (Chunk.mk [0, 0, 0, 1, opc, 10]
            [t2.line, t2.line, t4.line, t4.line, t4.line, t5.line]
            [Value.number x, Value.number y])) := by
      simp [Parser.match, match_or, check, peek, advance, previous, consume, emit_constant, make_constant,
        emit_bytes, emit_byte, emit_return, Chunk.add_constant, Chunk.write, OpCode.byte, clean,
        var_declaration, error_at, g0, g1, g2, g3, g4, g5, e0, e1, e2, e3, e4, e5, hlen, h1, h2, h3, h4, h5,
        h6, hopc, hx, hy, hne, print_statement, hx19]
    simp only [clean, hopc, OpCode.byte] at hps
    have hd : declaration 19 (clean toks 0
          (Chunk.mk [] [] [])) =
        Except.ok (clean toks 5
          (Chunk.mk [0, 0, 0, 1, opc, 10]
            [t2.line, t2.line, t4.line, t4.line, t4.line, t5.line]
            [Value.number x, Value.number y])) := by
      simp [Parser.match, match_or, check, peek, advance, previous, consume, emit_constant, make_constant,
        emit_bytes, emit_byte, emit_return, Chunk.add_constant, Chunk.write, OpCode.byte, clean,
        var_declaration, error_at, g0, g1, g2, g3, g4, g5, e0, e1, e2, e3, e4, e5, hlen, h1, h2, h3, h4, h5,
        h6, hopc, hx, hy, hne, declaration, statement, hps]
    simp only [clean, hopc, OpCode.byte] at hd
    have hl19 : compile_loop 19 (clean toks 5
          (Chunk.mk [0, 0, 0, 1, opc, 10]
            [t2.line, t2.line, t4.line, t4.line, t4.line, t5.line]
            [Value.number x, Value.number y])) =
        Except.ok (clean toks 5
          (Chunk.mk [0, 0, 0, 1, opc, 10]
            [t2.line, t2.line, t4.line, t4.line, t4.line, t5.line]
            [Value.number x, Value.number y])) := by
      rw [compile_loop]
      simp [Parser.match, match_or, check, peek, advance, previous, consume, emit_constant, make_constant,
        emit_bytes, emit_byte, emit_return, Chunk.add_constant, Chunk.write, OpCode.byte, clean,
        var_declaration, error_at, g0, g1, g2, g3, g4, g5, e0, e1, e2, e3, e4, e5, hlen, h1, h2, h3, h4, h5,
        h6, hopc, hx, hy, hne]
    simp only [clean, hopc, OpCode.byte] at hl19
    have hl20 : compile_loop 20 (clean toks 0
          (Chunk.mk [] [] [])) =
        Except.ok (clean toks 5
          (Chunk.mk [0, 0, 0, 1, opc, 10]
            [t2.line, t2.line, t4.line, t4.line, t4.line, t5.line]
            [Value.number x, Value.number y])) := by
      rw [compile_loop]
      simp [Parser.match, match_or, check, peek, advance, previous, consume, emit_constant, make_constant,
        emit_bytes, emit_byte, emit_return, Chunk.add_constant, Chunk.write, OpCode.byte, clean,
        var_declaration, error_at, g0, g1, g2, g3, g4, g5, e0, e1, e2, e3, e4, e5, hlen, h1, h2, h3, h4, h5,
        h6, hopc, hx, hy, hne, hd, hl19]
    simp only [clean, hopc, OpCode.byte] at hl20
    unfold compile
    simp only [hl20, bind_ok]
    simp [Parser.match, match_or, check, peek, advance, previous, consume, emit_constant, make_constant,
        emit_bytes, emit_byte, emit_return, Chunk.add_constant, Chunk.write, OpCode.byte, clean,
        var_declaration, error_at, g0, g1, g2, g3, g4, g5, e0, e1, e2, e3, e4, e5, hlen, h1, h2, h3, h4, h5,
        h6, hopc, hx, hy, hne]

end Parser

end Replit

namespace Replit

namespace Lexer

theorem digit_solid {c : Char} (next : Char) (h : c.isDigit = true) : Solid c next := by
  refine ⟨?_, ?_, ?_, ?_⟩
  · rintro rfl
    revert h
    decide
  · rintro rfl
    revert h
    decide
  · rintro rfl
    revert h
    decide
  · rintro ⟨rfl, _⟩
    revert h
    decide

/-- Before a character at which `skip_whitespace` stops, no blank or one blank is
skipped. -/
theorem skip_whitespace_opt {lx : Lexer} {sp : List Char} {c : Char} {r : List Char}
    (hsp : sp = [] ∨ sp = [' ']) (h : lx.unread = sp ++ c :: r)
    (hc : Solid c (r.headD '\x00')) :
    lx.skip_whitespace = lx.moved sp.length ∧ (lx.moved sp.length).unread = c :: r := by
  rcases hsp with rfl | rfl
  · have h0 : lx.unread = c :: r := h
    rw [List.length_nil, moved_zero]
    exact ⟨skip_whitespace_solid h0 hc, h0⟩
  · have h1 : lx.unread = ' ' :: c :: r := h
    exact ⟨skip_whitespace_space h1 hc, unread_moved h⟩

theorem tokenize_loop_more {n : Nat} {lx lx2 : Lexer} {token : Token}
    (h : lx.scan_token = (token, lx2)) (hne : token.type ≠ TokenType.EOF_TOKEN) :
    tokenize_loop (n + 1) lx = token :: tokenize_loop n lx2 := by
  rw [tokenize_loop]
  simp only [h]
  rw [if_neg hne]

theorem tokenize_loop_end {n : Nat} {lx lx2 : Lexer} {token : Token}
    (h : lx.scan_token = (token, lx2)) (he : token.type = TokenType.EOF_TOKEN) :
    tokenize_loop (n + 1) lx = [token] := by
  rw [tokenize_loop]
  simp only [h]
  rw [if_pos he]

end Lexer

theorem NumberLiteral.head {a : List Char} (h : NumberLiteral a) :
    ∃ c r, a = c :: r ∧ c.isDigit = true := by
  obtain ⟨ip, fp, hip, hipd, _, hshape⟩ := h
  obtain ⟨d, ds, rfl⟩ := List.exists_cons_of_ne_nil hip
  have hd : d.isDigit = true := hipd d (List.mem_cons_self _ _)
  rcases hshape with rfl | ⟨_, rfl⟩
  · exact ⟨d, ds, rfl, hd⟩
  · exact ⟨d, ds ++ '.' :: fp, rfl, hd⟩

open Lexer in
/-- The tokens of `print a OP b;`: PRINT, the two NUMBER tokens with the literals as
lexemes, the operator, the semicolon and EOF. -/
theorem tokenize_print_binary (a b s1 s2 : List Char) (op : Char) (type : TokenType)
    (ha : NumberLiteral a) (hb : NumberLiteral b)
    (hs1 : s1 = [] ∨ s1 = [' ']) (hs2 : s2 = [] ∨ s2 = [' '])
    (hop : ArithmeticSign op type) :
    ∃ t1 t2 t3 t4 t5 t6 : Token,
      tokenize (print_binary_source a s1 op s2 b) = [t1, t2, t3, t4, t5, t6] ∧
      t1.type = TokenType.PRINT ∧ t2.type = TokenType.NUMBER ∧ t2.lexeme = String.mk a ∧
      t3.type = type ∧ t4.type = TokenType.NUMBER ∧ t4.lexeme = String.mk b ∧
      t5.type = TokenType.SEMICOLON ∧ t6.type = TokenType.EOF_TOKEN := by
  obtain ⟨ca, ra, hae, hca⟩ := ha.head
  obtain ⟨cb, rb, hbe, hcb⟩ := hb.head
  have hopf : op.isDigit = false ∧ op ≠ '.' ∧ op ≠ ' ' ∧ op ≠ '\r' ∧ op ≠ '\t' ∧
      type ≠ TokenType.EOF_TOKEN := by
    rcases hop with ⟨rfl, rfl⟩ | ⟨rfl, rfl⟩ | ⟨rfl, rfl⟩ | ⟨rfl, rfl⟩ <;> decide
  obtain ⟨hop1, hop2, hop3, hop4, hop5, hop6⟩ := hopf
  generalize hr2 : s2 ++ (b ++ [';']) = rest2
  generalize hr1 : s1 ++ op :: rest2 = rest1
  generalize hL0 : Lexer.new ("print ".data ++ (a ++ rest1)) = L0
  have u0 : L0.unread = "print".data ++ (' ' :: (a ++ rest1)) := by
    rw [← hL0]
    rfl
  have u0c : L0.unread = 'p' :: ("rint".data ++ (' ' :: (a ++ rest1))) := u0
  have k0 : L0.skip_whitespace = L0 :=
    skip_whitespace_solid u0c ⟨by decide, by decide, by decide, fun h => absurd h.1 (by decide)⟩
  have st1 := scan_token_print k0 u0
    (show ((' ' : Char).isAlphanum || decide ((' ' : Char) = '_')) = false by decide)
  generalize hL1 : L0.begin.moved 5 = L1 at st1
  have u1 : L1.unread = ' ' :: (a ++ rest1) := by
    rw [← hL1]
    exact @unread_moved L0.begin "print".data _ u0
  have u1c : L1.unread = ' ' :: ca :: (ra ++ rest1) := by rw [u1, hae]; rfl
  have k1 : L1.skip_whitespace = L1.moved 1 := skip_whitespace_space u1c (digit_solid _ hca)
  have u2 : (L1.moved 1).unread = a ++ rest1 := @unread_moved _ [' '] _ u1
  have hr1h : (rest1.headD '\x00').isDigit = false ∧ rest1.headD '\x00' ≠ '.' := by
    rw [← hr1]
    rcases hs1 with rfl | rfl
    · exact ⟨hop1, hop2⟩
    · exact ⟨show (' ' : Char).isDigit = false by decide, show (' ' : Char) ≠ '.' by decide⟩
  have st2 := scan_token_number k1 u2 ha hr1h.1 hr1h.2
  generalize hL2 : (L1.moved 1).begin.moved a.length = L2 at st2
  have u3 : L2.unread = s1 ++ op :: rest2 := by
    rw [← hL2, hr1]
    exact @unread_moved (L1.moved 1).begin _ _ u2
  have hr2h : rest2.headD '\x00' ≠ '/' := by
    rw [← hr2]
    rcases hs2 with rfl | rfl
    · rw [hbe]
      rintro h
      have h2 : cb = '/' := h
      rw [h2] at hcb
      revert hcb
      decide
    · show (' ' : Char) ≠ '/'
      decide
  have k2 := skip_whitespace_opt hs1 u3 ⟨hop3, hop4, hop5, fun h => hr2h h.2⟩
  have st3 := scan_token_char type k2.1 k2.2
    (by
      rcases hop with h | h | h | h
      · exact Or.inl h
      · exact Or.inr (Or.inl h)
      · exact Or.inr (Or.inr (Or.inl h))
      · exact Or.inr (Or.inr (Or.inr (Or.inl h))))
  generalize hL3 : (L2.moved s1.length).begin.moved 1 = L3 at st3
  have u4 : L3.unread = s2 ++ cb :: (rb ++ [';']) := by
    rw [← hL3]
    have h := @unread_moved (L2.moved s1.length).begin [op] _ k2.2
    have h2 : ((L2.moved s1.length).begin.moved 1).unread = rest2 := h
    rw [h2, ← hr2, hbe]
    rfl
  have k3 := skip_whitespace_opt hs2 u4 (digit_solid _ hcb)
  have u5 : (L3.moved s2.length).unread = b ++ [';'] := by rw [k3.2, hbe]; rfl
  have st4 := scan_token_number k3.1 u5 hb
    (show (';' : Char).isDigit = false by decide) (show (';' : Char) ≠ '.' by decide)
  generalize hL4 : (L3.moved s2.length).begin.moved b.length = L4 at st4
  have u6 : L4.unread = [';'] := by
    rw [← hL4]
    exact @unread_moved (L3.moved s2.length).begin _ _ u5
  have k4 : L4.skip_whitespace = L4 :=
    skip_whitespace_solid u6 ⟨by decide, by decide, by decide, fun h => absurd h.1 (by decide)⟩
  have st5 := scan_token_char TokenType.SEMICOLON k4 u6
    (Or.inr (Or.inr (Or.inr (Or.inr ⟨rfl, rfl⟩))))
  generalize hL5 : L4.begin.moved 1 = L5 at st5
  have u7 : L5.unread = [] := by
    rw [← hL5]
    exact @unread_moved L4.begin [';'] [] u6
  have st6 := scan_token_eof u7
  refine ⟨L1.make_token TokenType.PRINT, L2.make_token TokenType.NUMBER, L3.make_token type,
    L4.make_token TokenType.NUMBER, L5.make_token TokenType.SEMICOLON,
    L5.begin.make_token TokenType.EOF_TOKEN, ?_, ?_, ?_, st2.2, ?_, ?_, st4.2, ?_, ?_⟩
  · unfold tokenize print_binary_source
    have hlen : ∃ m, (String.mk ("print ".data ++ (a ++ (s1 ++ op :: (s2 ++ (b ++ [';'])))))).data.length + 1
        = m + 1 + 1 + 1 + 1 + 1 + 1 := by
      refine ⟨a.length + s1.length + s2.length + b.length + 3, ?_⟩
      simp only [List.length_append, List.length_cons, List.length_nil]
      have : "print ".data.length = 6 := rfl
      omega
    obtain ⟨m, hm⟩ := hlen
    rw [hm]
    have hsrc : Lexer.new (String.mk ("print ".data ++ (a ++ (s1 ++ op :: (s2 ++ (b ++ [';'])))))).data
        = L0 := by
      rw [← hL0, ← hr1, ← hr2]
    rw [hsrc, tokenize_loop_more st1 (by intro h; cases h),
      tokenize_loop_more st2.1 (by intro h; cases h),
      tokenize_loop_more st3 hop6,
      tokenize_loop_more st4.1 (by intro h; cases h),
      tokenize_loop_more st5 (by intro h; cases h),
      tokenize_loop_end st6 rfl]
  all_goals rfl

end Replit

namespace Replit

/-! ## `print a OP b;` from source text to output -/

namespace VM

/-- The run of the chunk compiled from `print a OP b;`: both constants are pushed, the
operator replaces them by its result, and `OP_PRINT` writes that result and a line
break.  The stack the run started on is what it ends on. -/
theorem run_print_binary (k : Nat) (vm : VM) (lines : List Int) (x y : Double) (opc : Nat)
    (f : Double → Double → Double) (text : String)
    (hc : vm.chunk = Chunk.mk [0, 0, 0, 1, opc, 10, 19] lines [Value.number x, Value.number y])
    (hip : vm.ip = 0)
    (hop : (opc = OpCode.OP_ADD.byte ∧ f = Double.add)
      ∨ (opc = OpCode.OP_SUBTRACT.byte ∧ f = Double.sub)
      ∨ (opc = OpCode.OP_MULTIPLY.byte ∧ f = Double.mul)
      ∨ (opc = OpCode.OP_DIVIDE.byte ∧ f = Double.div))
    (ht : print_value (Value.number (f x y)) = Except.ok text) :
    run (k + 1 + 1 + 1 + 1 + 1) vm =
      Except.ok (InterpretResult.OK, { vm with ip := 7, cout := vm.cout ++ text ++ "\n" }) := by
  obtain ⟨chunk, ip, stack, cout, cerr⟩ := vm
  dsimp only at hc hip
  subst hc hip
  have b0 : OpCode.of_byte 0 = some OpCode.OP_CONSTANT := rfl
  have b1 : OpCode.of_byte 1 = some OpCode.OP_ADD := rfl
  have b2 : OpCode.of_byte 2 = some OpCode.OP_SUBTRACT := rfl
  have b3 : OpCode.of_byte 3 = some OpCode.OP_MULTIPLY := rfl
  have b4 : OpCode.of_byte 4 = some OpCode.OP_DIVIDE := rfl
  have b10 : OpCode.of_byte 10 = some OpCode.OP_PRINT := rfl
  have b19 : OpCode.of_byte 19 = some OpCode.OP_RETURN := rfl
  rcases hop with ⟨rfl, rfl⟩ | ⟨rfl, rfl⟩ | ⟨rfl, rfl⟩ | ⟨rfl, rfl⟩ <;>
    simp [run, step, execute, op_constant, push, op_add, binary_op, Value.is_string,
      OpCode.byte, b0, b1, b2, b3, b4, b10, b19, ht]

end VM

end Replit

namespace Replit

set_option maxRecDepth 100000 in
/-- C5, as stated, fails: `print 1/3;` returns `0.333333` and a line break, which is not
the quotient of 1 by 3 (neither the double nor the rational), and `print 7%2;` returns
`2` and a line break, the right operand, not the remainder 1.  The two examples of the
claim are as it says. -/
theorem print_quotient_and_remainder_not_exact :
    ((ReplitEngine.run_code 20 {} "print 1/3;").map Prod.fst = Except.ok "0.333333\n"
      ∧ spec_print_binary "1" '/' "3" "0.333333\n" = false)
    ∧ ((ReplitEngine.run_code 20 {} "print 7%2;").map Prod.fst = Except.ok "2\n"
      ∧ spec_print_binary "7" '%' "2" "2\n" = false
      ∧ spec_print_binary "7" '%' "2" "1\n" = true)
    ∧ (spec_print_binary "1" '+' "2" "3\n" = true
      ∧ spec_print_binary "1.5" '+' "2" "3.5\n" = true) := by
  decide!

/-- C5, amended: for numeric literals `a`, `b` that `stod` converts to `x`, `y`, and `OP`
one of `+ - * /`, with no blank or one blank on each side of the operator,
`run_code("print a OP b;")` returns the text `print_value` writes for the double
`x OP y`, followed by a line break, whenever `print_value` is defined on it (its cast to
`int` is): the digits of the integer when `x OP y` is integral, otherwise the stream
form with six significant digits. -/
theorem print_binary_literals (k : Nat) (engine : ReplitEngine) (a b s1 s2 : List Char)
    (op : Char) (x y : Double) (text : String)
    (ha : NumberLiteral a) (hb : NumberLiteral b)
    (hs1 : s1 = [] ∨ s1 = [' ']) (hs2 : s2 = [] ∨ s2 = [' '])
    (hop : op = '+' ∨ op = '-' ∨ op = '*' ∨ op = '/')
    (hx : Double.stod (String.mk a) = Except.ok x)
    (hy : Double.stod (String.mk b) = Except.ok y)
    (ht : print_value (Value.number (spec_arith op x y)) = Except.ok text) :
    (ReplitEngine.run_code (20 + k) engine (print_binary_source a s1 op s2 b)).map Prod.fst
      = Except.ok (text ++ "\n") := by
  obtain ⟨type, opc, htype, hbyte⟩ : ∃ type opc, ArithmeticSign op type ∧
      ((type = TokenType.PLUS ∧ opc = OpCode.OP_ADD.byte ∧ spec_arith op = Double.add)
      ∨ (type = TokenType.MINUS ∧ opc = OpCode.OP_SUBTRACT.byte ∧ spec_arith op = Double.sub)
      ∨ (type = TokenType.MULTIPLY ∧ opc = OpCode.OP_MULTIPLY.byte
          ∧ spec_arith op = Double.mul)
      ∨ (type = TokenType.DIVIDE ∧ opc = OpCode.OP_DIVIDE.byte
          ∧ spec_arith op = Double.div)) := by
    rcases hop with rfl | rfl | rfl | rfl
    · exact ⟨_, _, Or.inl ⟨rfl, rfl⟩, Or.inl ⟨rfl, rfl, rfl⟩⟩
    · exact ⟨_, _, Or.inr (Or.inl ⟨rfl, rfl⟩), Or.inr (Or.inl ⟨rfl, rfl, rfl⟩)⟩
    · exact ⟨_, _, Or.inr (Or.inr (Or.inl ⟨rfl, rfl⟩)), Or.inr (Or.inr (Or.inl ⟨rfl, rfl, rfl⟩))⟩
    · exact ⟨_, _, Or.inr (Or.inr (Or.inr ⟨rfl, rfl⟩)), Or.inr (Or.inr (Or.inr ⟨rfl, rfl, rfl⟩))⟩
  obtain ⟨t1, t2, t3, t4, t5, t6, htok, h1, h2, hl2, h3, h4, hl4, h5, h6⟩ :=
    tokenize_print_binary a b s1 s2 op type ha hb hs1 hs2 htype
  rw [← hl2] at hx
  rw [← hl4] at hy
  have hcompile : Parser.compile 20 (tokenize (print_binary_source a s1 op s2 b)) {} =
      Except.ok (true, Parser.clean (tokenize (print_binary_source a s1 op s2 b)) 5
        (Chunk.mk [0, 0, 0, 1, opc, 10, 19]
          [t2.line, t2.line, t4.line, t4.line, t4.line, t5.line, t5.line]
          [Value.number x, Value.number y])) := by
    rcases hbyte with ⟨hty, hb, _⟩ | ⟨hty, hb, _⟩ | ⟨hty, hb, _⟩ | ⟨hty, hb, _⟩
    · exact Parser.compile_print_term _ t1 t2 t3 t4 t5 t6 x y opc htok h1 h2
        (Or.inl ⟨h3.trans hty, hb⟩) h4 h5 h6 hx hy
    · exact Parser.compile_print_term _ t1 t2 t3 t4 t5 t6 x y opc htok h1 h2
        (Or.inr ⟨h3.trans hty, hb⟩) h4 h5 h6 hx hy
    · exact Parser.compile_print_factor _ t1 t2 t3 t4 t5 t6 x y opc htok h1 h2
        (Or.inl ⟨h3.trans hty, hb⟩) h4 h5 h6 hx hy
    · exact Parser.compile_print_factor _ t1 t2 t3 t4 t5 t6 x y opc htok h1 h2
        (Or.inr ⟨h3.trans hty, hb⟩) h4 h5 h6 hx hy
  have hrun := VM.run_print_binary (k + 15)
    (VM.bind_chunk { engine.vm with cout := "" }
      (Parser.clean (tokenize (print_binary_source a s1 op s2 b)) 5
        (Chunk.mk [0, 0, 0, 1, opc, 10, 19]
          [t2.line, t2.line, t4.line, t4.line, t4.line, t5.line, t5.line]
          [Value.number x, Value.number y])))
    [t2.line, t2.line, t4.line, t4.line, t4.line, t5.line, t5.line] x y opc (spec_arith op)
    text rfl rfl
    (by
      rcases hbyte with ⟨_, hb, hf⟩ | ⟨_, hb, hf⟩ | ⟨_, hb, hf⟩ | ⟨_, hb, hf⟩
      · exact Or.inl ⟨hb, hf⟩
      · exact Or.inr (Or.inl ⟨hb, hf⟩)
      · exact Or.inr (Or.inr (Or.inl ⟨hb, hf⟩))
      · exact Or.inr (Or.inr (Or.inr ⟨hb, hf⟩)))
    ht
  have hfuel : k + 15 + 1 + 1 + 1 + 1 + 1 = 20 + k := by omega
  rw [hfuel] at hrun
  unfold ReplitEngine.run_code VM.interpret
  dsimp only
  rw [Parser.compile_fuel hcompile k]
  dsimp only
  rw [hrun]
  simp [Except.map, VM.bind_chunk]

/-- The two examples of C5: `print 1+2;` gives `3` and `print 1.5+2;` gives `3.5`, each
followed by a line break. -/
theorem print_binary_literals_witness :
    (ReplitEngine.run_code 20 {} "print 1+2;").map Prod.fst = Except.ok "3\n"
    ∧ (ReplitEngine.run_code 20 {} "print 1.5 + 2;").map Prod.fst = Except.ok "3.5\n" :=
  ⟨print_binary_literals 0 {} ['1'] ['2'] [] [] '+' (Double.of_int 1) (Double.of_int 2) "3"
      ⟨['1'], [], by decide, by decide, by decide, Or.inl rfl⟩
      ⟨['2'], [], by decide, by decide, by decide, Or.inl rfl⟩
      (Or.inl rfl) (Or.inl rfl) (Or.inl rfl) (by decide!) (by decide!) (by decide!),
   print_binary_literals 0 {} ['1', '.', '5'] ['2'] [' '] [' '] '+'
      (Double.finite false 6755399441055744 (-52)) (Double.of_int 2) "3.5"
      ⟨['1'], ['5'], by decide, by decide, by decide, Or.inr ⟨by decide, rfl⟩⟩
      ⟨['2'], [], by decide, by decide, by decide, Or.inl rfl⟩
      (Or.inr rfl) (Or.inr rfl) (Or.inl rfl) (by decide!) (by decide!) (by decide!)⟩

end Replit

namespace Replit

/-! ### Single instructions: EQUAL, NOT, unknown bytes, underflow -/

theorem OpCode.byte_of_byte {b : Nat} {op : OpCode} (h : OpCode.of_byte b = some op) :
    op.byte = b := by
  unfold OpCode.of_byte at h
  have hb : b < 21 := by
    by_contra hlt
    rw [List.get?_eq_none.mpr (by simpa using Nat.le_of_not_lt hlt)] at h
    cases h
  interval_cases b <;> simp at h <;> subst h <;> rfl

namespace VM

theorem step_fetch (vm : VM) (op : OpCode)
    (hfetch : vm.chunk.code.get? vm.ip = some op.byte) :
    step vm = execute { vm with ip := vm.ip + 1 } (some op) := by
  unfold step
  rw [hfetch]
  dsimp only
  rw [OpCode.of_byte_byte]

/-- The lines `runtime_error` writes: the message, and the line of the instruction when
the chunk records one. -/
theorem runtime_error_report (vm : VM) (m : String) :
    ∃ tail, (vm.runtime_error m).cerr = vm.cerr ++ ("Runtime error: " ++ m) :: tail ∧
      (tail = [] ∨ ∃ line : Int, tail = ["[line " ++ toString line ++ "] in script"]) := by
  unfold runtime_error
  dsimp only
  split
  · exact ⟨_, rfl, Or.inr ⟨_, rfl⟩⟩
  · exact ⟨_, rfl, Or.inl rfl⟩

theorem run_of_ret (fuel : Nat) {vm vm2 : VM} {r : InterpretResult}
    (h : step vm = Except.ok (Step.ret r vm2)) : run (fuel + 1) vm = Except.ok (r, vm2) := by
  rw [run, h]

theorem run_of_throw (fuel : Nat) {vm vm2 : VM} {what : String}
    (h : step vm = Except.ok (Step.throw what vm2)) :
    run (fuel + 1) vm = Except.ok (InterpretResult.RUNTIME_ERROR, vm2.runtime_error what) := by
  rw [run, h]

/-- An instruction fetched on a stack shorter than it needs: the turn of the loop ends in
an exception or in a `return` after `runtime_error`, in a state that differs from the one
before only in the instruction pointer and the stack. -/
theorem step_short (vm : VM) (op : OpCode)
    (hfetch : vm.chunk.code.get? vm.ip = some op.byte)
    (hshort : vm.stack.length < op.operands) :
    ∃ (m : String) (vm1 : VM), vm1.cerr = vm.cerr ∧ vm1.cout = vm.cout ∧
      vm1.chunk = vm.chunk ∧ vm1.ip = vm.ip + 1 ∧
      (step vm = Except.ok (Step.throw m vm1) ∨
       step vm = Except.ok (Step.ret InterpretResult.RUNTIME_ERROR (vm1.runtime_error m))) := by
  rw [step_fetch vm op hfetch]
  obtain ⟨chunk, ip, stack, cout, cerr⟩ := vm
  dsimp only at hshort ⊢
  cases op <;> simp only [OpCode.operands, Nat.not_lt_zero] at hshort
  all_goals
    rcases stack with _ | ⟨v, _ | ⟨w, s⟩⟩
    · exact ⟨_, ⟨chunk, ip + 1, [], cout, cerr⟩, rfl, rfl, rfl, rfl, Or.inl rfl⟩
    · first
      | (exfalso
         simp only [List.length_cons, List.length_nil] at hshort
         omega)
      | (cases v <;>
         first
         | exact ⟨_, ⟨chunk, ip + 1, _, cout, cerr⟩, rfl, rfl, rfl, rfl, Or.inl rfl⟩
         | exact ⟨_, ⟨chunk, ip + 1, _, cout, cerr⟩, rfl, rfl, rfl, rfl, Or.inr rfl⟩)
    · exfalso
      simp only [List.length_cons] at hshort
      omega

end VM

/-- C11.  EQUAL fetched with `b` on top of the stack and `a` beneath it replaces the two
by one boolean: `false` when the tags of `a` and `b` differ; for two numbers, two strings
or two booleans the result of comparing them by value; `true` for two nils.  So
`print 1==1;` prints `true` and `print 1=="1";` prints `false`. -/
theorem equal_instruction :
    (∀ (vm : VM) (a b : Value) (rest : List Value),
      vm.chunk.code.get? vm.ip = some OpCode.OP_EQUAL.byte → vm.stack = b :: a :: rest →
      ∃ r : Bool,
        VM.step vm = Except.ok (Step.next
          { vm with ip := vm.ip + 1, stack := Value.boolean r :: rest }) ∧
        (a.index ≠ b.index → r = false) ∧
        (∀ x y, a = Value.number x → b = Value.number y → r = Double.eq x y) ∧
        (∀ s t, a = Value.string s → b = Value.string t → r = decide (s = t)) ∧
        (∀ p q, a = Value.boolean p → b = Value.boolean q → r = decide (p = q)) ∧
        (a = Value.nil → b = Value.nil → r = true)) ∧
    (ReplitEngine.run_code 20 {} "print 1==1;").map Prod.fst = Except.ok "true\n" ∧
    (ReplitEngine.run_code 20 {} "print 1==\"1\";").map Prod.fst = Except.ok "false\n" := by
  refine ⟨?_, by decide!, by decide!⟩
  intro vm a b rest hfetch hstack
  refine ⟨VM.values_equal a b, ?_, ?_, ?_, ?_, ?_, ?_⟩
  · rw [VM.step_fetch vm _ hfetch]
    unfold VM.execute
    simp only [hstack]
  · intro h
    unfold VM.values_equal
    rw [if_pos h]
  · rintro x y rfl rfl
    rfl
  · rintro s t rfl rfl
    rfl
  · rintro p q rfl rfl
    rfl
  · rintro rfl rfl
    rfl

set_option maxRecDepth 100000 in
theorem equal_instruction_witness :
    ∃ r : Bool,
      VM.step { chunk := { code := [7, 19], lines := [1, 1] },
                stack := [Value.string "1", Value.number (Double.of_int 1), Value.nil] }
        = Except.ok (Step.next
          { chunk := { code := [7, 19], lines := [1, 1] }, ip := 1,
            stack := [Value.boolean r, Value.nil] }) ∧ r = false :=
  match equal_instruction.1
      { chunk := { code := [7, 19], lines := [1, 1] },
        stack := [Value.string "1", Value.number (Double.of_int 1), Value.nil] }
      (Value.number (Double.of_int 1)) (Value.string "1") [Value.nil] (by decide) rfl with
  | ⟨r, h, hdiff, _⟩ => ⟨r, h, hdiff (by decide)⟩

/-- C12.  NOT fetched with `v` on top of the stack replaces it by a boolean that is
`true` exactly when `v` is nil or the boolean `false`; for every number (zero included)
and every string (the empty one included) it is `false`.  So `print !nil;` prints `true`
and `print !0;` prints `false`. -/
theorem not_instruction :
    (∀ (vm : VM) (v : Value) (rest : List Value),
      vm.chunk.code.get? vm.ip = some OpCode.OP_NOT.byte → vm.stack = v :: rest →
      ∃ r : Bool,
        VM.step vm = Except.ok (Step.next
          { vm with ip := vm.ip + 1, stack := Value.boolean r :: rest }) ∧
        (r = true ↔ (v = Value.nil ∨ v = Value.boolean false)) ∧
        (∀ x, v = Value.number x → r = false) ∧
        (∀ s, v = Value.string s → r = false)) ∧
    (ReplitEngine.run_code 20 {} "print !nil;").map Prod.fst = Except.ok "true\n" ∧
    (ReplitEngine.run_code 20 {} "print !0;").map Prod.fst = Except.ok "false\n" := by
  refine ⟨?_, by decide!, by decide!⟩
  intro vm v rest hfetch hstack
  refine ⟨VM.is_falsey v, ?_, ?_, ?_, ?_⟩
  · rw [VM.step_fetch vm _ hfetch]
    unfold VM.execute
    simp only [hstack]
  · cases v <;> simp [VM.is_falsey]
  · rintro x rfl
    rfl
  · rintro s rfl
    rfl

set_option maxRecDepth 100000 in
theorem not_instruction_witness :
    ∃ r : Bool,
      VM.step { chunk := { code := [6, 19], lines := [1, 1] },
                stack := [Value.string "", Value.nil] }
        = Except.ok (Step.next
          { chunk := { code := [6, 19], lines := [1, 1] }, ip := 1,
            stack := [Value.boolean r, Value.nil] }) ∧ r = false :=
  match not_instruction.1
      { chunk := { code := [6, 19], lines := [1, 1] },
        stack := [Value.string "", Value.nil] }
      (Value.string "") [Value.nil] (by decide) rfl with
  | ⟨r, h, _, _, hs⟩ => ⟨r, h, hs "" rfl⟩

/-- C14.  A fetched byte that is none of CONSTANT, ADD, SUBTRACT, MULTIPLY, DIVIDE, NEGATE,
NOT, EQUAL, GREATER, LESS, PRINT, POP, RETURN: `run` returns `RUNTIME_ERROR` at once,
having written `Runtime error: Unknown opcode` (and the line of the instruction, if the
chunk records one) to the error stream and nothing to the output; the instruction
pointer has moved past that byte only. -/
theorem unknown_opcode_stops (fuel : Nat) (vm : VM) (byte : Nat)
    (hfetch : vm.chunk.code.get? vm.ip = some byte)
    (hbyte : ∀ op ∈ [OpCode.OP_CONSTANT, OpCode.OP_ADD, OpCode.OP_SUBTRACT,
      OpCode.OP_MULTIPLY, OpCode.OP_DIVIDE, OpCode.OP_NEGATE, OpCode.OP_NOT, OpCode.OP_EQUAL,
      OpCode.OP_GREATER, OpCode.OP_LESS, OpCode.OP_PRINT, OpCode.OP_POP, OpCode.OP_RETURN],
      byte ≠ op.byte) :
    ∃ vm2 tail, VM.run (fuel + 1) vm = Except.ok (InterpretResult.RUNTIME_ERROR, vm2) ∧
      vm2.cerr = vm.cerr ++ "Runtime error: Unknown opcode" :: tail ∧
      (tail = [] ∨ ∃ line : Int, tail = ["[line " ++ toString line ++ "] in script"]) ∧
      vm2.cout = vm.cout ∧ vm2.ip = vm.ip + 1 ∧ vm2.stack = [] := by
  obtain ⟨tail, htail, hshape⟩ :=
    VM.runtime_error_report { vm with ip := vm.ip + 1 } "Unknown opcode"
  refine ⟨VM.runtime_error { vm with ip := vm.ip + 1 } "Unknown opcode", tail, ?_, htail,
    hshape, rfl, rfl, rfl⟩
  apply VM.run_of_ret
  unfold VM.step
  rw [hfetch]
  dsimp only
  cases hof : OpCode.of_byte byte with
  | none => rfl
  | some op =>
    have hb := OpCode.byte_of_byte hof
    cases op <;> first
      | rfl
      | exact absurd hb.symm (hbyte _ (by simp))

set_option maxRecDepth 100000 in
theorem unknown_opcode_stops_witness :
    ∃ vm2 tail,
      VM.run (0 + 1) { chunk := { code := [12, 10, 19], lines := [3, 3, 3] },
                       stack := [Value.nil], cout := "out" }
        = Except.ok (InterpretResult.RUNTIME_ERROR, vm2) ∧
      vm2.cerr = [] ++ "Runtime error: Unknown opcode" :: tail ∧
      (tail = [] ∨ ∃ line : Int, tail = ["[line " ++ toString line ++ "] in script"]) ∧
      vm2.cout = "out" ∧ vm2.ip = 0 + 1 ∧ vm2.stack = [] :=
  unknown_opcode_stops 0
    { chunk := { code := [12, 10, 19], lines := [3, 3, 3] }, stack := [Value.nil],
      cout := "out" }
    12 (by decide) (by decide)

/-- C15.  POP, PRINT, NOT, NEGATE (one operand) and EQUAL, ADD, SUBTRACT, MULTIPLY, DIVIDE,
GREATER, LESS (two operands), fetched on a stack that holds fewer values than the
instruction takes: `run` returns `RUNTIME_ERROR` at once (no fault of the embedding, so
nothing is read below the stack), `runtime_error` has been called exactly once, so the
error stream has gained one `Runtime error:` line (with the line of the instruction, if
the chunk records one), nothing has been printed, and the stack is empty. -/
theorem underflow_is_runtime_error (fuel : Nat) (vm : VM) (op : OpCode)
    (hfetch : vm.chunk.code.get? vm.ip = some op.byte)
    (hshort : vm.stack.length < op.operands) :
    ∃ vm2 message tail,
      VM.run (fuel + 1) vm = Except.ok (InterpretResult.RUNTIME_ERROR, vm2) ∧
      vm2.cerr = vm.cerr ++ ("Runtime error: " ++ message) :: tail ∧
      (tail = [] ∨ ∃ line : Int, tail = ["[line " ++ toString line ++ "] in script"]) ∧
      vm2.cout = vm.cout ∧ vm2.ip = vm.ip + 1 ∧ vm2.stack = [] := by
  obtain ⟨m, vm1, hcerr, hcout, _, hip, hstep⟩ := VM.step_short vm op hfetch hshort
  obtain ⟨tail, htail, hshape⟩ := VM.runtime_error_report vm1 m
  refine ⟨vm1.runtime_error m, m, tail, ?_, ?_, hshape, ?_, ?_, rfl⟩
  · rcases hstep with h | h
    · exact VM.run_of_throw fuel h
    · exact VM.run_of_ret fuel h
  · rw [htail, hcerr]
  · exact hcout
  · exact hip

set_option maxRecDepth 100000 in
theorem underflow_is_runtime_error_witness :
    ∃ vm2 message tail,
      VM.run (0 + 1) { chunk := { code := [7, 19], lines := [2, 2] },
                       stack := [Value.nil], cout := "out" }
        = Except.ok (InterpretResult.RUNTIME_ERROR, vm2) ∧
      vm2.cerr = [] ++ ("Runtime error: " ++ message) :: tail ∧
      (tail = [] ∨ ∃ line : Int, tail = ["[line " ++ toString line ++ "] in script"]) ∧
      vm2.cout = "out" ∧ vm2.ip = 0 + 1 ∧ vm2.stack = [] :=
  underflow_is_runtime_error 0
    { chunk := { code := [7, 19], lines := [2, 2] }, stack := [Value.nil], cout := "out" }
    OpCode.OP_EQUAL (by decide) (by decide)

end Replit

namespace Replit

/-! ### Inputs on which the code departs from the specification -/

set_option maxRecDepth 100000 in
/-- C13.  `print 3000000000;` does not print the digits of the integer: `print_value`
evaluates `static_cast<int>(num)` for every number, and for the integral value 3000000000
that conversion is outside the range of `int`, which C++ leaves undefined.  (Numbers up
to 2147483647 are printed as the claim says; a small fraction such as 0.00001 is written
in exponent form.) -/
theorem print_integral_outside_int_undefined :
    ReplitEngine.run_code 20 {} "print 3000000000;" = Except.error
      (Fault.undefined "static_cast<int> of a double outside the range of int") ∧
    (ReplitEngine.run_code 20 {} "print 2147483647;").map Prod.fst
      = Except.ok "2147483647\n" ∧
    (ReplitEngine.run_code 20 {} "print 0.00001;").map Prod.fst = Except.ok "1e-05\n" := by
  decide!

set_option maxRecDepth 100000 in
/-- C17.  For `%` no opcode is emitted: the code of `1%2;` is the two CONSTANT
instructions followed directly by the POP of the statement and the final RETURN, and
running it leaves the left operand on the stack. -/
theorem modulo_emits_no_opcode :
    (Parser.compile 20 (tokenize "1%2;") {}).map
        (fun r => (r.1, r.2.compiling_chunk.code, r.2.diagnostics))
      = Except.ok (true, [0, 0, 0, 1, 11, 19], []) ∧
    (VM.interpret 20 {} "1%2;").map (fun r => (r.1, r.2.stack))
      = Except.ok (InterpretResult.OK, [Value.number (Double.of_int 1)]) := by
  decide!

set_option maxRecDepth 100000 in
/-- C18.  `let x = 1;` is not compiled without an error: `declaration` consumes the word
`let` and nothing else, so `x = 1;` is parsed as a statement, `Expected expression` is
reported, `compile` returns false, and the chunk holds a POP before the final RETURN. -/
theorem let_declaration_is_a_compile_error :
    (Parser.compile 20 (tokenize "let x = 1;") {}).map
        (fun r => (r.1, r.2.compiling_chunk.code, r.2.diagnostics))
      = Except.ok (false, [11, 19], ["[line 1] Error at \x27let\x27: Expected expression"]) := by
  decide!

end Replit

namespace Replit

namespace Expr

end Expr

namespace Statement

end Statement

/-! ## The parser on the tokens of a syntax tree -/

namespace Parser

end Parser

end Replit

namespace Replit

namespace Parser

/-! ### The primitives at a known position -/

theorem runs_of_mono {f : Nat → Parser → Except Fault Parser} (hf : ∀ n, Mono f n)
    {n : Nat} {p q : Parser} (h : f n p = Except.ok q) : Runs f p q := by
  refine ⟨n, fun m hm => ?_⟩
  obtain ⟨d, rfl⟩ := Nat.exists_eq_add_of_le hm
  induction d with
  | zero => exact h
  | succ d ih => exact (hf (n + d) p).ok_of_ok (ih (Nat.le_add_right n d))

theorem previous_congr {p q : Parser} (ht : q.tokens = p.tokens) (hc : q.current = p.current) :
    q.previous = p.previous := by
  unfold previous
  rw [ht, hc]

theorem peek_congr {p q : Parser} (ht : q.tokens = p.tokens) (hc : q.current = p.current) :
    q.peek = p.peek := by
  unfold peek
  rw [ht, hc]

theorem get_of_at {p : Parser} {t : Token} {ts : List Token} (h : At p (t :: ts)) :
    p.tokens.get? p.current = some t := by
  unfold At at h
  have h2 := congrArg List.head? h
  rw [List.head?_drop] at h2
  simpa using h2

theorem lt_of_at {p : Parser} {t : Token} {ts : List Token} (h : At p (t :: ts)) :
    p.current < p.tokens.length := by
  have h2 := get_of_at h
  rw [List.get?_eq_some] at h2
  exact h2.1

theorem peek_of_at {p : Parser} {t : Token} {ts : List Token} (h : At p (t :: ts)) :
    p.peek = Except.ok t := by
  unfold peek
  rw [get_of_at h]

theorem check_of_at {p : Parser} {t : Token} {ts : List Token} (h : At p (t :: ts))
    (type : TokenType) : p.check type = Except.ok (decide (t.type = type)) := by
  unfold check
  rw [peek_of_at h]
  rfl

theorem next_at {p : Parser} {t : Token} {ts : List Token} (h : At p (t :: ts)) :
    At p.next ts := by
  unfold At at h ⊢
  show p.tokens.drop (p.current + 1) = ts
  rw [← List.drop_drop, h]
  rfl

theorem previous_next {p : Parser} {t : Token} {ts : List Token} (h : At p (t :: ts)) :
    p.next.previous = Except.ok t := by
  unfold previous
  show (if p.current + 1 = 0 then _ else _) = _
  rw [if_neg (Nat.succ_ne_zero _)]
  show (match p.tokens.get? (p.current + 1 - 1) with
    | some t => Except.ok t
    | none => Except.error (Fault.undefined "tokens[current - 1] outside the vector")) = _
  rw [Nat.add_sub_cancel, get_of_at h]

theorem length_of_at {p : Parser} {ts : List Token} (h : At p ts) :
    ts.length = p.tokens.length - p.current := by
  unfold At at h
  rw [← h, List.length_drop]

theorem advance_of_at {p : Parser} {t u : Token} {ts : List Token} (h : At p (t :: u :: ts)) :
    p.advance = Except.ok (t, p.next) := by
  have hlen := length_of_at h
  simp only [List.length_cons] at hlen
  have hne : p.tokens.length ≠ 0 := by omega
  have hlt : p.current < p.tokens.length - 1 := by omega
  unfold advance
  simp only [hne, if_false, hlt, if_true, bind_ok, pure_eq_ok]
  have hp := previous_next h
  unfold next at hp
  rw [hp]
  rfl

theorem match_ne_of_at {p : Parser} {t : Token} {ts : List Token} (h : At p (t :: ts))
    {type : TokenType} (hne : t.type ≠ type) : p.match type = Except.ok (false, p) := by
  unfold Parser.match
  rw [check_of_at h]
  simp [hne]

theorem match_eq_of_at {p : Parser} {t u : Token} {ts : List Token} (h : At p (t :: u :: ts))
    {type : TokenType} (he : t.type = type) : p.match type = Except.ok (true, p.next) := by
  unfold Parser.match
  rw [check_of_at h, advance_of_at h]
  simp [he]

theorem at_of_moved {p q : Parser} {xs ys : List Token} (h : At p (xs ++ ys))
    (ht : q.tokens = p.tokens) (hc : q.current = p.current + xs.length) : At q ys := by
  unfold At at h ⊢
  rw [ht, hc, ← List.drop_drop, h, List.drop_left]

theorem previous_ok {q : Parser} (h0 : 0 < q.current) (h1 : q.current ≤ q.tokens.length) :
    ∃ t, q.previous = Except.ok t := by
  unfold previous
  rw [if_neg (by omega)]
  have hlt : q.current - 1 < q.tokens.length := by omega
  rw [List.get?_eq_get hlt]
  exact ⟨_, rfl⟩

theorem consume_of_at {p : Parser} {t u : Token} {ts : List Token} (h : At p (t :: u :: ts))
    {type : TokenType} (he : t.type = type) (m : String) :
    p.consume type m = Except.ok p.next := by
  unfold consume
  rw [peek_of_at h]
  simp only [bind_ok, he, if_true]
  rw [advance_of_at h]
  rfl

/-! ### What a step does to the state -/

theorem error_at_diagnostics (p : Parser) (t : Token) (m : String) (h : p.panic_mode = false) :
    (p.error_at t m).diagnostics = p.diagnostics ++ [error_line t m] ∧
    (p.error_at t m).had_error = true ∧ (p.error_at t m).panic_mode = true ∧
    (p.error_at t m).tokens = p.tokens ∧ (p.error_at t m).current = p.current ∧
    (p.error_at t m).compiling_chunk = p.compiling_chunk := by
  unfold error_at error_line
  simp [h]

theorem error_at_same (p : Parser) (t : Token) (m : String) :
    (p.error_at t m).tokens = p.tokens ∧ (p.error_at t m).current = p.current ∧
    (p.error_at t m).compiling_chunk = p.compiling_chunk := by
  unfold error_at
  split <;> exact ⟨rfl, rfl, rfl⟩

theorem reported_error_at (p : Parser) (t : Token) (h : p.panic_mode = true → Reported p) :
    Reported (p.error_at t "Too many constants in one chunk") := by
  by_cases hp : p.panic_mode = true
  · have : p.error_at t "Too many constants in one chunk" = p := by
      unfold error_at
      rw [if_pos hp]
    rw [this]
    exact h hp
  · have hp2 : p.panic_mode = false := by simpa using hp
    obtain ⟨hd, he, _, _, _, _⟩ := error_at_diagnostics p t "Too many constants in one chunk" hp2
    exact ⟨he, t, by rw [hd]; simp⟩

theorem bind_ok_right {α : Type} (x : Except Fault α) : (x >>= Except.ok) = x := by
  cases x <;> rfl

theorem emit_bytes_eq_all (p : Parser) (a b : Nat) : p.emit_bytes a b = emit_all [a, b] p := by
  unfold emit_bytes
  simp only [emit_all]
  cases p.emit_byte a with
  | error e => rfl
  | ok q => exact (bind_ok_right _).symm

theorem emit_byte_eq_all (p : Parser) (a : Nat) : p.emit_byte a = emit_all [a] p := by
  simp only [emit_all]
  exact (bind_ok_right _).symm

theorem delta_next (p : Parser) : Delta p p.next 1 [] [] := by
  refine ⟨rfl, rfl, ?_, fun _ => ⟨?_, rfl, rfl, rfl⟩, fun h => h⟩
  · simp [next]
  · simp [next]

theorem delta_trans {p q r : Parser} {l1 l2 : Nat} {v1 v2 : List Value} {c1 c2 : List Nat}
    (h1 : Delta p q l1 v1 c1) (h2 : Delta q r l2 v2 c2) :
    Delta p r (l1 + l2) (v1 ++ v2) (c1 ++ c2) := by
  obtain ⟨ht1, hc1, hk1, hn1, ha1⟩ := h1
  obtain ⟨ht2, hc2, hk2, hn2, ha2⟩ := h2
  refine ⟨ht2.trans ht1, ?_, ?_, ?_, fun h => ha2 (ha1 h)⟩
  · rw [hc2, hc1, Nat.add_assoc]
  · rw [hk2, hk1, List.append_assoc]
  · intro hle
    rw [List.length_append] at hle
    obtain ⟨hcode1, he1, hp1, hd1⟩ := hn1 (by omega)
    obtain ⟨hcode2, he2, hp2, hd2⟩ := hn2 (by rw [hk1, List.length_append]; omega)
    exact ⟨by rw [hcode2, hcode1, List.append_assoc], he2.trans he1, hp2.trans hp1,
      hd2.trans hd1⟩

theorem emit_byte_delta {q : Parser} (b : Nat) (h : ∃ t, q.previous = Except.ok t) :
    ∃ q2, q.emit_byte b = Except.ok q2 ∧ Delta q q2 0 [] [b] := by
  obtain ⟨t, ht⟩ := h
  refine ⟨{ q with compiling_chunk := q.compiling_chunk.write b t.line }, ?_, rfl, rfl, ?_,
    fun _ => ⟨rfl, rfl, rfl, rfl⟩, fun h => h⟩
  · unfold emit_byte
    rw [ht]
    rfl
  · simp [Chunk.write]

theorem emit_all_delta (bytes : List Nat) : ∀ q : Parser, (∃ t, q.previous = Except.ok t) →
    ∃ q2, emit_all bytes q = Except.ok q2 ∧ Delta q q2 0 [] bytes := by
  induction bytes with
  | nil =>
    intro q _
    exact ⟨q, rfl, rfl, rfl, by simp, fun _ => ⟨by simp, rfl, rfl, rfl⟩, fun h => h⟩
  | cons b bs ih =>
    intro q hq
    obtain ⟨q1, h1, d1⟩ := emit_byte_delta b hq
    obtain ⟨t, ht⟩ := hq
    have hq1 : ∃ t, q1.previous = Except.ok t :=
      ⟨t, by rw [previous_congr d1.1 (by rw [d1.2.1]; rfl), ht]⟩
    obtain ⟨q2, h2, d2⟩ := ih q1 hq1
    refine ⟨q2, ?_, ?_⟩
    · rw [emit_all, h1]
      exact h2
    · exact delta_trans d1 d2

theorem emit_constant_delta {p : Parser} {t : Token} (v : Value)
    (hprev : p.previous = Except.ok t) :
    ∃ q, p.emit_constant v = Except.ok q ∧
      Delta p q 0 [v] [OpCode.OP_CONSTANT.byte, p.compiling_chunk.constants.length] := by
  obtain ⟨tokens, current, ⟨code, lines, constants⟩, had_error, panic_mode, diagnostics⟩ := p
  unfold emit_constant make_constant Chunk.add_constant
  dsimp only
  by_cases hover : ((constants ++ [v]).length : Int) - 1 > 255
  · rw [if_pos hover]
    have hp1 : (Parser.mk tokens current ⟨code, lines, constants ++ [v]⟩ had_error panic_mode
        diagnostics).previous = Except.ok t := by
      rw [← hprev]
      exact previous_congr rfl rfl
    unfold Parser.error
    rw [hp1]
    simp only [bind_ok, pure_eq_ok]
    generalize hq0 : (Parser.mk tokens current ⟨code, lines, constants ++ [v]⟩ had_error
      panic_mode diagnostics).error_at t "Too many constants in one chunk" = q0
    have hsame := error_at_same (Parser.mk tokens current ⟨code, lines, constants ++ [v]⟩
      had_error panic_mode diagnostics) t "Too many constants in one chunk"
    rw [hq0] at hsame
    obtain ⟨hs1, hs2, hs3⟩ := hsame
    have hq0p : ∃ t, q0.previous = Except.ok t :=
      ⟨t, by rw [previous_congr hs1 hs2, hp1]⟩
    obtain ⟨q1, he1, d1⟩ := emit_all_delta [OpCode.OP_CONSTANT.byte, 0] q0 hq0p
    refine ⟨q1, ?_, ?_⟩
    · rw [emit_bytes_eq_all]
      exact he1
    · obtain ⟨dt, dc, dk, _, da⟩ := d1
      refine ⟨dt.trans hs1, by rw [dc, hs2], ?_, ?_, ?_⟩
      · rw [dk, hs3]
        simp
      · intro hle
        exfalso
        simp only [List.length_append, List.length_cons, List.length_nil] at hover hle
        omega
      · intro hacc
        apply da
        have hr : Reported q0 := by
          rw [← hq0]
          exact reported_error_at _ t hacc.2
        exact ⟨fun _ => hr, fun _ => hr⟩
  · rw [if_neg hover]
    simp only [bind_ok, pure_eq_ok]
    have hp1 : (Parser.mk tokens current ⟨code, lines, constants ++ [v]⟩ had_error panic_mode
        diagnostics).previous = Except.ok t := by
      rw [← hprev]
      exact previous_congr rfl rfl
    obtain ⟨q1, he1, d1⟩ := emit_all_delta
      [OpCode.OP_CONSTANT.byte, (((constants ++ [v]).length : Int) - 1).toNat]
      (Parser.mk tokens current ⟨code, lines, constants ++ [v]⟩ had_error panic_mode diagnostics)
      ⟨t, hp1⟩
    have hidx : (((constants ++ [v]).length : Int) - 1).toNat = constants.length := by
      simp
    have hsmall : constants.length + 1 ≤ 256 := by
      simp only [List.length_append, List.length_cons, List.length_nil] at hover
      omega
    refine ⟨q1, ?_, ?_⟩
    · rw [emit_bytes_eq_all]
      exact he1
    · obtain ⟨dt, dc, dk, dn, da⟩ := d1
      refine ⟨dt, dc, ?_, ?_, ?_⟩
      · rw [dk]
        simp
      · intro _
        obtain ⟨h1, h2, h3, h4⟩ := dn (by simp; omega)
        refine ⟨?_, h2, h3, h4⟩
        rw [h1, hidx]
      · intro hacc
        apply da
        refine ⟨fun hlen => ?_, hacc.2⟩
        exfalso
        simp only [List.length_append, List.length_cons, List.length_nil] at hlen
        omega

end Parser

end Replit

namespace Replit

theorem TokenType.level_one {t : TokenType} (h : t.level = 1) :
    t = TokenType.NOT_EQUAL ∨ t = TokenType.EQUAL := by
  cases t <;> simp [TokenType.level] at h ⊢

theorem TokenType.level_two {t : TokenType} (h : t.level = 2) :
    t = TokenType.GREATER ∨ t = TokenType.GREATER_EQUAL ∨ t = TokenType.LESS
      ∨ t = TokenType.LESS_EQUAL := by
  cases t <;> simp [TokenType.level] at h ⊢

theorem TokenType.level_three {t : TokenType} (h : t.level = 3) :
    t = TokenType.PLUS ∨ t = TokenType.MINUS := by
  cases t <;> simp [TokenType.level] at h ⊢

theorem TokenType.level_four {t : TokenType} (h : t.level = 4) :
    t = TokenType.MULTIPLY ∨ t = TokenType.DIVIDE ∨ t = TokenType.MODULO := by
  cases t <;> simp [TokenType.level] at h ⊢

theorem TokenType.level_le_four (t : TokenType) : t.level ≤ 4 := by
  cases t <;> simp [TokenType.level]

namespace Parser

/-! ### The parsing functions, level by level -/

theorem mono_level (k n : Nat) : Mono (level_fn k) n := by
  obtain ⟨h1, h2, _, h4, _, h6, _, h8, _, h10, _, _, _⟩ := mono_all n
  unfold level_fn
  split
  · exact h10
  · exact h8
  · exact h6
  · exact h4
  · exact h2
  · exact h1

theorem mono_loop (k n : Nat) : Mono (loop_fn k) n := by
  obtain ⟨_, _, h3, _, h5, _, h7, _, h9, _, _, _, _⟩ := mono_all n
  unfold loop_fn
  split
  · exact h9
  · exact h7
  · exact h5
  · exact h3

theorem level_fn_succ {k : Nat} (h1 : 1 ≤ k) (h4 : k ≤ 4) (n : Nat) (p : Parser) :
    level_fn k (n + 1) p = level_fn (k + 1) n p >>= loop_fn k n := by
  interval_cases k
  · show equality (n + 1) p = _
    rw [equality]
    rfl
  · show comparison (n + 1) p = _
    rw [comparison]
    rfl
  · show term (n + 1) p = _
    rw [term]
    rfl
  · show factor (n + 1) p = _
    rw [factor]
    rfl

theorem loop_exit {k : Nat} (h1 : 1 ≤ k) (h4 : k ≤ 4) {p : Parser} {t : Token}
    {ts : List Token} (hat : At p (t :: ts)) (hlev : t.type.level ≠ k) (n : Nat) :
    loop_fn k (n + 1) p = Except.ok p := by
  have hne : ∀ type : TokenType, type.level = k → p.match type = Except.ok (false, p) :=
    fun type htype => match_ne_of_at hat (fun h => hlev (by rw [h]; exact htype))
  interval_cases k
  · show equality_loop (n + 1) p = _
    rw [equality_loop]
    simp [match_or, hne TokenType.NOT_EQUAL rfl, hne TokenType.EQUAL rfl]
  · show comparison_loop (n + 1) p = _
    rw [comparison_loop]
    simp [match_or, hne TokenType.GREATER rfl, hne TokenType.GREATER_EQUAL rfl,
      hne TokenType.LESS rfl, hne TokenType.LESS_EQUAL rfl]
  · show term_loop (n + 1) p = _
    rw [term_loop]
    simp [match_or, hne TokenType.PLUS rfl, hne TokenType.MINUS rfl]
  · show factor_loop (n + 1) p = _
    rw [factor_loop]
    simp [match_or, hne TokenType.MULTIPLY rfl, hne TokenType.DIVIDE rfl,
      hne TokenType.MODULO rfl]

theorem loop_step {k : Nat} (h1 : 1 ≤ k) (h4 : k ≤ 4) {p : Parser} {op u : Token}
    {ts : List Token} (hat : At p (op :: u :: ts)) (hlev : op.type.level = k)
    (hmod : op.type ≠ TokenType.MODULO) (n : Nat) :
    loop_fn k (n + 1) p =
      level_fn (k + 1) n p.next >>= fun q => emit_all (binary_code op.type) q >>= loop_fn k n := by
  have hprev := previous_next hat
  have hm : ∀ type : TokenType, p.match type
      = if op.type = type then Except.ok (true, p.next) else Except.ok (false, p) := by
    intro type
    by_cases h : op.type = type
    · rw [if_pos h]
      exact match_eq_of_at hat h
    · rw [if_neg h]
      exact match_ne_of_at hat h
  interval_cases k
  · show equality_loop (n + 1) p = comparison n p.next >>= _
    rw [equality_loop]
    rcases TokenType.level_one hlev with h | h <;>
      simp [match_or, hm, h, hprev, binary_code, emit_bytes_eq_all, emit_byte_eq_all, loop_fn]
  · show comparison_loop (n + 1) p = term n p.next >>= _
    rw [comparison_loop]
    rcases TokenType.level_two hlev with h | h | h | h <;>
      simp [match_or, hm, h, hprev, binary_code, emit_bytes_eq_all, emit_byte_eq_all, loop_fn]
  · show term_loop (n + 1) p = factor n p.next >>= _
    rw [term_loop]
    rcases TokenType.level_three hlev with h | h <;>
      simp [match_or, hm, h, hprev, binary_code, emit_bytes_eq_all, emit_byte_eq_all, loop_fn]
  · show factor_loop (n + 1) p = unary n p.next >>= _
    rw [factor_loop]
    rcases TokenType.level_four hlev with h | h | h
    · simp [match_or, hm, h, hprev, binary_code, emit_bytes_eq_all, emit_byte_eq_all, loop_fn]
    · simp [match_or, hm, h, hprev, binary_code, emit_bytes_eq_all, emit_byte_eq_all, loop_fn]
    · exact absurd h hmod

theorem unary_fallthrough {p : Parser} {t : Token} {ts : List Token} (hat : At p (t :: ts))
    (h1 : t.type ≠ TokenType.NOT) (h2 : t.type ≠ TokenType.MINUS) (n : Nat) :
    unary (n + 1) p = primary n p := by
  rw [unary]
  simp [match_or, match_ne_of_at hat h1, match_ne_of_at hat h2]

theorem unary_step {p : Parser} {op u : Token} {ts : List Token} (hat : At p (op :: u :: ts))
    (hop : op.type = TokenType.NOT ∨ op.type = TokenType.MINUS) (n : Nat) :
    unary (n + 1) p = unary n p.next >>= emit_all (unary_code op.type) := by
  have hprev := previous_next hat
  rw [unary]
  rcases hop with h | h
  · simp [match_or, match_eq_of_at hat h, hprev, h, unary_code, emit_byte_eq_all]
  · have hne : op.type ≠ TokenType.NOT := by rw [h]; decide
    simp [match_or, match_ne_of_at hat hne, match_eq_of_at hat h, hprev, h, unary_code,
      emit_byte_eq_all]

theorem primary_group {p : Parser} {l u : Token} {ts : List Token} (hat : At p (l :: u :: ts))
    (hl : l.type = TokenType.LPAREN) (n : Nat) :
    primary (n + 1) p = expression n p.next >>= fun q =>
      q.consume TokenType.RPAREN "Expected \x27)\x27 after expression" := by
  have hne : ∀ type : TokenType, type ≠ TokenType.LPAREN → p.match type = Except.ok (false, p) :=
    fun type htype => match_ne_of_at hat (fun h => htype (by rw [← h, hl]))
  rw [primary]
  simp [hne TokenType.TRUE (by decide), hne TokenType.FALSE (by decide),
    hne TokenType.NIL (by decide), hne TokenType.NUMBER (by decide),
    hne TokenType.STRING (by decide), match_eq_of_at hat hl]

theorem strip_quotes_literal (s : List Char) :
    strip_quotes (String.mk ('"' :: (s ++ ['"']))) = Except.ok (String.mk s) := by
  unfold strip_quotes
  have hlen : (String.mk ('"' :: (s ++ ['"']))).length = s.length + 2 := by
    show ('"' :: (s ++ ['"'])).length = _
    simp
  rw [hlen, if_neg (by omega), if_pos (by omega)]
  simp

theorem primary_literal {p : Parser} {t u : Token} {ts : List Token} {v : Value}
    (hat : At p (t :: u :: ts)) (hl : Literal t v) (n : Nat) :
    ∃ q, primary (n + 1) p = Except.ok q ∧
      Delta p q 1 [v] [OpCode.OP_CONSTANT.byte, p.compiling_chunk.constants.length] := by
  have hprev := previous_next hat
  obtain ⟨q, hq, dq⟩ := emit_constant_delta v hprev
  have hd := delta_trans (delta_next p) dq
  refine ⟨q, ?_, by simpa using hd⟩
  have hm : ∀ type : TokenType, p.match type
      = if t.type = type then Except.ok (true, p.next) else Except.ok (false, p) := by
    intro type
    by_cases h : t.type = type
    · rw [if_pos h]
      exact match_eq_of_at hat h
    · rw [if_neg h]
      exact match_ne_of_at hat h
  rw [primary]
  rcases hl with ⟨ht, rfl⟩ | ⟨ht, rfl⟩ | ⟨ht, rfl⟩ | ⟨ht, x, hx, rfl⟩ | ⟨ht, s, hs, rfl⟩
  · simpa [hm, ht] using hq
  · simpa [hm, ht] using hq
  · simpa [hm, ht] using hq
  · simpa [hm, ht, hprev, hx] using hq
  · simpa [hm, ht, hprev, hs, strip_quotes_literal] using hq

theorem expression_eq (n : Nat) (p : Parser) : expression (n + 3) p = equality n p := by
  rw [expression, or_expression, and_expression]

end Parser

end Replit

namespace Replit

theorem Expr.tokens_ne_nil (e : Expr) : e.tokens ≠ [] := by
  induction e with
  | literal t v => simp [Expr.tokens]
  | group l e r _ => simp [Expr.tokens]
  | unary op e _ => simp [Expr.tokens]
  | binary a op b iha _ => simp [Expr.tokens, iha]

theorem Expr.level_pos {e : Expr} (h : e.Shaped) : 1 ≤ e.level := by
  cases e with
  | literal t v => simp [Expr.level]
  | group l e r => simp [Expr.level]
  | unary op e => simp [Expr.level]
  | binary a op b => exact h.1

theorem Expr.level_le_six (e : Expr) : e.level ≤ 6 := by
  cases e with
  | literal t v => simp [Expr.level]
  | group l e r => simp [Expr.level]
  | unary op e => simp [Expr.level]
  | binary a op b =>
    have := TokenType.level_le_four op.type
    simp only [Expr.level]
    omega

/-- The first token of a well-formed expression: a literal, `(`, `!` or `-`. -/
theorem Expr.first_token {e : Expr} (h : e.Shaped) :
    ∃ t ts, e.tokens = t :: ts ∧
      (t.type = TokenType.TRUE ∨ t.type = TokenType.FALSE ∨ t.type = TokenType.NIL
        ∨ t.type = TokenType.NUMBER ∨ t.type = TokenType.STRING ∨ t.type = TokenType.LPAREN
        ∨ t.type = TokenType.NOT ∨ t.type = TokenType.MINUS) := by
  induction e with
  | literal t v =>
    refine ⟨t, [], rfl, ?_⟩
    rcases h with ⟨ht, _⟩ | ⟨ht, _⟩ | ⟨ht, _⟩ | ⟨ht, _⟩ | ⟨ht, _⟩ <;> simp [ht]
  | group l e r _ => exact ⟨l, _, rfl, by simp [h.1]⟩
  | unary op e _ =>
    refine ⟨op, _, rfl, ?_⟩
    rcases h.1 with ht | ht <;> simp [ht]
  | binary a op b iha _ =>
    obtain ⟨t, ts, hts, htype⟩ := iha h.2.2.1
    exact ⟨t, ts ++ op :: b.tokens, by simp [Expr.tokens, hts], htype⟩

namespace Parser

/-! ### Loops in sequence -/

theorem runs_level_succ {k : Nat} (h1 : 1 ≤ k) (h4 : k ≤ 4) {p q r : Parser}
    (hp : Runs (level_fn (k + 1)) p q) (hl : Runs (loop_fn k) q r) :
    Runs (level_fn k) p r := by
  obtain ⟨n1, hn1⟩ := hp
  obtain ⟨n2, hn2⟩ := hl
  refine ⟨max n1 n2 + 1, fun m hm => ?_⟩
  obtain ⟨m2, rfl⟩ : ∃ m2, m = m2 + 1 := ⟨m - 1, by omega⟩
  rw [level_fn_succ h1 h4, hn1 m2 (by omega)]
  exact hn2 m2 (by omega)

theorem chain_lt {j k : Nat} (h : j < k) (q r : Parser) : Chain j k q r ↔ q = r := by
  cases j with
  | zero => rfl
  | succ j => simp [Chain, h]

theorem chain_ge {j k : Nat} (h : k ≤ j + 1) (q r : Parser) :
    Chain (j + 1) k q r ↔ ∃ q2, Runs (loop_fn (j + 1)) q q2 ∧ Chain j k q2 r := by
  simp [Chain, Nat.not_lt.mpr h]

theorem runs_loop_exit {k : Nat} (h1 : 1 ≤ k) (h4 : k ≤ 4) {q : Parser} {t : Token}
    {ts : List Token} (hat : At q (t :: ts)) (hlev : t.type.level ≠ k) :
    Runs (loop_fn k) q q := by
  refine ⟨1, fun m hm => ?_⟩
  obtain ⟨m2, rfl⟩ : ∃ m2, m = m2 + 1 := ⟨m - 1, by omega⟩
  exact loop_exit h1 h4 hat hlev m2

/-- At a token that is not an operator of a level above `j`, the loops of the levels
above `j` do nothing. -/
theorem chain_skip {j : Nat} {q : Parser} {t : Token} {ts : List Token}
    (hat : At q (t :: ts)) (hlev : t.type.level ≤ j) :
    ∀ i, j ≤ i → i ≤ 4 → ∀ k r, Chain j k q r → Chain i k q r := by
  intro i
  induction i with
  | zero =>
    intro hj _ k r h
    have : j = 0 := by omega
    subst this
    exact h
  | succ i ih =>
    intro hj hi k r h
    by_cases hji : j = i + 1
    · subst hji
      exact h
    · have hle : j ≤ i := by omega
      by_cases hk : i + 1 < k
      · rw [chain_lt hk]
        exact (chain_lt (by omega) q r).mp h
      · rw [chain_ge (by omega)]
        exact ⟨q, runs_loop_exit (by omega) hi hat (by omega), ih hle (by omega) k r h⟩

theorem level_of_chain : ∀ (d j k : Nat), j = k + d → 1 ≤ k → j ≤ 5 → ∀ p q r : Parser,
    Runs (level_fn j) p q → Chain (j - 1) k q r → Runs (level_fn k) p r := by
  intro d
  induction d with
  | zero =>
    intro j k hj hk _ p q r hp hc
    have hjk : j = k := by omega
    subst hjk
    rw [chain_lt (by omega)] at hc
    subst hc
    exact hp
  | succ d ih =>
    intro j k hj hk h5 p q r hp hc
    obtain ⟨i, hi⟩ : ∃ i, j = i + 1 + 1 := ⟨j - 2, by omega⟩
    subst hi
    simp only [Nat.add_sub_cancel] at hc
    rw [chain_ge (by omega)] at hc
    obtain ⟨q2, hl, hc2⟩ := hc
    have hp2 : Runs (level_fn (i + 1)) p q2 := runs_level_succ (by omega) (by omega) hp hl
    exact ih (i + 1) k (by omega) hk (by omega) p q2 r hp2 (by simpa using hc2)

theorem lift_unary {p q : Parser} (hp : Runs unary p q) {k : Nat} (h1 : 1 ≤ k) (h5 : k ≤ 5)
    (r : Parser) (hc : Chain 4 k q r) : Runs (level_fn k) p r :=
  level_of_chain (5 - k) 5 k (by omega) h1 (Nat.le_refl 5) p q r hp hc

theorem lift_primary {p q : Parser} {t : Token} {ts : List Token} (hat : At p (t :: ts))
    (hn : t.type ≠ TokenType.NOT) (hm : t.type ≠ TokenType.MINUS) (hp : Runs primary p q)
    {k : Nat} (h1 : 1 ≤ k) (h6 : k ≤ 6) (r : Parser) (hc : Chain 4 k q r) :
    Runs (level_fn k) p r := by
  by_cases hk : k = 6
  · subst hk
    rw [chain_lt (by omega)] at hc
    subst hc
    exact hp
  · have hu : Runs unary p q := by
      obtain ⟨n, hn1⟩ := hp
      refine ⟨n + 1, fun m hm1 => ?_⟩
      obtain ⟨m2, rfl⟩ : ∃ m2, m = m2 + 1 := ⟨m - 1, by omega⟩
      rw [unary_fallthrough hat hn hm]
      exact hn1 m2 (by omega)
    exact lift_unary hu h1 (by omega) r hc

theorem delta_cast {p q : Parser} {l l2 : Nat} {v v2 : List Value} {c c2 : List Nat}
    (h : Delta p q l v c) (hl : l = l2) (hv : v = v2) (hc : c = c2) : Delta p q l2 v2 c2 := by
  subst hl hv hc
  exact h

theorem at_of_delta {p q : Parser} {xs ys : List Token} {v : List Value} {c : List Nat}
    (hat : At p (xs ++ ys)) (h : Delta p q xs.length v c) : At q ys :=
  at_of_moved hat h.1 h.2.1

theorem previous_of_delta {p q : Parser} {l : Nat} {t : Token} {ts : List Token}
    {v : List Value} {c : List Nat} (h : Delta p q l v c) (hl : 0 < l) (hat : At q (t :: ts)) :
    ∃ t, q.previous = Except.ok t :=
  previous_ok (by rw [h.2.1]; omega) (Nat.le_of_lt (lt_of_at hat))

/-! ### An expression -/

/-- The parsing function of any level up to that of the tree, started at the tokens of a
well-formed tree that are followed by a token that is not an operator of a higher level
than that of the tree: it consumes the tokens of the tree, appends its literals to the pool
and its translation to the code, and goes on with the loops of the levels from that of
the tree down to its own. -/
theorem parse_tree : ∀ (e : Expr), e.Shaped → ∀ (k : Nat), 1 ≤ k → k ≤ e.level →
    ∀ (p : Parser) (t0 : Token) (rest : List Token), At p (e.tokens ++ t0 :: rest) →
    t0.type.level ≤ e.level →
    ∃ q, Delta p q e.tokens.length e.literals (e.code p.compiling_chunk.constants.length) ∧
      ∀ r, Chain (min e.level 4) k q r → Runs (level_fn k) p r := by
  intro e
  induction e with
  | literal t v =>
    intro hs k h1 hk p t0 rest hat _
    have hat2 : At p (t :: t0 :: rest) := hat
    obtain ⟨q, hq, dq⟩ := primary_literal hat2 hs 0
    refine ⟨q, dq, ?_⟩
    have hp : Runs primary p q :=
      runs_of_mono (mono_level 6) (show level_fn 6 (0 + 1) p = Except.ok q from hq)
    have hn : t.type ≠ TokenType.NOT ∧ t.type ≠ TokenType.MINUS := by
      rcases hs with ⟨ht, _⟩ | ⟨ht, _⟩ | ⟨ht, _⟩ | ⟨ht, _⟩ | ⟨ht, _⟩ <;> simp [ht]
    exact lift_primary hat2 hn.1 hn.2 hp h1 hk
  | group l e r ih =>
    intro hs k h1 hk p t0 rest hat _
    obtain ⟨hl, hr, hse⟩ := hs
    have hat2 : At p (l :: (e.tokens ++ r :: t0 :: rest)) := by
      simpa [Expr.tokens] using hat
    obtain ⟨u, ts, hu⟩ := List.exists_cons_of_ne_nil
      (show e.tokens ++ r :: t0 :: rest ≠ [] by simp)
    have hat3 : At p (l :: u :: ts) := by rw [← hu]; exact hat2
    have hatn : At p.next (e.tokens ++ r :: t0 :: rest) := next_at hat2
    obtain ⟨q1, d1, hq1⟩ := ih hse 1 (Nat.le_refl 1) (Expr.level_pos hse) p.next r
      (t0 :: rest) hatn (by rw [hr]; exact Nat.zero_le _)
    have hatq : At q1 (r :: t0 :: rest) := at_of_delta hatn d1
    have hc0 : Chain 0 1 q1 q1 := rfl
    have hc : Chain (min e.level 4) 1 q1 q1 :=
      chain_skip hatq (by rw [hr]; exact Nat.le_refl 0) _ (Nat.zero_le _)
        (Nat.min_le_right _ _) 1 q1 hc0
    obtain ⟨n, hn⟩ := hq1 q1 hc
    have hp : Runs primary p q1.next := by
      refine ⟨n + 4, fun m hm => ?_⟩
      obtain ⟨m2, rfl⟩ : ∃ m2, m = m2 + 3 + 1 := ⟨m - 4, by omega⟩
      rw [primary_group hat3 hl, expression_eq]
      have := hn m2 (by omega)
      simp only [level_fn] at this
      rw [this]
      exact consume_of_at hatq hr _
    refine ⟨q1.next, ?_, ?_⟩
    · have d := delta_trans (delta_next p) (delta_trans d1 (delta_next q1))
      refine delta_cast d ?_ ?_ ?_
      · simp [Expr.tokens]
        omega
      · simp [Expr.literals]
      · simp [Expr.code, next]
    · have hnl : l.type ≠ TokenType.NOT ∧ l.type ≠ TokenType.MINUS := by simp [hl]
      exact lift_primary hat2 hnl.1 hnl.2 hp h1 hk
  | unary op e ih =>
    intro hs k h1 hk p t0 rest hat _
    obtain ⟨hop, hse, hle⟩ := hs
    have hat2 : At p (op :: (e.tokens ++ t0 :: rest)) := by
      simpa [Expr.tokens] using hat
    obtain ⟨u, ts, hu⟩ := List.exists_cons_of_ne_nil
      (show e.tokens ++ t0 :: rest ≠ [] by simp)
    have hat3 : At p (op :: u :: ts) := by rw [← hu]; exact hat2
    have hatn : At p.next (e.tokens ++ t0 :: rest) := next_at hat2
    have ht0 := TokenType.level_le_four t0.type
    obtain ⟨q1, d1, hq1⟩ := ih hse 5 (by omega) hle p.next t0 rest hatn (by omega)
    have hatq : At q1 (t0 :: rest) := at_of_delta hatn d1
    have hc : Chain (min e.level 4) 5 q1 q1 :=
      (chain_lt (lt_of_le_of_lt (Nat.min_le_right _ _) (by omega)) q1 q1).mpr rfl
    obtain ⟨n, hn⟩ := hq1 q1 hc
    have hprev : ∃ t, q1.previous = Except.ok t :=
      previous_of_delta d1 (List.length_pos.mpr (Expr.tokens_ne_nil e)) hatq
    obtain ⟨q2, he, d2⟩ := emit_all_delta (unary_code op.type) q1 hprev
    have hp : Runs unary p q2 := by
      refine ⟨n + 1, fun m hm => ?_⟩
      obtain ⟨m2, rfl⟩ : ∃ m2, m = m2 + 1 := ⟨m - 1, by omega⟩
      rw [unary_step hat3 hop]
      have := hn m2 (by omega)
      simp only [level_fn] at this
      rw [this]
      exact he
    refine ⟨q2, ?_, ?_⟩
    · have d := delta_trans (delta_next p) (delta_trans d1 d2)
      refine delta_cast d ?_ ?_ ?_
      · simp [Expr.tokens]
        omega
      · simp [Expr.literals]
      · simp [Expr.code, next]
    · intro r hc2
      have hk5 : k ≤ 5 := hk
      have hc3 : Chain 4 k q2 r := hc2
      exact lift_unary hp h1 hk5 r hc3
  | binary a op b iha ihb =>
    intro hs k h1 hk p t0 rest hat ht0
    obtain ⟨hop1, hmod, hsa, hsb, hla, hlb⟩ := hs
    have hj4 := TokenType.level_le_four op.type
    have hlevel : (Expr.binary a op b).level = op.type.level := rfl
    rw [hlevel] at hk ht0
    have hat2 : At p (a.tokens ++ op :: (b.tokens ++ t0 :: rest)) := by
      simpa [Expr.tokens] using hat
    obtain ⟨qa, da, hqa⟩ := iha hsa op.type.level hop1 hla p op (b.tokens ++ t0 :: rest) hat2 hla
    have hata : At qa (op :: (b.tokens ++ t0 :: rest)) := at_of_delta hat2 da
    obtain ⟨u, ts, hu⟩ := List.exists_cons_of_ne_nil
      (show b.tokens ++ t0 :: rest ≠ [] by simp)
    have hata3 : At qa (op :: u :: ts) := by rw [← hu]; exact hata
    have hatn : At qa.next (b.tokens ++ t0 :: rest) := next_at hata
    obtain ⟨qb, db, hqb⟩ := ihb hsb (op.type.level + 1) (by omega) hlb qa.next t0 rest hatn
      (by omega)
    have hatb : At qb (t0 :: rest) := at_of_delta hatn db
    have hcb : Chain (min b.level 4) (op.type.level + 1) qb qb := by
      have h0 : Chain op.type.level (op.type.level + 1) qb qb :=
        (chain_lt (Nat.lt_succ_self _) qb qb).mpr rfl
      exact chain_skip hatb ht0 _ (by
        apply Nat.le_min.mpr
        exact ⟨by omega, hj4⟩) (Nat.min_le_right _ _) _ qb h0
    obtain ⟨nb, hnb⟩ := hqb qb hcb
    have hprev : ∃ t, qb.previous = Except.ok t :=
      previous_of_delta db (List.length_pos.mpr (Expr.tokens_ne_nil b)) hatb
    obtain ⟨q, he, dq⟩ := emit_all_delta (binary_code op.type) qb hprev
    have hatq : At q (t0 :: rest) := by
      have : At qb ([] ++ t0 :: rest) := hatb
      exact at_of_delta this dq
    refine ⟨q, ?_, ?_⟩
    · have d := delta_trans da (delta_trans (delta_next qa) (delta_trans db dq))
      refine delta_cast d ?_ ?_ ?_
      · simp [Expr.tokens]
        omega
      · simp [Expr.literals]
      · simp [Expr.code, next, da.2.2.1]
    · intro r hc
      have hmin : min op.type.level 4 = op.type.level := Nat.min_eq_left hj4
      rw [hlevel, hmin] at hc
      obtain ⟨j, hj⟩ : ∃ j, op.type.level = j + 1 := ⟨op.type.level - 1, by omega⟩
      rw [hj] at hc
      rw [chain_ge (by omega)] at hc
      obtain ⟨q2, hl, hc2⟩ := hc
      rw [← hj] at hl
      -- the loop of the operator's level, started after the left operand
      have hloop : Runs (loop_fn op.type.level) qa q2 := by
        obtain ⟨nl, hnl⟩ := hl
        refine ⟨max nb nl + 1, fun m hm => ?_⟩
        obtain ⟨m2, rfl⟩ : ∃ m2, m = m2 + 1 := ⟨m - 1, by omega⟩
        rw [loop_step hop1 hj4 hata3 rfl hmod, hnb m2 (by omega)]
        simp only [bind_ok]
        rw [he]
        exact hnl m2 (by omega)
      have hca : Chain (min a.level 4) op.type.level qa q2 := by
        have h0 : Chain op.type.level op.type.level qa q2 := by
          rw [hj, chain_ge (by omega)]
          refine ⟨q2, by rw [← hj]; exact hloop, ?_⟩
          exact (chain_lt (by omega) q2 q2).mpr rfl
        exact chain_skip hata (Nat.le_refl _) _ (by
          apply Nat.le_min.mpr
          exact ⟨hla, hj4⟩) (Nat.min_le_right _ _) _ q2 h0
      have hpj : Runs (level_fn op.type.level) p q2 := hqa q2 hca
      exact level_of_chain (op.type.level - k) op.type.level k (by omega) h1 (by omega) p q2 r hpj
        (by rw [hj]; simpa using hc2)

end Parser

end Replit

namespace Replit

theorem Statement.tokens_length (s : Statement) : 2 ≤ s.tokens.length := by
  cases s with
  | expression e semi =>
    have := List.length_pos.mpr (Expr.tokens_ne_nil e)
    simp only [Statement.tokens, List.length_append, List.length_cons, List.length_nil]
    omega
  | print kw e semi =>
    simp only [Statement.tokens, List.length_append, List.length_cons, List.length_nil]
    omega

/-- The first token of a well-formed statement is not one at which the loop of `compile`
or `declaration` does anything but call `statement`. -/
theorem Statement.first_token_type {s : Statement} (h : s.Shaped) :
    ∃ t ts, s.tokens = t :: ts ∧ t.type ≠ TokenType.EOF_TOKEN ∧ t.type ≠ TokenType.NEWLINE
      ∧ t.type ≠ TokenType.LET := by
  cases s with
  | expression e semi =>
    obtain ⟨t, ts, hts, htype⟩ := Expr.first_token h.1
    refine ⟨t, ts ++ [semi], by simp [Statement.tokens, hts], ?_⟩
    rcases htype with ht | ht | ht | ht | ht | ht | ht | ht <;> simp [ht]
  | print kw e semi =>
    exact ⟨kw, _, rfl, by simp [h.1]⟩

namespace Parser

/-! ### Statements and programs -/

theorem delta_same (p : Parser) : Delta p p 0 [] [] :=
  ⟨rfl, rfl, by simp, fun _ => ⟨by simp, rfl, rfl, rfl⟩, fun h => h⟩

/-- `expression` on the tokens of a well-formed tree that are followed by a token that
is no binary operator. -/
theorem parse_expression {e : Expr} (hs : e.Shaped) {p : Parser} {t0 : Token}
    {rest : List Token} (hat : At p (e.tokens ++ t0 :: rest)) (h0 : t0.type.level = 0) :
    ∃ q, Delta p q e.tokens.length e.literals (e.code p.compiling_chunk.constants.length) ∧
      At q (t0 :: rest) ∧ Runs expression p q := by
  obtain ⟨q, dq, hq⟩ := parse_tree e hs 1 (Nat.le_refl 1) (Expr.level_pos hs) p t0 rest hat
    (by omega)
  have hatq : At q (t0 :: rest) := at_of_delta hat dq
  have hc : Chain (min e.level 4) 1 q q :=
    chain_skip hatq (Nat.le_of_eq h0) _ (Nat.zero_le _) (Nat.min_le_right _ _) 1 q rfl
  obtain ⟨n, hn⟩ := hq q hc
  refine ⟨q, dq, hatq, n + 3, fun m hm => ?_⟩
  obtain ⟨m2, rfl⟩ : ∃ m2, m = m2 + 3 := ⟨m - 3, by omega⟩
  rw [expression_eq]
  exact hn m2 (by omega)

theorem synchronize_after_semicolon {q : Parser} {semi t1 : Token} {rest : List Token}
    (hat : At q (t1 :: rest)) (hprev : q.previous = Except.ok semi)
    (hsemi : semi.type = TokenType.SEMICOLON) (n : Nat) :
    synchronize (n + 1) q = Except.ok { q with panic_mode := false } := by
  unfold synchronize
  rw [synchronize_loop]
  have hpeek : ({ q with panic_mode := false } : Parser).peek = Except.ok t1 := by
    rw [← peek_of_at hat]
    exact peek_congr rfl rfl
  have hprev2 : ({ q with panic_mode := false } : Parser).previous = Except.ok semi := by
    rw [← hprev]
    exact previous_congr rfl rfl
  rw [hpeek]
  simp only [bind_ok]
  by_cases h : t1.type = TokenType.EOF_TOKEN
  · simp [h]
  · simp [h, hprev2, hsemi]

/-- The end of a statement: `consume` of the semicolon, the byte of the statement, and
`synchronize` if the statement has left the parser in panic mode. -/
theorem statement_tail {q : Parser} {semi t1 : Token} {rest : List Token}
    (hat : At q (semi :: t1 :: rest)) (hsemi : semi.type = TokenType.SEMICOLON) (b : Nat)
    (m : String) :
    ∃ q2 q3, (q.consume TokenType.SEMICOLON m >>= fun q => q.emit_byte b) = Except.ok q2 ∧
      (∀ n, (if q2.panic_mode = true then synchronize (n + 1) q2 else Except.ok q2)
        = Except.ok q3) ∧
      q3.panic_mode = false ∧
      (q.panic_mode = false →
        Delta q q3 1 [] [b]) ∧
      (Accounted q → Accounted q3) ∧ q3.tokens = q.tokens ∧ q3.current = q.current + 1 ∧
      q3.compiling_chunk.constants = q.compiling_chunk.constants := by
  have hprev : q.next.previous = Except.ok semi := previous_next hat
  obtain ⟨q2, he, d2⟩ := emit_byte_delta b ⟨semi, hprev⟩
  have hatn : At q.next (t1 :: rest) := next_at hat
  have hat2 : At q2 (t1 :: rest) := by
    have : At q.next ([] ++ t1 :: rest) := hatn
    exact at_of_delta this d2
  have hprev2 : q2.previous = Except.ok semi := by
    rw [← hprev]
    exact previous_congr d2.1 (by rw [d2.2.1]; rfl)
  have hd : Delta q q2 1 [] [b] := by
    have := delta_trans (delta_next q) d2
    exact delta_cast this rfl rfl rfl
  refine ⟨q2, { q2 with panic_mode := false }, ?_, ?_, rfl, ?_, ?_, hd.1, hd.2.1, ?_⟩
  · rw [consume_of_at hat hsemi]
    exact he
  · intro n
    by_cases hp : q2.panic_mode = true
    · rw [if_pos hp]
      exact synchronize_after_semicolon hat2 hprev2 hsemi n
    · rw [if_neg hp]
      have hp2 : q2.panic_mode = false := by simpa using hp
      obtain ⟨a1, a2, a3, a4, a5, a6⟩ := q2
      dsimp only at hp2
      subst hp2
      rfl
  · intro hq
    obtain ⟨h1, h2, h3, h4, h5⟩ := hd
    refine ⟨h1, h2, h3, fun hle => ?_, fun hacc => ?_⟩
    · obtain ⟨k1, k2, k3, k4⟩ := h4 hle
      exact ⟨k1, k2, by rw [hq], k4⟩
    · obtain ⟨g1, _⟩ := h5 hacc
      exact ⟨g1, fun h => by cases h⟩
  · intro hacc
    obtain ⟨g1, _⟩ := hd.2.2.2.2 hacc
    exact ⟨g1, fun h => by cases h⟩
  · simpa using hd.2.2.1

/-- `declaration` on the tokens of a well-formed statement. -/
theorem parse_statement {s : Statement} (hs : s.Shaped) {p : Parser} {t1 : Token}
    {rest : List Token} (hat : At p (s.tokens ++ t1 :: rest)) (hp : p.panic_mode = false) :
    ∃ q, Delta p q s.tokens.length s.literals (s.code p.compiling_chunk.constants.length) ∧
      q.panic_mode = false ∧ ∃ n, ∀ m, n ≤ m → declaration m p = Except.ok q := by
  cases s with
  | expression e semi =>
    obtain ⟨hse, hsemi⟩ := hs
    have hat2 : At p (e.tokens ++ semi :: t1 :: rest) := by
      simpa [Statement.tokens] using hat
    obtain ⟨t, ts, hts, htype⟩ := Expr.first_token hse
    have hatf : At p (t :: (ts ++ semi :: t1 :: rest)) := by
      rw [hts] at hat2
      exact hat2
    have hlet : t.type ≠ TokenType.LET := by
      rcases htype with ht | ht | ht | ht | ht | ht | ht | ht <;> simp [ht]
    have hprint : t.type ≠ TokenType.PRINT := by
      rcases htype with ht | ht | ht | ht | ht | ht | ht | ht <;> simp [ht]
    obtain ⟨q1, d1, hat1, n1, hn1⟩ := parse_expression hse hat2 (by rw [hsemi]; rfl)
    obtain ⟨q2, q3, htail, hsync, hpm, hd3, hacc3, h3t, h3c, h3k⟩ :=
      statement_tail hat1 hsemi OpCode.OP_POP.byte "Expected \x27;\x27 after expression"
    refine ⟨q3, ?_, hpm, n1 + 1, fun m hm => ?_⟩
    · obtain ⟨e1, e2, e3, e4, e5⟩ := d1
      refine ⟨h3t.trans e1, ?_, ?_, fun hle => ?_, fun hacc => hacc3 (e5 hacc)⟩
      · rw [h3c, e2]
        simp [Statement.tokens]
        omega
      · rw [h3k, e3]
        rfl
      · obtain ⟨k1, k2, k3, k4⟩ := e4 hle
        obtain ⟨g1, g2, g3, g4, g5⟩ := hd3 (k3.trans hp)
        obtain ⟨j1, j2, j3, j4⟩ := g4 (by rw [e3, List.length_append]; simpa using hle)
        refine ⟨?_, j2.trans k2, j3.trans k3, j4.trans k4⟩
        rw [j1, k1]
        simp [Statement.code]
    · obtain ⟨m2, rfl⟩ : ∃ m2, m = m2 + 1 := ⟨m - 1, by omega⟩
      unfold declaration statement expression_statement
      rw [match_ne_of_at hatf hlet]
      simp only [bind_ok, Bool.false_eq_true, if_false]
      rw [match_ne_of_at hatf hprint]
      simp only [bind_ok, Bool.false_eq_true, if_false]
      rw [hn1 (m2 + 1) (by omega)]
      simp only [bind_ok]
      have htail2 : (do
          let p ← q1.consume TokenType.SEMICOLON "Expected \x27;\x27 after expression"
          p.emit_byte OpCode.OP_POP.byte) = Except.ok q2 := htail
      rw [htail2]
      simp only [bind_ok]
      exact hsync m2
  | print kw e semi =>
    obtain ⟨hkw, hse, hsemi⟩ := hs
    have hat2 : At p (kw :: (e.tokens ++ semi :: t1 :: rest)) := by
      simpa [Statement.tokens] using hat
    obtain ⟨u, ts, hu⟩ := List.exists_cons_of_ne_nil
      (show e.tokens ++ semi :: t1 :: rest ≠ [] by simp)
    have hat3 : At p (kw :: u :: ts) := by rw [← hu]; exact hat2
    have hlet : kw.type ≠ TokenType.LET := by simp [hkw]
    have hatn : At p.next (e.tokens ++ semi :: t1 :: rest) := next_at hat2
    obtain ⟨q1, d1, hat1, n1, hn1⟩ := parse_expression hse hatn (by rw [hsemi]; rfl)
    obtain ⟨q2, q3, htail, hsync, hpm, hd3, hacc3, h3t, h3c, h3k⟩ :=
      statement_tail hat1 hsemi OpCode.OP_PRINT.byte "Expected \x27;\x27 after value"
    refine ⟨q3, ?_, hpm, n1 + 1, fun m hm => ?_⟩
    · obtain ⟨e1, e2, e3, e4, e5⟩ := d1
      refine ⟨h3t.trans e1, ?_, ?_, fun hle => ?_, fun hacc => hacc3 (e5 hacc)⟩
      · rw [h3c, e2]
        simp [Statement.tokens, next]
        omega
      · rw [h3k, e3]
        rfl
      · obtain ⟨k1, k2, k3, k4⟩ := e4 hle
        have hpn : p.next.panic_mode = false := hp
        obtain ⟨g1, g2, g3, g4, g5⟩ := hd3 (k3.trans hpn)
        obtain ⟨j1, j2, j3, j4⟩ := g4 (by rw [e3, List.length_append]; simpa using hle)
        refine ⟨?_, j2.trans k2, j3.trans k3, j4.trans k4⟩
        rw [j1, k1]
        simp [Statement.code, next]
    · obtain ⟨m2, rfl⟩ : ∃ m2, m = m2 + 1 := ⟨m - 1, by omega⟩
      unfold declaration statement print_statement
      rw [match_ne_of_at hat2 hlet]
      simp only [bind_ok, Bool.false_eq_true, if_false]
      rw [match_eq_of_at hat3 hkw]
      simp only [bind_ok, if_true]
      rw [hn1 (m2 + 1) (by omega)]
      simp only [bind_ok]
      have htail2 : (do
          let p ← q1.consume TokenType.SEMICOLON "Expected \x27;\x27 after value"
          p.emit_byte OpCode.OP_PRINT.byte) = Except.ok q2 := htail
      rw [htail2]
      simp only [bind_ok]
      exact hsync m2

/-- The loop of `compile` on the tokens of a sequence of well-formed statements followed
by EOF. -/
theorem parse_program : ∀ (prog : List Statement), (∀ s ∈ prog, s.Shaped) →
    ∀ (p : Parser) (eof : Token), At p (program_tokens prog ++ [eof]) →
    eof.type = TokenType.EOF_TOKEN → p.panic_mode = false →
    ∃ q, Delta p q (program_tokens prog).length (program_literals prog)
        (program_code p.compiling_chunk.constants.length prog) ∧
      q.panic_mode = false ∧ Runs compile_loop p q := by
  intro prog
  induction prog with
  | nil =>
    intro _ p eof hat heof hp
    refine ⟨p, delta_same p, hp, 1, fun m hm => ?_⟩
    obtain ⟨m2, rfl⟩ : ∃ m2, m = m2 + 1 := ⟨m - 1, by omega⟩
    have hat2 : At p [eof] := hat
    rw [compile_loop, check_of_at hat2]
    simp [heof]
  | cons s rest ih =>
    intro hs p eof hat heof hp
    have hss : s.Shaped := hs s (List.mem_cons_self _ _)
    obtain ⟨t1, rest1, h1⟩ := List.exists_cons_of_ne_nil
      (show program_tokens rest ++ [eof] ≠ [] by simp)
    have hat2 : At p (s.tokens ++ t1 :: rest1) := by
      rw [← h1]
      simpa [program_tokens] using hat
    obtain ⟨q1, d1, hp1, n1, hn1⟩ := parse_statement hss hat2 hp
    have hat1 : At q1 (program_tokens rest ++ [eof]) := by
      rw [h1]
      exact at_of_delta hat2 d1
    obtain ⟨q2, d2, hp2, n2, hn2⟩ := ih (fun x hx => hs x (List.mem_cons_of_mem _ hx)) q1 eof
      hat1 heof hp1
    obtain ⟨t, ts, hts, hne1, hne2, _⟩ := Statement.first_token_type hss
    have hatf : At p (t :: (ts ++ t1 :: rest1)) := by
      rw [hts] at hat2
      exact hat2
    refine ⟨q2, ?_, hp2, max n1 n2 + 1, fun m hm => ?_⟩
    · have d := delta_trans d1 d2
      refine delta_cast d ?_ ?_ ?_
      · simp [program_tokens]
      · simp [program_literals]
      · simp [program_code, d1.2.2.1]
    · obtain ⟨m2, rfl⟩ : ∃ m2, m = m2 + 1 := ⟨m - 1, by omega⟩
      rw [compile_loop, check_of_at hatf]
      simp only [bind_ok, hne1, decide_False, Bool.not_false, if_true]
      rw [match_ne_of_at hatf hne2]
      simp only [bind_ok, Bool.false_eq_true, if_false]
      rw [hn1 m2 (by omega)]
      simp only [bind_ok]
      exact hn2 m2 (by omega)

theorem program_tokens_length : ∀ {prog : List Statement}, prog ≠ [] →
    0 < (program_tokens prog).length
  | [], h => absurd rfl h
  | s :: rest, _ => by
    have := Statement.tokens_length s
    simp only [program_tokens, List.length_append]
    omega

/-- `compile` on the tokens of a non-empty sequence of well-formed statements followed by
EOF: with enough fuel it returns; the pool holds the literals of the program in source
order; with at most 256 of them the code is the translation of the program followed by
RETURN and nothing is reported; with more than 256 the constant-limit error is recorded
and reported. -/
theorem compile_program (prog : List Statement) (eof : Token) (hne : prog ≠ [])
    (hs : ∀ s ∈ prog, s.Shaped) (heof : eof.type = TokenType.EOF_TOKEN) :
    ∃ (n : Nat) (q : Parser),
      (∀ m, n ≤ m →
        compile m (program_tokens prog ++ [eof]) {} = Except.ok (!q.had_error, q)) ∧
      q.compiling_chunk.constants = program_literals prog ∧
      ((program_literals prog).length ≤ 256 →
        q.compiling_chunk.code = program_code 0 prog ++ [OpCode.OP_RETURN.byte] ∧
        q.had_error = false ∧ q.diagnostics = []) ∧
      (256 < (program_literals prog).length → Reported q) := by
  have hat : At (Parser.mk (program_tokens prog ++ [eof]) 0 {} false false [])
      (program_tokens prog ++ [eof]) := rfl
  obtain ⟨q1, d1, _, n1, hn1⟩ := parse_program prog hs _ eof hat heof rfl
  have hat1 : At q1 [eof] := by
    have h : At (Parser.mk (program_tokens prog ++ [eof]) 0 {} false false [])
      (program_tokens prog ++ [eof]) := hat
    exact at_of_delta h d1
  have hprev : ∃ t, q1.previous = Except.ok t :=
    previous_of_delta d1 (program_tokens_length hne) hat1
  obtain ⟨q2, he, d2⟩ := emit_byte_delta OpCode.OP_RETURN.byte hprev
  have d := delta_trans d1 d2
  obtain ⟨_, _, dk, dn, da⟩ := d
  have hk : q2.compiling_chunk.constants = program_literals prog := by
    rw [dk]
    simp
  refine ⟨n1, q2, fun m hm => ?_, hk, fun hle => ?_, fun hgt => ?_⟩
  · unfold compile
    have h := hn1 m hm
    simp only [bind_ok, pure_eq_ok]
    rw [h]
    simp only [bind_ok]
    unfold emit_return
    rw [he]
    rfl
  · obtain ⟨k1, k2, _, k4⟩ := dn (by simpa using hle)
    refine ⟨?_, k2, k4⟩
    rw [k1]
    rfl
  · have hacc : Accounted q2 := da ⟨fun h => by simp at h, fun h => by cases h⟩
    exact hacc.1 (by rw [hk]; exact hgt)

end Parser

end Replit

namespace Replit

set_option maxRecDepth 100000 in
theorem sample_program_tokens :
    program_tokens sample_program ++ [sample_eof] = tokenize "print 1 + 2 * 3; !(true == \"a\");" := by
  decide!

set_option maxRecDepth 100000 in
theorem sample_program_shaped : ∀ s ∈ sample_program, s.Shaped := by
  have h1 : Double.stod "1" = Except.ok (Double.of_int 1) := by decide!
  have h2 : Double.stod "2" = Except.ok (Double.of_int 2) := by decide!
  have h3 : Double.stod "3" = Except.ok (Double.of_int 3) := by decide!
  intro s hs
  simp only [sample_program, List.mem_cons, List.mem_singleton, List.not_mem_nil, or_false] at hs
  rcases hs with rfl | rfl
  · refine ⟨rfl, ⟨by decide, by decide, ?_, ⟨by decide, by decide, ?_, ?_, by decide, by decide⟩,
      by decide, by decide⟩, rfl⟩
    · exact Or.inr (Or.inr (Or.inr (Or.inl ⟨rfl, _, h1, rfl⟩)))
    · exact Or.inr (Or.inr (Or.inr (Or.inl ⟨rfl, _, h2, rfl⟩)))
    · exact Or.inr (Or.inr (Or.inr (Or.inl ⟨rfl, _, h3, rfl⟩)))
  · refine ⟨⟨Or.inl rfl, ⟨rfl, rfl, by decide, by decide, ?_, ?_, by decide, by decide⟩,
      by decide⟩, rfl⟩
    · exact Or.inl ⟨rfl, rfl⟩
    · exact Or.inr (Or.inr (Or.inr (Or.inr ⟨rfl, ['a'], rfl, rfl⟩)))

set_option maxRecDepth 100000 in
theorem long_program_shaped (n : Nat) : ∀ s ∈ long_program n, s.Shaped := by
  have h0 : Double.stod "0" = Except.ok (Double.of_int 0) := by decide!
  intro s hs
  simp only [long_program, List.mem_map, List.mem_range] at hs
  obtain ⟨i, _, rfl⟩ := hs
  exact ⟨Or.inr (Or.inr (Or.inr (Or.inl ⟨rfl, _, h0, rfl⟩))), rfl⟩

theorem long_program_literals (n : Nat) : (program_literals (long_program n)).length = n := by
  have h : ∀ (l : List Nat) (f : Nat → Token) (g : Nat → Token) (v : Value),
      (program_literals (l.map (fun i => Statement.expression (Expr.literal (f i) v) (g i)))).length
        = l.length := by
    intro l f g v
    induction l with
    | nil => rfl
    | cons a l ih =>
      simp only [List.map_cons, program_literals, Statement.literals, Expr.literals,
        List.length_append, List.length_cons, List.length_nil, ih]
      omega
  unfold long_program
  rw [h]
  exact List.length_range n

set_option maxRecDepth 1000000 in
theorem long_program_tokens :
    program_tokens (long_program 257) ++ [long_eof 257]
      = tokenize (String.join (List.replicate 257 "0;")) := by
  decide!

end Replit

namespace Replit

namespace Parser

/-- A fault other than running out of fuel is the outcome for every larger amount of
fuel, so no amount of fuel makes `compile` return. -/
theorem compile_never_returns {n : Nat} {tokens : List Token} {chunk : Chunk} {f : Fault}
    (h : compile n tokens chunk = Except.error f) (hf : f ≠ Fault.out_of_fuel) :
    ∀ m r, compile m tokens chunk ≠ Except.ok r := by
  intro m r hm
  rcases Nat.le_total m n with hle | hle
  · obtain ⟨d, rfl⟩ := Nat.exists_eq_add_of_le hle
    rw [compile_fuel hm d] at h
    cases h
  · obtain ⟨d, rfl⟩ := Nat.exists_eq_add_of_le hle
    have hfault : ∀ d, compile (n + d) tokens chunk = Except.error f := by
      intro d
      induction d with
      | zero => exact h
      | succ d ih =>
        rcases mono_compile (n + d) tokens chunk with h1 | h1
        · rw [ih] at h1
          cases h1
          exact absurd rfl hf
        · rw [show n + (d + 1) = n + d + 1 from rfl, h1]
          exact ih
    rw [hfault d] at hm
    cases hm

end Parser

set_option maxRecDepth 100000 in
/-- C16, as stated, fails.  The empty program is a sequence of statements, yet on its
tokens (the EOF token alone) `compile` does not return: `emit_return` reads
`tokens[current - 1]` with `current = 0`.  Nor does it return on the one-statement
program whose literal is `1` followed by 309 zeros: `std::stod` throws
`std::out_of_range`, which nothing catches. -/
theorem compile_faults_on_empty_program :
    (Parser.compile 20 (tokenize "") {}
        = Except.error (Fault.undefined "tokens[current - 1] outside the vector")
      ∧ ∀ m r, Parser.compile m (tokenize "") {} ≠ Except.ok r)
    ∧ (Parser.compile 20 (tokenize (String.mk ('1' :: (List.replicate 309 '0' ++ [';'])))) {}
        = Except.error (Fault.uncaught "std::out_of_range: stod")
      ∧ ∀ m r, Parser.compile m
          (tokenize (String.mk ('1' :: (List.replicate 309 '0' ++ [';'])))) {} ≠ Except.ok r) := by
  have h1 : Parser.compile 20 (tokenize "") {}
      = Except.error (Fault.undefined "tokens[current - 1] outside the vector") := by decide!
  have h2 : Parser.compile 20 (tokenize (String.mk ('1' :: (List.replicate 309 '0' ++ [';'])))) {}
      = Except.error (Fault.uncaught "std::out_of_range: stod") := by decide!
  exact ⟨⟨h1, Parser.compile_never_returns h1 (by decide)⟩,
    ⟨h2, Parser.compile_never_returns h2 (by decide)⟩⟩

/-- C16, amended.  For every non-empty sequence of well-formed statements (`expr ;` and
`print expr ;`, the expressions built from literals, parentheses, unary `!` and `-` and
the binary operators `== != < <= > >= + - * /` with their precedence levels and left
associativity, every numeral one that `stod` converts) with at most 256 literals,
`compile` on its tokens followed by EOF returns true for every sufficient amount of fuel;
the code is the post-order translation of the trees, each statement followed by POP or
PRINT, then one RETURN; the pool holds the values of the literals in source order; and
nothing is reported. -/
theorem compile_translates_program (prog : List Statement) (eof : Token) (hne : prog ≠ [])
    (hs : ∀ s ∈ prog, s.Shaped) (heof : eof.type = TokenType.EOF_TOKEN)
    (hlit : (program_literals prog).length ≤ 256) :
    ∃ (n : Nat) (q : Parser),
      (∀ m, n ≤ m → Parser.compile m (program_tokens prog ++ [eof]) {} = Except.ok (true, q)) ∧
      q.compiling_chunk.code = program_code 0 prog ++ [OpCode.OP_RETURN.byte] ∧
      q.compiling_chunk.constants = program_literals prog ∧
      q.diagnostics = [] := by
  obtain ⟨n, q, hrun, hk, hsmall, _⟩ := Parser.compile_program prog eof hne hs heof
  obtain ⟨hcode, herr, hdiag⟩ := hsmall hlit
  refine ⟨n, q, fun m hm => ?_, hcode, hk, hdiag⟩
  rw [hrun m hm, herr]
  rfl

set_option maxRecDepth 100000 in
theorem compile_translates_program_witness :
    (∃ (n : Nat) (q : Parser),
      (∀ m, n ≤ m →
        Parser.compile m (program_tokens sample_program ++ [sample_eof]) {}
          = Except.ok (true, q)) ∧
      q.compiling_chunk.code = program_code 0 sample_program ++ [OpCode.OP_RETURN.byte] ∧
      q.compiling_chunk.constants = program_literals sample_program ∧
      q.diagnostics = []) ∧
    program_tokens sample_program ++ [sample_eof]
      = tokenize "print 1 + 2 * 3; !(true == \"a\");" ∧
    program_code 0 sample_program ++ [OpCode.OP_RETURN.byte]
      = [0, 0, 0, 1, 0, 2, 3, 1, 10, 0, 3, 0, 4, 7, 6, 11, 19] ∧
    program_literals sample_program
      = [Value.number (Double.of_int 1), Value.number (Double.of_int 2),
         Value.number (Double.of_int 3), Value.boolean true, Value.string "a"] :=
  ⟨compile_translates_program sample_program sample_eof (by simp [sample_program])
      sample_program_shaped rfl (by decide),
    sample_program_tokens, by decide, by decide⟩

/-- C19.  For every sequence of well-formed statements (every numeral one that `stod`
converts): with at most 256 literals no run of `compile` on its tokens ends with the
constant-limit error among its diagnostics; with more than 256 literals `compile`
returns false for every sufficient amount of fuel, having reported
`Too many constants in one chunk`. -/
theorem constant_limit_reported (prog : List Statement) (eof : Token)
    (hs : ∀ s ∈ prog, s.Shaped) (heof : eof.type = TokenType.EOF_TOKEN) :
    ((program_literals prog).length ≤ 256 →
      ∀ m r, Parser.compile m (program_tokens prog ++ [eof]) {} = Except.ok r →
        ∀ t : Token,
          Parser.error_line t "Too many constants in one chunk" ∉ r.2.diagnostics) ∧
    (256 < (program_literals prog).length →
      ∃ (n : Nat) (q : Parser),
        (∀ m, n ≤ m →
          Parser.compile m (program_tokens prog ++ [eof]) {} = Except.ok (false, q)) ∧
        ∃ t : Token, Parser.error_line t "Too many constants in one chunk" ∈ q.diagnostics) := by
  constructor
  · intro hlit m r hm t
    by_cases hne : prog = []
    · subst hne
      exfalso
      have hfault : Parser.compile 1 (program_tokens [] ++ [eof]) {}
          = Except.error (Fault.undefined "tokens[current - 1] outside the vector") := by
        have hat : Parser.At (Parser.mk [eof] 0 {} false false []) [eof] := rfl
        unfold Parser.compile
        simp only [bind_ok, pure_eq_ok]
        show (Parser.compile_loop 1 (Parser.mk [eof] 0 {} false false []) >>= _) = _
        rw [Parser.compile_loop, Parser.check_of_at hat]
        simp [heof, Parser.emit_return, Parser.emit_byte, Parser.previous]
      exact Parser.compile_never_returns hfault (by decide) m r hm
    · obtain ⟨n, q, hrun, _, hsmall, _⟩ := Parser.compile_program prog eof hne hs heof
      obtain ⟨_, _, hdiag⟩ := hsmall hlit
      have hr : r = (!q.had_error, q) := by
        rcases Nat.le_total m n with hle | hle
        · obtain ⟨d, rfl⟩ := Nat.exists_eq_add_of_le hle
          have h1 := Parser.compile_fuel hm d
          rw [hrun (m + d) (Nat.le_refl _)] at h1
          cases h1
          rfl
        · rw [hrun m hle] at hm
          cases hm
          rfl
      rw [hr]
      show Parser.error_line t "Too many constants in one chunk" ∉ q.diagnostics
      rw [hdiag]
      simp
  · intro hlit
    have hne : prog ≠ [] := by
      rintro rfl
      simp [program_literals] at hlit
    obtain ⟨n, q, hrun, _, _, hbig⟩ := Parser.compile_program prog eof hne hs heof
    obtain ⟨herr, t, ht⟩ := hbig hlit
    refine ⟨n, q, fun m hm => ?_, t, ht⟩
    rw [hrun m hm, herr]
    rfl

set_option maxRecDepth 100000 in
theorem constant_limit_reported_witness :
    (∃ (n : Nat) (q : Parser),
      (∀ m, n ≤ m →
        Parser.compile m (program_tokens (long_program 257) ++ [long_eof 257]) {}
          = Except.ok (false, q)) ∧
      ∃ t : Token, Parser.error_line t "Too many constants in one chunk" ∈ q.diagnostics) ∧
    (∀ m r, Parser.compile m (program_tokens sample_program ++ [sample_eof]) {} = Except.ok r →
      ∀ t : Token,
        Parser.error_line t "Too many constants in one chunk" ∉ r.2.diagnostics) :=
  ⟨(constant_limit_reported (long_program 257) (long_eof 257) (long_program_shaped 257) rfl).2
      (by rw [long_program_literals]; decide),
   (constant_limit_reported sample_program sample_eof sample_program_shaped rfl).1
      (by decide)⟩

/-- C20.  The text `0;` written 257 times: `compile` returns (false, as the limit is
exceeded), and the pool of the chunk holds 257 values: `add_constant` appends the value
before `make_constant` looks at the index. -/
theorem pool_exceeds_capacity :
    ∃ (n : Nat) (q : Parser),
      (∀ m, n ≤ m →
        Parser.compile m (tokenize (String.join (List.replicate 257 "0;"))) {}
          = Except.ok (false, q)) ∧
      q.compiling_chunk.constants.length = 257 := by
  have hne : long_program 257 ≠ [] := by
    intro h
    have := long_program_literals 257
    rw [h] at this
    cases this
  obtain ⟨n, q, hrun, hk, _, hbig⟩ :=
    Parser.compile_program (long_program 257) (long_eof 257) hne (long_program_shaped 257) rfl
  obtain ⟨herr, _⟩ := hbig (by rw [long_program_literals]; decide)
  refine ⟨n, q, fun m hm => ?_, ?_⟩
  · rw [← long_program_tokens, hrun m hm, herr]
    rfl
  · rw [hk, long_program_literals]

end Replit

namespace Replit

set_option maxRecDepth 100000 in
/-- C24.  A newline inside a string literal raises the line counter by two, not by one:
`string_token` increments `line` itself and `advance` increments it again.  In the
two-line text below the string ends on line 2 and the numeral `1` stands on line 2, but
both tokens carry line 3.  Outside a string a newline counts once. -/
theorem newline_in_string_counts_twice :
    (tokenize "\"a\nb\" 1").map (fun t => (t.type, t.lexeme, t.line))
      = [(TokenType.STRING, "\"a\nb\"", 3), (TokenType.NUMBER, "1", 3),
         (TokenType.EOF_TOKEN, "", 3)] ∧
    (tokenize "1\n2").map (fun t => (t.type, t.lexeme, t.line))
      = [(TokenType.NUMBER, "1", 1), (TokenType.NEWLINE, "\n", 2), (TokenType.NUMBER, "2", 2),
         (TokenType.EOF_TOKEN, "", 2)] := by
  decide!

set_option maxRecDepth 100000 in
/-- C29.  With one operand text and the other a boolean or nil, ADD fails: the operand
that is not text is converted with `std::to_string(std::get<double>(...))`, and
`std::get<double>` throws for a value that holds no number.  `run` catches the exception
and returns `RUNTIME_ERROR`; nothing is pushed or printed.  With two texts the
concatenation is printed. -/
theorem add_text_and_boolean_fails :
    (VM.interpret 20 {} "print \"a\"+true;").map (fun r => (r.1, r.2.stack, r.2.cerr, r.2.cout))
      = Except.ok (InterpretResult.RUNTIME_ERROR, [],
          ["Runtime error: " ++ bad_variant_access, "[line 1] in script"], "") ∧
    (VM.interpret 20 {} "print nil+\"a\";").map (fun r => (r.1, r.2.stack, r.2.cerr, r.2.cout))
      = Except.ok (InterpretResult.RUNTIME_ERROR, [],
          ["Runtime error: " ++ bad_variant_access, "[line 1] in script"], "") ∧
    (ReplitEngine.run_code 20 {} "print \"a\"+true;").map Prod.fst
      = Except.ok "Runtime error occurred" ∧
    (ReplitEngine.run_code 20 {} "print \"a\"+\"b\";").map Prod.fst = Except.ok "ab\n" := by
  decide!

end Replit

namespace Replit

namespace Lexer

/-! ### Tokens of more than one kind of shape: operators, strings, end of input -/

theorem ahead_zero (lx : Lexer) : Ahead lx lx 0 := ⟨rfl, rfl, rfl⟩

theorem ahead_trans {a b c : Lexer} {n m : Nat} (h1 : Ahead a b n) (h2 : Ahead b c m) :
    Ahead a c (n + m) :=
  ⟨h2.1.trans h1.1, h2.2.1.trans h1.2.1, by rw [h2.2.2, h1.2.2, Nat.add_assoc]⟩

theorem unread_of_ahead {lx lx2 : Lexer} {cs rest : List Char} (h : lx.unread = cs ++ rest)
    (ha : Ahead lx lx2 cs.length) : lx2.unread = rest := by
  unfold unread at *
  rw [ha.1, ha.2.2, ← List.drop_drop, h, List.drop_left]

theorem text_of_ahead {lx lx2 : Lexer} {tok post : List Char} (hs : lx.start = lx.current)
    (h : lx.unread = tok ++ post) (ha : Ahead lx lx2 tok.length) : lx2.text = String.mk tok := by
  unfold unread at h
  unfold text
  rw [ha.1, ha.2.1, ha.2.2, hs, h, Nat.add_sub_cancel_left, List.take_left]

theorem ahead_moved (lx : Lexer) (n : Nat) : Ahead lx (lx.moved n) n := ⟨rfl, rfl, rfl⟩

theorem ahead_advance {lx : Lexer} {c : Char} {r : List Char} (h : lx.unread = c :: r) :
    Ahead lx lx.advance.2 1 := by
  unfold advance
  rw [not_at_end_of_cons h]
  simp only [Bool.false_eq_true, if_false]
  split <;> exact ⟨rfl, rfl, rfl⟩

theorem at_end_iff_nil (lx : Lexer) : lx.is_at_end = true ↔ lx.unread = [] := by
  constructor
  · intro h
    unfold is_at_end at h
    unfold unread
    exact List.drop_eq_nil_iff.mpr (by simpa using h)
  · exact at_end_of_nil

theorem skip_whitespace_at_end {lx : Lexer} (h : lx.is_at_end = true) :
    lx.skip_whitespace = lx :=
  skip_whitespace_nil ((at_end_iff_nil lx).mp h)

/-- The loop of `string_token` on text without a quote that is followed by a quote or by
the end of the source: it consumes exactly that text. -/
theorem string_loop_run : ∀ (body : List Char) (n : Nat) (lx : Lexer) (r : List Char),
    lx.unread = body ++ r → '"' ∉ body → (r = [] ∨ ∃ post, r = '"' :: post) →
    body.length ≤ n → Ahead lx (string_loop n lx) body.length := by
  intro body
  induction body with
  | nil =>
    intro n lx r h _ hr _
    have h2 : lx.unread = r := h
    cases n with
    | zero => exact ahead_zero lx
    | succ n =>
      rw [string_loop]
      rcases hr with rfl | ⟨post, rfl⟩
      · simp [at_end_of_nil h2]
        exact ahead_zero lx
      · simp [peek_of_cons h2]
        exact ahead_zero lx
  | cons c body ih =>
    intro n lx r h hq hr hn
    have h2 : lx.unread = c :: (body ++ r) := h
    have hc : c ≠ '"' := fun hc => hq (by rw [hc]; exact List.mem_cons_self _ _)
    have hq2 : '"' ∉ body := fun hm => hq (List.mem_cons_of_mem _ hm)
    obtain ⟨m, rfl⟩ : ∃ m, n = m + 1 := ⟨n - 1, by simp at hn; omega⟩
    rw [string_loop]
    have hcond : (lx.peek != '"' && !lx.is_at_end) = true := by
      simp [peek_of_cons h2, not_at_end_of_cons h2, hc]
    rw [if_pos hcond, peek_of_cons h2]
    generalize hlx1 : (if c = '\n' then { lx with line := lx.line + 1 } else lx) = lx1
    have h1u : lx1.unread = c :: (body ++ r) := by
      rw [← hlx1]
      split <;> exact h2
    have h1a : Ahead lx lx1 0 := by
      rw [← hlx1]
      split <;> exact ⟨rfl, rfl, rfl⟩
    have h2a : Ahead lx1 lx1.advance.2 1 := ahead_advance h1u
    have h2u : lx1.advance.2.unread = body ++ r :=
      @unread_of_ahead lx1 _ [c] _ h1u h2a
    have h3 := ih m lx1.advance.2 r h2u hq2 hr (by simp at hn; omega)
    have := ahead_trans (ahead_trans h1a h2a) h3
    simpa [Nat.add_comm] using this

theorem quote_solid (next : Char) : Solid '"' next :=
  ⟨by decide, by decide, by decide, fun h => absurd h.1 (by decide)⟩

/-- `scan_token` at a character that starts neither a word nor a number and is not
skipped: the state in which the `switch` is entered. -/
theorem scan_token_enter {lx : Lexer} {c : Char} {rest : List Char} (h : lx.unread = c :: rest)
    (hs : Solid c (rest.headD '\x00')) (hn : c ≠ '\n') :
    lx.skip_whitespace = lx ∧ lx.begin.unread = c :: rest ∧
    lx.begin.advance = (c, lx.begin.moved 1) ∧ (lx.begin.moved 1).unread = rest :=
  ⟨skip_whitespace_solid h hs, h, @advance_of_cons lx.begin _ _ h hn,
    @unread_moved lx.begin [c] rest h⟩

theorem scan_token_quote {lx : Lexer} {rest : List Char} (h : lx.unread = '"' :: rest) :
    lx.scan_token = (lx.begin.moved 1).string_token ∧ (lx.begin.moved 1).unread = rest := by
  obtain ⟨hskip, hb, hadv, hm⟩ := scan_token_enter h (quote_solid _) (by decide)
  have hbb : ({ lx with start := lx.current } : Lexer) = lx.begin := rfl
  refine ⟨?_, hm⟩
  unfold scan_token
  rw [hskip]
  simp only [hbb, not_at_end_of_cons hb, hadv, Bool.false_eq_true, if_false]
  have e1 : ('"' : Char).isAlpha = false := by decide
  have e2 : ('"' : Char).isDigit = false := by decide
  simp [e1, e2]

end Lexer

/-- C23.  `scan_token` at a `"`.  If no further `"` follows in the source, the token is
an ERROR token with the lexeme `Unterminated string` and the cursor is at the end of the
source.  If one follows, the token is a STRING token whose lexeme is the text from the
opening quote to the first following quote, both included, whatever characters (newlines
too) stand between them, and the cursor is just after the closing quote. -/
theorem string_token_scanned (lx : Lexer) (body : List Char) (hbody : '"' ∉ body) :
    (lx.unread = '"' :: body →
      lx.scan_token.1.type = TokenType.ERROR ∧
      lx.scan_token.1.lexeme = "Unterminated string" ∧
      lx.scan_token.2.current = lx.scan_token.2.source.length ∧
      lx.scan_token.2.source = lx.source) ∧
    (∀ post, lx.unread = '"' :: (body ++ '"' :: post) →
      lx.scan_token.1.type = TokenType.STRING ∧
      lx.scan_token.1.lexeme = String.mk ('"' :: (body ++ ['"'])) ∧
      lx.scan_token.2.unread = post) := by
  constructor
  · intro h
    obtain ⟨hscan, hm⟩ := Lexer.scan_token_quote h
    have hm2 : (lx.begin.moved 1).unread = body ++ [] := by simpa using hm
    have hloop := Lexer.string_loop_run body ((lx.begin.moved 1).source.length
      - (lx.begin.moved 1).current) (lx.begin.moved 1) [] hm2 hbody (Or.inl rfl)
      (by rw [Lexer.source_length_sub, hm2]; simp)
    have hu := Lexer.unread_of_ahead hm2 hloop
    generalize hl2 : Lexer.string_loop ((lx.begin.moved 1).source.length
      - (lx.begin.moved 1).current) (lx.begin.moved 1) = lx2 at hloop hu
    have hst : (lx.begin.moved 1).string_token = (lx2.error_token "Unterminated string", lx2) := by
      unfold Lexer.string_token
      simp only [hl2, Lexer.at_end_of_nil hu, if_true]
    rw [hscan, hst]
    refine ⟨rfl, rfl, ?_, ?_⟩
    · have hlen : lx.source.length - lx.current = body.length + 1 := by
        rw [Lexer.source_length_sub, h]
        simp
      have hcur := hloop.2.2
      have hsrc := hloop.1
      rw [hcur, hsrc]
      show lx.current + 1 + body.length = lx.source.length
      have : lx.current < lx.source.length := by omega
      omega
    · exact hloop.1
  · intro post h
    obtain ⟨hscan, hm⟩ := Lexer.scan_token_quote h
    have hb : lx.begin.unread = '"' :: (body ++ '"' :: post) := h
    have hloop := Lexer.string_loop_run body ((lx.begin.moved 1).source.length
      - (lx.begin.moved 1).current) (lx.begin.moved 1) ('"' :: post) hm hbody
      (Or.inr ⟨post, rfl⟩) (by rw [Lexer.source_length_sub, hm]; simp)
    have hu := Lexer.unread_of_ahead hm hloop
    generalize hl2 : Lexer.string_loop ((lx.begin.moved 1).source.length
      - (lx.begin.moved 1).current) (lx.begin.moved 1) = lx2 at hloop hu
    have ha3 : Lexer.Ahead lx2 lx2.advance.2 1 := Lexer.ahead_advance hu
    have hst : (lx.begin.moved 1).string_token
        = (lx2.advance.2.make_token TokenType.STRING, lx2.advance.2) := by
      unfold Lexer.string_token
      simp only [hl2, Lexer.not_at_end_of_cons hu, Bool.false_eq_true, if_false]
    rw [hscan, hst]
    have hall : Lexer.Ahead lx.begin lx2.advance.2 ('"' :: (body ++ ['"'])).length := by
      have := Lexer.ahead_trans (Lexer.ahead_trans (Lexer.ahead_moved lx.begin 1) hloop) ha3
      simpa [Nat.add_comm, Nat.add_left_comm] using this
    have hb2 : lx.begin.unread = ('"' :: (body ++ ['"'])) ++ post := by
      rw [hb]
      simp
    exact ⟨rfl, Lexer.text_of_ahead rfl hb2 hall, Lexer.unread_of_ahead hb2 hall⟩

set_option maxRecDepth 100000 in
theorem string_token_scanned_witness :
    ((Lexer.new "\"ab".data).scan_token.1.type = TokenType.ERROR ∧
      (Lexer.new "\"ab".data).scan_token.1.lexeme = "Unterminated string" ∧
      (Lexer.new "\"ab".data).scan_token.2.current
        = (Lexer.new "\"ab".data).scan_token.2.source.length ∧
      (Lexer.new "\"ab".data).scan_token.2.source = (Lexer.new "\"ab".data).source) ∧
    (Lexer.new "\"a\nb\" 1".data).scan_token.1.lexeme = "\"a\nb\"" :=
  ⟨(string_token_scanned (Lexer.new "\"ab".data) ['a', 'b'] (by decide)).1 rfl,
   ((string_token_scanned (Lexer.new "\"a\nb\" 1".data) ['a', '\n', 'b'] (by decide)).2
      [' ', '1'] rfl).2.1⟩

end Replit

namespace Replit

namespace Lexer

theorem match_of_cons {lx : Lexer} {e : Char} {r : List Char} (h : lx.unread = e :: r) :
    lx.match e = (true, lx.moved 1) := by
  unfold Lexer.match
  rw [not_at_end_of_cons h, getD_of_cons h]
  simp [moved]

theorem match_of_ne {lx : Lexer} {e : Char} (h : lx.unread.head? ≠ some e) :
    lx.match e = (false, lx) := by
  unfold Lexer.match
  cases hu : lx.unread with
  | nil => simp [at_end_of_nil hu]
  | cons c r =>
    have hc : c ≠ e := by
      intro hce
      apply h
      rw [hu, hce]
      rfl
    rw [not_at_end_of_cons hu, getD_of_cons hu]
    simp [hc]

theorem prop_ite {α : Type} (Q : α → Prop) {c : Prop} [Decidable c] {a b : α}
    (ha : Q a) (hb : Q b) : Q (if c then a else b) := by
  split
  · exact ha
  · exact hb

theorem identifier_type_ne_eof (lx : Lexer) : lx.identifier_type ≠ TokenType.EOF_TOKEN := by
  unfold identifier_type
  dsimp only
  iterate 13 refine prop_ite (fun t => t ≠ TokenType.EOF_TOKEN) (by decide) ?_
  decide

/-- The branches of `scan_token` when characters remain: whatever holds of the result of
each branch holds of the result of `scan_token`. -/
theorem scan_token_branches (lx : Lexer) (Q : Token × Lexer → Prop)
    (hend : lx.skip_whitespace.begin.is_at_end = false)
    (hid : Q lx.skip_whitespace.begin.advance.2.identifier_token)
    (hnum : Q lx.skip_whitespace.begin.advance.2.number_token)
    (hstr : Q lx.skip_whitespace.begin.advance.2.string_token)
    (hone : ∀ t, t ≠ TokenType.EOF_TOKEN →
      Q (lx.skip_whitespace.begin.advance.2.make_token t, lx.skip_whitespace.begin.advance.2))
    (htwo : ∀ t, t ≠ TokenType.EOF_TOKEN →
      Q ((lx.skip_whitespace.begin.advance.2.match '=').2.make_token t,
        (lx.skip_whitespace.begin.advance.2.match '=').2))
    (herr : Q (lx.skip_whitespace.begin.advance.2.error_token "Unexpected character",
      lx.skip_whitespace.begin.advance.2)) :
    Q lx.scan_token := by
  have hbb : ({ lx.skip_whitespace with start := lx.skip_whitespace.current } : Lexer)
      = lx.skip_whitespace.begin := rfl
  unfold scan_token
  simp only [hbb, hend, Bool.false_eq_true, if_false]
  refine prop_ite Q hid ?_
  refine prop_ite Q hnum ?_
  iterate 11 refine prop_ite Q (hone _ (by decide)) ?_
  iterate 4 refine prop_ite Q (htwo _ (by split <;> decide)) ?_
  refine prop_ite Q hstr ?_
  exact prop_ite Q (hone _ (by decide)) herr

/-- Only the branch for the end of the source returns an EOF token. -/
theorem at_end_of_eof {lx : Lexer} (h : lx.scan_token.1.type = TokenType.EOF_TOKEN) :
    lx.skip_whitespace.begin.is_at_end = true := by
  by_contra hend
  have hend2 : lx.skip_whitespace.begin.is_at_end = false := by simpa using hend
  refine scan_token_branches lx (fun r => r.1.type ≠ TokenType.EOF_TOKEN) hend2
    ?_ ?_ ?_ ?_ ?_ ?_ h
  · exact identifier_type_ne_eof _
  · show TokenType.NUMBER ≠ TokenType.EOF_TOKEN
    decide
  · unfold string_token
    dsimp only
    split
    · show TokenType.ERROR ≠ TokenType.EOF_TOKEN
      decide
    · show TokenType.STRING ≠ TokenType.EOF_TOKEN
      decide
  · intro t ht
    exact ht
  · intro t ht
    exact ht
  · show TokenType.ERROR ≠ TokenType.EOF_TOKEN
    decide

theorem scan_token_at_end {lx : Lexer} (h : lx.skip_whitespace.begin.is_at_end = true) :
    lx.scan_token = (lx.skip_whitespace.begin.make_token TokenType.EOF_TOKEN,
      lx.skip_whitespace.begin) := by
  have hbb : ({ lx.skip_whitespace with start := lx.skip_whitespace.current } : Lexer)
      = lx.skip_whitespace.begin := rfl
  unfold scan_token
  simp only [hbb, h, if_true]

end Lexer

/-- C26.  `scan_token` at one of the characters `! = < >`: if the next character of the
source is `=`, the token is the two-character one (NOT_EQUAL, EQUAL, LESS_EQUAL,
GREATER_EQUAL), its lexeme is the two characters, and the cursor is after the `=`;
otherwise (another character, or the end of the source) the token is the one-character
one (NOT, ASSIGN, LESS, GREATER), its lexeme is that character, and the following
character is not consumed. -/
theorem comparison_tokens_scanned (lx : Lexer) (c : Char) (rest : List Char)
    (one two : TokenType)
    (hc : (c = '!' ∧ one = TokenType.NOT ∧ two = TokenType.NOT_EQUAL)
      ∨ (c = '=' ∧ one = TokenType.ASSIGN ∧ two = TokenType.EQUAL)
      ∨ (c = '<' ∧ one = TokenType.LESS ∧ two = TokenType.LESS_EQUAL)
      ∨ (c = '>' ∧ one = TokenType.GREATER ∧ two = TokenType.GREATER_EQUAL))
    (h : lx.unread = c :: rest) :
    (∀ post, rest = '=' :: post →
      lx.scan_token.1.type = two ∧ lx.scan_token.1.lexeme = String.mk [c, '='] ∧
      lx.scan_token.2.unread = post) ∧
    (rest.head? ≠ some '=' →
      lx.scan_token.1.type = one ∧ lx.scan_token.1.lexeme = String.mk [c] ∧
      lx.scan_token.2.unread = rest) := by
  have hsolid : Lexer.Solid c (rest.headD '\x00') := by
    rcases hc with ⟨rfl, _⟩ | ⟨rfl, _⟩ | ⟨rfl, _⟩ | ⟨rfl, _⟩ <;>
      exact ⟨by decide, by decide, by decide, fun h => absurd h.1 (by decide)⟩
  have hnl : c ≠ '\n' := by
    rcases hc with ⟨rfl, _⟩ | ⟨rfl, _⟩ | ⟨rfl, _⟩ | ⟨rfl, _⟩ <;> decide
  obtain ⟨hskip, hb, hadv, hm⟩ := Lexer.scan_token_enter h hsolid hnl
  have hbb : ({ lx with start := lx.current } : Lexer) = lx.begin := rfl
  have hscan : lx.scan_token =
      (((lx.begin.moved 1).match '=').2.make_token
        (if ((lx.begin.moved 1).match '=').1 then two else one),
       ((lx.begin.moved 1).match '=').2) := by
    unfold Lexer.scan_token
    rw [hskip]
    simp only [hbb, Lexer.not_at_end_of_cons hb, hadv, Bool.false_eq_true, if_false]
    rcases hc with ⟨rfl, rfl, rfl⟩ | ⟨rfl, rfl, rfl⟩ | ⟨rfl, rfl, rfl⟩ | ⟨rfl, rfl, rfl⟩
    · have e1 : ('!' : Char).isAlpha = false := by decide
      have e2 : ('!' : Char).isDigit = false := by decide
      simp [e1, e2]
    · have e1 : ('=' : Char).isAlpha = false := by decide
      have e2 : ('=' : Char).isDigit = false := by decide
      simp [e1, e2]
    · have e1 : ('<' : Char).isAlpha = false := by decide
      have e2 : ('<' : Char).isDigit = false := by decide
      simp [e1, e2]
    · have e1 : ('>' : Char).isAlpha = false := by decide
      have e2 : ('>' : Char).isDigit = false := by decide
      simp [e1, e2]
  rw [hscan]
  constructor
  · rintro post rfl
    rw [Lexer.match_of_cons hm]
    have hb2 : lx.begin.unread = [c, '='] ++ post := hb
    refine ⟨rfl, ?_, ?_⟩
    · have := @Lexer.text_moved lx.begin [c, '='] post rfl hb2
      rw [Lexer.moved_moved]
      exact this
    · rw [Lexer.moved_moved]
      exact @Lexer.unread_moved lx.begin [c, '='] post hb2
  · intro hne
    rw [Lexer.match_of_ne (by rw [hm]; exact hne)]
    have hb2 : lx.begin.unread = [c] ++ rest := hb
    exact ⟨rfl, @Lexer.text_moved lx.begin [c] rest rfl hb2, hm⟩

set_option maxRecDepth 100000 in
theorem comparison_tokens_scanned_witness :
    ((Lexer.new "<=1".data).scan_token.1.type = TokenType.LESS_EQUAL ∧
      (Lexer.new "<=1".data).scan_token.1.lexeme = String.mk ['<', '='] ∧
      (Lexer.new "<=1".data).scan_token.2.unread = ['1']) ∧
    ((Lexer.new "<1".data).scan_token.1.type = TokenType.LESS ∧
      (Lexer.new "<1".data).scan_token.1.lexeme = String.mk ['<'] ∧
      (Lexer.new "<1".data).scan_token.2.unread = ['1']) :=
  ⟨(comparison_tokens_scanned (Lexer.new "<=1".data) '<' ['=', '1'] TokenType.LESS
      TokenType.LESS_EQUAL (Or.inr (Or.inr (Or.inl ⟨rfl, rfl, rfl⟩))) rfl).1 ['1'] rfl,
   (comparison_tokens_scanned (Lexer.new "<1".data) '<' ['1'] TokenType.LESS
      TokenType.LESS_EQUAL (Or.inr (Or.inr (Or.inl ⟨rfl, rfl, rfl⟩))) rfl).2 (by decide)⟩

/-- C27.  If `scan_token` returns an EOF token, the lexeme of that token is empty, and
`scan_token` in the state it leaves returns the same token (type, lexeme, line and
column) and leaves the same state; so does every later call. -/
theorem eof_token_repeats (lx : Lexer) (h : lx.scan_token.1.type = TokenType.EOF_TOKEN) :
    lx.scan_token.1.lexeme = "" ∧
    lx.scan_token.2.scan_token = lx.scan_token ∧
    ∀ k : Nat, (fun r : Token × Lexer => r.2.scan_token)^[k] lx.scan_token = lx.scan_token := by
  have hend := Lexer.at_end_of_eof h
  have hscan := Lexer.scan_token_at_end hend
  have hagain : lx.scan_token.2.scan_token = lx.scan_token := by
    rw [hscan]
    dsimp only
    have hsk : lx.skip_whitespace.begin.skip_whitespace = lx.skip_whitespace.begin :=
      Lexer.skip_whitespace_at_end hend
    have hbeg : lx.skip_whitespace.begin.begin = lx.skip_whitespace.begin := rfl
    have hend2 : lx.skip_whitespace.begin.skip_whitespace.begin.is_at_end = true := by
      rw [hsk, hbeg]
      exact hend
    rw [Lexer.scan_token_at_end hend2, hsk, hbeg]
  refine ⟨?_, hagain, ?_⟩
  · rw [hscan]
    show (lx.skip_whitespace.begin).text = ""
    unfold Lexer.text Lexer.begin
    simp
  · intro k
    induction k with
    | zero => rfl
    | succ k ih =>
      rw [Function.iterate_succ_apply', ih]
      exact hagain

set_option maxRecDepth 100000 in
theorem eof_token_repeats_witness :
    (Lexer.new "1 ".data).scan_token.2.scan_token.1.lexeme = "" ∧
    (Lexer.new "1 ".data).scan_token.2.scan_token.2.scan_token
      = (Lexer.new "1 ".data).scan_token.2.scan_token ∧
    (fun r : Token × Lexer => r.2.scan_token)^[3]
      (Lexer.new "1 ".data).scan_token.2.scan_token
        = (Lexer.new "1 ".data).scan_token.2.scan_token :=
  ⟨(eof_token_repeats (Lexer.new "1 ".data).scan_token.2 (by decide)).1,
   (eof_token_repeats (Lexer.new "1 ".data).scan_token.2 (by decide)).2.1,
   (eof_token_repeats (Lexer.new "1 ".data).scan_token.2 (by decide)).2.2 3⟩

end Replit

namespace Replit

namespace Lexer

theorem fwd_refl (a : Lexer) : Fwd a a := ⟨rfl, le_refl _, Or.inr rfl⟩

theorem fwd_trans {a b c : Lexer} (h1 : Fwd a b) (h2 : Fwd b c) : Fwd a c := by
  obtain ⟨s1, l1, e1⟩ := h1
  obtain ⟨s2, l2, e2⟩ := h2
  refine ⟨s2.trans s1, le_trans l1 l2, ?_⟩
  rw [s1] at e2
  omega

theorem advance_step {lx : Lexer} (h : lx.is_at_end = false) :
    lx.advance.2.source = lx.source ∧ lx.advance.2.current = lx.current + 1 := by
  unfold advance
  simp only [h, Bool.false_eq_true, if_false]
  split <;> exact ⟨rfl, rfl⟩

theorem current_lt_of_not_at_end {lx : Lexer} (h : lx.is_at_end = false) :
    lx.current < lx.source.length := by
  unfold is_at_end at h
  simpa using h

theorem fwd_advance (lx : Lexer) : Fwd lx lx.advance.2 := by
  cases h : lx.is_at_end with
  | true =>
    have : lx.advance = ('\x00', lx) := by
      unfold advance
      simp [h]
    rw [this]
    exact fwd_refl lx
  | false =>
    obtain ⟨hs, hc⟩ := advance_step h
    have := current_lt_of_not_at_end h
    exact ⟨hs, by omega, Or.inl (by omega)⟩

theorem fwd_match (lx : Lexer) (e : Char) : Fwd lx (lx.match e).2 := by
  unfold Lexer.match
  split
  · exact fwd_refl lx
  · rename_i hc
    have hend : lx.is_at_end = false := by
      cases h : lx.is_at_end with
      | true => simp [h] at hc
      | false => rfl
    have := current_lt_of_not_at_end hend
    exact ⟨rfl, Nat.le_succ _, Or.inl this⟩

theorem fwd_begin (lx : Lexer) : Fwd lx lx.begin := ⟨rfl, le_refl _, Or.inr rfl⟩

theorem fwd_scan_while (P : Char → Bool) : ∀ (n : Nat) (lx : Lexer),
    Fwd lx (scan_while P n lx) := by
  intro n
  induction n with
  | zero => intro lx; exact fwd_refl lx
  | succ n ih =>
    intro lx
    rw [scan_while]
    split
    · exact fwd_trans (fwd_advance lx) (ih _)
    · exact fwd_refl lx

theorem fwd_string_loop : ∀ (n : Nat) (lx : Lexer), Fwd lx (string_loop n lx) := by
  intro n
  induction n with
  | zero => intro lx; exact fwd_refl lx
  | succ n ih =>
    intro lx
    rw [string_loop]
    split
    · dsimp only
      split
      · exact fwd_trans (b := { lx with line := lx.line + 1 }) ⟨rfl, le_refl _, Or.inr rfl⟩
          (fwd_trans (fwd_advance _) (ih _))
      · exact fwd_trans (fwd_advance lx) (ih _)
    · exact fwd_refl lx

theorem fwd_skip_comment : ∀ (n : Nat) (lx : Lexer), Fwd lx (skip_comment n lx) := by
  intro n
  induction n with
  | zero => intro lx; exact fwd_refl lx
  | succ n ih =>
    intro lx
    rw [skip_comment]
    split
    · exact fwd_trans (fwd_advance lx) (ih _)
    · exact fwd_refl lx

theorem fwd_skip_whitespace_loop : ∀ (n : Nat) (lx : Lexer),
    Fwd lx (skip_whitespace_loop n lx) := by
  intro n
  induction n with
  | zero => intro lx; exact fwd_refl lx
  | succ n ih =>
    intro lx
    rw [skip_whitespace_loop]
    split
    · dsimp only
      split
      · exact fwd_trans (fwd_advance lx) (ih _)
      · split
        · exact fwd_trans (fwd_skip_comment _ lx) (ih _)
        · exact fwd_refl lx
    · exact fwd_refl lx

theorem fwd_skip_whitespace (lx : Lexer) : Fwd lx lx.skip_whitespace :=
  fwd_skip_whitespace_loop _ lx

theorem fwd_identifier_token (lx : Lexer) : Fwd lx lx.identifier_token.2 := by
  unfold identifier_token
  dsimp only
  rw [identifier_loop_eq]
  exact fwd_scan_while _ _ lx

theorem fwd_number_token (lx : Lexer) : Fwd lx lx.number_token.2 := by
  unfold number_token
  dsimp only
  rw [digits_loop_eq]
  split
  · rw [digits_loop_eq]
    exact fwd_trans (fwd_scan_while _ _ lx)
      (fwd_trans (fwd_advance _) (fwd_scan_while _ _ _))
  · exact fwd_scan_while _ _ lx

theorem fwd_string_token (lx : Lexer) : Fwd lx lx.string_token.2 := by
  unfold string_token
  dsimp only
  split
  · exact fwd_string_loop _ lx
  · exact fwd_trans (fwd_string_loop _ lx) (fwd_advance _)

/-- A call of `scan_token` that finds a character after the blanks consumes it. -/
theorem scan_token_consumes (lx : Lexer) (hend : lx.skip_whitespace.begin.is_at_end = false) :
    lx.scan_token.2.source = lx.source ∧ lx.current + 1 ≤ lx.scan_token.2.current ∧
      lx.scan_token.2.current ≤ lx.source.length := by
  have h0 : Fwd lx lx.skip_whitespace.begin :=
    fwd_trans (fwd_skip_whitespace lx) (fwd_begin _)
  obtain ⟨hs, hc⟩ := advance_step hend
  have hlt := current_lt_of_not_at_end hend
  have key : ∀ r : Lexer, Fwd lx.skip_whitespace.begin.advance.2 r →
      r.source = lx.source ∧ lx.current + 1 ≤ r.current ∧ r.current ≤ lx.source.length := by
    intro r hr
    obtain ⟨s0, l0, _⟩ := h0
    obtain ⟨s1, l1, e1⟩ := hr
    rw [hs] at s1 e1
    rw [s0] at s1 e1 hlt
    rw [hc] at l1 e1
    exact ⟨s1, by omega, by omega⟩
  refine scan_token_branches lx
    (fun r => r.2.source = lx.source ∧ lx.current + 1 ≤ r.2.current ∧
      r.2.current ≤ lx.source.length) hend ?_ ?_ ?_ ?_ ?_ ?_
  · exact key _ (fwd_identifier_token _)
  · exact key _ (fwd_number_token _)
  · exact key _ (fwd_string_token _)
  · intro t _
    exact key _ (fwd_refl _)
  · intro t _
    exact key _ (fwd_match _ _)
  · exact key _ (fwd_refl _)

theorem scan_token_progress (lx : Lexer) (h : lx.scan_token.1.type ≠ TokenType.EOF_TOKEN) :
    lx.scan_token.2.source = lx.source ∧ lx.current + 1 ≤ lx.scan_token.2.current ∧
      lx.scan_token.2.current ≤ lx.source.length := by
  cases hend : lx.skip_whitespace.begin.is_at_end with
  | true =>
    exfalso
    apply h
    rw [scan_token_at_end hend]
    rfl
  | false => exact scan_token_consumes lx hend

theorem scan_token_unrecognised {lx : Lexer} {c : Char} {rest : List Char}
    (h : lx.unread = c :: rest) (hc : Unrecognised c) :
    lx.scan_token = ((lx.begin.moved 1).error_token "Unexpected character", lx.begin.moved 1) ∧
      (lx.begin.moved 1).unread = rest := by
  obtain ⟨ha, hu, hd, hl⟩ := hc
  simp only [List.mem_cons, List.mem_singleton, not_or, List.not_mem_nil, not_false_eq_true,
    and_true] at hl
  obtain ⟨l1, l2, l3, l4, l5, l6, l7, l8, l9, l10, l11, l12, l13, l14, l15, l16, l17, l18,
    l19, l20⟩ := hl
  have hsolid : Solid c (rest.headD '\x00') := ⟨l18, l19, l20, fun h => l10 h.1⟩
  obtain ⟨hskip, hb, hadv, hm⟩ := scan_token_enter h hsolid l17
  have hbb : ({ lx with start := lx.current } : Lexer) = lx.begin := rfl
  refine ⟨?_, hm⟩
  unfold scan_token
  rw [hskip]
  simp only [hbb, not_at_end_of_cons hb, hadv, Bool.false_eq_true, if_false]
  simp [ha, hu, hd, l1, l2, l3, l4, l5, l6, l7, l8, l9, l10, l11, l12, l13, l14, l15, l16, l17]

/-- The tokenising loop with more turns than characters remain: it ends with an EOF
token, no token before it is an EOF token, and there are at most as many tokens before
it as characters remained. -/
theorem tokenize_loop_ends : ∀ (n : Nat) (lx : Lexer), lx.source.length - lx.current < n →
    ∃ toks eof, tokenize_loop n lx = toks ++ [eof] ∧ eof.type = TokenType.EOF_TOKEN ∧
      (∀ t ∈ toks, t.type ≠ TokenType.EOF_TOKEN) ∧
      toks.length ≤ lx.source.length - lx.current := by
  intro n
  induction n with
  | zero => intro lx h; omega
  | succ n ih =>
    intro lx h
    by_cases he : lx.scan_token.1.type = TokenType.EOF_TOKEN
    · refine ⟨[], lx.scan_token.1, ?_, he, ?_, Nat.zero_le _⟩
      · exact tokenize_loop_end (Prod.mk.eta).symm he
      · intro t ht
        cases ht
    · obtain ⟨hs, hl, hu⟩ := scan_token_progress lx he
      have hfuel : lx.scan_token.2.source.length - lx.scan_token.2.current < n := by
        rw [hs]
        omega
      obtain ⟨toks, eof, e1, e2, e3, e4⟩ := ih lx.scan_token.2 hfuel
      refine ⟨lx.scan_token.1 :: toks, eof, ?_, e2, ?_, ?_⟩
      · rw [tokenize_loop_more (Prod.mk.eta).symm he, e1]
        rfl
      · intro t ht
        rcases List.mem_cons.1 ht with rfl | ht
        · exact he
        · exact e3 t ht
      · rw [hs] at e4
        rw [List.length_cons]
        omega

/-- Extra turns of the tokenising loop change nothing once there are more turns than
characters remain. -/
theorem tokenize_loop_fuel : ∀ (n m : Nat) (lx : Lexer), lx.source.length - lx.current < n →
    lx.source.length - lx.current < m → tokenize_loop n lx = tokenize_loop m lx := by
  intro n
  induction n with
  | zero => intro m lx h; omega
  | succ n ih =>
    intro m lx hn hm
    cases m with
    | zero => omega
    | succ m =>
      by_cases he : lx.scan_token.1.type = TokenType.EOF_TOKEN
      · rw [tokenize_loop_end (Prod.mk.eta).symm he, tokenize_loop_end (Prod.mk.eta).symm he]
      · obtain ⟨hs, hl, hu⟩ := scan_token_progress lx he
        rw [tokenize_loop_more (Prod.mk.eta).symm he, tokenize_loop_more (Prod.mk.eta).symm he,
          ih m lx.scan_token.2 (by rw [hs]; omega) (by rw [hs]; omega)]

end Lexer

/-- C28.  A call of `scan_token` that does not return an EOF token leaves the source
unchanged and moves the cursor forward by at least one character, not past the end of
the source.  At a character that starts no token and is not a blank, `scan_token`
returns an ERROR token with the message "Unexpected character" and consumes exactly that
character.  For every source the tokenising loop of `interpret` ends: its result is a
list of tokens none of which is an EOF token, at most one per character of the source,
followed by one EOF token, and more turns of the loop give the same list. -/
theorem tokenize_terminates :
    (∀ lx : Lexer, lx.scan_token.1.type ≠ TokenType.EOF_TOKEN →
      lx.scan_token.2.source = lx.source ∧ lx.current + 1 ≤ lx.scan_token.2.current ∧
        lx.scan_token.2.current ≤ lx.source.length) ∧
    (∀ (lx : Lexer) (c : Char) (rest : List Char), lx.unread = c :: rest →
      Lexer.Unrecognised c →
      lx.scan_token.1.type = TokenType.ERROR ∧
        lx.scan_token.1.lexeme = "Unexpected character" ∧ lx.scan_token.2.unread = rest) ∧
    (∀ source : String, ∃ toks eof, tokenize source = toks ++ [eof] ∧
      eof.type = TokenType.EOF_TOKEN ∧ (∀ t ∈ toks, t.type ≠ TokenType.EOF_TOKEN) ∧
      toks.length ≤ source.length ∧
      ∀ n : Nat, source.length + 1 ≤ n →
        tokenize_loop n (Lexer.new source.data) = tokenize source) := by
  refine ⟨Lexer.scan_token_progress, ?_, ?_⟩
  · intro lx c rest h hc
    obtain ⟨h1, h2⟩ := Lexer.scan_token_unrecognised h hc
    rw [h1]
    exact ⟨rfl, rfl, h2⟩
  · intro source
    have hlen : (Lexer.new source.data).source.length - (Lexer.new source.data).current
        = source.length := rfl
    obtain ⟨toks, eof, e1, e2, e3, e4⟩ :=
      Lexer.tokenize_loop_ends (source.data.length + 1) (Lexer.new source.data)
        (by rw [hlen]; exact Nat.lt_succ_self _)
    refine ⟨toks, eof, e1, e2, e3, by rw [hlen] at e4; exact e4, ?_⟩
    intro n hn
    exact Lexer.tokenize_loop_fuel n (source.data.length + 1) (Lexer.new source.data)
      (by rw [hlen]; omega) (by rw [hlen]; exact Nat.lt_succ_self _)

set_option maxRecDepth 100000 in
theorem tokenize_terminates_witness :
    ((Lexer.new "1 @".data).scan_token.2.source = (Lexer.new "1 @".data).source ∧
      (Lexer.new "1 @".data).current + 1 ≤ (Lexer.new "1 @".data).scan_token.2.current ∧
      (Lexer.new "1 @".data).scan_token.2.current ≤ (Lexer.new "1 @".data).source.length) ∧
    ((Lexer.new "@1".data).scan_token.1.type = TokenType.ERROR ∧
      (Lexer.new "@1".data).scan_token.1.lexeme = "Unexpected character" ∧
      (Lexer.new "@1".data).scan_token.2.unread = ['1']) ∧
    tokenize_loop 5 (Lexer.new "@1".data) = tokenize "@1" :=
  ⟨tokenize_terminates.1 (Lexer.new "1 @".data) (by decide),
   tokenize_terminates.2.1 (Lexer.new "@1".data) '@' ['1'] rfl (by unfold Lexer.Unrecognised; decide),
   (tokenize_terminates.2.2 "@1").choose_spec.choose_spec.2.2.2.2 5 (by decide)⟩

end Replit

namespace Replit

namespace Lexer

theorem head_dropWhile_not (p : Char → Bool) (c0 : Char) (h0 : p c0 = false) :
    ∀ l : List Char, p ((l.dropWhile p).headD c0) = false := by
  intro l
  induction l with
  | nil => exact h0
  | cons x l ih =>
    rw [List.dropWhile_cons]
    split
    · exact ih
    · rename_i hx
      simpa using hx

theorem digits_prefix_le : ∀ (ds ip post : List Char), ip <+: ds ++ post →
    (∀ c ∈ ip, c.isDigit = true) → (post.headD '\x00').isDigit = false →
    ip.length ≤ ds.length := by
  intro ds
  induction ds with
  | nil =>
    intro ip post hp hip hpost
    cases ip with
    | nil => exact le_refl _
    | cons y ip =>
      exfalso
      cases post with
      | nil => simp at hp
      | cons x post =>
        rw [List.nil_append, List.cons_prefix_cons] at hp
        have := hip y (List.mem_cons_self _ _)
        rw [hp.1] at this
        rw [List.headD_cons, this] at hpost
        cases hpost
  | cons x ds ih =>
    intro ip post hp hip hpost
    cases ip with
    | nil => exact Nat.zero_le _
    | cons y ip =>
      rw [List.cons_append, List.cons_prefix_cons] at hp
      have := ih ip post hp.2 (fun c hc => hip c (List.mem_cons_of_mem _ hc)) hpost
      simp only [List.length_cons]
      omega

theorem frac_split : ∀ (ds ip fp post : List Char), ip ++ '.' :: fp <+: ds ++ post →
    (∀ c ∈ ip, c.isDigit = true) → (∀ c ∈ ds, c.isDigit = true) →
    (post.headD '\x00').isDigit = false → ip = ds ∧ '.' :: fp <+: post := by
  intro ds
  induction ds with
  | nil =>
    intro ip fp post hp hip hds hpost
    cases ip with
    | nil => exact ⟨rfl, hp⟩
    | cons y ip =>
      exfalso
      cases post with
      | nil => simp at hp
      | cons x post =>
        rw [List.nil_append, List.cons_append, List.cons_prefix_cons] at hp
        have := hip y (List.mem_cons_self _ _)
        rw [hp.1] at this
        rw [List.headD_cons, this] at hpost
        cases hpost
  | cons x ds ih =>
    intro ip fp post hp hip hds hpost
    cases ip with
    | nil =>
      exfalso
      rw [List.nil_append, List.cons_append, List.cons_prefix_cons] at hp
      have := hds x (List.mem_cons_self _ _)
      rw [← hp.1] at this
      revert this
      decide
    | cons y ip =>
      rw [List.cons_append, List.cons_append, List.cons_prefix_cons] at hp
      obtain ⟨e1, e2⟩ := ih ip fp post hp.2 (fun c hc => hip c (List.mem_cons_of_mem _ hc))
        (fun c hc => hds c (List.mem_cons_of_mem _ hc)) hpost
      exact ⟨by rw [hp.1, e1], e2⟩

/-- `number_token` on a run of digits that is not followed by a point and a digit. -/
theorem number_token_run {lx : Lexer} {ds post : List Char} (h : lx.unread = ds ++ post)
    (hds : ∀ c ∈ ds, c.isDigit = true) (hpost : (post.headD '\x00').isDigit = false)
    (hdot : post.headD '\x00' = '.' → (post.tail.headD '\x00').isDigit = false) :
    lx.number_token = ((lx.moved ds.length).make_token TokenType.NUMBER, lx.moved ds.length) := by
  unfold number_token
  rw [digits_loop_run h hds hpost]
  have hun : (lx.moved ds.length).unread = post := unread_moved h
  have hcond : (decide ((lx.moved ds.length).peek = '.') &&
      (lx.moved ds.length).peek_next.isDigit) = false := by
    cases post with
    | nil =>
      rw [peek_of_nil hun]
      rfl
    | cons c r =>
      rw [peek_of_cons hun, peek_next_of_cons hun]
      by_cases hc : c = '.'
      · have hdot2 : (r.headD '\x00').isDigit = false := hdot hc
        rw [hdot2, Bool.and_false]
      · rw [decide_eq_false hc, Bool.false_and]
  simp only [hcond, Bool.false_eq_true, if_false]

theorem scan_token_digit {lx : Lexer} {d : Char} {rest : List Char} (h : lx.unread = d :: rest)
    (hd : d.isDigit = true) :
    lx.scan_token = (lx.begin.moved 1).number_token ∧ (lx.begin.moved 1).unread = rest := by
  obtain ⟨hd1, hd2, hd3, _⟩ := digit_not_alpha hd
  obtain ⟨hskip, hb, hadv, hm⟩ := scan_token_enter h (digit_solid _ hd) hd3
  have hbb : ({ lx with start := lx.current } : Lexer) = lx.begin := rfl
  refine ⟨?_, hm⟩
  unfold scan_token
  rw [hskip]
  simp only [hbb, not_at_end_of_cons hb, hadv, hd1, hd2, hd,
    Bool.false_eq_true, if_false, decide_False, Bool.or_self, if_true]

theorem number_literal_digits {ds : List Char} (hne : ds ≠ [])
    (hds : ∀ c ∈ ds, c.isDigit = true) : NumberLiteral ds :=
  ⟨ds, [], hne, hds, fun c hc => absurd hc (List.not_mem_nil c), Or.inl rfl⟩

/-- At a digit the scanner takes the longest numeric literal. -/
theorem scan_token_longest {lx : Lexer} {d : Char} {rest : List Char}
    (h : lx.unread = d :: rest) (hd : d.isDigit = true) :
    ∃ a, LongestNumeral a lx.unread ∧
      lx.scan_token = ((lx.begin.moved a.length).make_token TokenType.NUMBER,
        lx.begin.moved a.length) ∧
      (lx.begin.moved a.length).text = String.mk a ∧
      (lx.begin.moved a.length).unread = lx.unread.drop a.length := by
  obtain ⟨hscan, hm⟩ := scan_token_digit h hd
  have hsplit : rest = rest.takeWhile Char.isDigit ++ rest.dropWhile Char.isDigit :=
    (List.takeWhile_append_dropWhile _ _).symm
  generalize hds0 : rest.takeWhile Char.isDigit = ds at hsplit
  generalize hpost0 : rest.dropWhile Char.isDigit = post at hsplit
  have hdsd : ∀ c ∈ ds, c.isDigit = true := by
    intro c hc
    rw [← hds0] at hc
    exact (List.mem_takeWhile_imp hc)
  have hpost : (post.headD '\x00').isDigit = false := by
    rw [← hpost0]
    exact head_dropWhile_not Char.isDigit '\x00' not_digit_nul rest
  have hall : ∀ c ∈ d :: ds, c.isDigit = true := by
    intro c hc
    rcases List.mem_cons.1 hc with rfl | hc
    · exact hd
    · exact hdsd c hc
  have hb : lx.begin.unread = (d :: ds) ++ post := by
    rw [unread_begin, h, hsplit]
    rfl
  have hm2 : (lx.begin.moved 1).unread = ds ++ post := by rw [hm, hsplit]
  by_cases hfrac : post.headD '\x00' = '.' ∧ (post.tail.headD '\x00').isDigit = true
  · obtain ⟨hdot, hdig⟩ := hfrac
    obtain ⟨x, post1, rfl⟩ : ∃ x post1, post = x :: post1 := by
      cases post with
      | nil => exact absurd hdot (by decide)
      | cons x r => exact ⟨x, r, rfl⟩
    have hx : x = '.' := hdot
    subst hx
    have hsplit1 : post1 = post1.takeWhile Char.isDigit ++ post1.dropWhile Char.isDigit :=
      (List.takeWhile_append_dropWhile _ _).symm
    generalize hfp0 : post1.takeWhile Char.isDigit = fp at hsplit1
    generalize hpost20 : post1.dropWhile Char.isDigit = post2 at hsplit1
    have hfpd : ∀ c ∈ fp, c.isDigit = true := by
      intro c hc
      rw [← hfp0] at hc
      exact (List.mem_takeWhile_imp hc)
    have hpost2 : (post2.headD '\x00').isDigit = false := by
      rw [← hpost20]
      exact head_dropWhile_not Char.isDigit '\x00' not_digit_nul post1
    have hfpne : fp ≠ [] := by
      rintro rfl
      rw [List.nil_append] at hsplit1
      rw [← hsplit1] at hpost2
      rw [List.tail_cons, hpost2] at hdig
      cases hdig
    have hm3 : (lx.begin.moved 1).unread = ds ++ '.' :: (fp ++ post2) := by
      rw [hm2, ← hsplit1]
    have hb3 : lx.begin.unread = ((d :: ds) ++ '.' :: fp) ++ post2 := by
      rw [hb, hsplit1]
      simp
    refine ⟨(d :: ds) ++ '.' :: fp, ⟨?_, ?_, ?_⟩, ?_, text_moved rfl hb3, ?_⟩
    · exact ⟨d :: ds, fp, List.cons_ne_nil _ _, hall, hfpd, Or.inr ⟨hfpne, rfl⟩⟩
    · rw [← unread_begin, hb3]
      exact List.prefix_append _ _
    · rintro b ⟨ip, fq, hip, hipd, hfqd, hshape⟩ hpre
      rw [← unread_begin, hb] at hpre
      rcases hshape with rfl | ⟨hfq, rfl⟩
      · have := digits_prefix_le (d :: ds) b _ hpre hipd hpost
        simp only [List.length_append, List.length_cons] at this ⊢
        omega
      · obtain ⟨e1, e2⟩ := frac_split (d :: ds) ip fq _ hpre hipd hall hpost
        rw [List.cons_prefix_cons] at e2
        have e3 : fq <+: fp ++ post2 := by
          rw [← hsplit1]
          exact e2.2
        have := digits_prefix_le fp fq post2 e3 hfqd hpost2
        rw [e1]
        simp only [List.length_append, List.length_cons] at this ⊢
        omega
    · rw [hscan, number_token_frac hm3 hdsd hfpd hfpne hpost2, moved_moved]
      have : 1 + (ds.length + 1 + fp.length) = ((d :: ds) ++ '.' :: fp).length := by
        simp only [List.length_append, List.length_cons]
        omega
      rw [this]
    · rw [unread_moved hb3, ← unread_begin, hb3, List.drop_left]
  · have hdot : post.headD '\x00' = '.' → (post.tail.headD '\x00').isDigit = false := by
      intro h1
      cases h2 : (post.tail.headD '\x00').isDigit with
      | false => rfl
      | true => exact absurd ⟨h1, h2⟩ hfrac
    refine ⟨d :: ds, ⟨number_literal_digits (List.cons_ne_nil _ _) hall, ?_, ?_⟩, ?_,
      text_moved rfl hb, ?_⟩
    · rw [← unread_begin, hb]
      exact List.prefix_append _ _
    · rintro b ⟨ip, fq, hip, hipd, hfqd, hshape⟩ hpre
      rw [← unread_begin, hb] at hpre
      rcases hshape with rfl | ⟨hfq, rfl⟩
      · exact digits_prefix_le (d :: ds) b _ hpre hipd hpost
      · exfalso
        obtain ⟨e1, e2⟩ := frac_split (d :: ds) ip fq _ hpre hipd hall hpost
        obtain ⟨f, fq1, rfl⟩ := List.exists_cons_of_ne_nil hfq
        obtain ⟨t, ht⟩ := e2
        have hf := hfqd f (List.mem_cons_self _ _)
        rw [← ht] at hdot
        have := hdot rfl
        rw [show (('.' :: f :: fq1 ++ t).tail.headD '\x00') = f from rfl, hf] at this
        cases this
    · rw [hscan, number_token_run hm2 hdsd hpost hdot, moved_moved]
      have : 1 + ds.length = (d :: ds).length := by
        simp only [List.length_cons]
        omega
      rw [this]
    · rw [unread_moved hb, ← unread_begin, hb, List.drop_left]

end Lexer

set_option maxRecDepth 100000 in
/-- C25.  When `scan_token` starts at a digit, it returns a NUMBER token whose lexeme is
the longest prefix of the remaining source that is a run of digits or a run of digits, a
point and another run of digits, and the cursor is left right after that prefix.  For the
sources `1.` and `1.x` the lexeme is `1` and the cursor is left on the point. -/
theorem number_token_longest :
    (∀ (lx : Lexer) (d : Char) (rest : List Char), lx.unread = d :: rest → d.isDigit = true →
      ∃ a, LongestNumeral a lx.unread ∧ lx.scan_token.1.type = TokenType.NUMBER ∧
        lx.scan_token.1.lexeme = String.mk a ∧
        lx.scan_token.2.unread = lx.unread.drop a.length) ∧
    ((Lexer.new "1.".data).scan_token.1.type = TokenType.NUMBER ∧
      (Lexer.new "1.".data).scan_token.1.lexeme = "1" ∧
      (Lexer.new "1.".data).scan_token.2.unread = ['.']) ∧
    ((Lexer.new "1.x".data).scan_token.1.type = TokenType.NUMBER ∧
      (Lexer.new "1.x".data).scan_token.1.lexeme = "1" ∧
      (Lexer.new "1.x".data).scan_token.2.unread = ['.', 'x']) := by
  refine ⟨?_, by decide, by decide⟩
  intro lx d rest h hd
  obtain ⟨a, ha, hscan, htext, hun⟩ := Lexer.scan_token_longest h hd
  refine ⟨a, ha, ?_, ?_, ?_⟩
  · rw [hscan]
    rfl
  · rw [hscan]
    exact htext
  · rw [hscan]
    exact hun

set_option maxRecDepth 100000 in
theorem number_token_longest_witness :
    ∃ a, LongestNumeral a (Lexer.new "12.5.7".data).unread ∧
      (Lexer.new "12.5.7".data).scan_token.1.type = TokenType.NUMBER ∧
      (Lexer.new "12.5.7".data).scan_token.1.lexeme = String.mk a ∧
      (Lexer.new "12.5.7".data).scan_token.2.unread
        = (Lexer.new "12.5.7".data).unread.drop a.length :=
  number_token_longest.1 (Lexer.new "12.5.7".data) '1' ['2', '.', '5', '.', '7'] rfl (by decide)

end Replit

namespace Replit

namespace Parser

section
variable {I : Parser → Prop} (hI : Emitting I)
include hI

theorem Emitting.em_op (p : Parser) (op : OpCode) (hop : op ∈ plain_ops) (hp : I p) :
    Post (p.emit_byte (OpCode.byte op)) I :=
  fun q hq => hI.emit_op p op q hop hq hp

theorem Emitting.em_ops (p : Parser) (op1 op2 : OpCode) (h1 : op1 ∈ plain_ops)
    (h2 : op2 ∈ plain_ops) (hp : I p) :
    Post (p.emit_bytes (OpCode.byte op1) (OpCode.byte op2)) I := by
  unfold emit_bytes
  exact Post.bind (hI.em_op p op1 h1 hp) (fun q hq => hI.em_op q op2 h2 hq)

theorem Emitting.em_constant (p : Parser) (v : Value) (hp : I p) :
    Post (p.emit_constant v) I :=
  fun q hq => hI.emit_constant p v q hq hp

theorem Emitting.em_match (p : Parser) (type : TokenType) (hp : I p) :
    Post (p.match type) (fun r => I r.2) := by
  unfold Parser.match
  refine Post.bind (Post.true _) ?_
  intro c _
  split
  · exact Post.pure hp
  · refine Post.bind (R := fun r => I r.2) ?_ ?_
    · intro r hr
      exact hI.advance p r.1 r.2 hr hp
    · intro r hr
      exact Post.pure hr

theorem Emitting.em_match_or (p : Parser) (type : TokenType)
    (rest : Parser → Except Fault (Bool × Parser))
    (hrest : ∀ q, I q → Post (rest q) (fun r => I r.2)) (hp : I p) :
    Post (p.match_or type rest) (fun r => I r.2) := by
  unfold match_or
  refine Post.bind (hI.em_match p type hp) ?_
  rintro ⟨m, q⟩ hr
  dsimp only
  split
  · exact Post.pure hr
  · exact hrest _ hr

theorem Emitting.em_error (p : Parser) (m : String) (hp : I p) : Post (p.error m) I := by
  unfold Parser.error
  refine Post.bind (Post.true _) ?_
  intro t _
  exact Post.pure (hI.error_at p t m hp)

theorem Emitting.em_consume (p : Parser) (type : TokenType) (m : String) (hp : I p) :
    Post (p.consume type m) I := by
  unfold consume
  refine Post.bind (Post.true _) ?_
  intro t _
  split
  · refine Post.bind (R := fun r => I r.2) ?_ ?_
    · intro r hr
      exact hI.advance p r.1 r.2 hr hp
    · intro r hr
      exact Post.pure hr
  · refine Post.bind (Post.true _) ?_
    intro t _
    exact Post.pure (hI.error_at p t m hp)

theorem Emitting.em_all : ∀ n,
    Keeps I (primary n) ∧ Keeps I (unary n) ∧ Keeps I (factor_loop n) ∧ Keeps I (factor n)
    ∧ Keeps I (term_loop n) ∧ Keeps I (term n) ∧ Keeps I (comparison_loop n)
    ∧ Keeps I (comparison n) ∧ Keeps I (equality_loop n) ∧ Keeps I (equality n)
    ∧ Keeps I (and_expression n) ∧ Keeps I (or_expression n) ∧ Keeps I (expression n) := by
  intro n
  induction n with
  | zero =>
    refine ⟨?_, ?_, ?_, ?_, ?_, ?_, ?_, ?_, ?_, ?_, ?_, ?_, ?_⟩ <;>
      (intro p _; first
        | rw [primary] | rw [unary] | rw [factor_loop] | rw [factor] | rw [term_loop]
        | rw [term] | rw [comparison_loop] | rw [comparison] | rw [equality_loop]
        | rw [equality] | rw [and_expression] | rw [or_expression] | rw [expression]) <;>
      exact Post.error
  | succ n ih =>
    obtain ⟨hprimary, hunary, hfactor_loop, hfactor, hterm_loop, hterm, hcomparison_loop,
      hcomparison, hequality_loop, hequality, hand, hor, hexpression⟩ := ih
    refine ⟨?_, ?_, ?_, ?_, ?_, ?_, ?_, ?_, ?_, ?_, ?_, ?_, ?_⟩
    · -- primary
      intro p hp
      rw [primary]
      refine Post.bind (hI.em_match p _ hp) ?_
      rintro ⟨m, p⟩ hp
      dsimp only
      split
      · exact hI.em_constant _ _ hp
      refine Post.bind (hI.em_match p _ hp) ?_
      rintro ⟨m, p⟩ hp
      dsimp only
      split
      · exact hI.em_constant _ _ hp
      refine Post.bind (hI.em_match p _ hp) ?_
      rintro ⟨m, p⟩ hp
      dsimp only
      split
      · exact hI.em_constant _ _ hp
      refine Post.bind (hI.em_match p _ hp) ?_
      rintro ⟨m, p⟩ hp
      dsimp only
      split
      · refine Post.bind (Post.true _) ?_
        intro t _
        refine Post.bind (Post.true _) ?_
        intro v _
        exact hI.em_constant _ _ hp
      refine Post.bind (hI.em_match p _ hp) ?_
      rintro ⟨m, p⟩ hp
      dsimp only
      split
      · refine Post.bind (Post.true _) ?_
        intro t _
        refine Post.bind (Post.true _) ?_
        intro v _
        exact hI.em_constant _ _ hp
      refine Post.bind (hI.em_match p _ hp) ?_
      rintro ⟨m, p⟩ hp
      dsimp only
      split
      · refine Post.bind (hexpression p hp) ?_
        intro q hq
        exact hI.em_consume _ _ _ hq
      · exact hI.em_error _ _ hp
    · -- unary
      intro p hp
      rw [unary]
      refine Post.bind (hI.em_match_or p _ _ (fun q hq => hI.em_match q _ hq) hp) ?_
      rintro ⟨m, p⟩ hp
      dsimp only
      split
      · refine Post.bind (Post.true _) ?_
        intro t _
        refine Post.bind (hunary p hp) ?_
        intro q hq
        split
        · exact hI.em_op _ _ (by decide) hq
        · split
          · exact hI.em_op _ _ (by decide) hq
          · exact Post.pure hq
      · exact hprimary p hp
    · -- factor_loop
      intro p hp
      rw [factor_loop]
      refine Post.bind (hI.em_match_or p _ _ (fun q hq => hI.em_match_or q _ _ (fun q hq => hI.em_match q _ hq) hq) hp) ?_
      rintro ⟨m, p⟩ hp
      dsimp only
      split
      · refine Post.bind (Post.true _) ?_
        intro t _
        refine Post.bind (hunary p hp) ?_
        intro q hq
        split_ifs
        all_goals first
          | exact Post.bind (hI.em_op _ _ (by decide) hq) (fun q2 hq2 => hfactor_loop q2 hq2)
          | exact Post.bind (Post.pure hq) (fun q2 hq2 => hfactor_loop q2 hq2)
      · exact Post.pure hp
    · -- factor
      intro p hp
      rw [factor]
      exact Post.bind (hunary p hp) (fun q hq => hfactor_loop q hq)
    · -- term_loop
      intro p hp
      rw [term_loop]
      refine Post.bind (hI.em_match_or p _ _ (fun q hq => hI.em_match q _ hq) hp) ?_
      rintro ⟨m, p⟩ hp
      dsimp only
      split
      · refine Post.bind (Post.true _) ?_
        intro t _
        refine Post.bind (hfactor p hp) ?_
        intro q hq
        split_ifs
        all_goals first
          | exact Post.bind (hI.em_op _ _ (by decide) hq) (fun q2 hq2 => hterm_loop q2 hq2)
          | exact Post.bind (Post.pure hq) (fun q2 hq2 => hterm_loop q2 hq2)
      · exact Post.pure hp
    · -- term
      intro p hp
      rw [term]
      exact Post.bind (hfactor p hp) (fun q hq => hterm_loop q hq)
    · -- comparison_loop
      intro p hp
      rw [comparison_loop]
      refine Post.bind (hI.em_match_or p _ _ (fun q hq => hI.em_match_or q _ _ (fun q hq => hI.em_match_or q _ _ (fun q hq => hI.em_match q _ hq) hq) hq) hp) ?_
      rintro ⟨m, p⟩ hp
      dsimp only
      split
      · refine Post.bind (Post.true _) ?_
        intro t _
        refine Post.bind (hterm p hp) ?_
        intro q hq
        split_ifs
        all_goals first
          | exact Post.bind (hI.em_op _ _ (by decide) hq) (fun q2 hq2 => hcomparison_loop q2 hq2)
          | exact Post.bind (hI.em_ops _ _ _ (by decide) (by decide) hq) (fun q2 hq2 => hcomparison_loop q2 hq2)
          | exact Post.bind (Post.pure hq) (fun q2 hq2 => hcomparison_loop q2 hq2)
      · exact Post.pure hp
    · -- comparison
      intro p hp
      rw [comparison]
      exact Post.bind (hterm p hp) (fun q hq => hcomparison_loop q hq)
    · -- equality_loop
      intro p hp
      rw [equality_loop]
      refine Post.bind (hI.em_match_or p _ _ (fun q hq => hI.em_match q _ hq) hp) ?_
      rintro ⟨m, p⟩ hp
      dsimp only
      split
      · refine Post.bind (Post.true _) ?_
        intro t _
        refine Post.bind (hcomparison p hp) ?_
        intro q hq
        split_ifs
        all_goals first
          | exact Post.bind (hI.em_op _ _ (by decide) hq) (fun q2 hq2 => hequality_loop q2 hq2)
          | exact Post.bind (hI.em_ops _ _ _ (by decide) (by decide) hq) (fun q2 hq2 => hequality_loop q2 hq2)
          | exact Post.bind (Post.pure hq) (fun q2 hq2 => hequality_loop q2 hq2)
      · exact Post.pure hp
    · -- equality
      intro p hp
      rw [equality]
      exact Post.bind (hcomparison p hp) (fun q hq => hequality_loop q hq)
    · -- and_expression
      intro p hp
      rw [and_expression]
      exact hequality p hp
    · -- or_expression
      intro p hp
      rw [or_expression]
      exact hand p hp
    · -- expression
      intro p hp
      rw [expression]
      exact hor p hp

theorem Emitting.em_expression (n : Nat) : Keeps I (expression n) :=
  (hI.em_all n).2.2.2.2.2.2.2.2.2.2.2.2

theorem Emitting.em_expression_statement (n : Nat) (p : Parser) (hp : I p) :
    Post (expression_statement n p) I := by
  unfold expression_statement
  refine Post.bind (hI.em_expression n p hp) ?_
  intro q hq
  refine Post.bind (hI.em_consume _ _ _ hq) ?_
  intro q2 hq2
  exact hI.em_op _ _ (by decide) hq2

theorem Emitting.em_print_statement (n : Nat) (p : Parser) (hp : I p) :
    Post (print_statement n p) I := by
  unfold print_statement
  refine Post.bind (hI.em_expression n p hp) ?_
  intro q hq
  refine Post.bind (hI.em_consume _ _ _ hq) ?_
  intro q2 hq2
  exact hI.em_op _ _ (by decide) hq2

theorem Emitting.em_statement (n : Nat) (p : Parser) (hp : I p) :
    Post (statement n p) I := by
  unfold statement
  refine Post.bind (hI.em_match p _ hp) ?_
  rintro ⟨m, q⟩ hq
  dsimp only
  split
  · exact hI.em_print_statement n q hq
  · exact hI.em_expression_statement n q hq

end

/-- The loop of `synchronize` only moves the cursor. -/
theorem synchronize_loop_keeps (n : Nat) : ∀ p q, synchronize_loop n p = Except.ok q →
    q.tokens = p.tokens ∧ q.compiling_chunk = p.compiling_chunk ∧ q.had_error = p.had_error ∧
      q.panic_mode = p.panic_mode ∧ q.diagnostics = p.diagnostics := by
  induction n with
  | zero =>
    intro p q h
    rw [synchronize_loop] at h
    cases h
  | succ n ih =>
    intro p q h
    rw [synchronize_loop] at h
    obtain ⟨t, _, h⟩ := bind_eq_ok h
    split at h
    · obtain ⟨prev, _, h⟩ := bind_eq_ok h
      split at h
      · cases h
        exact ⟨rfl, rfl, rfl, rfl, rfl⟩
      · obtain ⟨t2, _, h⟩ := bind_eq_ok h
        split at h
        · cases h
          exact ⟨rfl, rfl, rfl, rfl, rfl⟩
        · obtain ⟨⟨t3, p2⟩, hadv, h⟩ := bind_eq_ok h
          have := ih p2 q h
          rcases advance_eq hadv with rfl | rfl
          · exact this
          · exact this
    · cases h
      exact ⟨rfl, rfl, rfl, rfl, rfl⟩

theorem synchronize_keeps {n : Nat} {p q : Parser} (h : synchronize n p = Except.ok q) :
    q.tokens = p.tokens ∧ q.compiling_chunk = p.compiling_chunk ∧ q.had_error = p.had_error ∧
      q.panic_mode = false ∧ q.diagnostics = p.diagnostics :=
  synchronize_loop_keeps n _ q h

section
variable {I : Parser → Prop} (hI : Emitting I)
  (hsync : ∀ n p q, synchronize n p = Except.ok q → I p → I q)
include hI hsync

theorem Emitting.em_declaration (n : Nat) (p : Parser) (hp : I p) :
    Post (declaration n p) I := by
  unfold declaration
  refine Post.bind (hI.em_match p _ hp) ?_
  rintro ⟨m, q⟩ hq
  dsimp only
  have hrest : ∀ q2, I q2 →
      Post (if q2.panic_mode = true then synchronize n q2 else Except.ok q2) I := by
    intro q2 hq2
    split
    · exact fun q3 hq3 => hsync n q2 q3 hq3 hq2
    · exact Post.ok hq2
  split
  · exact Post.bind (Post.pure hq) hrest
  · exact Post.bind (hI.em_statement n q hq) hrest

theorem Emitting.em_compile_loop (n : Nat) : ∀ p, I p → Post (compile_loop n p) I := by
  induction n with
  | zero =>
    intro p _
    rw [compile_loop]
    exact Post.error
  | succ n ih =>
    intro p hp
    rw [compile_loop]
    refine Post.bind (Post.true _) ?_
    intro c _
    split
    · refine Post.bind (hI.em_match p _ hp) ?_
      rintro ⟨m, q⟩ hq
      dsimp only
      split
      · exact ih q hq
      · exact Post.bind (hI.em_declaration hsync n q hq) (fun q2 hq2 => ih q2 hq2)
    · exact Post.pure hp

theorem Emitting.em_compile (n : Nat) (tokens : List Token) (chunk : Chunk)
    (h0 : I { tokens := tokens, compiling_chunk := chunk }) :
    Post (compile n tokens chunk) (fun r => I r.2) := by
  unfold compile
  refine Post.bind (hI.em_compile_loop hsync n _ h0) ?_
  intro q hq
  refine Post.bind (hI.em_op _ OpCode.OP_RETURN (by decide) hq) ?_
  intro q2 hq2
  exact Post.pure hq2

end

end Parser

end Replit

namespace Replit

theorem decode_append (code : List Nat) (byte : Nat) :
    decode (code ++ [byte]) = (decode code).read byte := by
  unfold decode
  rw [List.foldl_append]
  rfl

theorem plain_ops_byte : ∀ op ∈ Parser.plain_ops, OpCode.byte op ≠ OpCode.OP_CONSTANT.byte := by
  decide

theorem Chunk.coded_empty : Chunk.Coded {} := by
  refine ⟨rfl, rfl, ?_⟩
  intro i hi
  cases hi

theorem Chunk.coded_write_op {c : Chunk} (h : c.Coded) {op : OpCode}
    (hop : op ∈ Parser.plain_ops) (line : Int) : (c.write (OpCode.byte op) line).Coded := by
  obtain ⟨h1, h2, h3⟩ := h
  have hd : decode (c.code ++ [OpCode.byte op])
      = Decoder.mk ((decode c.code).instructions ++ [(OpCode.byte op, none)]) false := by
    rw [decode_append, Decoder.read, h2]
    simp [plain_ops_byte op hop]
  refine ⟨?_, ?_, ?_⟩
  · simp [Chunk.write, h1]
  · show (decode (c.code ++ [OpCode.byte op])).pending = false
    rw [hd]
  · show ∀ i ∈ (decode (c.code ++ [OpCode.byte op])).instructions, _
    rw [hd]
    intro i hi
    rcases List.mem_append.1 hi with hi | hi
    · exact h3 i hi
    · rw [List.mem_singleton] at hi
      exact Or.inl ⟨op, hop, hi⟩

theorem Chunk.coded_add_constant {c : Chunk} (h : c.Coded) (v : Value) :
    (c.add_constant v).2.Coded := by
  obtain ⟨h1, h2, h3⟩ := h
  refine ⟨h1, h2, ?_⟩
  intro i hi
  rcases h3 i hi with hop | ⟨o, ho, hlt⟩
  · exact Or.inl hop
  · refine Or.inr ⟨o, ho, ?_⟩
    show o < (c.constants ++ [v]).length
    rw [List.length_append]
    exact Nat.lt_add_right _ hlt

theorem Chunk.coded_write_constant {c : Chunk} (h : c.Coded) {o : Nat}
    (ho : o < c.constants.length) (l1 l2 : Int) :
    ((c.write OpCode.OP_CONSTANT.byte l1).write o l2).Coded := by
  obtain ⟨h1, h2, h3⟩ := h
  have hd : decode ((c.code ++ [OpCode.OP_CONSTANT.byte]) ++ [o])
      = Decoder.mk ((decode c.code).instructions ++ [(OpCode.OP_CONSTANT.byte, some o)])
          false := by
    have hopc : (decode c.code).read OpCode.OP_CONSTANT.byte
        = Decoder.mk (decode c.code).instructions true := by
      rw [Decoder.read, h2]
      simp
    rw [decode_append, decode_append, hopc, Decoder.read]
    simp
  refine ⟨?_, ?_, ?_⟩
  · simp [Chunk.write, h1]
  · show (decode ((c.code ++ [OpCode.OP_CONSTANT.byte]) ++ [o])).pending = false
    rw [hd]
  · show ∀ i ∈ (decode ((c.code ++ [OpCode.OP_CONSTANT.byte]) ++ [o])).instructions, _
    rw [hd]
    intro i hi
    rcases List.mem_append.1 hi with hi | hi
    · exact h3 i hi
    · rw [List.mem_singleton] at hi
      exact Or.inr ⟨o, hi, ho⟩

namespace Parser

theorem error_at_chunk (p : Parser) (t : Token) (m : String) :
    (p.error_at t m).compiling_chunk = p.compiling_chunk := by
  unfold error_at
  split <;> rfl

/-- The byte `make_constant` returns is an index into the pool it leaves. -/
theorem make_constant_byte {p q : Parser} {v : Value} {b : Nat}
    (h : p.make_constant v = Except.ok (b, q)) :
    q.compiling_chunk = (p.compiling_chunk.add_constant v).2 ∧
      b < (p.compiling_chunk.add_constant v).2.constants.length := by
  have hlen : (p.compiling_chunk.add_constant v).2.constants.length
      = p.compiling_chunk.constants.length + 1 := by
    show (p.compiling_chunk.constants ++ [v]).length = _
    simp
  constructor
  · rcases make_constant_eq h with rfl | ⟨t, rfl⟩
    · rfl
    · rw [error_at_chunk]
  · rw [hlen]
    unfold make_constant at h
    dsimp only at h
    split at h
    · obtain ⟨q2, _, h2⟩ := bind_eq_ok h
      cases h2
      exact Nat.succ_pos _
    · cases h
      show (((p.compiling_chunk.constants ++ [v]).length : Int) - 1).toNat < _
      rw [List.length_append, List.length_singleton]
      omega

theorem emit_constant_chunk {p q : Parser} {v : Value} (h : p.emit_constant v = Except.ok q) :
    ∃ o l1 l2, o < (p.compiling_chunk.add_constant v).2.constants.length ∧
      q.compiling_chunk =
        (((p.compiling_chunk.add_constant v).2.write OpCode.OP_CONSTANT.byte l1).write o l2) := by
  unfold emit_constant at h
  obtain ⟨⟨b, p1⟩, hmake, h⟩ := bind_eq_ok h
  obtain ⟨hc, hb⟩ := make_constant_byte hmake
  unfold emit_bytes at h
  obtain ⟨p2, h2, h3⟩ := bind_eq_ok h
  obtain ⟨l1, rfl⟩ := emit_byte_eq h2
  obtain ⟨l2, rfl⟩ := emit_byte_eq h3
  exact ⟨b, l1, l2, hb, by rw [← hc]⟩

theorem emitting_coded : Emitting (fun p => p.compiling_chunk.Coded) where
  advance := by
    intro p t q h hp
    rcases advance_eq h with rfl | rfl <;> exact hp
  emit_op := by
    intro p op q hop h hp
    obtain ⟨l, rfl⟩ := emit_byte_eq h
    exact Chunk.coded_write_op hp hop l
  emit_constant := by
    intro p v q h hp
    obtain ⟨o, l1, l2, ho, hq⟩ := emit_constant_chunk h
    show q.compiling_chunk.Coded
    rw [hq]
    exact Chunk.coded_write_constant (Chunk.coded_add_constant hp v) ho l1 l2
  error_at := by
    intro p t m hp
    show (p.error_at t m).compiling_chunk.Coded
    rw [error_at_chunk]
    exact hp

/-- Every chunk `compile` produces from an empty chunk is coded. -/
theorem compile_coded {n : Nat} {tokens : List Token} {r : Bool × Parser}
    (h : compile n tokens {} = Except.ok r) : r.2.compiling_chunk.Coded := by
  refine emitting_coded.em_compile ?_ n tokens {} Chunk.coded_empty r h
  intro n p q hs hp
  show q.compiling_chunk.Coded
  rw [(synchronize_keeps hs).2.1]
  exact hp

theorem trail_error_at (d : List String) (b : Bool) (p : Parser) (t : Token) (m : String)
    (hp : Trail d b p) : Trail d b (p.error_at t m) := by
  cases hpm : p.panic_mode with
  | true =>
    have : p.error_at t m = p := by
      unfold error_at
      simp [hpm]
    rw [this]
    exact hp
  | false =>
    rcases hp with ⟨h1, h2⟩ | ⟨_, h2, _⟩
    · refine Or.inr ⟨by rw [← h2, hpm], ?_, ?_⟩
      · unfold error_at
        simp [hpm]
      · unfold error_at
        simp only [hpm, Bool.false_eq_true, if_false]
        exact ⟨_, by rw [h1]⟩
    · rw [hpm] at h2
      cases h2

theorem emitting_trail (d : List String) (b : Bool) : Emitting (Trail d b) where
  advance := by
    intro p t q h hp
    rcases advance_eq h with rfl | rfl <;> exact hp
  emit_op := by
    intro p op q _ h hp
    obtain ⟨l, rfl⟩ := emit_byte_eq h
    exact hp
  emit_constant := by
    intro p v q h hp
    unfold emit_constant at h
    obtain ⟨⟨o, p1⟩, hmake, h⟩ := bind_eq_ok h
    unfold emit_bytes at h
    obtain ⟨p2, h2, h3⟩ := bind_eq_ok h
    obtain ⟨l1, rfl⟩ := emit_byte_eq h2
    obtain ⟨l2, rfl⟩ := emit_byte_eq h3
    show Trail d b p1
    rcases make_constant_eq hmake with rfl | ⟨t, rfl⟩
    · exact hp
    · exact trail_error_at d b _ t _ hp
  error_at := trail_error_at d b

/-- One call of `declaration`: at most one diagnostic, and panic mode off afterwards. -/
theorem declaration_trail {n : Nat} {p q : Parser} (h : declaration n p = Except.ok q) :
    q.panic_mode = false ∧
      (q.diagnostics = p.diagnostics ∨ ∃ line, q.diagnostics = p.diagnostics ++ [line]) := by
  have hI := emitting_trail p.diagnostics p.panic_mode
  have h0 : Trail p.diagnostics p.panic_mode p := Or.inl ⟨rfl, rfl⟩
  unfold declaration at h
  obtain ⟨⟨m, p1⟩, hm, h⟩ := bind_eq_ok h
  have h1 : Trail p.diagnostics p.panic_mode p1 := hI.em_match p _ h0 _ hm
  have key : ∀ p2 : Parser, Trail p.diagnostics p.panic_mode p2 →
      (if p2.panic_mode = true then synchronize n p2 else Except.ok p2) = Except.ok q →
      q.panic_mode = false ∧
        (q.diagnostics = p.diagnostics ∨ ∃ line, q.diagnostics = p.diagnostics ++ [line]) := by
    intro p2 h2 h
    have hd : p2.diagnostics = p.diagnostics ∨
        ∃ line, p2.diagnostics = p.diagnostics ++ [line] := by
      rcases h2 with ⟨e, _⟩ | ⟨_, _, e⟩
      · exact Or.inl e
      · exact Or.inr e
    split at h
    · obtain ⟨_, _, _, s4, s5⟩ := synchronize_keeps h
      rw [s5]
      exact ⟨s4, hd⟩
    · rename_i hpm
      cases h
      refine ⟨?_, hd⟩
      simpa using hpm
  dsimp only at h
  split at h
  · exact key p1 h1 h
  · obtain ⟨p2, hst, h⟩ := bind_eq_ok h
    exact key p2 (hI.em_statement n p1 h1 _ hst) h

end Parser

/-- C21.  In every chunk `compile` produces from an empty chunk, whatever the tokens and
whether or not errors were reported, `lines` has the length of `code`; and decoding
`code` from its first byte, no operand is outstanding at the end, and every CONSTANT
instruction has an operand that is smaller than the size of `constants`. -/
theorem compiled_chunk_well_formed (fuel : Nat) (tokens : List Token) (result : Bool)
    (p : Parser) (h : Parser.compile fuel tokens {} = Except.ok (result, p)) :
    p.compiling_chunk.lines.length = p.compiling_chunk.code.length ∧
    (decode p.compiling_chunk.code).pending = false ∧
    ∀ i ∈ (decode p.compiling_chunk.code).instructions, i.1 = OpCode.OP_CONSTANT.byte →
      ∃ o, i.2 = some o ∧ o < p.compiling_chunk.constants.length := by
  obtain ⟨h1, h2, h3⟩ := Parser.compile_coded h
  refine ⟨h1, h2, ?_⟩
  intro i hi hc
  rcases h3 i hi with ⟨op, hop, rfl⟩ | ⟨o, rfl, ho⟩
  · exact absurd hc (plain_ops_byte op hop)
  · exact ⟨o, rfl, ho⟩

/-- C22.  In panic mode `error_at` returns the parser state it was given: nothing is
reported and nothing changes.  When a call of `declaration` returns, panic mode is off,
and the diagnostics are those at the start of the call with at most one line added. -/
theorem declaration_reports_at_most_once :
    (∀ (p : Parser) (t : Token) (m : String), p.panic_mode = true → p.error_at t m = p) ∧
    (∀ (fuel : Nat) (p q : Parser), Parser.declaration fuel p = Except.ok q →
      q.panic_mode = false ∧
      (q.diagnostics = p.diagnostics ∨ ∃ line, q.diagnostics = p.diagnostics ++ [line])) := by
  constructor
  · intro p t m h
    unfold Parser.error_at
    simp [h]
  · intro fuel p q h
    exact Parser.declaration_trail h

end Replit

namespace Replit

namespace Parser

theorem or_expression_eq (n : Nat) (p : Parser) : or_expression (n + 2) p = equality n p := by
  rw [or_expression, and_expression]

theorem and_expression_eq (n : Nat) (p : Parser) : and_expression (n + 1) p = equality n p := by
  rw [and_expression]

/-- A parsing function that is another one with `d` more units of fuel reaches the same
states. -/
theorem runs_shift {f g : Nat → Parser → Except Fault Parser} (d : Nat)
    (h : ∀ n p, f (n + d) p = g n p) (p q : Parser) : Runs f p q ↔ Runs g p q := by
  constructor
  · rintro ⟨n, hn⟩
    refine ⟨n, fun m hm => ?_⟩
    rw [← h]
    exact hn (m + d) (by omega)
  · rintro ⟨n, hn⟩
    refine ⟨n + d, fun m hm => ?_⟩
    obtain ⟨m2, rfl⟩ : ∃ m2, m = m2 + d := ⟨m - d, by omega⟩
    rw [h]
    exact hn m2 (by omega)

theorem plain_ops_no_jump : ∀ op ∈ plain_ops,
    OpCode.byte op ≠ OpCode.OP_JUMP.byte ∧ OpCode.byte op ≠ OpCode.OP_JUMP_IF_FALSE.byte ∧
      OpCode.byte op ≠ OpCode.OP_LOOP.byte := by
  decide

end Parser

set_option maxRecDepth 100000 in
/-- C30.  `expression`, `or_expression` and `and_expression` are `equality` with three,
two and one more unit of fuel: from any parser state they have the outcome of `equality`,
so they reach the same state, with the same tokens consumed and the same bytes written.
When the tokens of a well-formed expression are followed by an `and` or an `or` token,
`expression` stops in front of that token.  In the code of every chunk `compile`
produces, no instruction is JUMP, JUMP_IF_FALSE or LOOP.  For `true and false;`,
`compile` returns false and reports that a semicolon was expected at `and`. -/
theorem logical_operators_fall_through :
    (∀ (n : Nat) (p : Parser), Parser.expression (n + 3) p = Parser.equality n p ∧
      Parser.or_expression (n + 2) p = Parser.equality n p ∧
      Parser.and_expression (n + 1) p = Parser.equality n p) ∧
    (∀ p q : Parser, (Parser.Runs Parser.expression p q ↔ Parser.Runs Parser.equality p q) ∧
      (Parser.Runs Parser.or_expression p q ↔ Parser.Runs Parser.equality p q) ∧
      (Parser.Runs Parser.and_expression p q ↔ Parser.Runs Parser.equality p q)) ∧
    (∀ (e : Expr) (p : Parser) (t0 : Token) (rest : List Token), e.Shaped →
      Parser.At p (e.tokens ++ t0 :: rest) →
      t0.type = TokenType.AND ∨ t0.type = TokenType.OR →
      ∃ q, Parser.Runs Parser.expression p q ∧ Parser.At q (t0 :: rest) ∧
        q.current = p.current + e.tokens.length) ∧
    (∀ (fuel : Nat) (tokens : List Token) (result : Bool) (p : Parser),
      Parser.compile fuel tokens {} = Except.ok (result, p) →
      ∀ i ∈ (decode p.compiling_chunk.code).instructions,
        i.1 ≠ OpCode.OP_JUMP.byte ∧ i.1 ≠ OpCode.OP_JUMP_IF_FALSE.byte ∧
          i.1 ≠ OpCode.OP_LOOP.byte) ∧
    (Parser.compile 20 (tokenize "true and false;") {}).map (fun r => (r.1, r.2.diagnostics))
      = Except.ok (false,
          ["[line 1] Error at \x27and\x27: Expected \x27;\x27 after expression"]) := by
  refine ⟨?_, ?_, ?_, ?_, by decide!⟩
  · intro n p
    exact ⟨Parser.expression_eq n p, Parser.or_expression_eq n p, Parser.and_expression_eq n p⟩
  · intro p q
    exact ⟨Parser.runs_shift 3 Parser.expression_eq p q,
      Parser.runs_shift 2 Parser.or_expression_eq p q,
      Parser.runs_shift 1 Parser.and_expression_eq p q⟩
  · intro e p t0 rest hs hat ht
    have h0 : t0.type.level = 0 := by
      rcases ht with h | h <;> rw [h] <;> rfl
    obtain ⟨q, dq, hq, hr⟩ := Parser.parse_expression hs hat h0
    exact ⟨q, hr, hq, dq.2.1⟩
  · intro fuel tokens result p h i hi
    obtain ⟨_, _, h3⟩ := Parser.compile_coded h
    rcases h3 i hi with ⟨op, hop, rfl⟩ | ⟨o, rfl, _⟩
    · exact Parser.plain_ops_no_jump op hop
    · have h0 : OpCode.OP_CONSTANT.byte ≠ OpCode.OP_JUMP.byte ∧
          OpCode.OP_CONSTANT.byte ≠ OpCode.OP_JUMP_IF_FALSE.byte ∧
          OpCode.OP_CONSTANT.byte ≠ OpCode.OP_LOOP.byte := by decide
      exact h0

set_option maxRecDepth 100000 in
theorem logical_operators_fall_through_witness :
    (∃ q, Parser.Runs Parser.expression { tokens := tokenize "true and false;" } q ∧
      Parser.At q (⟨TokenType.AND, "and", 1, 6⟩ ::
        [⟨TokenType.FALSE, "false", 1, 10⟩, ⟨TokenType.SEMICOLON, ";", 1, 15⟩,
         ⟨TokenType.EOF_TOKEN, "", 1, 16⟩]) ∧
      q.current = 0 + 1) ∧
    ((7 : Nat) ≠ OpCode.OP_JUMP.byte ∧ (7 : Nat) ≠ OpCode.OP_JUMP_IF_FALSE.byte ∧
      (7 : Nat) ≠ OpCode.OP_LOOP.byte) :=
  ⟨logical_operators_fall_through.2.2.1
      (Expr.literal ⟨TokenType.TRUE, "true", 1, 1⟩ (Value.boolean true))
      { tokens := tokenize "true and false;" } ⟨TokenType.AND, "and", 1, 6⟩
      [⟨TokenType.FALSE, "false", 1, 10⟩, ⟨TokenType.SEMICOLON, ";", 1, 15⟩,
       ⟨TokenType.EOF_TOKEN, "", 1, 16⟩]
      (Or.inl ⟨rfl, rfl⟩) (by unfold Parser.At; decide!) (Or.inl rfl),
   logical_operators_fall_through.2.2.2.1 20 (tokenize "true == false;") true
      { tokens := tokenize "true == false;", current := 4,
        compiling_chunk := { code := [0, 0, 0, 1, 7, 11, 19], lines := [1, 1, 1, 1, 1, 1, 1],
                             constants := [Value.boolean true, Value.boolean false] } }
      (by decide!) (7, none) (by decide)⟩

set_option maxRecDepth 100000 in
theorem compiled_chunk_well_formed_witness :
    [(1 : Int), 1, 1, 1, 1, 1, 1].length = [0, 0, 0, 1, 1, 10, 19].length ∧
    (decode [0, 0, 0, 1, 1, 10, 19]).pending = false ∧
    ∀ i ∈ (decode [0, 0, 0, 1, 1, 10, 19]).instructions, i.1 = OpCode.OP_CONSTANT.byte →
      ∃ o, i.2 = some o ∧
        o < [Value.number (Double.of_int 1), Value.number (Double.of_int 2)].length :=
  compiled_chunk_well_formed 20 (tokenize "print 1 + 2;") true
    { tokens := tokenize "print 1 + 2;", current := 5,
      compiling_chunk := { code := [0, 0, 0, 1, 1, 10, 19], lines := [1, 1, 1, 1, 1, 1, 1],
                           constants := [Value.number (Double.of_int 1),
                                         Value.number (Double.of_int 2)] } }
    (by decide!)

set_option maxRecDepth 100000 in
theorem declaration_reports_at_most_once_witness :
    (false = false ∧
      (["[line 1] Error at \x27+\x27: Expected expression"] = [] ∨
        ∃ line, ["[line 1] Error at \x27+\x27: Expected expression"] = [] ++ [line])) :=
  declaration_reports_at_most_once.2 20 { tokens := tokenize "1 + ; 2;" }
    { tokens := tokenize "1 + ; 2;", current := 3,
      compiling_chunk := { code := [0, 0, 1, 11], lines := [1, 1, 1, 1],
                           constants := [Value.number (Double.of_int 1)] },
      had_error := true, panic_mode := false,
      diagnostics := ["[line 1] Error at \x27+\x27: Expected expression"] }
    (by decide!)

end Replit

namespace Replit

namespace VM

/-- DIVIDE fetched with two numbers on top of the stack: the turn of the loop pushes the
quotient and goes on. -/
theorem step_divide (vm : VM) (x y : Double) (rest : List Value)
    (hfetch : vm.chunk.code.get? vm.ip = some OpCode.OP_DIVIDE.byte)
    (hstack : vm.stack = Value.number y :: Value.number x :: rest) :
    step vm = Except.ok (Step.next
      { vm with ip := vm.ip + 1, stack := Value.number (Double.div x y) :: rest }) := by
  rw [step_binary vm OpCode.OP_DIVIDE (Or.inr (Or.inr (Or.inl rfl))) hfetch]
  rw [binary_op_numbers { vm with ip := vm.ip + 1 } _ x y rest hstack]
  rfl

end VM

set_option maxRecDepth 100000 in
/-- C31.  DIVIDE fetched with the number `y` on top of the stack and the number `x`
beneath it, whatever their values: the turn of the dispatch loop replaces the two by the
number `x / y` of the host arithmetic and `run` goes on with the next instruction, without
a runtime error.  With a zero divisor the number pushed is an infinity, or NaN for `0/0`;
`1/0; print 2;` runs to the end and prints `2`. -/
theorem divide_never_fails :
    (∀ (fuel : Nat) (vm : VM) (x y : Double) (rest : List Value),
      vm.chunk.code.get? vm.ip = some OpCode.OP_DIVIDE.byte →
      vm.stack = Value.number y :: Value.number x :: rest →
      VM.step vm = Except.ok (Step.next
        { vm with ip := vm.ip + 1, stack := Value.number (Double.div x y) :: rest }) ∧
      VM.run (fuel + 1) vm = VM.run fuel
        { vm with ip := vm.ip + 1, stack := Value.number (Double.div x y) :: rest }) ∧
    Double.div (Double.of_int 1) (Double.of_int 0) = Double.inf false ∧
    Double.div (Double.of_int (-1)) (Double.of_int 0) = Double.inf true ∧
    Double.div (Double.of_int 0) (Double.of_int 0) = Double.nan ∧
    (VM.interpret 20 {} "1/0; print 2;").map (fun r => (r.1, r.2.stack, r.2.cout, r.2.cerr))
      = Except.ok (InterpretResult.OK, [], "2\n", []) := by
  refine ⟨?_, by decide!, by decide!, by decide!, by decide!⟩
  intro fuel vm x y rest hfetch hstack
  have hstep := VM.step_divide vm x y rest hfetch hstack
  refine ⟨hstep, ?_⟩
  rw [VM.run, hstep]

set_option maxRecDepth 100000 in
theorem divide_never_fails_witness :
    VM.step { chunk := { code := [4, 19], lines := [1, 1] },
              stack := [Value.number (Double.of_int 0), Value.number (Double.of_int 1)] }
      = Except.ok (Step.next
          { chunk := { code := [4, 19], lines := [1, 1] }, ip := 0 + 1,
            stack := [Value.number (Double.div (Double.of_int 1) (Double.of_int 0))] }) ∧
    VM.run (1 + 1)
        { chunk := { code := [4, 19], lines := [1, 1] },
          stack := [Value.number (Double.of_int 0), Value.number (Double.of_int 1)] }
      = VM.run 1
          { chunk := { code := [4, 19], lines := [1, 1] }, ip := 0 + 1,
            stack := [Value.number (Double.div (Double.of_int 1) (Double.of_int 0))] } :=
  divide_never_fails.1 1
    { chunk := { code := [4, 19], lines := [1, 1] },
      stack := [Value.number (Double.of_int 0), Value.number (Double.of_int 1)] }
    (Double.of_int 1) (Double.of_int 0) [] (by decide) rfl

end Replit

namespace Replit

namespace Parser

theorem previous_at_start {p : Parser} (h : p.current = 0) :
    p.previous = Except.error before_first := by
  unfold previous
  rw [if_pos h]
  rfl

section
variable {p : Parser} {t : Token}
  (hpeek : p.peek = Except.ok t) (hcur : p.current = 0)
include hpeek hcur

theorem primary_at_start (k : Nat)
    (h : t.type ∉ [TokenType.TRUE, TokenType.FALSE, TokenType.NIL, TokenType.NUMBER,
      TokenType.STRING, TokenType.LPAREN]) :
    primary (k + 1) p = Except.error before_first := by
  simp only [List.mem_cons, List.mem_singleton, not_or, List.not_mem_nil,
    not_false_eq_true, and_true] at h
  rw [primary]
  simp [match_ne hpeek h.1, match_ne hpeek h.2.1, match_ne hpeek h.2.2.1,
    match_ne hpeek h.2.2.2.1, match_ne hpeek h.2.2.2.2.1, match_ne hpeek h.2.2.2.2.2,
    Parser.error, previous_at_start hcur]

theorem expression_at_start (k : Nat)
    (h : t.type ∉ [TokenType.TRUE, TokenType.FALSE, TokenType.NIL, TokenType.NUMBER,
      TokenType.STRING, TokenType.LPAREN, TokenType.NOT, TokenType.MINUS]) :
    expression (k + 9) p = Except.error before_first := by
  have hp := primary_at_start hpeek hcur (k + 0) (by
    intro hm
    apply h
    simp only [List.mem_cons, List.mem_singleton, List.not_mem_nil, or_false] at hm ⊢
    tauto)
  simp only [List.mem_cons, List.mem_singleton, not_or, List.not_mem_nil,
    not_false_eq_true, and_true] at h
  have hu : unary (k + 2) p = Except.error before_first := by
    rw [unary]
    simp [match_or, match_ne hpeek h.2.2.2.2.2.2.1, match_ne hpeek h.2.2.2.2.2.2.2, hp]
  rw [expression, or_expression, and_expression, equality, comparison, term, factor]
  simp [hu]

theorem compile_loop_at_start (k : Nat)
    (h : t.type ∉ [TokenType.EOF_TOKEN, TokenType.NEWLINE, TokenType.LET, TokenType.PRINT,
      TokenType.TRUE, TokenType.FALSE, TokenType.NIL, TokenType.NUMBER,
      TokenType.STRING, TokenType.LPAREN, TokenType.NOT, TokenType.MINUS]) :
    compile_loop (k + 10) p = Except.error before_first := by
  have he := expression_at_start hpeek hcur k (by
    intro hm
    apply h
    simp only [List.mem_cons, List.mem_singleton, List.not_mem_nil, or_false] at hm ⊢
    tauto)
  simp only [List.mem_cons, List.mem_singleton, not_or, List.not_mem_nil,
    not_false_eq_true, and_true] at h
  have hs : statement (k + 9) p = Except.error before_first := by
    unfold statement expression_statement
    simp [match_ne hpeek h.2.2.2.1, he]
  have hd : declaration (k + 9) p = Except.error before_first := by
    unfold declaration
    simp [match_ne hpeek h.2.2.1, hs]
  rw [compile_loop]
  simp [check, hpeek, h.1, match_ne hpeek h.2.1, hd]

end

/-- On a token vector whose first token is EOF, or one with which neither a statement nor
a blank line starts, `compile` evaluates `previous()` before any token is consumed. -/
theorem compile_at_start (k : Nat) (t0 : Token) (rest : List Token)
    (h : t0.type ∉ [TokenType.NEWLINE, TokenType.LET, TokenType.PRINT,
      TokenType.TRUE, TokenType.FALSE, TokenType.NIL, TokenType.NUMBER,
      TokenType.STRING, TokenType.LPAREN, TokenType.NOT, TokenType.MINUS]) :
    compile (k + 10) (t0 :: rest) {} = Except.error before_first := by
  have hpeek : (Parser.mk (t0 :: rest) 0 {} false false []).peek = Except.ok t0 := rfl
  unfold compile
  dsimp only
  by_cases he : t0.type = TokenType.EOF_TOKEN
  · have hloop : compile_loop (k + 10) (Parser.mk (t0 :: rest) 0 {} false false [])
        = Except.ok (Parser.mk (t0 :: rest) 0 {} false false []) := by
      rw [show k + 10 = (k + 9) + 1 from rfl, compile_loop]
      simp [check, hpeek, he]
    rw [hloop]
    simp [emit_return, emit_byte, previous_at_start]
  · rw [compile_loop_at_start hpeek rfl k (by
      intro hm
      simp only [List.mem_cons, List.mem_singleton, List.not_mem_nil, or_false] at hm h
      tauto)]
    rfl

end Parser

set_option maxRecDepth 100000 in
/-- C32.  `compile` does read the token vector outside its bounds.  Whenever the first
token is EOF, or any token other than a line break, `let`, `print`, a literal, `(`, `!`
or `-`, it evaluates `previous()`, that is `tokens[current - 1]`, while `current` is 0:
for EOF in `emit_return`, otherwise in `error` called from `primary`; `compile` then
returns for no amount of fuel.  The sources that are empty, blank or a comment, and the
sources `)` and `+ 1;`, are such inputs. -/
theorem compile_reads_before_first_token :
    (∀ (fuel : Nat) (t0 : Token) (rest : List Token),
      t0.type ∉ [TokenType.NEWLINE, TokenType.LET, TokenType.PRINT,
        TokenType.TRUE, TokenType.FALSE, TokenType.NIL, TokenType.NUMBER,
        TokenType.STRING, TokenType.LPAREN, TokenType.NOT, TokenType.MINUS] →
      Parser.compile (fuel + 10) (t0 :: rest) {}
        = Except.error (Fault.undefined "tokens[current - 1] outside the vector") ∧
      ∀ m r, Parser.compile m (t0 :: rest) {} ≠ Except.ok r) ∧
    (tokenize "").map (fun t => t.type) = [TokenType.EOF_TOKEN] ∧
    (tokenize " \t ").map (fun t => t.type) = [TokenType.EOF_TOKEN] ∧
    (tokenize "// c").map (fun t => t.type) = [TokenType.EOF_TOKEN] ∧
    Parser.compile 20 (tokenize " \t ") {}
      = Except.error (Fault.undefined "tokens[current - 1] outside the vector") ∧
    Parser.compile 20 (tokenize "// c") {}
      = Except.error (Fault.undefined "tokens[current - 1] outside the vector") ∧
    Parser.compile 20 (tokenize ")") {}
      = Except.error (Fault.undefined "tokens[current - 1] outside the vector") ∧
    Parser.compile 20 (tokenize "+ 1;") {}
      = Except.error (Fault.undefined "tokens[current - 1] outside the vector") := by
  refine ⟨?_, by decide!, by decide!, by decide!, by decide!, by decide!, by decide!,
    by decide!⟩
  intro fuel t0 rest h
  have h1 := Parser.compile_at_start fuel t0 rest h
  exact ⟨h1, Parser.compile_never_returns h1 (by decide)⟩

set_option maxRecDepth 100000 in
theorem compile_reads_before_first_token_witness :
    Parser.compile (0 + 10) (⟨TokenType.RPAREN, ")", 1, 1⟩ :: [⟨TokenType.EOF_TOKEN, "", 1, 2⟩]) {}
        = Except.error (Fault.undefined "tokens[current - 1] outside the vector") ∧
      ∀ m r, Parser.compile m
        (⟨TokenType.RPAREN, ")", 1, 1⟩ :: [⟨TokenType.EOF_TOKEN, "", 1, 2⟩]) {} ≠ Except.ok r :=
  compile_reads_before_first_token.1 0 ⟨TokenType.RPAREN, ")", 1, 1⟩
    [⟨TokenType.EOF_TOKEN, "", 1, 2⟩] (by decide)

end Replit

namespace Replit

/-! ### Running compiled code -/

theorem foldl_read_shift : ∀ (code : List Nat) (d : Decoder),
    code.foldl Decoder.read d
      = Decoder.mk
          (d.instructions ++ (code.foldl Decoder.read (Decoder.mk [] d.pending)).instructions)
          (code.foldl Decoder.read (Decoder.mk [] d.pending)).pending := by
  intro code
  induction code with
  | nil =>
    intro d
    simp
  | cons b rest ih =>
    intro d
    rw [List.foldl_cons, List.foldl_cons, ih (d.read b), ih ((Decoder.mk [] d.pending).read b)]
    have h1 : ((Decoder.mk [] d.pending).read b).pending = (d.read b).pending := by
      unfold Decoder.read
      dsimp only
      split
      · rfl
      · split <;> rfl
    have h2 : (d.read b).instructions
        = d.instructions ++ ((Decoder.mk [] d.pending).read b).instructions := by
      unfold Decoder.read
      dsimp only
      split
      · simp
      · split <;> simp
    rw [h1, h2]
    simp

theorem decode_cons_plain {b : Nat} (hb : b ≠ OpCode.OP_CONSTANT.byte) (rest : List Nat) :
    (decode (b :: rest)).instructions = (b, none) :: (decode rest).instructions := by
  have hread : (({} : Decoder).read b) = Decoder.mk [(b, none)] false := by
    unfold Decoder.read
    simp [hb]
  unfold decode
  rw [List.foldl_cons, hread, foldl_read_shift]
  rfl

theorem decode_cons_constant (k : Nat) (rest : List Nat) :
    (decode (OpCode.OP_CONSTANT.byte :: k :: rest)).instructions
      = (OpCode.OP_CONSTANT.byte, some k) :: (decode rest).instructions := by
  have hread : ((({} : Decoder).read OpCode.OP_CONSTANT.byte).read k)
      = Decoder.mk [(OpCode.OP_CONSTANT.byte, some k)] false := by
    unfold Decoder.read
    simp
  unfold decode
  rw [List.foldl_cons, List.foldl_cons, hread, foldl_read_shift]
  rfl

theorem decode_instructions_append (code : List Nat) (b : Nat) :
    ∀ i ∈ (decode code).instructions, i ∈ (decode (code ++ [b])).instructions := by
  intro i hi
  rw [decode_append]
  unfold Decoder.read
  split
  · exact List.mem_append_left _ hi
  · split
    · exact hi
    · exact List.mem_append_left _ hi

theorem instr_depth_shift (k : Nat) {a : Nat} {op : Option OpCode} {st : Bool × Nat}
    (h : instr_depth a op = some st) : instr_depth (a + k) op = some (st.1, st.2 + k) := by
  cases op with
  | none => simp [instr_depth] at h
  | some op =>
    cases op <;> simp only [instr_depth] at h ⊢ <;>
      first
      | (cases h
         simp only [Option.some.injEq, Prod.mk.injEq, true_and]
         omega)
      | (split at h
         · cases h
           rw [if_pos (by omega)]
           all_goals
             first
             | rfl
             | (simp only [Option.some.injEq, Prod.mk.injEq, true_and]
                omega)
         · cases h)
      | cases h

theorem depth_scan_shift (k : Nat) : ∀ (body : List Nat) (f : Bool) (a : Nat) (st : Bool × Nat),
    depth_scan (f, a) body = some st → depth_scan (f, a + k) body = some (st.1, st.2 + k) := by
  intro body
  induction body with
  | nil =>
    intro f a st h
    rw [depth_scan] at h ⊢
    cases h
    rfl
  | cons b rest ih =>
    intro f a st h
    rw [depth_scan] at h ⊢
    cases hb : byte_depth (f, a) b with
    | none =>
      rw [hb] at h
      cases h
    | some st2 =>
      rw [hb] at h
      have hb2 : byte_depth (f, a + k) b = some (st2.1, st2.2 + k) := by
        unfold byte_depth at hb ⊢
        dsimp only at hb ⊢
        split
        · rename_i hf
          rw [if_pos hf] at hb
          cases hb
          rfl
        · rename_i hf
          rw [if_neg hf] at hb
          exact instr_depth_shift k hb
      rw [hb2]
      exact ih st2.1 st2.2 st h

namespace VM

theorem print_value_fault {v : Value} {f : Fault} (h : print_value v = Except.error f) :
    f = print_fault := by
  cases v with
  | number x =>
    cases hx : x.to_int with
    | error g =>
      simp only [print_value, hx, bind_error] at h
      cases h
      unfold Double.to_int at hx
      split at hx
      · dsimp only at hx
        split_ifs at hx <;> (cases hx; rfl)
      · cases hx
        rfl
    | ok i =>
      simp only [print_value, hx, bind_ok] at h
      split at h <;> cases h
  | string s => cases h
  | boolean b => cases h
  | nil => cases h
  | other i => cases h

theorem stepped_binary_op (chunk : Chunk) (ip : Nat) (a b : Value) (rest : List Value)
    (cout : String) (cerr : List String) (f : Double → Double → Value) :
    Stepped ⟨chunk, ip, b :: a :: rest, cout, cerr⟩ (rest.length + 1)
      (Except.ok (binary_op ⟨chunk, ip, b :: a :: rest, cout, cerr⟩ f)) := by
  cases a <;> cases b <;>
    first
    | exact ⟨rfl, rfl, rfl, rfl⟩
    | exact ⟨rfl, _, ⟨chunk, ip, _, cout, cerr⟩, by decide, rfl, rfl⟩

/-- A turn of the dispatch loop on an instruction other than CONSTANT and RETURN, with
its operands on the stack. -/
theorem execute_plain (vm : VM) (op : OpCode) (d : Nat)
    (h : instr_depth vm.stack.length (some op) = some (false, d)) :
    Stepped vm d (execute vm (some op)) := by
  obtain ⟨chunk, ip, stack, cout, cerr⟩ := vm
  dsimp only at h
  cases op <;> simp only [instr_depth] at h <;> try cases h
  all_goals
    split at h
    case isFalse => cases h
  all_goals
    rename_i hlen
    simp only [Option.some.injEq, Prod.mk.injEq, true_and] at h
    subst h
  -- ADD
  · obtain _ | ⟨b, _ | ⟨a, rest⟩⟩ := stack
    · simp at hlen
    · simp at hlen
    simp only [execute, op_add, List.length_cons, Nat.add_sub_cancel]
    cases a <;> cases b <;>
      simp only [Value.is_string, Bool.or_self, Bool.or_false, Bool.or_true,
        Bool.false_eq_true, if_false, if_true, add_operand] <;>
      first
      | exact ⟨rfl, rfl, rfl, rfl⟩
      | exact ⟨by decide, rfl⟩
      | exact stepped_binary_op chunk ip _ _ rest cout cerr _
  -- SUBTRACT, MULTIPLY, DIVIDE
  · obtain _ | ⟨b, _ | ⟨a, rest⟩⟩ := stack
    · simp at hlen
    · simp at hlen
    exact stepped_binary_op chunk ip a b rest cout cerr _
  · obtain _ | ⟨b, _ | ⟨a, rest⟩⟩ := stack
    · simp at hlen
    · simp at hlen
    exact stepped_binary_op chunk ip a b rest cout cerr _
  · obtain _ | ⟨b, _ | ⟨a, rest⟩⟩ := stack
    · simp at hlen
    · simp at hlen
    exact stepped_binary_op chunk ip a b rest cout cerr _
  -- NEGATE
  · obtain _ | ⟨a, rest⟩ := stack
    · simp at hlen
    cases a <;>
      first
      | exact ⟨rfl, rfl, rfl, rfl⟩
      | exact ⟨rfl, _, ⟨chunk, ip, _, cout, cerr⟩, by decide, rfl, rfl⟩
  -- NOT
  · obtain _ | ⟨a, rest⟩ := stack
    · simp at hlen
    exact ⟨rfl, rfl, rfl, rfl⟩
  -- EQUAL
  · obtain _ | ⟨b, _ | ⟨a, rest⟩⟩ := stack
    · simp at hlen
    · simp at hlen
    exact ⟨rfl, rfl, rfl, rfl⟩
  -- GREATER, LESS
  · obtain _ | ⟨b, _ | ⟨a, rest⟩⟩ := stack
    · simp at hlen
    · simp at hlen
    exact stepped_binary_op chunk ip a b rest cout cerr _
  · obtain _ | ⟨b, _ | ⟨a, rest⟩⟩ := stack
    · simp at hlen
    · simp at hlen
    exact stepped_binary_op chunk ip a b rest cout cerr _
  -- PRINT
  · obtain _ | ⟨a, rest⟩ := stack
    · simp at hlen
    simp only [execute]
    cases hp : print_value a with
    | error f => exact print_value_fault hp
    | ok text => exact ⟨rfl, rfl, rfl, rfl⟩
  -- POP
  · obtain _ | ⟨a, rest⟩ := stack
    · simp at hlen
    exact ⟨rfl, rfl, rfl, rfl⟩

theorem settled_runtime_error (vm : VM) (m : String) (hm : m ∈ type_errors) (ip d : Nat) :
    Settled vm.cerr ip d (Except.ok (InterpretResult.RUNTIME_ERROR, vm.runtime_error m)) := by
  obtain ⟨tail, h⟩ := runtime_error_cerr vm m
  exact ⟨m, tail, hm, h⟩

theorem instr_depth_plain {a : Nat} {op : OpCode} {st : Bool × Nat}
    (h : instr_depth a (some op) = some st) (hop : op ≠ OpCode.OP_CONSTANT) : st.1 = false := by
  cases op <;> simp only [instr_depth] at h <;>
    first
    | exact absurd rfl hop
    | (split at h
       · cases h
         rfl
       · cases h)
    | cases h

/-- A run of straight-line code that stays above the stack it needs and whose CONSTANT
operands are indices into the pool, followed by RETURN, with more fuel than the code has
bytes: it ends as `Settled` says, at the byte after the RETURN. -/
theorem run_settles (fuel : Nat) : ∀ (vm : VM) (body tail : List Nat) (d : Nat),
    vm.chunk.code.drop vm.ip = body ++ OpCode.OP_RETURN.byte :: tail →
    depth_scan (false, vm.stack.length) body = some (false, d) →
    (∀ o, (OpCode.OP_CONSTANT.byte, some o) ∈ (decode body).instructions →
      o < vm.chunk.constants.length) →
    body.length < fuel →
    Settled vm.cerr (vm.ip + body.length + 1) d (run fuel vm) := by
  induction fuel with
  | zero =>
    intro vm body tail d _ _ _ hf
    omega
  | succ n ih =>
    intro vm body tail d hcode hd hops hf
    rw [run]
    cases body with
    | nil =>
      obtain ⟨hget, _⟩ := drop_eq_cons hcode
      have hop : OpCode.of_byte OpCode.OP_RETURN.byte = some OpCode.OP_RETURN := rfl
      rw [depth_scan] at hd
      cases hd
      simp only [step, hget, hop, execute]
      exact ⟨rfl, rfl, rfl⟩
    | cons b body =>
      obtain ⟨hget, hrest⟩ := drop_eq_cons hcode
      rw [depth_scan] at hd
      simp only [byte_depth, Bool.false_eq_true, if_false] at hd
      cases hop : OpCode.of_byte b with
      | none => simp [hop, instr_depth] at hd
      | some op =>
        have hb := OpCode.byte_of_byte hop
        subst hb
        rw [hop] at hd
        cases hst : instr_depth vm.stack.length (some op) with
        | none => simp [hst] at hd
        | some st =>
          rw [hst] at hd
          dsimp only at hd
          by_cases hc : op = OpCode.OP_CONSTANT
          · subst hc
            simp only [instr_depth, Option.some.injEq] at hst
            subst hst
            obtain _ | ⟨k, body⟩ := body
            · simp [depth_scan] at hd
            rw [depth_scan] at hd
            simp only [byte_depth, if_true] at hd
            obtain ⟨hget2, hrest2⟩ := drop_eq_cons hrest
            have hk : k < vm.chunk.constants.length :=
              hops k (by rw [decode_cons_constant]; exact List.mem_cons_self _ _)
            have hconst : vm.chunk.constants.get? k = some (vm.chunk.constants.get ⟨k, hk⟩) :=
              List.get?_eq_get hk
            simp only [step, hget, hop, execute, op_constant, hget2, hconst]
            have := ih (push { vm with ip := vm.ip + 1 + 1 } (vm.chunk.constants.get ⟨k, hk⟩))
              body tail d hrest2 hd
              (fun o ho => hops o (by
                rw [decode_cons_constant]
                exact List.mem_cons_of_mem _ ho))
              (by simp only [List.length_cons] at hf; omega)
            simp only [List.length_cons]
            rw [show vm.ip + (body.length + 1 + 1) + 1 = vm.ip + 1 + 1 + body.length + 1 by omega]
            exact this
          · have hfalse := instr_depth_plain hst hc
            obtain ⟨f, d2⟩ := st
            dsimp only at hfalse
            subst hfalse
            have hbyte : OpCode.byte op ≠ OpCode.OP_CONSTANT.byte := by
              cases op <;> first | exact absurd rfl hc | decide
            have hops2 : ∀ o, (OpCode.OP_CONSTANT.byte, some o) ∈ (decode body).instructions →
                o < vm.chunk.constants.length :=
              fun o ho => hops o (by
                rw [decode_cons_plain hbyte]
                exact List.mem_cons_of_mem _ ho)
            have hex := execute_plain { vm with ip := vm.ip + 1 } op d2 hst
            simp only [step, hget, hop]
            cases hres : execute { vm with ip := vm.ip + 1 } (some op) with
            | error f =>
              rw [hres] at hex
              exact hex
            | ok s =>
              rw [hres] at hex
              cases s with
              | next v =>
                obtain ⟨h1, h2, h3, h4⟩ := hex
                dsimp only at h1 h2 h3
                have := ih v body tail d (by rw [h1, h2]; exact hrest) (by rw [h4]; exact hd)
                  (by rw [h1]; exact hops2) (by simp only [List.length_cons] at hf; omega)
                dsimp only
                rw [h3, h2] at this
                simp only [List.length_cons]
                rw [show vm.ip + (body.length + 1) + 1 = vm.ip + 1 + body.length + 1 by omega]
                exact this
              | ret r v =>
                obtain ⟨rfl, m, v1, hm, hv1, rfl⟩ := hex
                dsimp only at hv1 ⊢
                rw [← hv1]
                exact settled_runtime_error v1 m hm _ _
              | throw m v1 =>
                obtain ⟨hm, hv1⟩ := hex
                dsimp only at hv1 ⊢
                rw [← hv1]
                exact settled_runtime_error v1 m hm _ _

/-- The code of a compile whose body is known to be straight-line code of depth `d`, run
from its first byte on any stack with at least as much fuel as the code has bytes. -/
theorem coded_run_settles {fuel : Nat} {tokens : List Token} {r : Bool} {p : Parser}
    (h : Parser.compile fuel tokens {} = Except.ok (r, p)) {body : List Nat} {d : Nat}
    (hcode : p.compiling_chunk.code = body ++ [OpCode.OP_RETURN.byte])
    (hd : depth_scan (false, 0) body = some (false, d)) (hdiag : p.diagnostics = [])
    (vm : VM) (n : Nat) (hn : p.compiling_chunk.code.length ≤ n) :
    Settled vm.cerr p.compiling_chunk.code.length (d + vm.stack.length)
      (run n (vm.bind_chunk p)) := by
  obtain ⟨_, _, hcoded⟩ := Parser.compile_coded h
  dsimp only at hcoded
  have hd2 := depth_scan_shift vm.stack.length body false 0 (false, d) hd
  rw [Nat.zero_add] at hd2
  have hops : ∀ o, (OpCode.OP_CONSTANT.byte, some o) ∈ (decode body).instructions →
      o < p.compiling_chunk.constants.length := by
    intro o ho
    have hmem := decode_instructions_append body OpCode.OP_RETURN.byte _ ho
    rw [← hcode] at hmem
    rcases hcoded _ hmem with ⟨op, hop, heq⟩ | ⟨o2, heq, hlt⟩
    · exact absurd (congrArg Prod.fst heq).symm (plain_ops_byte op hop)
    · cases heq
      exact hlt
  have hlen : p.compiling_chunk.code.length = body.length + 1 := by
    rw [hcode, List.length_append, List.length_singleton]
  have := run_settles n (vm.bind_chunk p) body [] (d + vm.stack.length)
    (by
      show p.compiling_chunk.code.drop 0 = _
      rw [List.drop_zero, hcode])
    hd2 hops (by omega)
  have hcerr : (vm.bind_chunk p).cerr = vm.cerr := by
    show vm.cerr ++ p.diagnostics = vm.cerr
    rw [hdiag, List.append_nil]
  have hip : (vm.bind_chunk p).ip + body.length + 1 = p.compiling_chunk.code.length := by
    show 0 + body.length + 1 = _
    omega
  rw [hcerr, hip] at this
  exact this

/-- The code of a successful compile, run from its first byte on any stack with at least
as much fuel as the code has bytes. -/
theorem compiled_code_settles {fuel : Nat} {tokens : List Token} {p : Parser}
    (h : Parser.compile fuel tokens {} = Except.ok (true, p)) (vm : VM) (n : Nat)
    (hn : p.compiling_chunk.code.length ≤ n) :
    ∃ d, Settled vm.cerr p.compiling_chunk.code.length (d + vm.stack.length)
      (run n (vm.bind_chunk p)) := by
  obtain ⟨body, d, hcode, hd, hdiag⟩ := Parser.compile_depth h
  exact ⟨d, coded_run_settles h hcode hd hdiag vm n hn⟩

end VM

end Replit

namespace Replit

set_option maxRecDepth 100000 in
/-- C33.  The code of a successful compile, run from its first byte on any starting
stack with at least as much fuel as the code has bytes, ends in one of three ways: `run`
returns OK with the instruction pointer after the final RETURN, the starting stack still
beneath what is left and nothing written to the error stream; or it returns
RUNTIME_ERROR with the message of an operand type error (`Operands must be numbers`,
`Operand must be a number`, or the `bad_variant_access` of ADD); or PRINT has reached a
number that `int` cannot hold and `print_value` has evaluated `static_cast<int>` on it,
which is undefined.  So code and constants are never read out of range, no unknown opcode
is dispatched and the stack never underflows; but the third case occurs, and `run` need
not return: `print 3000000000;` and `print 1/0;` compile successfully and end there. -/
theorem compiled_code_runs_to_print_fault :
    (∀ (fuel : Nat) (tokens : List Token) (p : Parser) (vm : VM) (n : Nat),
      Parser.compile fuel tokens {} = Except.ok (true, p) →
      p.compiling_chunk.code.length ≤ n →
      (∃ v, VM.run n (vm.bind_chunk p) = Except.ok (InterpretResult.OK, v) ∧
        v.ip = p.compiling_chunk.code.length ∧ vm.stack.length ≤ v.stack.length ∧
        v.cerr = vm.cerr) ∨
      (∃ v m tail, VM.run n (vm.bind_chunk p) = Except.ok (InterpretResult.RUNTIME_ERROR, v) ∧
        (m = "Operands must be numbers" ∨ m = "Operand must be a number" ∨
          m = bad_variant_access) ∧
        v.cerr = vm.cerr ++ ("Runtime error: " ++ m) :: tail) ∨
      VM.run n (vm.bind_chunk p) = Except.error
        (Fault.undefined "static_cast<int> of a double outside the range of int")) ∧
    ((Parser.compile 20 (tokenize "print 3000000000;") {}).map Prod.fst = Except.ok true ∧
      VM.interpret 20 {} "print 3000000000;" = Except.error
        (Fault.undefined "static_cast<int> of a double outside the range of int")) ∧
    ((Parser.compile 20 (tokenize "print 1/0;") {}).map Prod.fst = Except.ok true ∧
      VM.interpret 20 {} "print 1/0;" = Except.error
        (Fault.undefined "static_cast<int> of a double outside the range of int")) := by
  refine ⟨?_, ⟨by decide!, by decide!⟩, ⟨by decide!, by decide!⟩⟩
  intro fuel tokens p vm n h hn
  obtain ⟨d, hs⟩ := VM.compiled_code_settles h vm n hn
  cases hrun : VM.run n (vm.bind_chunk p) with
  | error f =>
    rw [hrun] at hs
    exact Or.inr (Or.inr (congrArg Except.error hs))
  | ok res =>
    obtain ⟨r, v⟩ := res
    rw [hrun] at hs
    cases r with
    | OK =>
      obtain ⟨h1, h2, h3⟩ := hs
      exact Or.inl ⟨v, rfl, h1, by omega, h3⟩
    | COMPILE_ERROR => exact hs.elim
    | RUNTIME_ERROR =>
      obtain ⟨m, tail, hm, hc⟩ := hs
      refine Or.inr (Or.inl ⟨v, m, tail, rfl, ?_, hc⟩)
      simpa [VM.type_errors] using hm

set_option maxRecDepth 100000 in
theorem compiled_code_runs_to_print_fault_witness :
    (∃ v, VM.run 7 (VM.bind_chunk {}
        { tokens := tokenize "print 1 + 2;", current := 5,
          compiling_chunk := { code := [0, 0, 0, 1, 1, 10, 19], lines := [1, 1, 1, 1, 1, 1, 1],
                               constants := [Value.number (Double.of_int 1),
                                             Value.number (Double.of_int 2)] } })
          = Except.ok (InterpretResult.OK, v) ∧
        v.ip = [0, 0, 0, 1, 1, 10, 19].length ∧
        ([] : List Value).length ≤ v.stack.length ∧ v.cerr = []) ∨
    (∃ v m tail, VM.run 7 (VM.bind_chunk {}
        { tokens := tokenize "print 1 + 2;", current := 5,
          compiling_chunk := { code := [0, 0, 0, 1, 1, 10, 19], lines := [1, 1, 1, 1, 1, 1, 1],
                               constants := [Value.number (Double.of_int 1),
                                             Value.number (Double.of_int 2)] } })
          = Except.ok (InterpretResult.RUNTIME_ERROR, v) ∧
        (m = "Operands must be numbers" ∨ m = "Operand must be a number" ∨
          m = bad_variant_access) ∧
        v.cerr = [] ++ ("Runtime error: " ++ m) :: tail) ∨
    VM.run 7 (VM.bind_chunk {}
        { tokens := tokenize "print 1 + 2;", current := 5,
          compiling_chunk := { code := [0, 0, 0, 1, 1, 10, 19], lines := [1, 1, 1, 1, 1, 1, 1],
                               constants := [Value.number (Double.of_int 1),
                                             Value.number (Double.of_int 2)] } })
      = Except.error (Fault.undefined "static_cast<int> of a double outside the range of int") :=
  compiled_code_runs_to_print_fault.1 20 (tokenize "print 1 + 2;")
    { tokens := tokenize "print 1 + 2;", current := 5,
      compiling_chunk := { code := [0, 0, 0, 1, 1, 10, 19], lines := [1, 1, 1, 1, 1, 1, 1],
                           constants := [Value.number (Double.of_int 1),
                                         Value.number (Double.of_int 2)] } }
    {} 7 (by decide!) (by decide)

end Replit

namespace Replit

/-! ### The translation of a well-formed program leaves the stack as it found it -/

theorem depth_scan_single {d d2 : Nat} {b : Nat}
    (h : byte_depth (false, d) b = some (false, d2)) :
    depth_scan (false, d) [b] = some (false, d2) := by
  rw [depth_scan, h]
  rfl

theorem unary_code_depth {type : TokenType}
    (h : type = TokenType.NOT ∨ type = TokenType.MINUS) (d : Nat) :
    depth_scan (false, d + 1) (unary_code type) = some (false, d + 1) := by
  rcases h with rfl | rfl
  · exact depth_scan_single (Parser.byte_depth_unary _ (Or.inr rfl) (d + 1) (by omega))
  · exact depth_scan_single (Parser.byte_depth_unary _ (Or.inl rfl) (d + 1) (by omega))

theorem depth_scan_pair {d : Nat} {b : Nat}
    (h : byte_depth (false, d + 2) b = some (false, d + 1)) :
    depth_scan (false, d + 2) [b, OpCode.OP_NOT.byte] = some (false, d + 1) := by
  rw [depth_scan, h]
  exact depth_scan_single (Parser.byte_depth_unary _ (Or.inr rfl) (d + 1) (by omega))

theorem binary_code_depth {type : TokenType} (h1 : 1 ≤ type.level)
    (hm : type ≠ TokenType.MODULO) (d : Nat) :
    depth_scan (false, d + 2) (binary_code type) = some (false, d + 1) := by
  have h4 := TokenType.level_le_four type
  have hb : ∀ b, (b = OpCode.OP_ADD.byte ∨ b = OpCode.OP_SUBTRACT.byte
      ∨ b = OpCode.OP_MULTIPLY.byte ∨ b = OpCode.OP_DIVIDE.byte ∨ b = OpCode.OP_EQUAL.byte
      ∨ b = OpCode.OP_GREATER.byte ∨ b = OpCode.OP_LESS.byte) →
      byte_depth (false, d + 2) b = some (false, d + 1) :=
    fun b h => Parser.byte_depth_binary b h (d + 2) (by omega)
  have hcases : type = TokenType.NOT_EQUAL ∨ type = TokenType.EQUAL ∨ type = TokenType.GREATER
      ∨ type = TokenType.GREATER_EQUAL ∨ type = TokenType.LESS ∨ type = TokenType.LESS_EQUAL
      ∨ type = TokenType.PLUS ∨ type = TokenType.MINUS ∨ type = TokenType.MULTIPLY
      ∨ type = TokenType.DIVIDE := by
    have : type.level = 1 ∨ type.level = 2 ∨ type.level = 3 ∨ type.level = 4 := by omega
    rcases this with h | h | h | h
    · rcases TokenType.level_one h with h | h <;> simp [h]
    · rcases TokenType.level_two h with h | h | h | h <;> simp [h]
    · rcases TokenType.level_three h with h | h <;> simp [h]
    · rcases TokenType.level_four h with h | h | h
      · simp [h]
      · simp [h]
      · exact absurd h hm
  rcases hcases with rfl | rfl | rfl | rfl | rfl | rfl | rfl | rfl | rfl | rfl
  · exact depth_scan_pair (hb _ (by decide))
  · exact depth_scan_single (hb _ (by decide))
  · exact depth_scan_single (hb _ (by decide))
  · exact depth_scan_pair (hb _ (by decide))
  · exact depth_scan_single (hb _ (by decide))
  · exact depth_scan_pair (hb _ (by decide))
  · exact depth_scan_single (hb _ (by decide))
  · exact depth_scan_single (hb _ (by decide))
  · exact depth_scan_single (hb _ (by decide))
  · exact depth_scan_single (hb _ (by decide))

/-- The code of a well-formed expression takes every depth to the next one. -/
theorem Expr.code_pushes_one : ∀ (e : Expr), e.Shaped → ∀ (n d : Nat),
    depth_scan (false, d) (e.code n) = some (false, d + 1)
  | Expr.literal _ _, _, n, d => by
    simp [Expr.code, depth_scan, byte_depth, instr_depth, OpCode.of_byte_byte]
  | Expr.group _ e _, hs, n, d => Expr.code_pushes_one e hs.2.2 n d
  | Expr.unary op e, hs, n, d => by
    rw [Expr.code, depth_scan_append, Expr.code_pushes_one e hs.2.1 n d]
    exact unary_code_depth hs.1 d
  | Expr.binary a op b, hs, n, d => by
    rw [Expr.code, depth_scan_append, depth_scan_append, Expr.code_pushes_one a hs.2.2.1 n d]
    simp only [Option.bind]
    rw [Expr.code_pushes_one b hs.2.2.2.1 _ (d + 1)]
    exact binary_code_depth hs.1 hs.2.1 d

/-- The code of a well-formed statement takes every depth to itself. -/
theorem Statement.code_keeps_depth {s : Statement} (hs : s.Shaped) (n d : Nat) :
    depth_scan (false, d) (s.code n) = some (false, d) := by
  cases s with
  | expression e semi =>
    rw [Statement.code, depth_scan_append, Expr.code_pushes_one e hs.1 n d]
    exact depth_scan_single (Parser.byte_depth_pop _ (Or.inr rfl) (d + 1) (by omega))
  | print kw e semi =>
    rw [Statement.code, depth_scan_append, Expr.code_pushes_one e hs.2.1 n d]
    exact depth_scan_single (Parser.byte_depth_pop _ (Or.inl rfl) (d + 1) (by omega))

theorem program_code_depth : ∀ (prog : List Statement), (∀ s ∈ prog, s.Shaped) →
    ∀ (n d : Nat), depth_scan (false, d) (program_code n prog) = some (false, d)
  | [], _, _, _ => rfl
  | s :: rest, hs, n, d => by
    rw [program_code, depth_scan_append, Statement.code_keeps_depth (hs s (List.mem_cons_self _ _))]
    exact program_code_depth rest (fun t ht => hs t (List.mem_cons_of_mem _ ht)) _ d

set_option maxRecDepth 100000 in
/-- C34.  A statement with `%` does not have net stack effect zero: `factor` emits no
opcode for `%`, so both operands stay and the POP or PRINT of the statement removes only
the right one.  `1%2;` and `print 7 % 2;` compile successfully, and `run` started on an
empty stack returns OK with the left operand still on the stack; `print 7 % 2;` prints
`2`.  For the well-formed programs, whose binary operators are the ten other than `%`, the
property holds: whenever `run` on the compiled code, started on an empty stack, returns
OK, the stack is empty. -/
theorem modulo_statement_leaves_operand :
    ((Parser.compile 20 (tokenize "1%2;") {}).map Prod.fst = Except.ok true ∧
      (VM.interpret 20 {} "1%2;").map (fun r => (r.1, r.2.stack, r.2.cout))
        = Except.ok (InterpretResult.OK, [Value.number (Double.of_int 1)], "")) ∧
    ((Parser.compile 20 (tokenize "print 7 % 2;") {}).map Prod.fst = Except.ok true ∧
      (VM.interpret 20 {} "print 7 % 2;").map (fun r => (r.1, r.2.stack, r.2.cout))
        = Except.ok (InterpretResult.OK, [Value.number (Double.of_int 7)], "2\n")) ∧
    (∀ (prog : List Statement) (eof : Token), prog ≠ [] → (∀ s ∈ prog, s.Shaped) →
      eof.type = TokenType.EOF_TOKEN → (program_literals prog).length ≤ 256 →
      ∃ (n : Nat) (q : Parser),
        (∀ m, n ≤ m →
          Parser.compile m (program_tokens prog ++ [eof]) {} = Except.ok (true, q)) ∧
        ∀ (vm v : VM) (m : Nat), vm.stack = [] → q.compiling_chunk.code.length ≤ m →
          VM.run m (vm.bind_chunk q) = Except.ok (InterpretResult.OK, v) → v.stack = []) := by
  refine ⟨⟨by decide!, by decide!⟩, ⟨by decide!, by decide!⟩, ?_⟩
  intro prog eof hne hs heof hlit
  obtain ⟨n, q, hrun, _, hsmall, _⟩ := Parser.compile_program prog eof hne hs heof
  obtain ⟨hcode, herr, hdiag⟩ := hsmall hlit
  have hcomp : ∀ m, n ≤ m →
      Parser.compile m (program_tokens prog ++ [eof]) {} = Except.ok (true, q) := by
    intro m hm
    rw [hrun m hm, herr]
    rfl
  refine ⟨n, q, hcomp, ?_⟩
  intro vm v m hstack hm hok
  have hset := VM.coded_run_settles (hcomp n (Nat.le_refl n)) hcode
    (program_code_depth prog hs 0 0) hdiag vm m hm
  rw [hok] at hset
  obtain ⟨_, hlen, _⟩ := hset
  rw [hstack] at hlen
  exact List.length_eq_zero.mp hlen

set_option maxRecDepth 100000 in
theorem modulo_statement_leaves_operand_witness :
    ∃ (n : Nat) (q : Parser),
      (∀ m, n ≤ m →
        Parser.compile m (program_tokens sample_program ++ [sample_eof]) {}
          = Except.ok (true, q)) ∧
      ∀ (vm v : VM) (m : Nat), vm.stack = [] → q.compiling_chunk.code.length ≤ m →
        VM.run m (vm.bind_chunk q) = Except.ok (InterpretResult.OK, v) → v.stack = [] :=
  modulo_statement_leaves_operand.2.2 sample_program sample_eof (by simp [sample_program])
    sample_program_shaped rfl (by decide)

end Replit

